import Mathlib

/-!
# The demand-paging cache manager `DPager` (mpager.cpp)

A shallow embedding of the live list, the reservation accounting, the steal
engine, the cleaner interface and the pin manager of
`kernel/eka/memmodel/epoc/flexible/mmu/mpager.cpp`.

Conventions of the embedding.

* A frame (`SPageInfo*`) is the number of its physical page; the frame table
  `SPageInfo::FromPhysAddr` is the field `pageInfo` of the state.
* An intrusive queue `SDblQue` is the list of the frames linked on it, head of
  the queue first. `AddHead` conses, `Add` appends, `Last()` is the last element
  and `SDblQueLink::Deque()` unlinks the frame from whichever queue holds it.
* `TUint` fields are natural numbers. Increments and sums are exact (no page
  count reaches 2^32: at most `KAbsoluteMaxPageCount` frames exist); a decrement
  or difference that would go below zero wraps by 2^32 as in C (`sub32`), and a
  conversion to `TInt` reinterprets the 32-bit pattern (`toTInt`).
* The code is embedded as compiled for release: `__NK_ASSERT_DEBUG` is a stated
  precondition, `__NK_ASSERT_ALWAYS` raises a kernel fault. Functions that can
  fault or that loop return an `Option`; `none` means that the call does not
  return normally (fault, or the loop bound `fuel` is exhausted).
* The embedding is sequential: releasing and re-acquiring MmuLock has no effect.
  Collaborators outside the pager (the MMU frame allocator, the memory managers)
  are scripted by fields of the state: the n-th call of a collaborator returns
  what the script says for call number n.
-/

/-! ## Error codes (e32err.h) -/

/-- The value of `KErrNone`. -/
def KErrNone : Int := 0

/-- The value of `KErrNotFound`. -/
def KErrNotFound : Int := -1

/-- The value of `KErrNoMemory`. -/
def KErrNoMemory : Int := -4

/-- The value of `KErrArgument`. -/
def KErrArgument : Int := -6

/-- The value of `KErrInUse`. -/
def KErrInUse : Int := -14

/-- The value of `KErrCompletion`. -/
def KErrCompletion : Int := -17

/-! ## Machine arithmetic -/

/-- Difference `a - b` of two `TUint` values: exact when `b ≤ a`, wrapped by 2^32 when the
difference would be negative. -/
def sub32 (a b : Nat) : Nat := if b ≤ a then a - b else a + 4294967296 - b

/-- Conversion of a `TUint` bit pattern to `TInt` (two's complement). -/
def toTInt (a : Nat) : Int :=
  if a % 4294967296 < 2147483648 then ((a % 4294967296 : Nat) : Int)
  else ((a % 4294967296 : Nat) : Int) - 4294967296

/-! ## Constants of mpager.cpp -/

/-- Upper bound on the number of oldest pages (`KMaxOldestPages`). -/
def KMaxOldestPages : Nat := 32

/-- The constant `KAbsoluteMaxPageCount = (1u<<(32-KPageShift))-1u`; the page shift is a
platform constant declared outside mpager.cpp and is a parameter here. -/
def KAbsoluteMaxPageCount (KPageShift : Nat) : Nat := 2 ^ (32 - KPageShift) - 1

/-- The sentinel `TPinArgs::EUseReserveForPinReplacementPages` (0xffffffff). -/
def EUseReserveForPinReplacementPages : Nat := 4294967295

/-! ## Frame descriptors -/

/-- The paged state of a frame (`SPageInfo::TPagedState`). -/
inductive TPagedState where
  | EUnpaged
  | EPagedYoung
  | EPagedOld
  | EPagedPinned
  | EPagedOldestClean
  | EPagedOldestDirty
  | EPagedPinnedMoved
  deriving DecidableEq, Repr

/-- Modelled from the spec: the frame type `type ∈ {Unused, Managed, Other}` of the frame
descriptor (`SPageInfo::TType` is declared in mmu.h). -/
inductive TType where
  | EUnused
  | EManaged
  | EOther
  deriving DecidableEq, Repr

/-- Modelled from the spec: the frame descriptor `SPageInfo` (declared in mmu.h) with the
attributes the pager reads and writes: type, paged state, pin count, the dirty and writable
bits, the pinned-reserve flag and the index in the owner. -/
structure SPageInfo where
  iType : TType
  iPagedState : TPagedState
  iPinCount : Nat
  iDirty : Bool
  iWritable : Bool
  iPinnedReserve : Bool
  iIndex : Nat
  deriving DecidableEq, Repr

namespace SPageInfo

/-- The accessor `SPageInfo::IsDirty`. -/
def IsDirty (i : SPageInfo) : Bool := i.iDirty

/-- The accessor `SPageInfo::IsWritable`. -/
def IsWritable (i : SPageInfo) : Bool := i.iWritable

/-- The setter `SPageInfo::SetPagedState`. -/
def SetPagedState (i : SPageInfo) (st : TPagedState) : SPageInfo := { i with iPagedState := st }

/-- The setter `SPageInfo::SetReadOnly`: clears the writable bit. -/
def SetReadOnly (i : SPageInfo) : SPageInfo := { i with iWritable := false }

/-- The setter `SPageInfo::SetClean`: clears the dirty bit. -/
def SetClean (i : SPageInfo) : SPageInfo := { i with iDirty := false }

/-- The setter `SPageInfo::SetUnused`: the frame no longer belongs to a memory object. -/
def SetUnused (i : SPageInfo) : SPageInfo := { i with iType := TType.EUnused }

/-- The method `SPageInfo::IncPinCount`. -/
def IncPinCount (i : SPageInfo) : SPageInfo := { i with iPinCount := i.iPinCount + 1 }

/-- The method `SPageInfo::DecPinCount`; the new count is what the C++ method returns. The
caller `Unpin` requires a positive pin count. -/
def DecPinCount (i : SPageInfo) : SPageInfo := { i with iPinCount := i.iPinCount - 1 }

/-- The method `SPageInfo::ClearPinCount`. -/
def ClearPinCount (i : SPageInfo) : SPageInfo := { i with iPinCount := 0 }

/-- The method `SPageInfo::SetPinnedReserve`. -/
def SetPinnedReserve (i : SPageInfo) : SPageInfo := { i with iPinnedReserve := true }

/-- The method `SPageInfo::ClearPinnedReserve`; the C++ method returns the old flag. -/
def ClearPinnedReserve (i : SPageInfo) : SPageInfo := { i with iPinnedReserve := false }

end SPageInfo

/-- The pin arguments `TPinArgs`: the number of replacement pages the pinner has allocated,
or the sentinel `EUseReserveForPinReplacementPages`. -/
structure TPinArgs where
  iReplacementPages : Nat
  deriving DecidableEq, Repr

/-! ## The pager state -/

/-- The state of the pager: the members of `DPager`, the frame table, the platform
constants the code reads, and the scripted collaborators. -/
structure DPager where
  /-- Queue of young frames, youngest first. -/
  iYoungList : List Nat
  iYoungCount : Nat
  iOldList : List Nat
  iOldCount : Nat
  iOldestCleanList : List Nat
  iOldestCleanCount : Nat
  iOldestDirtyList : List Nat
  iOldestDirtyCount : Nat
  iYoungOldRatio : Nat
  iOldOldestRatio : Nat
  iMinimumPageCount : Nat
  iMaximumPageCount : Nat
  iNumberOfFreePages : Nat
  iReservePageCount : Nat
  iMinimumPageLimit : Nat
  iMinYoungPages : Nat
  iAbsoluteMinPageCount : Nat
  iInitMinimumPageCount : Nat
  iInitMaximumPageCount : Nat
  iNumberOfDirtyPages : Nat
  /-- The frame table (`SPageInfo::FromPhysAddr`). -/
  pageInfo : Nat → SPageInfo
  /-- Platform constant `KPageShift`. -/
  KPageShift : Nat
  /-- Platform constant `KMaxPagesToClean`. -/
  KMaxPagesToClean : Nat
  /-- Platform constant `KPageColourCount` (a power of two; `KPageColourMask` is one less). -/
  KPageColourCount : Nat
  /-- Whether the build defines `__CPU_CACHE_HAS_COLOUR`. -/
  cpuCacheHasColour : Bool
  /-- The value of `DPageReadRequest::ReservedPagesRequired()`. -/
  reservedPagesRequired : Nat
  /-- Script of `TheMmu.AllocRam`: call number n fails (`none`) or yields a frame. -/
  allocRam : Nat → Option Nat
  allocCalls : Nat
  /-- Script of the owning manager's `StealPage`: the result code of call number n. -/
  mgrStealPage : Nat → Int
  stealCalls : Nat
  /-- Script of the data-paging manager's `CleanPages`: what call number n leaves in the
  frame array it is handed (`none` is a NULL entry). -/
  mgrCleanPages : Nat → List (Option Nat) → List (Option Nat)
  cleanCalls : Nat
  /-- Whether the current thread holds PageCleaningLock (`PageCleaningLock::IsHeld`). -/
  cleaningLockHeld : Bool
  /-- The frames handed to `TheMmu.FreeRam`, latest first. -/
  freedRam : List Nat

namespace DPager

/-! ## Frame-table and queue primitives -/

/-- Apply `f` to the descriptor of frame `p`. -/
def setPage (s : DPager) (p : Nat) (f : SPageInfo → SPageInfo) : DPager :=
  { s with pageInfo := fun q => if q = p then f (s.pageInfo q) else s.pageInfo q }

/-- The call `aPageInfo->SetPagedState(st)`. -/
def SetPagedState (s : DPager) (p : Nat) (st : TPagedState) : DPager :=
  s.setPage p (fun i => i.SetPagedState st)

/-- The call `aPageInfo->iLink.Deque()`: the link leaves the queue it is on. -/
def Deque (s : DPager) (p : Nat) : DPager :=
  { s with
    iYoungList := s.iYoungList.erase p
    iOldList := s.iOldList.erase p
    iOldestCleanList := s.iOldestCleanList.erase p
    iOldestDirtyList := s.iOldestDirtyList.erase p }

/-- The inline helper `DPager::SetClean` (mpager.h): clears the dirty bit of a dirty frame
and keeps `iNumberOfDirtyPages` in step. -/
def SetClean (s : DPager) (p : Nat) : DPager :=
  if (s.pageInfo p).IsDirty then
    { s.setPage p SPageInfo.SetClean with iNumberOfDirtyPages := sub32 s.iNumberOfDirtyPages 1 }
  else s

/-- Modelled from the spec: `Mmu::PageFreed` (mmu.cpp) marks the frame free with the MMU; the
paged state is left alone, as the assertions around the call in `AddAsFreePage` state. -/
def MmuPageFreed (s : DPager) (p : Nat) : DPager :=
  s.setPage p SPageInfo.SetUnused

/-! ## Live list -/

/-- The predicate `DPager::HaveTooManyPages`. -/
def HaveTooManyPages (s : DPager) : Bool :=
  decide (s.iMinimumPageCount + s.iNumberOfFreePages > s.iMaximumPageCount)

/-- The predicate `DPager::HaveMaximumPages`. -/
def HaveMaximumPages (s : DPager) : Bool :=
  decide (s.iMinimumPageCount + s.iNumberOfFreePages ≥ s.iMaximumPageCount)

/-- The operation `DPager::AddAsYoungestPage`. -/
def AddAsYoungestPage (s : DPager) (aPageInfo : Nat) : DPager :=
  let s1 := s.SetPagedState aPageInfo TPagedState.EPagedYoung
  { s1 with
    iYoungList := aPageInfo :: s1.iYoungList
    iYoungCount := s1.iYoungCount + 1 }

/-- The operation `DPager::AddAsFreePage`; `iOldestCleanList.Add` links at the end of the
queue. -/
def AddAsFreePage (s : DPager) (aPageInfo : Nat) : DPager :=
  let s1 := s.MmuPageFreed aPageInfo
  let s2 := s1.SetPagedState aPageInfo TPagedState.EPagedOldestClean
  { s2 with
    iOldestCleanList := s2.iOldestCleanList ++ [aPageInfo]
    iOldestCleanCount := s2.iOldestCleanCount + 1 }

/-- The tail of `DPager::PageFreed` after the `switch`: clean the frame and add it as the
oldest clean page. -/
def PageFreedTail (s : DPager) (aPageInfo : Nat) : Int × DPager :=
  let s1 :=
    if (s.pageInfo aPageInfo).IsDirty then
      (s.setPage aPageInfo SPageInfo.SetReadOnly).SetClean aPageInfo
    else s
  let s2 := s1.SetPagedState aPageInfo TPagedState.EPagedOldestClean
  (KErrNone,
    { s2 with
      iOldestCleanList := s2.iOldestCleanList ++ [aPageInfo]
      iOldestCleanCount := s2.iOldestCleanCount + 1 })

/-- The operation `DPager::PageFreed`. -/
def PageFreed (s : DPager) (aPageInfo : Nat) : Int × DPager :=
  match (s.pageInfo aPageInfo).iPagedState with
  | TPagedState.EUnpaged => (KErrNotFound, s)
  | TPagedState.EPagedYoung =>
      PageFreedTail { s.Deque aPageInfo with iYoungCount := sub32 s.iYoungCount 1 } aPageInfo
  | TPagedState.EPagedOld =>
      PageFreedTail { s.Deque aPageInfo with iOldCount := sub32 s.iOldCount 1 } aPageInfo
  | TPagedState.EPagedOldestClean =>
      PageFreedTail
        { s.Deque aPageInfo with iOldestCleanCount := sub32 s.iOldestCleanCount 1 } aPageInfo
  | TPagedState.EPagedOldestDirty =>
      PageFreedTail
        { s.Deque aPageInfo with iOldestDirtyCount := sub32 s.iOldestDirtyCount 1 } aPageInfo
  | TPagedState.EPagedPinned => (KErrNone, s)
  | TPagedState.EPagedPinnedMoved =>
      (KErrNotFound, s.SetPagedState aPageInfo TPagedState.EUnpaged)

/-- The operation `DPager::RemovePage`. For a frame that is on no sublist (`EPagedPinned`,
`EUnpaged`, `EPagedPinnedMoved`) the release build falls through to the `default: return`. -/
def RemovePage (s : DPager) (aPageInfo : Nat) : DPager :=
  match (s.pageInfo aPageInfo).iPagedState with
  | TPagedState.EPagedYoung =>
      SetPagedState { s.Deque aPageInfo with iYoungCount := sub32 s.iYoungCount 1 }
        aPageInfo TPagedState.EUnpaged
  | TPagedState.EPagedOld =>
      SetPagedState { s.Deque aPageInfo with iOldCount := sub32 s.iOldCount 1 }
        aPageInfo TPagedState.EUnpaged
  | TPagedState.EPagedOldestClean =>
      SetPagedState { s.Deque aPageInfo with iOldestCleanCount := sub32 s.iOldestCleanCount 1 }
        aPageInfo TPagedState.EUnpaged
  | TPagedState.EPagedOldestDirty =>
      SetPagedState { s.Deque aPageInfo with iOldestDirtyCount := sub32 s.iOldestDirtyCount 1 }
        aPageInfo TPagedState.EUnpaged
  | TPagedState.EPagedPinned => s
  | TPagedState.EUnpaged => s
  | TPagedState.EPagedPinnedMoved => s

/-- Splice `new` into the place of `old` on a queue (`Deque` of the old link followed by
`InsertAfter(prevLink)` of the new one). -/
def spliceQueue (q : List Nat) (old new : Nat) : List Nat :=
  q.map (fun x => if x = old then new else x)

/-- The operation `DPager::ReplacePage`. -/
def ReplacePage (s : DPager) (aOldPageInfo aNewPageInfo : Nat) : DPager :=
  match (s.pageInfo aOldPageInfo).iPagedState with
  | TPagedState.EPagedYoung | TPagedState.EPagedOld
  | TPagedState.EPagedOldestClean | TPagedState.EPagedOldestDirty =>
      SetPagedState
        { s with
          iYoungList := spliceQueue s.iYoungList aOldPageInfo aNewPageInfo
          iOldList := spliceQueue s.iOldList aOldPageInfo aNewPageInfo
          iOldestCleanList := spliceQueue s.iOldestCleanList aOldPageInfo aNewPageInfo
          iOldestDirtyList := spliceQueue s.iOldestDirtyList aOldPageInfo aNewPageInfo }
        aOldPageInfo TPagedState.EUnpaged
  | TPagedState.EPagedPinned =>
      (s.setPage aOldPageInfo SPageInfo.ClearPinCount).SetPagedState aOldPageInfo
        TPagedState.EPagedPinnedMoved
  | TPagedState.EPagedPinnedMoved => s
  | TPagedState.EUnpaged => s

/-- The move in the first step of `DPager::BalanceAges`: the frame `link` (the last of the
young queue) is unlinked and becomes the first old frame. -/
def ageYoungToOld (s : DPager) (link : Nat) : DPager :=
  let s1 := { s.Deque link with iYoungCount := sub32 s.iYoungCount 1 }
  let s2 := s1.SetPagedState link TPagedState.EPagedOld
  { s2 with iOldList := link :: s2.iOldList, iOldCount := s2.iOldCount + 1 }

/-- First step of `DPager::BalanceAges`: when there are too few old pages the last young
frame becomes the first old frame. The product `(iOldCount + oldestCount) * iYoungOldRatio`
is a `TUint` product: it is taken modulo `2^32`. `Last()` of an empty queue is the queue
anchor and not a frame; the debug assertions exclude that case and the embedding then moves
nothing. -/
def BalanceAgesYoung (s : DPager) : DPager :=
  let oldestCount := s.iOldestCleanCount + s.iOldestDirtyCount
  if ((s.iOldCount + oldestCount) * s.iYoungOldRatio) % 4294967296 < s.iYoungCount then
    match s.iYoungList.getLast? with
    | none => s
    | some link => s.ageYoungToOld link
  else s

/-- The move in the second step of `DPager::BalanceAges`: the frame `link` (the last of the
old queue) is unlinked and becomes the first oldest-dirty frame if it is dirty, the first
oldest-clean frame otherwise. -/
def ageOldToOldest (s : DPager) (link : Nat) : DPager :=
  let s1 := { s.Deque link with iOldCount := sub32 s.iOldCount 1 }
  if (s1.pageInfo link).IsDirty then
    let s2 := s1.SetPagedState link TPagedState.EPagedOldestDirty
    { s2 with
      iOldestDirtyList := link :: s2.iOldestDirtyList
      iOldestDirtyCount := s2.iOldestDirtyCount + 1 }
  else
    let s2 := s1.SetPagedState link TPagedState.EPagedOldestClean
    { s2 with
      iOldestCleanList := link :: s2.iOldestCleanList
      iOldestCleanCount := s2.iOldestCleanCount + 1 }

/-- Second step of `DPager::BalanceAges`: when there are too few oldest pages the last old
frame becomes the first oldest-dirty or oldest-clean frame. `oldestCount` is the value
read at the start of `BalanceAges`. -/
def BalanceAgesOld (s : DPager) (oldestCount : Nat) : DPager :=
  if oldestCount < KMaxOldestPages ∧ oldestCount * s.iOldOldestRatio < s.iOldCount then
    match s.iOldList.getLast? with
    | none => s
    | some link => s.ageOldToOldest link
  else s

/-- The operation `DPager::BalanceAges`. The closing `RestrictPage` on the aged frame calls
the owning manager, which edits page tables only and leaves the pager state alone. -/
def BalanceAges (s : DPager) : DPager :=
  let oldestCount := s.iOldestCleanCount + s.iOldestDirtyCount
  (s.BalanceAgesYoung).BalanceAgesOld oldestCount

/-! ## Steal engine -/

/-- The operation `DPager::StealPage`: remove the frame from the live list, then ask the
owning manager to give it up unless the frame is unused. -/
def StealPage (s : DPager) (aPageInfo : Nat) : Int × DPager :=
  let s1 := s.RemovePage aPageInfo
  if (s1.pageInfo aPageInfo).iType = TType.EUnused then (KErrNone, s1)
  else (s1.mgrStealPage s1.stealCalls, { s1 with stealCalls := s1.stealCalls + 1 })

/-- The search "find oldest page in list" at the start of `DPager::TryStealOldestPage`.
The result is `none` when the chosen queue is empty: for the young queue this is the
`__NK_ASSERT_ALWAYS(!iYoungList.IsEmpty())` fault, for the other queues `Last()` is the
anchor and the behaviour is undefined. -/
def OldestLink (s : DPager) : Option Nat :=
  if s.iOldestCleanCount ≠ 0 then s.iOldestCleanList.getLast?
  else if s.iOldestDirtyCount ≠ 0 then s.iOldestDirtyList.getLast?
  else if s.iOldCount ≠ 0 then s.iOldList.getLast?
  else s.iYoungList.getLast?

/-- The operation `DPager::TryStealOldestPage`; the result is the return code, the value of
the out-parameter and the new state. -/
def TryStealOldestPage (s : DPager) (aPageInfoOut : Option Nat) :
    Option (Int × Option Nat × DPager) :=
  match s.OldestLink with
  | none => none
  | some pageInfo =>
      if (s.pageInfo pageInfo).IsDirty && !s.cleaningLockHeld then
        some (1, aPageInfoOut, s)
      else
        let r := (s.StealPage pageInfo).1
        let s1 := (s.StealPage pageInfo).2
        if r = KErrNone then some (r, some pageInfo, s1.BalanceAges)
        else some (r, aPageInfoOut, s1)

/-- The retry loop of `DPager::StealOldestPage`; `held` is the local
`pageCleaningLockHeld`. -/
def StealOldestPageLoop : Nat → Bool → DPager → Option (Nat × DPager)
  | 0, _, _ => none
  | fuel + 1, held, s =>
      match s.TryStealOldestPage none with
      | none => none
      | some (r, out, s1) =>
          if r = KErrNone then
            match out with
            | none => none
            | some pageInfo =>
                some (pageInfo, if held then { s1 with cleaningLockHeld := false } else s1)
          else if r = 1 then
            if held then none
            else StealOldestPageLoop fuel true { s1 with cleaningLockHeld := true }
          else StealOldestPageLoop fuel held s1

/-- The operation `DPager::StealOldestPage`. -/
def StealOldestPage (fuel : Nat) (s : DPager) : Option (Nat × DPager) :=
  StealOldestPageLoop fuel false s

/-! ## Growing and shrinking the live list -/

/-- The operation `DPager::GetPageFromSystem`: one call of `TheMmu.AllocRam`; a frame that
is obtained is counted as free. -/
def GetPageFromSystem (s : DPager) : Option Nat × DPager :=
  match s.allocRam s.allocCalls with
  | none => (none, { s with allocCalls := s.allocCalls + 1 })
  | some p =>
      (some p,
        { s with allocCalls := s.allocCalls + 1, iNumberOfFreePages := s.iNumberOfFreePages + 1 })

/-- The operation `DPager::TryGrowLiveList`. -/
def TryGrowLiveList (s : DPager) : Bool × DPager :=
  match s.GetPageFromSystem with
  | (none, s1) => (false, s1)
  | (some sparePage, s1) => (true, s1.AddAsFreePage sparePage)

/-- The operation `DPager::ReturnPageToSystem(SPageInfo&)`. -/
def ReturnPageToSystemPage (s : DPager) (aPageInfo : Nat) : DPager :=
  { s with
    iNumberOfFreePages := sub32 s.iNumberOfFreePages 1
    freedRam := aPageInfo :: s.freedRam }

/-- The operation `DPager::ReturnPageToSystem()`: steal the oldest page and return it. -/
def ReturnPageToSystem (fuel : Nat) (s : DPager) : Option DPager :=
  match StealOldestPage fuel s with
  | none => none
  | some (pageInfo, s1) => some (s1.ReturnPageToSystemPage pageInfo)

/-- The operation `DPager::RemoveExcessPages`. -/
def RemoveExcessPages : Nat → DPager → Option DPager
  | 0, _ => none
  | fuel + 1, s =>
      if s.HaveTooManyPages then
        match ReturnPageToSystem fuel s with
        | none => none
        | some s1 => RemoveExcessPages fuel s1
      else some s

/-! ## Cleaner interface -/

/-- The walk of `DPager::SelectPagesToClean` without page colouring, over the oldest-dirty
frames from the tail of the queue; `out` is the part of `aPageInfosOut` filled so far. -/
def selectWalk (pages : Nat → SPageInfo) (K : Nat) : List Nat → List Nat → List Nat
  | [], out => out
  | pi :: rest, out =>
      if out.length < K then
        if !(pages pi).IsWritable then selectWalk pages K rest (out ++ [pi])
        else selectWalk pages K rest out
      else out

/-- The operation `DPager::SelectPagesToClean` of a build without `__CPU_CACHE_HAS_COLOUR`;
the result is the filled part of `aPageInfosOut`, its length the returned count. -/
def SelectPagesToCleanNoColour (s : DPager) : List (Option Nat) :=
  (selectWalk s.pageInfo s.KMaxPagesToClean s.iOldestDirtyList.reverse []).map some

/-- Truncation of an `int` to `TInt8`. -/
def toTInt8 (n : Int) : Int := (n + 128) % 256 - 128

/-- The class `TSequentialColourSelector<T, maxObjects>` with its constants. -/
structure TSequentialColourSelector where
  KMaxLength : Nat
  KArrayLength : Nat
  KPageColourCount : Nat
  iSlot : List (Option Nat)
  iSeqLength : List Int
  iLongestStart : Int
  iLongestLength : Int

namespace TSequentialColourSelector

/-- The constructor: all slots empty (`memclr`); `KArrayLength` is `KMaxLength` aligned up
to a multiple of `KPageColourCount`. -/
def new (maxObjects colourCount : Nat) : TSequentialColourSelector :=
  let arrayLength := (maxObjects + colourCount - 1) / colourCount * colourCount
  { KMaxLength := maxObjects
    KArrayLength := arrayLength
    KPageColourCount := colourCount
    iSlot := List.replicate arrayLength none
    iSeqLength := List.replicate arrayLength 0
    iLongestStart := 0
    iLongestLength := 0 }

/-- The test `FoundLongestSequence`. -/
def FoundLongestSequence (c : TSequentialColourSelector) : Bool :=
  decide (c.iLongestLength ≥ (c.KMaxLength : Int))

/-- The inner `while` of `AddCandidate`: add `iSeqLength[i]` to the run lengths that follow,
up to the next empty slot; returns the array and the final `j`. -/
def extendRun (arrayLength : Nat) (add : Int) : Nat → Nat → List Int → Nat × List Int
  | 0, j, seq => (j, seq)
  | fuel + 1, j, seq =>
      if j < arrayLength ∧ seq.getD j 0 ≠ 0 then
        extendRun arrayLength add fuel (j + 1) (seq.set j (toTInt8 (seq.getD j 0 + add)))
      else (j, seq)

/-- The body of the `for` loop of `AddCandidate` once the empty slot `i` is found. -/
def place (c : TSequentialColourSelector) (aObject i : Nat) : TSequentialColourSelector :=
  let slot := c.iSlot.set i (some aObject)
  let here : Int := if i = 0 then 1 else toTInt8 (c.iSeqLength.getD (i - 1) 0 + 1)
  let seq := c.iSeqLength.set i here
  let r := extendRun c.KArrayLength here (c.KArrayLength - (i + 1)) (i + 1) seq
  let j := r.1
  let currentLength := r.2.getD (j - 1) 0
  if currentLength > c.iLongestLength then
    { c with
      iSlot := slot
      iSeqLength := r.2
      iLongestLength := currentLength
      iLongestStart := (j : Int) - currentLength }
  else { c with iSlot := slot, iSeqLength := r.2 }

/-- The `for` loop of `AddCandidate`: the first empty slot of the colour class, from `i`. -/
def addFrom (c : TSequentialColourSelector) (aObject : Nat) :
    Nat → Nat → TSequentialColourSelector
  | 0, _ => c
  | fuel + 1, i =>
      if i < c.KArrayLength then
        if (c.iSlot.getD i none).isNone then c.place aObject i
        else addFrom c aObject fuel (i + c.KPageColourCount)
      else c

/-- The method `AddCandidate`. -/
def AddCandidate (c : TSequentialColourSelector) (aObject aColour : Nat) :
    TSequentialColourSelector :=
  c.addFrom aObject c.KArrayLength aColour

/-- The search `while (iSlot[i]) ++i` for the first hole, from `i`. -/
def firstHole (slot : List (Option Nat)) : Nat → Nat → Nat
  | 0, i => i
  | fuel + 1, i => if (slot.getD i none).isSome then firstHole slot fuel (i + 1) else i

/-- The method `FindLongestRun`: the selector after the call and the objects written to
`aObjectsOut`; the returned count is the length of that list. -/
def FindLongestRun (c : TSequentialColourSelector) :
    TSequentialColourSelector × List (Option Nat) :=
  if c.iLongestLength = 0 then (c, [])
  else
    let c1 :=
      if c.iLongestLength < (c.KMaxLength : Int) ∧ (c.iSlot.getD 0 none).isSome
          ∧ (c.iSlot.getD (c.KArrayLength - 1) none).isSome then
        let i := firstHole c.iSlot c.KArrayLength 1
        let wrappedLength := c.iSeqLength.getD (c.KArrayLength - 1) 0 + c.iSeqLength.getD (i - 1) 0
        if wrappedLength > c.iLongestLength then
          { c with
            iLongestLength := wrappedLength
            iLongestStart := (c.KArrayLength : Int) - c.iSeqLength.getD (c.KArrayLength - 1) 0 }
        else c
      else c
    let c2 := { c1 with iLongestLength := min c1.iLongestLength (c1.KMaxLength : Int) }
    let len := min c2.iLongestLength ((c2.KArrayLength : Int) - c2.iLongestStart)
    (c2,
      (c2.iSlot.drop c2.iLongestStart.toNat).take len.toNat
        ++ c2.iSlot.take (c2.iLongestLength - len).toNat)

end TSequentialColourSelector

/-- The walk of `DPager::SelectPagesToClean` with page colouring, over the oldest-dirty
frames from the tail of the queue. -/
def selectWalkColour (pages : Nat → SPageInfo) (colourCount : Nat) :
    List Nat → TSequentialColourSelector → TSequentialColourSelector
  | [], c => c
  | pi :: rest, c =>
      if !(pages pi).IsWritable then
        let c1 := c.AddCandidate pi ((pages pi).iIndex % colourCount)
        if c1.FoundLongestSequence then c1 else selectWalkColour pages colourCount rest c1
      else selectWalkColour pages colourCount rest c

/-- The operation `DPager::SelectPagesToClean` of a build with `__CPU_CACHE_HAS_COLOUR`. -/
def SelectPagesToCleanColour (s : DPager) : List (Option Nat) :=
  ((selectWalkColour s.pageInfo s.KPageColourCount s.iOldestDirtyList.reverse
    (TSequentialColourSelector.new s.KMaxPagesToClean s.KPageColourCount)).FindLongestRun).2

/-- The operation `DPager::SelectPagesToClean`. -/
def SelectPagesToClean (s : DPager) : List (Option Nat) :=
  if s.cpuCacheHasColour then s.SelectPagesToCleanColour else s.SelectPagesToCleanNoColour

/-- The frame array after the manager's `CleanPages` has run on it: the array keeps its
length, entry `i` is what the script left there. -/
def arrayAfterClean (s : DPager) (pageInfos : List (Option Nat)) : List (Option Nat) :=
  (List.range pageInfos.length).map
    (fun i => ((s.mgrCleanPages s.cleanCalls pageInfos).get? i).join)

/-- Modelled from the spec: the data-paging manager's `CleanPages` (mdatapaging.cpp) writes
the frames to the backing swap and clears dirty; the frames it leaves in the array are clean
when it returns. -/
def cleanedByManager : List (Option Nat) → DPager → DPager
  | [], s => s
  | none :: rest, s => cleanedByManager rest s
  | some pi :: rest, s => cleanedByManager rest (s.SetClean pi)

/-- The body of the `for` loop of `DPager::CleanSomePages` for a frame left in the array:
the frame moves from the oldest-dirty queue to the head of the oldest-clean queue. -/
def moveCleanedFrame (s : DPager) (pi : Nat) : DPager :=
  let s1 := s.Deque pi
  let s2 :=
    { s1 with
      iOldestCleanList := pi :: s1.iOldestCleanList
      iOldestDirtyCount := sub32 s1.iOldestDirtyCount 1
      iOldestCleanCount := s1.iOldestCleanCount + 1 }
  s2.SetPagedState pi TPagedState.EPagedOldestClean

/-- The `for` loop of `DPager::CleanSomePages` over the frame array; NULL entries are
skipped. -/
def moveCleaned : List (Option Nat) → DPager → DPager
  | [], s => s
  | none :: rest, s => moveCleaned rest s
  | some pi :: rest, s => moveCleaned rest (s.moveCleanedFrame pi)

/-- The operation `DPager::CleanSomePages`; the first component is the returned count. -/
def CleanSomePages (s : DPager) : Nat × DPager :=
  let pageInfos := s.SelectPagesToClean
  let pageCount := pageInfos.length
  if pageCount = 0 then (0, s)
  else
    let after := s.arrayAfterClean pageInfos
    let s1 := cleanedByManager after { s with cleanCalls := s.cleanCalls + 1 }
    (pageCount, moveCleaned after s1)

/-- The predicate `DPager::HasPagesToClean`. -/
def HasPagesToClean (s : DPager) : Bool := decide (s.iOldestDirtyCount > 0)

/-! ## Pin manager -/

/-- The part of `DPager::Pin` after the `switch` and before `BalanceAges`: the frame, now
off the live list, becomes `EPagedPinned`, and the pin is accounted against the reserve pool
or against the replacement pages of the pin arguments. -/
def PinAccount (s : DPager) (aPageInfo : Nat) (aPinArgs : TPinArgs) : DPager × TPinArgs :=
  let s2 := s.SetPagedState aPageInfo TPagedState.EPagedPinned
  if aPinArgs.iReplacementPages = EUseReserveForPinReplacementPages then
    (s2.setPage aPageInfo SPageInfo.SetPinnedReserve, aPinArgs)
  else
    (s2, { aPinArgs with iReplacementPages := sub32 aPinArgs.iReplacementPages 1 })

/-- The part of `DPager::Pin` before its closing `BalanceAges`; `none` stands for the two
early `return`s (frame already pinned, and the `default` case). -/
def PinBeforeBalance (s : DPager) (aPageInfo : Nat) (aPinArgs : TPinArgs) :
    Option (DPager × TPinArgs) :=
  let s0 := s.setPage aPageInfo SPageInfo.IncPinCount
  match (s0.pageInfo aPageInfo).iPagedState with
  | TPagedState.EPagedYoung =>
      some (PinAccount { s0.Deque aPageInfo with iYoungCount := sub32 s0.iYoungCount 1 }
        aPageInfo aPinArgs)
  | TPagedState.EPagedOld =>
      some (PinAccount { s0.Deque aPageInfo with iOldCount := sub32 s0.iOldCount 1 }
        aPageInfo aPinArgs)
  | TPagedState.EPagedOldestClean =>
      some (PinAccount
        { s0.Deque aPageInfo with iOldestCleanCount := sub32 s0.iOldestCleanCount 1 }
        aPageInfo aPinArgs)
  | TPagedState.EPagedOldestDirty =>
      some (PinAccount
        { s0.Deque aPageInfo with iOldestDirtyCount := sub32 s0.iOldestDirtyCount 1 }
        aPageInfo aPinArgs)
  | TPagedState.EPagedPinned => none
  | TPagedState.EUnpaged => some (PinAccount s0 aPageInfo aPinArgs)
  | TPagedState.EPagedPinnedMoved => none

/-- The operation `DPager::Pin`. -/
def Pin (s : DPager) (aPageInfo : Nat) (aPinArgs : TPinArgs) : DPager × TPinArgs :=
  match s.PinBeforeBalance aPageInfo aPinArgs with
  | none => (s.setPage aPageInfo SPageInfo.IncPinCount, aPinArgs)
  | some (s1, args) => (s1.BalanceAges, args)

/-- The operation `DPager::Unpin`. -/
def Unpin (s : DPager) (aPageInfo : Nat) (aPinArgs : TPinArgs) : DPager × TPinArgs :=
  let s0 := s.setPage aPageInfo SPageInfo.DecPinCount
  if (s0.pageInfo aPageInfo).iPinCount ≠ 0 then (s0, aPinArgs)
  else
    let s1 := s0.SetPagedState aPageInfo TPagedState.EUnpaged
    let wasReserve := (s1.pageInfo aPageInfo).iPinnedReserve
    let s2 := s1.setPage aPageInfo SPageInfo.ClearPinnedReserve
    let args : TPinArgs :=
      if !wasReserve then { aPinArgs with iReplacementPages := aPinArgs.iReplacementPages + 1 }
      else aPinArgs
    ((s2.AddAsYoungestPage aPageInfo).BalanceAges, args)

/-- The `do ... while(TryGrowLiveList())` loop of `DPager::AllocPinReplacementPages`; the
first component is `ok`. -/
def AllocPinReplacementPages : Nat → DPager → Nat → Option (Bool × DPager)
  | 0, _, _ => none
  | fuel + 1, s, aNumPages =>
      if s.iNumberOfFreePages ≥ aNumPages then
        some (true, { s with iNumberOfFreePages := sub32 s.iNumberOfFreePages aNumPages })
      else
        if s.TryGrowLiveList.1 then AllocPinReplacementPages fuel s.TryGrowLiveList.2 aNumPages
        else some (false, s.TryGrowLiveList.2)

/-- The operation `DPager::FreePinReplacementPages`. -/
def FreePinReplacementPages (fuel : Nat) (s : DPager) (aNumPages : Nat) : Option DPager :=
  RemoveExcessPages fuel { s with iNumberOfFreePages := s.iNumberOfFreePages + aNumPages }

/-! ## Reservation accounting -/

/-- The `while` loop at the start of `DPager::ReservePage`. The result `(false, _)` is the
`return false` after a failed `TryGrowLiveList`, `(true, _)` the normal exit of the loop. -/
def ReservePageGrow : Nat → DPager → Option (Bool × DPager)
  | 0, _ => none
  | fuel + 1, s =>
      if s.iMinimumPageCount = s.iMinimumPageLimit + s.iReservePageCount
          ∧ s.iNumberOfFreePages = 0 then
        if s.TryGrowLiveList.1 then ReservePageGrow fuel s.TryGrowLiveList.2
        else some (false, s.TryGrowLiveList.2)
      else some (true, s)

/-- The operation `DPager::ReservePage`. -/
def ReservePage (fuel : Nat) (s : DPager) : Option (Bool × DPager) :=
  match ReservePageGrow fuel s with
  | none => none
  | some (false, s1) => some (false, s1)
  | some (true, s1) =>
      let s2 :=
        if s1.iMinimumPageCount = s1.iMinimumPageLimit + s1.iReservePageCount then
          let s3 :=
            { s1 with
              iMinimumPageCount := s1.iMinimumPageCount + 1
              iNumberOfFreePages := sub32 s1.iNumberOfFreePages 1 }
          if s3.iMinimumPageCount > s3.iMaximumPageCount then
            { s3 with iMaximumPageCount := s3.iMinimumPageCount }
          else s3
        else s1
      some (true, { s2 with iReservePageCount := s2.iReservePageCount + 1 })

/-- The operation `DPager::UnreservePages`; the reference argument `aCount` becomes 0. -/
def UnreservePages (s : DPager) (aCount : Nat) : Nat × DPager :=
  (0, { s with iReservePageCount := sub32 s.iReservePageCount aCount })

/-- The `while(aCount<aRequiredCount)` loop of `DPager::ReservePages`; the result is the
final `aCount` and the state. `MmuLock::Flash` has no effect in the embedding. -/
def ReservePagesLoop : Nat → DPager → Nat → Nat → Option (Nat × DPager)
  | 0, _, _, _ => none
  | fuel + 1, s, aRequiredCount, aCount =>
      if aCount < aRequiredCount then
        match ReservePage fuel s with
        | none => none
        | some (false, s1) => some (aCount, s1)
        | some (true, s1) => ReservePagesLoop fuel s1 aRequiredCount (aCount + 1)
      else some (aCount, s)

/-- The operation `DPager::ReservePages`; the result is the returned flag, the final value
of the reference argument `aCount`, and the state. -/
def ReservePages (fuel : Nat) (s : DPager) (aRequiredCount aCount : Nat) :
    Option (Bool × Nat × DPager) :=
  match ReservePagesLoop fuel s aRequiredCount aCount with
  | none => none
  | some (count, s1) =>
      if count = aRequiredCount then some (true, count, s1)
      else some (false, (s1.UnreservePages count).1, (s1.UnreservePages count).2)

/-! ## Resizing the live list -/

/-- The value `DPager::ResizeLiveList` (and `InitCache`) computes for `iMinimumPageLimit`. -/
def computeMinimumPageLimit (s : DPager) : Nat :=
  let limit := s.iMinYoungPages * (1 + s.iYoungOldRatio) / s.iYoungOldRatio
    + s.reservedPagesRequired
  if limit < s.iAbsoluteMinPageCount then s.iAbsoluteMinPageCount else limit

/-- The loop "Increase iMinimumPageCount?" of `DPager::ResizeLiveList`; the first
component is the value of `r` at the exit of the loop. -/
def ResizeGrowMin : Nat → DPager → Nat → Option (Int × DPager)
  | 0, _, _ => none
  | fuel + 1, s, aMinimumPageCount =>
      if s.iMinimumPageCount < aMinimumPageCount then
        let maxMin := s.iMinimumPageCount + s.iNumberOfFreePages
        let newMin := if aMinimumPageCount > maxMin then maxMin else aMinimumPageCount
        let delta := sub32 newMin s.iMinimumPageCount
        if delta ≠ 0 then
          ResizeGrowMin fuel
            { s with
              iMinimumPageCount := newMin
              iNumberOfFreePages := sub32 s.iNumberOfFreePages delta }
            aMinimumPageCount
        else if s.TryGrowLiveList.1 then
          ResizeGrowMin fuel s.TryGrowLiveList.2 aMinimumPageCount
        else some (KErrNoMemory, s.TryGrowLiveList.2)
      else some (KErrNone, s)

/-- The loop "Reduce iMaximumPageCount?" of `DPager::ResizeLiveList`. -/
def ResizeShrinkMax : Nat → DPager → Nat → Option DPager
  | 0, _, _ => none
  | fuel + 1, s, aMaximumPageCount =>
      if s.iMaximumPageCount > aMaximumPageCount then
        let minMax := s.iMinimumPageCount + s.iNumberOfFreePages
        let newMax := if aMaximumPageCount < minMax then minMax else aMaximumPageCount
        let delta := sub32 s.iMaximumPageCount newMax
        if delta ≠ 0 then
          ResizeShrinkMax fuel { s with iMaximumPageCount := newMax } aMaximumPageCount
        else
          match ReturnPageToSystem fuel s with
          | none => none
          | some s1 => ResizeShrinkMax fuel s1 aMaximumPageCount
      else some s

/-- The argument `aMaximumPageCount` of `DPager::ResizeLiveList` after the default for 0 and
the clamp to `KAbsoluteMaxPageCount`. -/
def resizeArgMax (s : DPager) (aMaximumPageCount : Nat) : Nat :=
  let aMax := if aMaximumPageCount = 0 then s.iInitMaximumPageCount else aMaximumPageCount
  if aMax > KAbsoluteMaxPageCount s.KPageShift then KAbsoluteMaxPageCount s.KPageShift else aMax

/-- The argument `aMinimumPageCount` of `DPager::ResizeLiveList` after the default taken
when `aMaximumPageCount` is 0. -/
def resizeArgMin (s : DPager) (aMinimumPageCount aMaximumPageCount : Nat) : Nat :=
  if aMaximumPageCount = 0 then s.iInitMinimumPageCount else aMinimumPageCount

/-- The two clamps of `DPager::ResizeLiveList` made once `iMinimumPageLimit` is set: the
minimum is raised to `iMinimumPageLimit+iReservePageCount`, then the maximum is raised to the
minimum. The result is the pair `(aMinimumPageCount, aMaximumPageCount)`. -/
def resizeClamp (s : DPager) (aMinimumPageCount aMaximumPageCount : Nat) : Nat × Nat :=
  let aMin :=
    if aMinimumPageCount < s.iMinimumPageLimit + s.iReservePageCount then
      s.iMinimumPageLimit + s.iReservePageCount
    else aMinimumPageCount
  let aMax := if aMaximumPageCount < aMin then aMin else aMaximumPageCount
  (aMin, aMax)

/-- The steps "Increase iMaximumPageCount?" and "Reduce iMinimumPageCount?" of
`DPager::ResizeLiveList`; the differences are taken in `TUint` and tested as `TInt`. -/
def resizeAdjust (s : DPager) (aMinimumPageCount aMaximumPageCount : Nat) : DPager :=
  let extra := toTInt (sub32 aMaximumPageCount s.iMaximumPageCount)
  let s2 :=
    if extra > 0 then { s with iMaximumPageCount := s.iMaximumPageCount + extra.toNat }
    else s
  let spare := toTInt (sub32 s2.iMinimumPageCount aMinimumPageCount)
  if spare > 0 then
    { s2 with
      iMinimumPageCount := sub32 s2.iMinimumPageCount spare.toNat
      iNumberOfFreePages := s2.iNumberOfFreePages + spare.toNat }
  else s2

/-- The operation `DPager::ResizeLiveList(TUint aMinimumPageCount, TUint aMaximumPageCount)`. -/
def ResizeLiveList (fuel : Nat) (s : DPager) (aMinimumPageCount aMaximumPageCount : Nat) :
    Option (Int × DPager) :=
  let aMin0 := s.resizeArgMin aMinimumPageCount aMaximumPageCount
  let aMax0 := s.resizeArgMax aMaximumPageCount
  if aMin0 > aMax0 then some (KErrArgument, s)
  else if s.iYoungOldRatio = 0 then none
  else
    let s1 := { s with iMinimumPageLimit := s.computeMinimumPageLimit }
    let aMin := (s1.resizeClamp aMin0 aMax0).1
    let aMax := (s1.resizeClamp aMin0 aMax0).2
    match ResizeGrowMin fuel (s1.resizeAdjust aMin aMax) aMin with
    | none => none
    | some (r, s4) =>
        match ResizeShrinkMax fuel s4 aMax with
        | none => none
        | some s5 => some (r, s5)

end DPager

/-! ## Invariants -/

namespace DPager

/-- The frame is linked on one of the four queues of the live list. -/
def OnLiveList (s : DPager) (p : Nat) : Prop :=
  p ∈ s.iYoungList ∨ p ∈ s.iOldList ∨ p ∈ s.iOldestCleanList ∨ p ∈ s.iOldestDirtyList

instance (s : DPager) (p : Nat) : Decidable (s.OnLiveList p) := by
  unfold OnLiveList; infer_instance

/-- The number of frames on the live list. -/
def liveListSize (s : DPager) : Nat :=
  s.iYoungList.length + s.iOldList.length + s.iOldestCleanList.length
    + s.iOldestDirtyList.length

/-- Live-list consistency: each count is the length of its queue, every frame on a queue
has the paged state of that queue, and no frame is linked twice (neither on two queues nor,
the queues being intrusive, twice on one). -/
def LiveListConsistent (s : DPager) : Prop :=
  s.iYoungCount = s.iYoungList.length ∧
  s.iOldCount = s.iOldList.length ∧
  s.iOldestCleanCount = s.iOldestCleanList.length ∧
  s.iOldestDirtyCount = s.iOldestDirtyList.length ∧
  (∀ p ∈ s.iYoungList, (s.pageInfo p).iPagedState = TPagedState.EPagedYoung) ∧
  (∀ p ∈ s.iOldList, (s.pageInfo p).iPagedState = TPagedState.EPagedOld) ∧
  (∀ p ∈ s.iOldestCleanList, (s.pageInfo p).iPagedState = TPagedState.EPagedOldestClean) ∧
  (∀ p ∈ s.iOldestDirtyList, (s.pageInfo p).iPagedState = TPagedState.EPagedOldestDirty) ∧
  (s.iYoungList ++ s.iOldList ++ s.iOldestCleanList ++ s.iOldestDirtyList).Nodup

instance (s : DPager) : Decidable s.LiveListConsistent := by
  unfold LiveListConsistent; infer_instance

/-- The paged state names one of the four sublists. -/
def IsSublistState (st : TPagedState) : Bool :=
  match st with
  | TPagedState.EPagedYoung => true
  | TPagedState.EPagedOld => true
  | TPagedState.EPagedOldestClean => true
  | TPagedState.EPagedOldestDirty => true
  | _ => false

/-- The precondition of `aPageInfo->iLink.Deque()`: a frame whose paged state names a
sublist is linked on the live list. -/
def Linked (s : DPager) (p : Nat) : Prop :=
  IsSublistState (s.pageInfo p).iPagedState = true → s.OnLiveList p

instance (s : DPager) (p : Nat) : Decidable (s.Linked p) := by
  unfold Linked; infer_instance

/-- The part of the pager state that lies outside the live list: the page-count accounting,
the configuration, and the scripts and logs of the MMU frame allocator. -/
structure Outside where
  iYoungOldRatio : Nat
  iOldOldestRatio : Nat
  iMinimumPageCount : Nat
  iMaximumPageCount : Nat
  iNumberOfFreePages : Nat
  iReservePageCount : Nat
  iMinimumPageLimit : Nat
  iMinYoungPages : Nat
  iAbsoluteMinPageCount : Nat
  iInitMinimumPageCount : Nat
  iInitMaximumPageCount : Nat
  KPageShift : Nat
  KMaxPagesToClean : Nat
  KPageColourCount : Nat
  cpuCacheHasColour : Bool
  reservedPagesRequired : Nat
  allocRam : Nat → Option Nat
  allocCalls : Nat
  mgrStealPage : Nat → Int
  mgrCleanPages : Nat → List (Option Nat) → List (Option Nat)
  freedRam : List Nat

/-- The part of a pager state outside the live list. -/
def outside (s : DPager) : Outside :=
  { iYoungOldRatio := s.iYoungOldRatio
    iOldOldestRatio := s.iOldOldestRatio
    iMinimumPageCount := s.iMinimumPageCount
    iMaximumPageCount := s.iMaximumPageCount
    iNumberOfFreePages := s.iNumberOfFreePages
    iReservePageCount := s.iReservePageCount
    iMinimumPageLimit := s.iMinimumPageLimit
    iMinYoungPages := s.iMinYoungPages
    iAbsoluteMinPageCount := s.iAbsoluteMinPageCount
    iInitMinimumPageCount := s.iInitMinimumPageCount
    iInitMaximumPageCount := s.iInitMaximumPageCount
    KPageShift := s.KPageShift
    KMaxPagesToClean := s.KMaxPagesToClean
    KPageColourCount := s.KPageColourCount
    cpuCacheHasColour := s.cpuCacheHasColour
    reservedPagesRequired := s.reservedPagesRequired
    allocRam := s.allocRam
    allocCalls := s.allocCalls
    mgrStealPage := s.mgrStealPage
    mgrCleanPages := s.mgrCleanPages
    freedRam := s.freedRam }

end DPager

/-! ## Example states -/

namespace DPager

/-- A frame table for the examples: frames 1 and 2 are young, 3 is old, 4 is oldest-clean and
unused, 5 is oldest-dirty (dirty, not writable), 6 is pinned once, 7 is the target of a move
of frame 3 (it carries the paged state of frame 3 and is not linked yet), every other frame
is unpaged. -/
def examplePages (p : Nat) : SPageInfo :=
  { iType := if p = 4 then TType.EUnused else TType.EManaged
    iPagedState :=
      if p = 1 ∨ p = 2 then TPagedState.EPagedYoung
      else if p = 3 ∨ p = 7 then TPagedState.EPagedOld
      else if p = 4 then TPagedState.EPagedOldestClean
      else if p = 5 then TPagedState.EPagedOldestDirty
      else if p = 6 then TPagedState.EPagedPinned
      else TPagedState.EUnpaged
    iPinCount := if p = 6 then 1 else 0
    iDirty := decide (p = 5)
    iWritable := false
    iPinnedReserve := false
    iIndex := p }

/-- A small pager state: five frames on the live list, a cache of 5 to 8 pages with no free
page, an allocator that always succeeds and managers that never refuse. -/
def exampleState : DPager :=
  { iYoungList := [1, 2]
    iYoungCount := 2
    iOldList := [3]
    iOldCount := 1
    iOldestCleanList := [4]
    iOldestCleanCount := 1
    iOldestDirtyList := [5]
    iOldestDirtyCount := 1
    iYoungOldRatio := 3
    iOldOldestRatio := 3
    iMinimumPageCount := 5
    iMaximumPageCount := 8
    iNumberOfFreePages := 0
    iReservePageCount := 1
    iMinimumPageLimit := 4
    iMinYoungPages := 2
    iAbsoluteMinPageCount := 4
    iInitMinimumPageCount := 5
    iInitMaximumPageCount := 8
    iNumberOfDirtyPages := 1
    pageInfo := examplePages
    KPageShift := 12
    KMaxPagesToClean := 4
    KPageColourCount := 4
    cpuCacheHasColour := false
    reservedPagesRequired := 0
    allocRam := fun n => some (100 + n)
    allocCalls := 0
    mgrStealPage := fun _ => KErrNone
    stealCalls := 0
    mgrCleanPages := fun _ arr => arr
    cleanCalls := 0
    cleaningLockHeld := false
    freedRam := [] }

end DPager

namespace DPager

/-- The example state with an allocator that has a single frame left: the first `AllocRam`
succeeds, every later one fails. -/
def exampleScarce : DPager :=
  { exampleState with allocRam := fun n => if n = 0 then some 100 else none }

/-- The scarce example state with the cache at its maximum size: `min = max = 5` and no free
page, as after `ResizeLiveList(5, 5)`. -/
def exampleFull : DPager :=
  { exampleScarce with iMaximumPageCount := 5 }

/-- A cache as `InitCache` and later grows leave it: `min + free` unused frames, numbered from
0, all on the oldest-clean queue; the allocator hands out frames from 10000 on and the managers
never refuse. -/
def exampleCache (minPages maxPages freePages : Nat) : DPager :=
  { iYoungList := []
    iYoungCount := 0
    iOldList := []
    iOldCount := 0
    iOldestCleanList := List.range (minPages + freePages)
    iOldestCleanCount := minPages + freePages
    iOldestDirtyList := []
    iOldestDirtyCount := 0
    iYoungOldRatio := 3
    iOldOldestRatio := 3
    iMinimumPageCount := minPages
    iMaximumPageCount := maxPages
    iNumberOfFreePages := freePages
    iReservePageCount := 0
    iMinimumPageLimit := 14
    iMinYoungPages := 7
    iAbsoluteMinPageCount := 14
    iInitMinimumPageCount := 256
    iInitMaximumPageCount := 1048575
    iNumberOfDirtyPages := 0
    pageInfo := fun p =>
      { iType := TType.EUnused
        iPagedState :=
          if p < minPages + freePages then TPagedState.EPagedOldestClean
          else TPagedState.EUnpaged
        iPinCount := 0
        iDirty := false
        iWritable := false
        iPinnedReserve := false
        iIndex := 0 }
    KPageShift := 12
    KMaxPagesToClean := 4
    KPageColourCount := 4
    cpuCacheHasColour := false
    reservedPagesRequired := 0
    allocRam := fun n => some (10000 + n)
    allocCalls := 0
    mgrStealPage := fun _ => KErrNone
    stealCalls := 0
    mgrCleanPages := fun _ arr => arr
    cleanCalls := 0
    cleaningLockHeld := false
    freedRam := [] }

/-- The state `ResizeLiveList(6, 8)` returns from the example state. -/
def exampleResized : DPager :=
  ((ResizeLiveList 10 exampleState 6 8).getD (KErrNone, exampleState)).2

/-- The state `ResizeLiveList(3, 8)` returns from the example state. -/
def exampleRaised : DPager :=
  ((ResizeLiveList 10 exampleState 3 8).getD (KErrNone, exampleState)).2

end DPager

/-! ## Sequences of calls of the pin interface -/

namespace DPager

/-- One call of the pin interface by a pinner that owns the pin arguments: `Pin` of the frame
(`true`) or `Unpin` of the frame (`false`). -/
def pinCall (r : DPager × TPinArgs) (c : Bool × Nat) : DPager × TPinArgs :=
  if c.1 then r.1.Pin c.2 r.2 else r.1.Unpin c.2 r.2

/-- A sequence of `Pin` and `Unpin` calls made with the same pin arguments. -/
def pinCalls (cs : List (Bool × Nat)) (r : DPager × TPinArgs) : DPager × TPinArgs :=
  cs.foldl pinCall r

/-- The assertions at the entry of a call of the pin interface with counted pin arguments.
`Pin`: the pinner has a replacement page (`HaveSufficientPages(1)`), the frame is not in a
state the `switch` asserts against, and its link is where its state says. `Unpin`: the frame
is pinned, with a positive pin count, and it was not pinned from the reserve pool (the
assertion on the pin arguments where they are credited). -/
def pinCallPre (r : DPager × TPinArgs) (c : Bool × Nat) : Prop :=
  if c.1 then
    r.2.iReplacementPages ≠ EUseReserveForPinReplacementPages ∧ 1 ≤ r.2.iReplacementPages ∧
      r.1.Linked c.2 ∧ (r.1.pageInfo c.2).iPagedState ≠ TPagedState.EPagedPinnedMoved
  else
    (r.1.pageInfo c.2).iPagedState = TPagedState.EPagedPinned ∧
      0 < (r.1.pageInfo c.2).iPinCount ∧ (r.1.pageInfo c.2).iPinnedReserve = false

instance (r : DPager × TPinArgs) (c : Bool × Nat) : Decidable (pinCallPre r c) := by
  unfold pinCallPre; infer_instance

/-- Every call of the sequence is made within its assertions. -/
def pinCallsValid : List (Bool × Nat) → DPager × TPinArgs → Prop
  | [], _ => True
  | c :: cs, r => pinCallPre r c ∧ pinCallsValid cs (pinCall r c)

/-- Validity of a sequence of calls can be checked by running it. -/
def pinCallsValidDec : (cs : List (Bool × Nat)) → (r : DPager × TPinArgs) →
    Decidable (pinCallsValid cs r)
  | [], _ => isTrue trivial
  | c :: cs, r =>
      match (inferInstance : Decidable (pinCallPre r c)), pinCallsValidDec cs (pinCall r c) with
      | isTrue h1, isTrue h2 => isTrue ⟨h1, h2⟩
      | isFalse h1, _ => isFalse (fun h => h1 h.1)
      | _, isFalse h2 => isFalse (fun h => h2 h.2)

instance (cs : List (Bool × Nat)) (r : DPager × TPinArgs) : Decidable (pinCallsValid cs r) :=
  pinCallsValidDec cs r

/-- The number of frames of the list that are pinned. -/
def pinnedFrames (s : DPager) (frames : List Nat) : Nat :=
  frames.countP (fun q => decide ((s.pageInfo q).iPagedState = TPagedState.EPagedPinned))

/-- A sequence of `Pin` (`true`) and `Unpin` (`false`) calls in which, with `n` pins
outstanding at its start, each `Unpin` matches an earlier `Pin` and no pin is left
outstanding at its end. -/
def pinsBalanced : Nat → List Bool → Bool
  | n, [] => n == 0
  | n, true :: ops => pinsBalanced (n + 1) ops
  | 0, false :: _ => false
  | n + 1, false :: ops => pinsBalanced n ops

/-- The example state with a young frame 1 that is mapped writable and has been written to:
writable and dirty. -/
def exampleWritable : DPager :=
  { exampleState with
    iNumberOfDirtyPages := 2
    pageInfo := fun p => if p = 1 then { examplePages 1 with iWritable := true, iDirty := true }
      else examplePages p }

end DPager

namespace DPager

/-- The frame `p` has `n` pins outstanding, the live list it is on, or was taken from,
holds another frame, and the number of its frames, the frame `p` included, times
`iYoungOldRatio` is below `2^32`: with no pin outstanding the frame is on the live list,
which holds at least two frames; with a pin outstanding the frame is pinned and the live
list is not empty. -/
def PinBalance (s : DPager) (p n : Nat) : Prop :=
  s.LiveListConsistent ∧ 1 ≤ s.iYoungOldRatio ∧ (s.pageInfo p).iPinCount = n ∧
  (n = 0 → s.OnLiveList p ∧ 2 ≤ s.liveListSize ∧
    s.liveListSize * s.iYoungOldRatio < 4294967296) ∧
  (0 < n → (s.pageInfo p).iPagedState = TPagedState.EPagedPinned ∧ 1 ≤ s.liveListSize ∧
    (s.liveListSize + 1) * s.iYoungOldRatio < 4294967296)

/-- The frame `p` is the youngest frame of the live list: the head of the young queue, in
state `EPagedYoung`, and not pinned. -/
def IsYoungest (s : DPager) (p : Nat) : Prop :=
  (s.pageInfo p).iPinCount = 0 ∧ s.iYoungList.head? = some p ∧
  (s.pageInfo p).iPagedState = TPagedState.EPagedYoung

instance (s : DPager) (p : Nat) : Decidable (s.IsYoungest p) := by
  unfold IsYoungest; infer_instance

end DPager

/-! ## Population of the cache by `InitCache` -/

namespace DPager

/-- The allocation loop at the end of `DPager::InitCache`, with the number of iterations left:
each iteration allocates one frame with `TheMmu.AllocRam` and adds it as a free page; a failed
allocation is the fault `__NK_ASSERT_ALWAYS(0)`. -/
def InitCacheLoop : Nat → DPager → Option DPager
  | 0, s => some s
  | n + 1, s =>
      match s.allocRam s.allocCalls with
      | none => none
      | some p => InitCacheLoop n (AddAsFreePage { s with allocCalls := s.allocCalls + 1 } p)

/-- The end of `DPager::InitCache`, from `iNumberOfFreePages = 0` on: the counters are reset
and the loop `for(i = iReservePageCount; i < iMinimumPageCount; i++)` populates the cache. -/
def InitCachePopulate (s : DPager) : Option DPager :=
  let s1 :=
    { s with
      iNumberOfFreePages := 0
      iNumberOfDirtyPages := 0
      iYoungCount := 0
      iOldCount := 0
      iOldestDirtyCount := 0 }
  InitCacheLoop (s1.iMinimumPageCount - s1.iReservePageCount) s1

/-- The pager before `InitCache` populates the cache: empty queues, no reserved page, and the
default minimum of 256 pages. -/
def exampleBoot : DPager :=
  { exampleCache 0 1048575 0 with iMinimumPageCount := 256 }

/-- The example state with a data-paging manager that cleans no frame: `CleanPages` sets
every entry of the frame array to NULL. -/
def exampleNulling : DPager :=
  { exampleState with mgrCleanPages := fun _ arr => arr.map (fun _ => none) }

end DPager

/-! ## Page-in completion and the rejuvenation fast path -/

/-- Symbian error code `KErrAbort`. -/
def KErrAbort : Int := -39

/-- What the fault path reads outside the pager: the mapping that took the fault, the page
table entry of the faulting address, the MMU frame table look-ups, the faulting thread, and
the scripted result of the owning manager's `HandleFault`. -/
structure FaultContext where
  /-- The argument `aMapInstanceCount`. -/
  aMapInstanceCount : Nat
  /-- The value of `aMapping->MapInstanceCount()`. -/
  mapInstanceCount : Nat
  /-- The value of `aMapping->BeingDetached()`. -/
  beingDetached : Bool
  /-- The word at `Mmu::SafePtePtrFromLinAddr(aAddress, aOsAsid)`; `none` is a NULL pointer. -/
  safePte : Option Nat
  /-- Platform constant `KPteUnallocatedEntry`. -/
  KPteUnallocatedEntry : Nat
  /-- The look-up `SPageInfo::SafeFromPhysAddr`; `none` is NULL. -/
  safeFromPhysAddr : Nat → Option Nat
  /-- The value of `pi->PhysAddr()` for a frame. -/
  physAddr : Nat → Nat
  /-- The page array entry `memory->iPages.Page(index)` of the owner of a frame. -/
  pageArrayPage : Nat → Nat
  /-- The test `RPageArray::IsPresent` on a page array entry. -/
  isPresent : Nat → Bool
  /-- Whether `aAccessPermissions & EReadWrite` is set. -/
  readWrite : Bool
  /-- The value of `aThread->IsRealtime()`. -/
  isRealtime : Bool
  /-- Whether `aThread->iIpcClient` is set. -/
  hasIpcClient : Bool
  /-- Whether `aThread->iExcTrap` is set and is a `TIpcExcTrap`. -/
  hasIpcTrap : Bool
  /-- Whether `ipcTrap->ExcLocation` yields `EExcRemote`. -/
  excRemote : Bool
  /-- The result of `K::IllegalFunctionForRealtimeThread` on the client thread. -/
  illegalForClient : Bool
  /-- The result of `K::IllegalFunctionForRealtimeThread` on the current thread. -/
  illegalForCurrent : Bool
  /-- The frame that holds the page table of the entry (`Mmu::PageTablePhysAddr`). -/
  pageTable : Nat
  /-- The value of `pti->IsDemandPaged()` for that page table. -/
  pageTableDemandPaged : Bool
  /-- Script of the owning manager's `HandleFault`: its result code. -/
  handleFault : Int

namespace DPager

/-- The operation `DPager::PagedIn`. The modifier cookie that the `EPagedPinned` case clears
is not part of the embedding. -/
def PagedIn (s : DPager) (aPageInfo : Nat) : DPager :=
  match (s.pageInfo aPageInfo).iPagedState with
  | TPagedState.EPagedYoung | TPagedState.EPagedOld
  | TPagedState.EPagedOldestClean | TPagedState.EPagedOldestDirty =>
      ((s.RemovePage aPageInfo).AddAsYoungestPage aPageInfo).BalanceAges
  | TPagedState.EUnpaged => (s.AddAsYoungestPage aPageInfo).BalanceAges
  | TPagedState.EPagedPinned => s
  | TPagedState.EPagedPinnedMoved => s

/-- Modelled from the spec: the inline helper `DPager::SetWritable` (mpager.h) marks the frame
writable. -/
def SetWritable (s : DPager) (p : Nat) : DPager :=
  s.setPage p (fun i => { i with iWritable := true })

/-- The operation `DPager::CheckRealtimeThreadFault`. -/
def CheckRealtimeThreadFault (f : FaultContext) : Int :=
  if f.hasIpcClient && (!f.hasIpcTrap || f.excRemote) then
    if f.illegalForClient then KErrAbort else KErrNone
  else
    if f.illegalForCurrent then KErrAbort else KErrNone

/-- The operation `DPager::PteAndInfoFromLinAddr`: the result code and, on `KErrNone`, the
page table entry and the frame (`aPte`, `aPageInfo`). The expression `pte & ~KPageMask` is the
entry rounded down to a multiple of the page size. -/
def PteAndInfoFromLinAddr (s : DPager) (f : FaultContext) : Int × Option (Nat × Nat) :=
  if f.aMapInstanceCount ≠ f.mapInstanceCount ∨ f.beingDetached = true then (KErrAbort, none)
  else
    match f.safePte with
    | none => (KErrNotFound, none)
    | some pte =>
        if pte = f.KPteUnallocatedEntry then (KErrNotFound, none)
        else
          match f.safeFromPhysAddr (pte / 2 ^ s.KPageShift * 2 ^ s.KPageShift) with
          | none => (KErrNotFound, none)
          | some pi => (KErrNone, some (pte, pi))

/-- The operation `DPager::RejuvenatePageTable`. -/
def RejuvenatePageTable (s : DPager) (f : FaultContext) : DPager :=
  if !f.pageTableDemandPaged then s
  else
    match (s.pageInfo f.pageTable).iPagedState with
    | TPagedState.EPagedYoung | TPagedState.EPagedOld
    | TPagedState.EPagedOldestClean | TPagedState.EPagedOldestDirty =>
        ((s.RemovePage f.pageTable).AddAsYoungestPage f.pageTable).BalanceAges
    | TPagedState.EUnpaged => (s.AddAsYoungestPage f.pageTable).BalanceAges
    | TPagedState.EPagedPinned => s
    | TPagedState.EPagedPinnedMoved => s

/-- The end of `DPager::TryRejuvenate`, from the write-permission test on, for the frame `pi`
that the entry is made to map. The edit of the page table entry and the TLB flush are outside
the pager state. -/
def rejuvenateFrame (s : DPager) (f : FaultContext) (pi : Nat) : Int × DPager :=
  let state := (s.pageInfo pi).iPagedState
  let s1 := if f.readWrite then s.SetWritable pi else s
  let balance := IsSublistState state
  let s2 := if balance then (s1.RemovePage pi).AddAsYoungestPage pi else s1
  let s3 := s2.RejuvenatePageTable f
  (KErrNone, if balance then s3.BalanceAges else s3)

/-- The middle of `DPager::TryRejuvenate`: the checks on the frame `pi` found for the entry,
and the switch to the frame of the page array entry when the page has been moved. -/
def rejuvenateChecked (s : DPager) (f : FaultContext) (pi : Nat) : Int × DPager :=
  if (s.pageInfo pi).iType ≠ TType.EManaged then (KErrNotFound, s)
  else if (s.pageInfo pi).iPagedState = TPagedState.EUnpaged then (KErrNotFound, s)
  else
    let page := f.pageArrayPage pi
    if !f.isPresent page then (KErrNotFound, s)
    else if Nat.xor page (f.physAddr pi) ≥ 2 ^ s.KPageShift then
      match f.safeFromPhysAddr (page / 2 ^ s.KPageShift * 2 ^ s.KPageShift) with
      | none => (KErrNotFound, s)
      | some pi2 =>
          if (s.pageInfo pi2).iType ≠ TType.EManaged then (KErrNotFound, s)
          else if (s.pageInfo pi2).iPagedState = TPagedState.EUnpaged then (KErrNotFound, s)
          else s.rejuvenateFrame f pi2
    else s.rejuvenateFrame f pi

/-- The operation `DPager::TryRejuvenate`. Nothing changes while MmuLock is released around
`CheckRealtimeThreadFault`, so the second `PteAndInfoFromLinAddr` finds what the first found. -/
def TryRejuvenate (s : DPager) (f : FaultContext) : Int × DPager :=
  match s.PteAndInfoFromLinAddr f with
  | (r, none) =>
      if f.isRealtime then
        (if CheckRealtimeThreadFault f ≠ KErrNone then KErrAbort else r, s)
      else (r, s)
  | (_, some (_, pi)) =>
      let state := (s.pageInfo pi).iPagedState
      if f.isRealtime ∧ state ≠ TPagedState.EPagedPinned
          ∧ state ≠ TPagedState.EPagedPinnedMoved then
        if CheckRealtimeThreadFault f ≠ KErrNone then (CheckRealtimeThreadFault f, s)
        else s.rejuvenateChecked f pi
      else s.rejuvenateChecked f pi

/-- The operation `DPager::HandlePageFault`: the result code, whether the owning manager's
`HandleFault` was called, and the state. -/
def HandlePageFault (s : DPager) (f : FaultContext) : Int × Bool × DPager :=
  let r := (s.TryRejuvenate f).1
  if r = KErrNone ∨ r = KErrAbort then (r, false, (s.TryRejuvenate f).2)
  else (f.handleFault, true, (s.TryRejuvenate f).2)

end DPager

/-- A fault of a non-real-time thread through a mapping that is still attached: the entry
`4096 * p + 3` maps frame `p`, every frame is at physical address `4096 * p` and present in
the page array of its owner, the page table is not demand paged, and the manager would
succeed. -/
def exampleFault (p : Nat) : FaultContext :=
  { aMapInstanceCount := 1
    mapInstanceCount := 1
    beingDetached := false
    safePte := some (4096 * p + 3)
    KPteUnallocatedEntry := 0
    safeFromPhysAddr := fun a => some (a / 4096)
    physAddr := fun q => 4096 * q
    pageArrayPage := fun q => 4096 * q + 1
    isPresent := fun _ => true
    readWrite := false
    isRealtime := false
    hasIpcClient := false
    hasIpcTrap := false
    excRemote := false
    illegalForClient := true
    illegalForCurrent := true
    pageTable := 0
    pageTableDemandPaged := false
    handleFault := KErrNone }

/-- The example fault through a mapping that has been reused since the fault was taken. -/
def exampleStale (p : Nat) : FaultContext :=
  { exampleFault p with mapInstanceCount := 2 }

/-- The example fault through a mapping that is being detached. -/
def exampleDetached (p : Nat) : FaultContext :=
  { exampleFault p with beingDetached := true }

/-- The example fault at an address whose page table entry is unallocated. -/
def exampleAbsent (p : Nat) : FaultContext :=
  { exampleFault p with safePte := some 0 }

namespace DPager

/-- A live list on which both steps of `BalanceAges` fire: young frames 1 and 2, old frame 3,
no oldest frame, and a young/old ratio of 1. -/
def exampleAging : DPager :=
  { exampleState with
    iOldestCleanList := []
    iOldestCleanCount := 0
    iOldestDirtyList := []
    iOldestDirtyCount := 0
    iYoungOldRatio := 1
    pageInfo := fun p =>
      if p = 4 ∨ p = 5 then { examplePages p with iPagedState := TPagedState.EUnpaged }
      else examplePages p }

/-- The live list of scenario S1: 192 young frames (1000 to 1191), 48 old frames (2000 to
2047) and 16 oldest-clean frames (3000 to 3015), both ratios 3; every other frame is
unpaged. -/
def exampleS1 : DPager :=
  { exampleState with
    iYoungList := List.range' 1000 192
    iYoungCount := 192
    iOldList := List.range' 2000 48
    iOldCount := 48
    iOldestCleanList := List.range' 3000 16
    iOldestCleanCount := 16
    iOldestDirtyList := []
    iOldestDirtyCount := 0
    iMinimumPageCount := 256
    iMaximumPageCount := 1024
    iNumberOfDirtyPages := 0
    pageInfo := fun p =>
      { iType := TType.EManaged
        iPagedState :=
          if 1000 ≤ p ∧ p < 1192 then TPagedState.EPagedYoung
          else if 2000 ≤ p ∧ p < 2048 then TPagedState.EPagedOld
          else if 3000 ≤ p ∧ p < 3016 then TPagedState.EPagedOldestClean
          else TPagedState.EUnpaged
        iPinCount := 0
        iDirty := false
        iWritable := false
        iPinnedReserve := false
        iIndex := p } }

end DPager

/-! ## Demand paging lock -/

/-- Conversion of a `TInt` to `TUint`. -/
def toTUint (n : Int) : Nat := (n % 4294967296).toNat

/-- The class `DDemandPagingLock`; `iPinMapping` records whether the pointer is set. -/
structure DDemandPagingLock where
  iMaxPageCount : Int
  iReservedPageCount : Nat
  iLockedPageCount : Nat
  iPinMapping : Bool
  deriving DecidableEq, Repr

namespace DDemandPagingLock

/-- The constructor `DDemandPagingLock::DDemandPagingLock`; `iMaxPageCount` is not
initialised by it and is taken as 0. -/
def new : DDemandPagingLock :=
  { iMaxPageCount := 0, iReservedPageCount := 0, iLockedPageCount := 0, iPinMapping := false }

/-- The value `((aSize-1+KPageMask)>>KPageShift)+1` that `Alloc` stores in `iMaxPageCount`.
The arithmetic is that of `TInt`: a sum that leaves the range of `TInt` wraps modulo `2^32`
(two's complement, as the compiled code computes it), and the shift of a signed value rounds
down. -/
def maxPageCount (KPageShift : Nat) (aSize : Int) : Int :=
  toTInt (toTUint
    (toTInt (toTUint (aSize - 1 + ((2 : Int) ^ KPageShift - 1))) / (2 : Int) ^ KPageShift + 1))

/-- The value `iMaxPageCount+maxPt*KNumPagesToPinOnePageTable` that `Alloc` passes to
`ReservePages`, a `TUint`. `MaxPageTables` is `DVirtualPinMapping::MaxPageTables`. -/
def reserveCount (KPageShift : Nat) (MaxPageTables : Nat → Nat)
    (KNumPagesToPinOnePageTable : Nat) (aSize : Int) : Nat :=
  let iMaxPageCount := toTUint (maxPageCount KPageShift aSize)
  (iMaxPageCount + MaxPageTables iMaxPageCount * KNumPagesToPinOnePageTable) % 4294967296

/-- The operation `DDemandPagingLock::Alloc`: the result code, the lock and the pager
afterwards. `newMapping` tells whether `DVirtualPinMapping::New` succeeds. -/
def Alloc (fuel : Nat) (s : DPager) (l : DDemandPagingLock) (MaxPageTables : Nat → Nat)
    (KNumPagesToPinOnePageTable : Nat) (newMapping : Bool) (aSize : Int) :
    Option (Int × DDemandPagingLock × DPager) :=
  let l1 := { l with iMaxPageCount := maxPageCount s.KPageShift aSize }
  let reserve := reserveCount s.KPageShift MaxPageTables KNumPagesToPinOnePageTable aSize
  match DPager.ReservePages fuel s reserve l1.iReservedPageCount with
  | none => none
  | some (false, count, s1) => some (KErrNoMemory, { l1 with iReservedPageCount := count }, s1)
  | some (true, count, s1) =>
      if newMapping then
        some (KErrNone, { l1 with iReservedPageCount := count, iPinMapping := true }, s1)
      else
        some (KErrNoMemory,
          { l1 with iReservedPageCount := (s1.UnreservePages count).1, iPinMapping := false },
          (s1.UnreservePages count).2)

end DDemandPagingLock

/-- An example of `DVirtualPinMapping::MaxPageTables` for page tables that map 256 pages: a
range of `n` pages that starts anywhere touches at most `(n + 254) / 256 + 1` of them. -/
def exampleMaxPageTables (aPageCount : Nat) : Nat := (aPageCount + 254) / 256 + 1

/-! ## Discarding a frame -/

/-- The test `DiscardCanStealPage`. -/
def DiscardCanStealPage (aOldPageInfo : SPageInfo) (aBlockRest : Bool) : Bool :=
  decide (aOldPageInfo.iType = TType.EUnused) ||
    (decide (aOldPageInfo.iPagedState ≠ TPagedState.EPagedPinned) &&
      (!aBlockRest || !aOldPageInfo.IsDirty))

namespace DPager

/-- The `while` loop of `DPager::DiscardPage`: the result code `r`, `newPageInfo`,
`havePageCleaningLock` and the state when the loop is left. -/
def DiscardPageLoop :
    Nat → DPager → Nat → Bool → Option Nat → Bool → Option (Int × Option Nat × Bool × DPager)
  | 0, _, _, _, _, _ => none
  | fuel + 1, s, aOldPageInfo, aBlockRest, newPageInfo, havePageCleaningLock =>
      let needNewPage := decide (s.iNumberOfFreePages = 0) && newPageInfo.isNone
      let needPageCleaningLock := (s.pageInfo aOldPageInfo).IsDirty && !havePageCleaningLock
      if needNewPage || needPageCleaningLock then
        let g := if needNewPage then s.GetPageFromSystem else (newPageInfo, s)
        if needNewPage && g.1.isNone then some (KErrNoMemory, none, havePageCleaningLock, g.2)
        else
          let s2 := if needPageCleaningLock then { g.2 with cleaningLockHeld := true } else g.2
          let have2 := havePageCleaningLock || needPageCleaningLock
          if !DiscardCanStealPage (s2.pageInfo aOldPageInfo) aBlockRest then
            some (KErrInUse, g.1, have2, s2)
          else DiscardPageLoop fuel s2 aOldPageInfo aBlockRest g.1 have2
      else some (KErrNone, newPageInfo, havePageCleaningLock, s)

/-- The steal of `DPager::DiscardPage`: `StealPage` when the loop left `KErrNone`, and the
`RemovePage` on `KErrCompletion`, which then counts as success. -/
def discardSteal (s : DPager) (aOldPageInfo : Nat) (r : Int) : Int × DPager :=
  let st := if r = KErrNone then s.StealPage aOldPageInfo else (r, s)
  if st.1 = KErrCompletion then (KErrNone, st.2.RemovePage aOldPageInfo) else st

/-- The block `if (r == KErrNone && iNumberOfFreePages == 0)` of `DPager::DiscardPage`: the
result code, `newPageInfo` and the state after it. -/
def discardTopUp (s : DPager) (aOldPageInfo : Nat) (r : Int) (newPageInfo : Option Nat) :
    Int × Option Nat × DPager :=
  if r = KErrNone ∧ s.iNumberOfFreePages = 0 then
    match newPageInfo with
    | some n => (r, none, s.AddAsFreePage n)
    | none => (KErrInUse, none, (s.AddAsFreePage aOldPageInfo).BalanceAges)
  else (r, newPageInfo, s)

/-- The block `if (r == KErrNone)` of `DPager::DiscardPage` that returns the discarded frame
to the system. -/
def discardReturn (s : DPager) (aOldPageInfo : Nat) (r : Int) : DPager :=
  if r = KErrNone then (s.ReturnPageToSystemPage aOldPageInfo).BalanceAges else s

/-- The block `if (newPageInfo)` of `DPager::DiscardPage`: a new frame that was not needed
becomes a free page of the live list or goes back to the system. -/
def discardSpare (s : DPager) (newPageInfo : Option Nat) : DPager :=
  match newPageInfo with
  | some n =>
      if s.iNumberOfFreePages = 0 then s.AddAsFreePage n else s.ReturnPageToSystemPage n
  | none => s

/-- The part of `DPager::DiscardPage` after the `while` loop, from the values the loop
left. -/
def DiscardPageTail (s : DPager) (aOldPageInfo : Nat) (r : Int) (newPageInfo : Option Nat)
    (havePageCleaningLock : Bool) : Int × DPager :=
  let a := s.discardSteal aOldPageInfo r
  let b := a.2.discardTopUp aOldPageInfo a.1 newPageInfo
  let s4 := b.2.2.discardReturn aOldPageInfo b.1
  let s5 := s4.discardSpare b.2.1
  (b.1, if havePageCleaningLock then { s5 with cleaningLockHeld := false } else s5)

/-- The operation `DPager::DiscardPage`. The zone arguments only travel to the frame
allocator. For a frame that cannot be stolen the call is delegated to the owning manager's
`MovePage`, which lies outside the embedding: `movePage` is its result code. -/
def DiscardPage (fuel : Nat) (s : DPager) (aOldPageInfo : Nat) (aBlockRest : Bool)
    (movePage : Int) : Option (Int × DPager) :=
  if !DiscardCanStealPage (s.pageInfo aOldPageInfo) aBlockRest then some (movePage, s)
  else
    match DiscardPageLoop fuel s aOldPageInfo aBlockRest none false with
    | none => none
    | some (r, newPageInfo, havePageCleaningLock, s1) =>
        some (s1.DiscardPageTail aOldPageInfo r newPageInfo havePageCleaningLock)

end DPager

/-! ## Paging request pool -/

/-- The class `DPagingRequest`: the use region. `iUseRegion` is the list of the first
`iUseRegionCount` entries of `iUseRegionMemory` and `iUseRegionIndex`, as pairs; memory
objects are numbered. -/
structure DPagingRequest where
  iUseRegion : List (Nat × Nat)
  deriving DecidableEq, Repr

namespace DPagingRequest

/-- The member `iUseRegionCount`. -/
def iUseRegionCount (r : DPagingRequest) : Nat := r.iUseRegion.length

/-- The use region that `SetUseContiguous` stores: `aCount` pages of `aMemory` from `aIndex`,
the index a `TUint`. -/
def contiguousRegion (aMemory aIndex aCount : Nat) : List (Nat × Nat) :=
  (List.range aCount).map (fun i => (aMemory, (aIndex + i) % 4294967296))

/-- The use region that `SetUseDiscontiguous` stores from the arrays `aMemory` and
`aIndex`. -/
def discontiguousRegion (aMemory aIndex : List Nat) (aCount : Nat) : List (Nat × Nat) :=
  (List.range aCount).map (fun i => (aMemory.getD i 0, aIndex.getD i 0))

/-- The method `DPagingRequest::IsCollisionContiguous`; `TUint(iUseRegionIndex[i] - aIndex)`
is the difference modulo 2^32. -/
def IsCollisionContiguous (r : DPagingRequest) (aMemory aIndex aCount : Nat) : Bool :=
  r.iUseRegion.any (fun e => decide (e.1 = aMemory) && decide (sub32 e.2 aIndex < aCount))

end DPagingRequest

/-- The class `DPoolPagingRequest`: a `DPagingRequest` with its usage count; `iMutexHeld`
tells whether a thread holds `iMutex`. -/
structure DPoolPagingRequest extends DPagingRequest where
  iUsageCount : Int
  iMutexHeld : Bool
  deriving DecidableEq, Repr

namespace DPoolPagingRequest

/-- A request as the constructors leave it: no use region, no user, the mutex free. -/
def new : DPoolPagingRequest :=
  { iUseRegion := [], iUsageCount := 0, iMutexHeld := false }

/-- The method `DPagingRequest::SetUseContiguous` on a pool request. -/
def SetUseContiguous (r : DPoolPagingRequest) (aMemory aIndex aCount : Nat) :
    DPoolPagingRequest :=
  { r with iUseRegion := DPagingRequest.contiguousRegion aMemory aIndex aCount }

/-- The method `DPagingRequest::ResetUse` on a pool request: `iUseRegionCount = 0`. -/
def ResetUse (r : DPoolPagingRequest) : DPoolPagingRequest :=
  { r with iUseRegion := [] }

end DPoolPagingRequest

/-- The class `DPagingRequestPool` with its read request group (`TGroup`): `iRequests` is the
array `iPageReadRequests.iRequests` of `iNumRequests` requests, `iFreeList` the queue
`iPageReadRequests.iFreeList` of the numbers of the free requests, first first,
`iPageWriteRequest` the write request if there is one, and `RandomSeed` the static seed. -/
structure DPagingRequestPool where
  iNumRequests : Nat
  iRequests : Nat → DPoolPagingRequest
  iFreeList : List Nat
  iPageWriteRequest : Option DPagingRequest
  RandomSeed : Nat

namespace DPagingRequestPool

/-- The constructor `DPagingRequestPool::DPagingRequestPool`: every read request is added at
the end of the free list. -/
def new (aNumPageReadRequest : Nat) (aWriteRequest : Bool) : DPagingRequestPool :=
  { iNumRequests := aNumPageReadRequest
    iRequests := fun _ => DPoolPagingRequest.new
    iFreeList := List.range aNumPageReadRequest
    iPageWriteRequest := if aWriteRequest then some { iUseRegion := [] } else none
    RandomSeed := 33333 }

/-- Replace request number `k`. -/
def setRequest (p : DPagingRequestPool) (k : Nat) (r : DPoolPagingRequest) :
    DPagingRequestPool :=
  { p with iRequests := fun j => if j = k then r else p.iRequests j }

/-- The test `iPageWriteRequest && iPageWriteRequest->IsCollisionContiguous(...)`. -/
def writeCollision (p : DPagingRequestPool) (aMemory aIndex aCount : Nat) : Bool :=
  match p.iPageWriteRequest with
  | none => false
  | some w => w.IsCollisionContiguous aMemory aIndex aCount

/-- The method `TGroup::FindCollisionContiguous`: the first request of the array that
collides with the region, if any. -/
def FindCollisionContiguous (p : DPagingRequestPool) (aMemory aIndex aCount : Nat) :
    Option Nat :=
  (List.range p.iNumRequests).find?
    (fun k => (p.iRequests k).IsCollisionContiguous aMemory aIndex aCount)

/-- The counting half of `DPoolPagingRequest::Wait`: `++iUsageCount`. The thread then waits
for the mutex of the request. -/
def Wait (p : DPagingRequestPool) (req : Nat) : DPagingRequestPool :=
  p.setRequest req { p.iRequests req with iUsageCount := (p.iRequests req).iUsageCount + 1 }

/-- The method `TGroup::GetRequest` up to the wait for the mutex: the chosen request and the
pool. With no request in the group the choice reads outside the array (`none`). -/
def GetRequest (p : DPagingRequestPool) (aMemory aIndex aCount : Nat) :
    Option (Nat × DPagingRequestPool) :=
  if p.iNumRequests = 0 then none
  else
    match p.FindCollisionContiguous aMemory aIndex aCount with
    | some req => some (req, p.Wait req)
    | none =>
        match p.iFreeList with
        | req :: rest => some (req, Wait { p with iFreeList := rest } req)
        | [] =>
            let seed := (p.RandomSeed * 69069 + 1) % 4294967296
            let index := seed * p.iNumRequests / 4294967296
            some (index, Wait { p with RandomSeed := seed } index)

/-- The method `TGroup::Signal` (`DPoolPagingRequest::Signal`): the usage count drops, a
request without users returns to the head of the free list, and the mutex is released. -/
def Signal (p : DPagingRequestPool) (aRequest : Nat) : DPagingRequestPool :=
  let r := p.iRequests aRequest
  let p1 := p.setRequest aRequest
    { r with iUsageCount := r.iUsageCount - 1, iMutexHeld := false }
  if r.iUsageCount - 1 = 0 then { p1 with iFreeList := aRequest :: p1.iFreeList } else p1

/-- The method `DPoolPagingRequest::Release`: `ResetUse` then `Signal`. -/
def Release (p : DPagingRequestPool) (req : Nat) : DPagingRequestPool :=
  (p.setRequest req (p.iRequests req).ResetUse).Signal req

/-- The first half of `DPagingRequestPool::AcquirePageReadRequest`, up to the wait for the
mutex of the chosen request: `some none` is the `return 0` on a collision with the write
request, `some (some req)` a thread that waits for the mutex of `req`. -/
def AcquirePageReadRequestBegin (p : DPagingRequestPool) (aMemory aIndex aCount : Nat) :
    Option (Option Nat × DPagingRequestPool) :=
  if p.writeCollision aMemory aIndex aCount then some (none, p)
  else
    match p.GetRequest aMemory aIndex aCount with
    | none => none
    | some (req, p1) => some (some req, p1)

/-- The second half of `DPagingRequestPool::AcquirePageReadRequest`, from the moment the
thread is granted the mutex of `req`: the returned request (`none` is 0) and the pool. -/
def AcquirePageReadRequestEnd (p : DPagingRequestPool) (req aMemory aIndex aCount : Nat) :
    Option Nat × DPagingRequestPool :=
  if p.writeCollision aMemory aIndex aCount
      ∨ (p.FindCollisionContiguous aMemory aIndex aCount).isSome then
    (none, p.Signal req)
  else
    (some req,
      p.setRequest req
        { (p.iRequests req).SetUseContiguous aMemory aIndex aCount with iMutexHeld := true })

/-- The operation `DPagingRequestPool::AcquirePageReadRequest` when the calling thread does
not have to wait: `none` when the mutex of the chosen request is held by another thread (the
call blocks) or no request exists. -/
def AcquirePageReadRequest (p : DPagingRequestPool) (aMemory aIndex aCount : Nat) :
    Option (Option Nat × DPagingRequestPool) :=
  match p.AcquirePageReadRequestBegin aMemory aIndex aCount with
  | none => none
  | some (none, p1) => some (none, p1)
  | some (some req, p1) =>
      if (p1.iRequests req).iMutexHeld then none
      else some (p1.AcquirePageReadRequestEnd req aMemory aIndex aCount)

/-- The operation `DPagingRequestPool::AcquirePageWriteRequest`; `none` without a write
request. -/
def AcquirePageWriteRequest (p : DPagingRequestPool) (aMemory aIndex : List Nat)
    (aCount : Nat) : Option DPagingRequestPool :=
  match p.iPageWriteRequest with
  | none => none
  | some _ =>
      some { p with
        iPageWriteRequest :=
          some { iUseRegion := DPagingRequest.discontiguousRegion aMemory aIndex aCount } }

/-- The method `DPageWriteRequest::Release`: `ResetUse`. -/
def writeRelease (p : DPagingRequestPool) : DPagingRequestPool :=
  { p with iPageWriteRequest := p.iPageWriteRequest.map (fun _ => { iUseRegion := [] }) }

/-- The states of a pool of `n` read requests that its threads can reach: from the
constructor, by the two halves of `AcquirePageReadRequest` (the second half is run by a
thread that waits for the mutex of the request, when the mutex is free, with a region of at
least one page as `SetUseContiguous` asserts), by `Release` of a request whose mutex is held,
and by the acquisition and release of the write request. -/
inductive Reachable (n : Nat) (w : Bool) : DPagingRequestPool → Prop
  | init : Reachable n w (DPagingRequestPool.new n w)
  | acquireBegin {p p1 : DPagingRequestPool} {req : Nat} (aMemory aIndex aCount : Nat) :
      Reachable n w p →
      p.AcquirePageReadRequestBegin aMemory aIndex aCount = some (some req, p1) →
      Reachable n w p1
  | acquireEnd {p : DPagingRequestPool} (req aMemory aIndex aCount : Nat) :
      Reachable n w p → req < p.iNumRequests →
      (p.iRequests req).iMutexHeld = false → 0 < (p.iRequests req).iUsageCount →
      0 < aCount → aCount ≤ 4294967296 → aIndex < 4294967296 →
      Reachable n w (p.AcquirePageReadRequestEnd req aMemory aIndex aCount).2
  | release {p : DPagingRequestPool} (req : Nat) :
      Reachable n w p → req < p.iNumRequests → (p.iRequests req).iMutexHeld = true →
      Reachable n w (p.Release req)
  | acquireWrite {p p1 : DPagingRequestPool} (aMemory aIndex : List Nat) (aCount : Nat) :
      Reachable n w p → p.AcquirePageWriteRequest aMemory aIndex aCount = some p1 →
      Reachable n w p1
  | releaseWrite {p : DPagingRequestPool} :
      Reachable n w p → Reachable n w p.writeRelease

end DPagingRequestPool

namespace DPagingRequestPool

/-- The invariant of a pool of `n` read requests: the free list holds each request without
users once and no other, usage counts are not negative, the mutex of a request is held
exactly when the request has a use region, its holder counts as a user, and no pair lies in
the use region of two requests. -/
def Invariant (n : Nat) (p : DPagingRequestPool) : Prop :=
  p.iNumRequests = n ∧
  p.iFreeList.Nodup ∧
  (∀ k ∈ p.iFreeList, k < n) ∧
  (∀ k, k < n → (k ∈ p.iFreeList ↔ (p.iRequests k).iUsageCount = 0)) ∧
  (∀ k, k < n → 0 ≤ (p.iRequests k).iUsageCount) ∧
  (∀ k, k < n → ((p.iRequests k).iMutexHeld = true ↔ (p.iRequests k).iUseRegion ≠ [])) ∧
  (∀ k, k < n → (p.iRequests k).iMutexHeld = true → 0 < (p.iRequests k).iUsageCount) ∧
  (∀ j k, j < n → k < n → j ≠ k →
    ∀ e ∈ (p.iRequests j).iUseRegion, e ∉ (p.iRequests k).iUseRegion)

/-- A pool of two read requests and a write request in which request 0 reads pages 10 to 12
of memory object 7. -/
def examplePool : DPagingRequestPool :=
  (((DPagingRequestPool.new 2 true).AcquirePageReadRequest 7 10 3).getD
    (none, DPagingRequestPool.new 2 true)).2

end DPagingRequestPool

/-! ## Runs of occupied slots in the colour selector -/

namespace DPager

namespace TSequentialColourSelector

/-- Whether slot `i` of the slot array holds an object. -/
def occupied (slot : List (Option Nat)) (i : Nat) : Bool := (slot.getD i none).isSome

/-- The length of the run of consecutive occupied slots that ends at slot `i`; 0 if slot `i`
is empty. -/
def runEnding (slot : List (Option Nat)) : Nat → Nat
  | 0 => if occupied slot 0 then 1 else 0
  | i + 1 => if occupied slot (i + 1) then runEnding slot i + 1 else 0

/-- The largest value of `f` below `n`, 0 for `n = 0`. -/
def maxBelow (f : Nat → Nat) : Nat → Nat
  | 0 => 0
  | n + 1 => max (maxBelow f n) (f n)

/-- The `len` slots from slot `start` on are all occupied, the array regarded circularly:
slot 0 follows the last slot. -/
def isRun (slot : List (Option Nat)) (arrayLength start len : Nat) : Bool :=
  (List.range len).all (fun k => occupied slot ((start + k) % arrayLength))

/-- Some run of `len` consecutive occupied slots exists in the array regarded circularly. -/
def hasRun (slot : List (Option Nat)) (arrayLength len : Nat) : Bool :=
  (List.range arrayLength).any (fun start => isRun slot arrayLength start len)

/-- The length of the longest run of consecutive occupied slots of the array regarded
circularly: the largest `len` up to the array length for which a run exists. -/
def longestRun (slot : List (Option Nat)) (arrayLength : Nat) : Nat :=
  ((List.range (arrayLength + 1)).filter (hasRun slot arrayLength)).foldr max 0

/-- A sequence of `AddCandidate(object, colour)` calls. -/
def AddCandidates (c : TSequentialColourSelector) (calls : List (Nat × Nat)) :
    TSequentialColourSelector :=
  calls.foldl (fun d x => d.AddCandidate x.1 x.2) c

/-- The invariant of the selector that relates the run lengths to the slots: both arrays
have `KArrayLength` entries, a multiple of the colour count, which is no less than
`KMaxLength`, and 0 if `KMaxLength` or the colour count is 0; `iSeqLength[i]` is the length of the run that ends at slot `i`;
`iLongestLength` is the largest of them, and when it is not 0 the run of that length that
ends just before slot `iLongestStart + iLongestLength` starts at slot `iLongestStart`. -/
def RunInvariant (c : TSequentialColourSelector) : Prop :=
  c.iSlot.length = c.KArrayLength ∧
  c.iSeqLength.length = c.KArrayLength ∧
  c.KPageColourCount ∣ c.KArrayLength ∧
  (c.KArrayLength = 0 ∨ (0 < c.KMaxLength ∧ c.KMaxLength ≤ c.KArrayLength)) ∧
  (∀ i, i < c.KArrayLength → c.iSeqLength.getD i 0 = (runEnding c.iSlot i : Int)) ∧
  c.iLongestLength = (maxBelow (runEnding c.iSlot) c.KArrayLength : Int) ∧
  (0 < c.iLongestLength →
    ∃ e, e < c.KArrayLength ∧ (runEnding c.iSlot e : Int) = c.iLongestLength ∧
      c.iLongestStart = (e : Int) + 1 - c.iLongestLength)

/-- The invariant of the selector that relates the slots to the calls made: an object in
slot `i` was added with the colour of the slot, `i` modulo the colour count, and no object
is in two slots. -/
def ObjectInvariant (c : TSequentialColourSelector) (calls : List (Nat × Nat)) : Prop :=
  (∀ i o, c.iSlot.getD i none = some o →
    ∃ col, (o, col) ∈ calls ∧ col = i % c.KPageColourCount) ∧
  (∀ i j o, c.iSlot.getD i none = some o → c.iSlot.getD j none = some o → i = j)

/-- A selector for up to 4 objects and 4 colours after the candidates 11, 12, 13 and 14
with the colours 3, 0, 2 and 0: slot 0 holds 12, slot 2 holds 13, slot 3 holds 11, and 14
finds its colour class full. -/
def exampleSelector : TSequentialColourSelector :=
  (TSequentialColourSelector.new 4 4).AddCandidates [(11, 3), (12, 0), (13, 2), (14, 0)]

end TSequentialColourSelector

end DPager

namespace DPager

namespace TSequentialColourSelector

/-- A whole use of the selector: construction, the calls `AddCandidate(object, colour)` of
the list in order, then `FindLongestRun`; the result is the selector afterwards, whose
`iLongestLength` is the value returned, and the objects written. -/
def selectRun (maxObjects colourCount : Nat) (calls : List (Nat × Nat)) :
    TSequentialColourSelector × List (Option Nat) :=
  ((TSequentialColourSelector.new maxObjects colourCount).AddCandidates calls).FindLongestRun

end TSequentialColourSelector

end DPager

/-! ## A pool without a free request -/

namespace DPagingRequestPool

/-- A pool of two read requests, both in use: request 0 reads pages 10 to 12 of memory object
7, request 1 reads page 0 of memory object 8; the seed is the initial one. -/
def exampleBusy : DPagingRequestPool :=
  { iNumRequests := 2
    iRequests := fun k =>
      if k = 0 then
        { iUseRegion := DPagingRequest.contiguousRegion 7 10 3
          iUsageCount := 1
          iMutexHeld := true }
      else
        { iUseRegion := DPagingRequest.contiguousRegion 8 0 1
          iUsageCount := 1
          iMutexHeld := true }
    iFreeList := []
    iPageWriteRequest := none
    RandomSeed := 33333 }

end DPagingRequestPool

/-! ## The start of `DDemandPagingLock::Lock` -/

namespace DDemandPagingLock

/-- The page count `(aSize+offset+mask)>>KPageShift` that `Lock` computes, with `mask` the
platform constant `KPageMask = 2^KPageShift - 1` and `offset = aStart&mask`: both are `TUint`,
so the sum is taken modulo 2^32 and the shift is logical; the result is stored in a `TInt`. -/
def numPages (KPageShift aStart : Nat) (aSize : Int) : Int :=
  let mask := 2 ^ KPageShift - 1
  let offset := aStart &&& mask
  toTInt (((toTUint aSize + offset + mask) % 4294967296) >>> KPageShift)

/-- The start of `DDemandPagingLock::Lock`, up to the search for the mapping: `none` is one of
the two faults `__NK_ASSERT_ALWAYS(0)` (lock already used, more pages than `iMaxPageCount`),
`some n` the page count with which the call goes on. -/
def LockBegin (l : DDemandPagingLock) (KPageShift aStart : Nat) (aSize : Int) : Option Int :=
  if l.iLockedPageCount ≠ 0 then none
  else if numPages KPageShift aStart aSize > l.iMaxPageCount then none
  else some (numPages KPageShift aStart aSize)

end DDemandPagingLock

/-! ## Checking the use region of a request -/

namespace DPagingRequest

/-- The method `DPagingRequest::CheckUseContiguous`: the use region is exactly the `aCount`
pages of `aMemory` from `aIndex`; `aIndex + i` is a `TUint`. -/
def CheckUseContiguous (r : DPagingRequest) (aMemory aIndex aCount : Nat) : Bool :=
  if r.iUseRegionCount ≠ aCount then false
  else
    (List.range r.iUseRegionCount).all
      (fun i =>
        !(decide ((r.iUseRegion.getD i (0, 0)).1 ≠ aMemory)
          || decide ((r.iUseRegion.getD i (0, 0)).2 ≠ (aIndex + i) % 4294967296)))

end DPagingRequest

/-! ## Configuration of the cache by `InitCache` -/

/-- The constant `KDefaultYoungOldRatio`. -/
def KDefaultYoungOldRatio : Nat := 3

/-- The constant `KDefaultMinPages`. -/
def KDefaultMinPages : Nat := 256

/-- The constant `KDefaultOldOldestRatio`. -/
def KDefaultOldOldestRatio : Nat := 3

/-- The constant `KMinOldPages`. -/
def KMinOldPages : Nat := 1

/-- The constant `KMaxTInt` (e32const.h). -/
def KMaxTInt : Nat := 2147483647

/-- The fields of the paging configuration `SDemandPagingConfig` of the ROM header that
`InitCache` reads; `iSpare2` is `iSpare[2]`. The structure is declared in e32rom.h. -/
structure SDemandPagingConfig where
  iMinPages : Nat
  iMaxPages : Nat
  iYoungOldRatio : Nat
  iSpare2 : Nat
  deriving DecidableEq, Repr

namespace DPager

/-- The value `InitCache` gives `iMinYoungPages`: `n` mapped pages (4 on ARM, 6 on X86), the
page tables and the page table infos for them, times the number of CPUs on an SMP build
(`none` on a build without `__SMP__`). `KPtClusterSize` and `KPageTableInfosPerPage` are
platform constants. -/
def initMinYoungPages (cpuArm : Bool) (KPtClusterSize KPageTableInfosPerPage : Nat)
    (numberOfCpus : Option Nat) : Nat :=
  let n := if cpuArm then 4 else 6
  let pages := n + (n + KPtClusterSize - 1) / KPtClusterSize
    + (n + KPageTableInfosPerPage - 1) / KPageTableInfosPerPage
  match numberOfCpus with
  | none => pages
  | some cpus => pages * cpus

/-- The first part of `DPager::InitCache`, from `iAbsoluteMinPageCount = 2*iMinYoungPages` to
`iInitMaximumPageCount = iMaximumPageCount`: the ratios, the minimum page limit and the
minimum and maximum page counts are set from the configuration and clamped. `pagingEnabled`
is the test of `K::MemModelAttributes` for ROM, code or data paging. -/
def InitCacheConfigure (s : DPager) (aMinYoungPages : Nat) (config : SDemandPagingConfig)
    (pagingEnabled : Bool) : DPager :=
  let s1 :=
    { s with
      iMinYoungPages := aMinYoungPages
      iAbsoluteMinPageCount := 2 * aMinYoungPages
      iYoungOldRatio :=
        if config.iYoungOldRatio ≠ 0 then config.iYoungOldRatio else KDefaultYoungOldRatio
      iOldOldestRatio := if config.iSpare2 ≠ 0 then config.iSpare2 else KDefaultOldOldestRatio }
  let limit := s1.iMinYoungPages * (1 + s1.iYoungOldRatio) / s1.iYoungOldRatio
    + s1.reservedPagesRequired
  let s2 :=
    { s1 with
      iMinimumPageLimit :=
        if limit < s1.iAbsoluteMinPageCount then s1.iAbsoluteMinPageCount else limit }
  let min0 :=
    if pagingEnabled then KDefaultMinPages else s2.iMinYoungPages * (s2.iYoungOldRatio + 1)
  let min1 := if config.iMinPages ≠ 0 then config.iMinPages else min0
  let min2 := if min1 < s2.iAbsoluteMinPageCount then s2.iAbsoluteMinPageCount else min1
  let min3 :=
    if s2.iMinimumPageLimit + s2.iReservePageCount > min2 then
      s2.iMinimumPageLimit + s2.iReservePageCount
    else min2
  let max0 := if config.iMaxPages ≠ 0 then config.iMaxPages else KMaxTInt
  let max1 :=
    if max0 > KAbsoluteMaxPageCount s2.KPageShift then KAbsoluteMaxPageCount s2.KPageShift
    else max0
  { s2 with
    iMinimumPageCount := min3
    iInitMinimumPageCount := min3
    iMaximumPageCount := max1
    iInitMaximumPageCount := max1 }

/-- The local `minOldAndOldest` of `InitCache`. -/
def initMinOldAndOldest (s : DPager) : Nat := s.iMinimumPageCount / (1 + s.iYoungOldRatio)

/-- The local `minYoung` of `InitCache`, a difference of `TUint` values. -/
def initMinYoung (s : DPager) : Nat := sub32 s.iMinimumPageCount s.initMinOldAndOldest

/-- The checks "Verify the page counts are valid" of `InitCache`: the assertions
`__NK_ASSERT_ALWAYS` in the order of the source, each with the line it stands on; the result
is the line of the first assertion that fails. The ratio limit is a `TInt`. -/
def InitCacheVerify (s : DPager) : Option Nat :=
  if ¬ s.iMaximumPageCount ≥ s.iMinimumPageCount then some 166
  else if ¬ s.initMinOldAndOldest ≥ KMinOldPages then some 168
  else if ¬ s.iMinimumPageCount ≥ s.initMinOldAndOldest then some 169
  else if ¬ s.initMinYoung ≥ s.iMinYoungPages then some 173
  else if ¬ (s.iYoungOldRatio : Int)
      ≤ toTInt (sub32 s.iMinimumPageCount KMinOldPages / KMinOldPages) then some 178
  else if s.initMinOldAndOldest / (1 + s.iOldOldestRatio) = 0 then some 182
  else none

/-- The operation `DPager::InitCache`: configuration, checks, population; `none` is a kernel
fault. -/
def InitCache (s : DPager) (aMinYoungPages : Nat) (config : SDemandPagingConfig)
    (pagingEnabled : Bool) : Option DPager :=
  let s1 := s.InitCacheConfigure aMinYoungPages config pagingEnabled
  match s1.InitCacheVerify with
  | some _ => none
  | none => s1.InitCachePopulate

/-- A configuration that asks for a cache of 16 to 32 pages and the default ratios. -/
def exampleConfig : SDemandPagingConfig :=
  { iMinPages := 16, iMaxPages := 32, iYoungOldRatio := 0, iSpare2 := 0 }

/-- The pager right after `InitCache` with the example configuration, 7 minimum young pages
and paging enabled: the 16 frames 10000 to 10015 are on the oldest-clean queue. -/
def exampleInit : DPager :=
  ((exampleCache 0 0 0).InitCache 7 exampleConfig true).getD (exampleCache 0 0 0)

/-- The check `__NK_ASSERT_DEBUG(aOldPageInfo.PagedState() == aNewPageInfo.PagedState())` at
the start of `DPager::ReplacePage`. -/
def ReplacePageSameState (s : DPager) (aOldPageInfo aNewPageInfo : Nat) : Bool :=
  decide ((s.pageInfo aOldPageInfo).iPagedState = (s.pageInfo aNewPageInfo).iPagedState)

/-- The check `__NK_ASSERT_DEBUG(iYoungCount)` in the branch of `DPager::ReplacePage` for
the four sublist states; the other branches do not evaluate it. -/
def ReplacePageYoungCount (s : DPager) (aOldPageInfo : Nat) : Bool :=
  match (s.pageInfo aOldPageInfo).iPagedState with
  | TPagedState.EPagedYoung | TPagedState.EPagedOld
  | TPagedState.EPagedOldestClean | TPagedState.EPagedOldestDirty =>
      decide (s.iYoungCount ≠ 0)
  | _ => true

/-- The state right after `InitCache` in which the frame 20000, not on the live list, has
been given the paged state of the oldest-clean frames by a page move that is about to call
`ReplacePage`. -/
def exampleMove : DPager :=
  exampleInit.SetPagedState 20000 TPagedState.EPagedOldestClean

end DPager

/-! ## Accounting of the live list, `GetFreePages`, `DonatePages` and `ReclaimPages` -/

namespace DPager

/-- The number of frames the four counts of the live list stand for. -/
def liveCount (s : DPager) : Nat :=
  s.iYoungCount + s.iOldCount + s.iOldestCleanCount + s.iOldestDirtyCount

/-- The size of the live list by its counts, less the pages accounted as minimum or free:
`(iYoungCount + iOldCount + iOldestCleanCount + iOldestDirtyCount) - (iMinimumPageCount +
iNumberOfFreePages)`, as an integer. -/
def accountingSlack (s : DPager) : Int :=
  (s.liveCount : Int) - ((s.iMinimumPageCount : Int) + (s.iNumberOfFreePages : Int))

/-- The loop of `DPager::GetFreePages`; the result is the final `aNumPages` and the state.
`NumberOfFreePages()` reads `iNumberOfFreePages`, which the test casts to `TInt`. -/
def GetFreePagesLoop : Nat → DPager → Int → Option (Int × DPager)
  | 0, _, _ => none
  | fuel + 1, s, aNumPages =>
      if aNumPages > 0 ∧ toTInt s.iNumberOfFreePages ≥ aNumPages then
        match ReturnPageToSystem fuel s with
        | none => none
        | some s1 => GetFreePagesLoop fuel s1 (aNumPages - 1)
      else some (aNumPages, s)

/-- The operation `DPager::GetFreePages`; the flag is `!aNumPages`. -/
def GetFreePages (fuel : Nat) (s : DPager) (aNumPages : Int) : Option (Bool × DPager) :=
  match GetFreePagesLoop fuel s aNumPages with
  | none => none
  | some (n, s1) => some (decide (n = 0), s1)

/-- One iteration of the loop of `DPager::DonatePages` for the array entry `pagePhys`: the
frame, and whether `RPageArray::State(pagePhys)` is `ECommitted`. `TheMmu.ChangePageType`
changes the accounting of the RAM allocator and leaves the pager alone. In the release build
the cases `EPagedPinned` and `default` are a `continue`. -/
def DonatePage (fuel : Nat) (s : DPager) (pagePhys : Nat × Bool) : Option DPager :=
  if !pagePhys.2 then some s
  else
    match (s.pageInfo pagePhys.1).iPagedState with
    | TPagedState.EUnpaged =>
        let s1 := s.AddAsYoungestPage pagePhys.1
        let s2 := { s1 with iNumberOfFreePages := s1.iNumberOfFreePages + 1 }
        match RemoveExcessPages fuel s2 with
        | none => none
        | some s3 => some s3.BalanceAges
    | _ => some s

/-- The operation `DPager::DonatePages` on the array `aPages`. -/
def DonatePages (fuel : Nat) : DPager → List (Nat × Bool) → Option DPager
  | s, [] => some s
  | s, pagePhys :: rest =>
      match DonatePage fuel s pagePhys with
      | none => none
      | some s1 => DonatePages fuel s1 rest

/-- The loop of `DPager::ReclaimPages` over the rest of the array `aPages`, with the current
value of `r`. A retry after `TryGrowLiveList` (`--aPages; continue`) keeps the entry. In the
release build the cases `EPagedPinned` and `default` leave the `switch` like the sublist
states. -/
def ReclaimPagesLoop : Nat → DPager → Int → List (Nat × Bool) → Option (Int × DPager)
  | 0, _, _, _ => none
  | _ + 1, s, r, [] => some (r, s)
  | fuel + 1, s, r, pagePhys :: rest =>
      if !pagePhys.2 then ReclaimPagesLoop fuel s KErrNotFound rest
      else if (s.pageInfo pagePhys.1).iPagedState = TPagedState.EUnpaged then
        ReclaimPagesLoop fuel s r rest
      else if s.iNumberOfFreePages < 1 then
        if s.TryGrowLiveList.1 then
          ReclaimPagesLoop fuel s.TryGrowLiveList.2 r (pagePhys :: rest)
        else some (KErrNoMemory, s.TryGrowLiveList.2)
      else
        let s1 := { s with iNumberOfFreePages := sub32 s.iNumberOfFreePages 1 }
        ReclaimPagesLoop fuel (s1.RemovePage pagePhys.1).BalanceAges r rest

/-- The operation `DPager::ReclaimPages` on the array `aPages`: the loop, then
`RemoveExcessPages`. -/
def ReclaimPages (fuel : Nat) (s : DPager) (aPages : List (Nat × Bool)) :
    Option (Int × DPager) :=
  match ReclaimPagesLoop fuel s KErrNone aPages with
  | none => none
  | some (r, s1) =>
      match RemoveExcessPages fuel s1 with
      | none => none
      | some s2 => some (r, s2)

end DPager

/-! ## A cache on which the 32-bit product of `BalanceAges` wraps -/

namespace DPager

/-- A cache of `pages` unused frames, numbered from 0, all on the oldest-clean queue, as
`InitCache` and `ResizeLiveList` leave it when nothing has been paged in yet, with the two
ratios that `InitCache` takes from the paging configuration. -/
def exampleRatioCache (pages ratio oldestRatio : Nat) : DPager :=
  { exampleCache pages pages 0 with
    iYoungOldRatio := ratio
    iOldOldestRatio := oldestRatio }

/-- A cache of 262145 frames with `iYoungOldRatio = 16384` and `iOldOldestRatio = 1`: the
ratios pass the checks of `InitCache` from a minimum of 32770 pages on, and the size is the
one `ResizeLiveList(262145, 262145)` gives the cache, `TryGrowLiveList` adding every frame
to the oldest-clean queue. With one frame taken out, the product
`(iOldCount + oldestCount) * iYoungOldRatio` is `262144 * 16384 = 2^32`. -/
def exampleWide : DPager := exampleRatioCache 262145 16384 1

end DPager

namespace DPager

/-- The state that `PagedIn` and `Unpin` hand to `BalanceAges` when frame 262144 joins, as
the youngest page, a cache of 262144 oldest-clean frames with `iYoungOldRatio = 16384`:
one young frame and `(iOldCount + oldestCount) * iYoungOldRatio = 2^32`. -/
def exampleWrap : DPager := (exampleRatioCache 262144 16384 1).AddAsYoungestPage 262144

end DPager

namespace DPager

theorem consistent_intro {s : DPager}
    (c1 : s.iYoungCount = s.iYoungList.length)
    (c2 : s.iOldCount = s.iOldList.length)
    (c3 : s.iOldestCleanCount = s.iOldestCleanList.length)
    (c4 : s.iOldestDirtyCount = s.iOldestDirtyList.length)
    (h1 : ∀ p ∈ s.iYoungList, (s.pageInfo p).iPagedState = TPagedState.EPagedYoung)
    (h2 : ∀ p ∈ s.iOldList, (s.pageInfo p).iPagedState = TPagedState.EPagedOld)
    (h3 : ∀ p ∈ s.iOldestCleanList, (s.pageInfo p).iPagedState = TPagedState.EPagedOldestClean)
    (h4 : ∀ p ∈ s.iOldestDirtyList, (s.pageInfo p).iPagedState = TPagedState.EPagedOldestDirty)
    (n1 : s.iYoungList.Nodup) (n2 : s.iOldList.Nodup) (n3 : s.iOldestCleanList.Nodup)
    (n4 : s.iOldestDirtyList.Nodup) : s.LiveListConsistent := by
  refine ⟨c1, c2, c3, c4, h1, h2, h3, h4, ?_⟩
  simp only [List.nodup_append]
  refine ⟨⟨⟨n1, n2, ?_⟩, n3, ?_⟩, n4, ?_⟩
  · intro a ha hb
    have := h1 a ha; have := h2 a hb; simp_all
  · intro a ha hb
    rcases List.mem_append.1 ha with ha | ha
    · have := h1 a ha; have := h3 a hb; simp_all
    · have := h2 a ha; have := h3 a hb; simp_all
  · intro a ha hb
    rcases List.mem_append.1 ha with ha | ha
    · rcases List.mem_append.1 ha with ha | ha
      · have := h1 a ha; have := h4 a hb; simp_all
      · have := h2 a ha; have := h4 a hb; simp_all
    · have := h3 a ha; have := h4 a hb; simp_all

theorem consistent_nodup {s : DPager} (h : s.LiveListConsistent) :
    s.iYoungList.Nodup ∧ s.iOldList.Nodup ∧ s.iOldestCleanList.Nodup
      ∧ s.iOldestDirtyList.Nodup := by
  have hn := h.2.2.2.2.2.2.2.2
  simp only [List.nodup_append] at hn
  exact ⟨hn.1.1.1, hn.1.1.2.1, hn.1.2.1, hn.2.1⟩

end DPager

namespace DPager

theorem not_onLiveList_of_state {s : DPager} (h : s.LiveListConsistent) {p : Nat}
    (hy : (s.pageInfo p).iPagedState ≠ TPagedState.EPagedYoung)
    (ho : (s.pageInfo p).iPagedState ≠ TPagedState.EPagedOld)
    (hc : (s.pageInfo p).iPagedState ≠ TPagedState.EPagedOldestClean)
    (hd : (s.pageInfo p).iPagedState ≠ TPagedState.EPagedOldestDirty) :
    p ∉ s.iYoungList ∧ p ∉ s.iOldList ∧ p ∉ s.iOldestCleanList ∧ p ∉ s.iOldestDirtyList := by
  obtain ⟨-, -, -, -, h1, h2, h3, h4, -⟩ := h
  exact ⟨fun hm => hy (h1 p hm), fun hm => ho (h2 p hm), fun hm => hc (h3 p hm),
    fun hm => hd (h4 p hm)⟩

theorem consistent_congr {s t : DPager} (h : s.LiveListConsistent)
    (hy : t.iYoungList = s.iYoungList) (ho : t.iOldList = s.iOldList)
    (hc : t.iOldestCleanList = s.iOldestCleanList)
    (hd : t.iOldestDirtyList = s.iOldestDirtyList)
    (cy : t.iYoungCount = s.iYoungCount) (co : t.iOldCount = s.iOldCount)
    (cc : t.iOldestCleanCount = s.iOldestCleanCount)
    (cd : t.iOldestDirtyCount = s.iOldestDirtyCount)
    (hpg : ∀ q, s.OnLiveList q → (t.pageInfo q).iPagedState = (s.pageInfo q).iPagedState) :
    t.LiveListConsistent := by
  obtain ⟨c1, c2, c3, c4, h1, h2, h3, h4, hn⟩ := h
  unfold LiveListConsistent
  rw [hy, ho, hc, hd, cy, co, cc, cd]
  refine ⟨c1, c2, c3, c4, ?_, ?_, ?_, ?_, hn⟩
  · intro q hq; rw [hpg q (Or.inl hq)]; exact h1 q hq
  · intro q hq; rw [hpg q (Or.inr (Or.inl hq))]; exact h2 q hq
  · intro q hq; rw [hpg q (Or.inr (Or.inr (Or.inl hq)))]; exact h3 q hq
  · intro q hq; rw [hpg q (Or.inr (Or.inr (Or.inr hq)))]; exact h4 q hq

theorem consistent_unlink {s t : DPager} (h : s.LiveListConsistent) {p : Nat}
    (hy : t.iYoungList = s.iYoungList.erase p) (ho : t.iOldList = s.iOldList.erase p)
    (hc : t.iOldestCleanList = s.iOldestCleanList.erase p)
    (hd : t.iOldestDirtyList = s.iOldestDirtyList.erase p)
    (cy : t.iYoungCount = t.iYoungList.length) (co : t.iOldCount = t.iOldList.length)
    (cc : t.iOldestCleanCount = t.iOldestCleanList.length)
    (cd : t.iOldestDirtyCount = t.iOldestDirtyList.length)
    (hpg : ∀ q, q ≠ p → t.pageInfo q = s.pageInfo q) :
    t.LiveListConsistent ∧ ¬ t.OnLiveList p := by
  obtain ⟨n1, n2, n3, n4⟩ := consistent_nodup h
  obtain ⟨-, -, -, -, h1, h2, h3, h4, -⟩ := h
  have key : ∀ (l : List Nat), l.Nodup → ∀ q, q ∈ l.erase p → q ≠ p ∧ q ∈ l :=
    fun l hl q hq => (List.Nodup.mem_erase_iff hl).1 hq
  refine ⟨consistent_intro cy co cc cd ?_ ?_ ?_ ?_ ?_ ?_ ?_ ?_, ?_⟩
  · intro q hq; rw [hy] at hq
    obtain ⟨hne, hm⟩ := key _ n1 q hq
    rw [hpg q hne]; exact h1 q hm
  · intro q hq; rw [ho] at hq
    obtain ⟨hne, hm⟩ := key _ n2 q hq
    rw [hpg q hne]; exact h2 q hm
  · intro q hq; rw [hc] at hq
    obtain ⟨hne, hm⟩ := key _ n3 q hq
    rw [hpg q hne]; exact h3 q hm
  · intro q hq; rw [hd] at hq
    obtain ⟨hne, hm⟩ := key _ n4 q hq
    rw [hpg q hne]; exact h4 q hm
  · rw [hy]; exact n1.erase p
  · rw [ho]; exact n2.erase p
  · rw [hc]; exact n3.erase p
  · rw [hd]; exact n4.erase p
  · unfold OnLiveList
    rw [hy, ho, hc, hd]
    intro hm
    rcases hm with hm | hm | hm | hm
    · exact (key _ n1 p hm).1 rfl
    · exact (key _ n2 p hm).1 rfl
    · exact (key _ n3 p hm).1 rfl
    · exact (key _ n4 p hm).1 rfl

theorem consistent_link_young {s t : DPager} (h : s.LiveListConsistent) {p : Nat}
    (hoff : ¬ s.OnLiveList p)
    (hy : t.iYoungList.Perm (p :: s.iYoungList)) (ho : t.iOldList = s.iOldList)
    (hc : t.iOldestCleanList = s.iOldestCleanList)
    (hd : t.iOldestDirtyList = s.iOldestDirtyList)
    (cy : t.iYoungCount = t.iYoungList.length) (co : t.iOldCount = s.iOldCount)
    (cc : t.iOldestCleanCount = s.iOldestCleanCount)
    (cd : t.iOldestDirtyCount = s.iOldestDirtyCount)
    (hst : (t.pageInfo p).iPagedState = TPagedState.EPagedYoung)
    (hpg : ∀ q, q ≠ p → t.pageInfo q = s.pageInfo q) : t.LiveListConsistent := by
  obtain ⟨n1, n2, n3, n4⟩ := consistent_nodup h
  obtain ⟨-, c2, c3, c4, h1, h2, h3, h4, -⟩ := h
  have hne : ∀ q, s.OnLiveList q → q ≠ p := fun q hq e => hoff (e ▸ hq)
  refine consistent_intro cy (by rw [co, ho]; exact c2) (by rw [cc, hc]; exact c3)
    (by rw [cd, hd]; exact c4) ?_ ?_ ?_ ?_ ?_ (ho ▸ n2) (hc ▸ n3) (hd ▸ n4)
  · intro q hq
    rcases List.mem_cons.1 (hy.mem_iff.1 hq) with rfl | hm
    · exact hst
    · rw [hpg q (hne q (Or.inl hm))]; exact h1 q hm
  · intro q hq; rw [ho] at hq
    rw [hpg q (hne q (Or.inr (Or.inl hq)))]; exact h2 q hq
  · intro q hq; rw [hc] at hq
    rw [hpg q (hne q (Or.inr (Or.inr (Or.inl hq))))]; exact h3 q hq
  · intro q hq; rw [hd] at hq
    rw [hpg q (hne q (Or.inr (Or.inr (Or.inr hq))))]; exact h4 q hq
  · exact hy.nodup_iff.2 (List.nodup_cons.2 ⟨fun hm => hoff (Or.inl hm), n1⟩)

theorem consistent_link_old {s t : DPager} (h : s.LiveListConsistent) {p : Nat}
    (hoff : ¬ s.OnLiveList p)
    (hy : t.iYoungList = s.iYoungList) (ho : t.iOldList.Perm (p :: s.iOldList))
    (hc : t.iOldestCleanList = s.iOldestCleanList)
    (hd : t.iOldestDirtyList = s.iOldestDirtyList)
    (cy : t.iYoungCount = s.iYoungCount) (co : t.iOldCount = t.iOldList.length)
    (cc : t.iOldestCleanCount = s.iOldestCleanCount)
    (cd : t.iOldestDirtyCount = s.iOldestDirtyCount)
    (hst : (t.pageInfo p).iPagedState = TPagedState.EPagedOld)
    (hpg : ∀ q, q ≠ p → t.pageInfo q = s.pageInfo q) : t.LiveListConsistent := by
  obtain ⟨n1, n2, n3, n4⟩ := consistent_nodup h
  obtain ⟨c1, -, c3, c4, h1, h2, h3, h4, -⟩ := h
  have hne : ∀ q, s.OnLiveList q → q ≠ p := fun q hq e => hoff (e ▸ hq)
  refine consistent_intro (by rw [cy, hy]; exact c1) co (by rw [cc, hc]; exact c3)
    (by rw [cd, hd]; exact c4) ?_ ?_ ?_ ?_ (hy ▸ n1) ?_ (hc ▸ n3) (hd ▸ n4)
  · intro q hq; rw [hy] at hq
    rw [hpg q (hne q (Or.inl hq))]; exact h1 q hq
  · intro q hq
    rcases List.mem_cons.1 (ho.mem_iff.1 hq) with rfl | hm
    · exact hst
    · rw [hpg q (hne q (Or.inr (Or.inl hm)))]; exact h2 q hm
  · intro q hq; rw [hc] at hq
    rw [hpg q (hne q (Or.inr (Or.inr (Or.inl hq))))]; exact h3 q hq
  · intro q hq; rw [hd] at hq
    rw [hpg q (hne q (Or.inr (Or.inr (Or.inr hq))))]; exact h4 q hq
  · exact ho.nodup_iff.2 (List.nodup_cons.2 ⟨fun hm => hoff (Or.inr (Or.inl hm)), n2⟩)

theorem consistent_link_oldestClean {s t : DPager} (h : s.LiveListConsistent) {p : Nat}
    (hoff : ¬ s.OnLiveList p)
    (hy : t.iYoungList = s.iYoungList) (ho : t.iOldList = s.iOldList)
    (hc : t.iOldestCleanList.Perm (p :: s.iOldestCleanList))
    (hd : t.iOldestDirtyList = s.iOldestDirtyList)
    (cy : t.iYoungCount = s.iYoungCount) (co : t.iOldCount = s.iOldCount)
    (cc : t.iOldestCleanCount = t.iOldestCleanList.length)
    (cd : t.iOldestDirtyCount = s.iOldestDirtyCount)
    (hst : (t.pageInfo p).iPagedState = TPagedState.EPagedOldestClean)
    (hpg : ∀ q, q ≠ p → t.pageInfo q = s.pageInfo q) : t.LiveListConsistent := by
  obtain ⟨n1, n2, n3, n4⟩ := consistent_nodup h
  obtain ⟨c1, c2, -, c4, h1, h2, h3, h4, -⟩ := h
  have hne : ∀ q, s.OnLiveList q → q ≠ p := fun q hq e => hoff (e ▸ hq)
  refine consistent_intro (by rw [cy, hy]; exact c1) (by rw [co, ho]; exact c2) cc
    (by rw [cd, hd]; exact c4) ?_ ?_ ?_ ?_ (hy ▸ n1) (ho ▸ n2) ?_ (hd ▸ n4)
  · intro q hq; rw [hy] at hq
    rw [hpg q (hne q (Or.inl hq))]; exact h1 q hq
  · intro q hq; rw [ho] at hq
    rw [hpg q (hne q (Or.inr (Or.inl hq)))]; exact h2 q hq
  · intro q hq
    rcases List.mem_cons.1 (hc.mem_iff.1 hq) with rfl | hm
    · exact hst
    · rw [hpg q (hne q (Or.inr (Or.inr (Or.inl hm))))]; exact h3 q hm
  · intro q hq; rw [hd] at hq
    rw [hpg q (hne q (Or.inr (Or.inr (Or.inr hq))))]; exact h4 q hq
  · exact hc.nodup_iff.2
      (List.nodup_cons.2 ⟨fun hm => hoff (Or.inr (Or.inr (Or.inl hm))), n3⟩)

theorem consistent_link_oldestDirty {s t : DPager} (h : s.LiveListConsistent) {p : Nat}
    (hoff : ¬ s.OnLiveList p)
    (hy : t.iYoungList = s.iYoungList) (ho : t.iOldList = s.iOldList)
    (hc : t.iOldestCleanList = s.iOldestCleanList)
    (hd : t.iOldestDirtyList.Perm (p :: s.iOldestDirtyList))
    (cy : t.iYoungCount = s.iYoungCount) (co : t.iOldCount = s.iOldCount)
    (cc : t.iOldestCleanCount = s.iOldestCleanCount)
    (cd : t.iOldestDirtyCount = t.iOldestDirtyList.length)
    (hst : (t.pageInfo p).iPagedState = TPagedState.EPagedOldestDirty)
    (hpg : ∀ q, q ≠ p → t.pageInfo q = s.pageInfo q) : t.LiveListConsistent := by
  obtain ⟨n1, n2, n3, n4⟩ := consistent_nodup h
  obtain ⟨c1, c2, c3, -, h1, h2, h3, h4, -⟩ := h
  have hne : ∀ q, s.OnLiveList q → q ≠ p := fun q hq e => hoff (e ▸ hq)
  refine consistent_intro (by rw [cy, hy]; exact c1) (by rw [co, ho]; exact c2)
    (by rw [cc, hc]; exact c3) cd ?_ ?_ ?_ ?_ (hy ▸ n1) (ho ▸ n2) (hc ▸ n3) ?_
  · intro q hq; rw [hy] at hq
    rw [hpg q (hne q (Or.inl hq))]; exact h1 q hq
  · intro q hq; rw [ho] at hq
    rw [hpg q (hne q (Or.inr (Or.inl hq)))]; exact h2 q hq
  · intro q hq; rw [hc] at hq
    rw [hpg q (hne q (Or.inr (Or.inr (Or.inl hq))))]; exact h3 q hq
  · intro q hq
    rcases List.mem_cons.1 (hd.mem_iff.1 hq) with rfl | hm
    · exact hst
    · rw [hpg q (hne q (Or.inr (Or.inr (Or.inr hm))))]; exact h4 q hm
  · exact hd.nodup_iff.2
      (List.nodup_cons.2 ⟨fun hm => hoff (Or.inr (Or.inr (Or.inr hm))), n4⟩)

end DPager

namespace DPager

theorem sub32_one {n : Nat} (h : 0 < n) : sub32 n 1 = n - 1 := by
  unfold sub32; rw [if_pos (show 1 ≤ n from h)]

theorem sub32_le {a b : Nat} (h : b ≤ a) : sub32 a b = a - b := by
  unfold sub32; rw [if_pos h]

theorem mem_young_only {s : DPager} (h : s.LiveListConsistent) {p : Nat}
    (hp : p ∈ s.iYoungList) :
    p ∉ s.iOldList ∧ p ∉ s.iOldestCleanList ∧ p ∉ s.iOldestDirtyList := by
  obtain ⟨-, -, -, -, h1, h2, h3, h4, -⟩ := h
  have := h1 p hp
  exact ⟨fun hm => by simp [h2 p hm] at this, fun hm => by simp [h3 p hm] at this,
    fun hm => by simp [h4 p hm] at this⟩

theorem mem_old_only {s : DPager} (h : s.LiveListConsistent) {p : Nat}
    (hp : p ∈ s.iOldList) :
    p ∉ s.iYoungList ∧ p ∉ s.iOldestCleanList ∧ p ∉ s.iOldestDirtyList := by
  obtain ⟨-, -, -, -, h1, h2, h3, h4, -⟩ := h
  have := h2 p hp
  exact ⟨fun hm => by simp [h1 p hm] at this, fun hm => by simp [h3 p hm] at this,
    fun hm => by simp [h4 p hm] at this⟩

theorem mem_oldestClean_only {s : DPager} (h : s.LiveListConsistent) {p : Nat}
    (hp : p ∈ s.iOldestCleanList) :
    p ∉ s.iYoungList ∧ p ∉ s.iOldList ∧ p ∉ s.iOldestDirtyList := by
  obtain ⟨-, -, -, -, h1, h2, h3, h4, -⟩ := h
  have := h3 p hp
  exact ⟨fun hm => by simp [h1 p hm] at this, fun hm => by simp [h2 p hm] at this,
    fun hm => by simp [h4 p hm] at this⟩

theorem mem_oldestDirty_only {s : DPager} (h : s.LiveListConsistent) {p : Nat}
    (hp : p ∈ s.iOldestDirtyList) :
    p ∉ s.iYoungList ∧ p ∉ s.iOldList ∧ p ∉ s.iOldestCleanList := by
  obtain ⟨-, -, -, -, h1, h2, h3, h4, -⟩ := h
  have := h4 p hp
  exact ⟨fun hm => by simp [h1 p hm] at this, fun hm => by simp [h2 p hm] at this,
    fun hm => by simp [h3 p hm] at this⟩

/-- A frame that is linked and whose state names a queue is on that queue. -/
theorem mem_of_state {s : DPager} (h : s.LiveListConsistent) {p : Nat}
    (hp : s.OnLiveList p) :
    ((s.pageInfo p).iPagedState = TPagedState.EPagedYoung → p ∈ s.iYoungList) ∧
    ((s.pageInfo p).iPagedState = TPagedState.EPagedOld → p ∈ s.iOldList) ∧
    ((s.pageInfo p).iPagedState = TPagedState.EPagedOldestClean → p ∈ s.iOldestCleanList) ∧
    ((s.pageInfo p).iPagedState = TPagedState.EPagedOldestDirty → p ∈ s.iOldestDirtyList) := by
  obtain ⟨-, -, -, -, h1, h2, h3, h4, -⟩ := h
  rcases hp with hp | hp | hp | hp
  · have := h1 p hp; simp [this, hp]
  · have := h2 p hp; simp [this, hp]
  · have := h3 p hp; simp [this, hp]
  · have := h4 p hp; simp [this, hp]

theorem length_erase_mem {l : List Nat} {p : Nat} (hp : p ∈ l) :
    sub32 l.length 1 = (l.erase p).length := by
  rw [sub32_one (List.length_pos_of_mem hp), List.length_erase_of_mem hp]

theorem consistent_deque_young {s : DPager} (h : s.LiveListConsistent) {p : Nat}
    (hp : p ∈ s.iYoungList) :
    LiveListConsistent { s.Deque p with iYoungCount := sub32 s.iYoungCount 1 } ∧
      ¬ OnLiveList { s.Deque p with iYoungCount := sub32 s.iYoungCount 1 } p := by
  obtain ⟨m2, m3, m4⟩ := mem_young_only h hp
  have hc := h
  obtain ⟨c1, c2, c3, c4, -⟩ := hc
  refine consistent_unlink h rfl rfl rfl rfl ?_ ?_ ?_ ?_ (fun _ _ => rfl)
  · show sub32 s.iYoungCount 1 = (s.iYoungList.erase p).length
    rw [c1]; exact length_erase_mem hp
  · show s.iOldCount = (s.iOldList.erase p).length
    rw [List.erase_of_not_mem m2]; exact c2
  · show s.iOldestCleanCount = (s.iOldestCleanList.erase p).length
    rw [List.erase_of_not_mem m3]; exact c3
  · show s.iOldestDirtyCount = (s.iOldestDirtyList.erase p).length
    rw [List.erase_of_not_mem m4]; exact c4

theorem consistent_deque_old {s : DPager} (h : s.LiveListConsistent) {p : Nat}
    (hp : p ∈ s.iOldList) :
    LiveListConsistent { s.Deque p with iOldCount := sub32 s.iOldCount 1 } ∧
      ¬ OnLiveList { s.Deque p with iOldCount := sub32 s.iOldCount 1 } p := by
  obtain ⟨m1, m3, m4⟩ := mem_old_only h hp
  have hc := h
  obtain ⟨c1, c2, c3, c4, -⟩ := hc
  refine consistent_unlink h rfl rfl rfl rfl ?_ ?_ ?_ ?_ (fun _ _ => rfl)
  · show s.iYoungCount = (s.iYoungList.erase p).length
    rw [List.erase_of_not_mem m1]; exact c1
  · show sub32 s.iOldCount 1 = (s.iOldList.erase p).length
    rw [c2]; exact length_erase_mem hp
  · show s.iOldestCleanCount = (s.iOldestCleanList.erase p).length
    rw [List.erase_of_not_mem m3]; exact c3
  · show s.iOldestDirtyCount = (s.iOldestDirtyList.erase p).length
    rw [List.erase_of_not_mem m4]; exact c4

theorem consistent_deque_oldestClean {s : DPager} (h : s.LiveListConsistent) {p : Nat}
    (hp : p ∈ s.iOldestCleanList) :
    LiveListConsistent { s.Deque p with iOldestCleanCount := sub32 s.iOldestCleanCount 1 } ∧
      ¬ OnLiveList { s.Deque p with iOldestCleanCount := sub32 s.iOldestCleanCount 1 } p := by
  obtain ⟨m1, m2, m4⟩ := mem_oldestClean_only h hp
  have hc := h
  obtain ⟨c1, c2, c3, c4, -⟩ := hc
  refine consistent_unlink h rfl rfl rfl rfl ?_ ?_ ?_ ?_ (fun _ _ => rfl)
  · show s.iYoungCount = (s.iYoungList.erase p).length
    rw [List.erase_of_not_mem m1]; exact c1
  · show s.iOldCount = (s.iOldList.erase p).length
    rw [List.erase_of_not_mem m2]; exact c2
  · show sub32 s.iOldestCleanCount 1 = (s.iOldestCleanList.erase p).length
    rw [c3]; exact length_erase_mem hp
  · show s.iOldestDirtyCount = (s.iOldestDirtyList.erase p).length
    rw [List.erase_of_not_mem m4]; exact c4

theorem consistent_deque_oldestDirty {s : DPager} (h : s.LiveListConsistent) {p : Nat}
    (hp : p ∈ s.iOldestDirtyList) :
    LiveListConsistent { s.Deque p with iOldestDirtyCount := sub32 s.iOldestDirtyCount 1 } ∧
      ¬ OnLiveList { s.Deque p with iOldestDirtyCount := sub32 s.iOldestDirtyCount 1 } p := by
  obtain ⟨m1, m2, m3⟩ := mem_oldestDirty_only h hp
  have hc := h
  obtain ⟨c1, c2, c3, c4, -⟩ := hc
  refine consistent_unlink h rfl rfl rfl rfl ?_ ?_ ?_ ?_ (fun _ _ => rfl)
  · show s.iYoungCount = (s.iYoungList.erase p).length
    rw [List.erase_of_not_mem m1]; exact c1
  · show s.iOldCount = (s.iOldList.erase p).length
    rw [List.erase_of_not_mem m2]; exact c2
  · show s.iOldestCleanCount = (s.iOldestCleanList.erase p).length
    rw [List.erase_of_not_mem m3]; exact c3
  · show sub32 s.iOldestDirtyCount 1 = (s.iOldestDirtyList.erase p).length
    rw [c4]; exact length_erase_mem hp

/-- Rewriting the descriptor of a frame that is on no queue keeps the live list consistent. -/
theorem consistent_setPage_off {s : DPager} (h : s.LiveListConsistent) {p : Nat}
    (hoff : ¬ s.OnLiveList p) (f : SPageInfo → SPageInfo) :
    (s.setPage p f).LiveListConsistent ∧ ¬ (s.setPage p f).OnLiveList p := by
  refine ⟨consistent_congr h rfl rfl rfl rfl rfl rfl rfl rfl ?_, hoff⟩
  intro q hq
  have : q ≠ p := fun e => hoff (e ▸ hq)
  simp [setPage, this]

/-- Rewriting a descriptor without touching its paged state keeps the live list consistent. -/
theorem consistent_setPage_same {s : DPager} (h : s.LiveListConsistent) (p : Nat)
    (f : SPageInfo → SPageInfo) (hf : ∀ i, (f i).iPagedState = i.iPagedState) :
    (s.setPage p f).LiveListConsistent := by
  refine consistent_congr h rfl rfl rfl rfl rfl rfl rfl rfl ?_
  intro q _
  by_cases e : q = p
  · simp [setPage, e, hf]
  · simp [setPage, e]

theorem consistent_AddAsYoungestPage {s : DPager} (h : s.LiveListConsistent) {p : Nat}
    (hoff : ¬ s.OnLiveList p) : (s.AddAsYoungestPage p).LiveListConsistent := by
  refine consistent_link_young h hoff (List.Perm.refl _) rfl rfl rfl ?_ rfl rfl rfl ?_ ?_
  · show s.iYoungCount + 1 = (p :: s.iYoungList).length
    rw [h.1]; rfl
  · simp [AddAsYoungestPage, SetPagedState, setPage, SPageInfo.SetPagedState]
  · intro q hq
    simp [AddAsYoungestPage, SetPagedState, setPage, hq]

theorem consistent_AddAsFreePage {s : DPager} (h : s.LiveListConsistent) {p : Nat}
    (hoff : ¬ s.OnLiveList p) : (s.AddAsFreePage p).LiveListConsistent := by
  refine consistent_link_oldestClean h hoff rfl rfl ?_ rfl rfl rfl ?_ rfl ?_ ?_
  · show (s.iOldestCleanList ++ [p]).Perm (p :: s.iOldestCleanList)
    exact List.perm_append_singleton p _
  · show s.iOldestCleanCount + 1 = (s.iOldestCleanList ++ [p]).length
    rw [h.2.2.1]; simp
  · simp [AddAsFreePage, MmuPageFreed, SetPagedState, setPage, SPageInfo.SetPagedState]
  · intro q hq
    simp [AddAsFreePage, MmuPageFreed, SetPagedState, setPage, hq]

end DPager

namespace DPager

theorem consistent_RemovePage {s : DPager} (h : s.LiveListConsistent) {p : Nat}
    (hl : s.Linked p) :
    (s.RemovePage p).LiveListConsistent ∧
      (IsSublistState (s.pageInfo p).iPagedState = true → ¬ (s.RemovePage p).OnLiveList p) := by
  unfold Linked at hl
  rcases hst : (s.pageInfo p).iPagedState
  all_goals simp only [RemovePage, hst, IsSublistState, true_implies] at hl ⊢
  · exact ⟨h, by simp⟩
  · have hp := (mem_of_state h hl).1 hst
    have := consistent_setPage_off (consistent_deque_young h hp).1 (consistent_deque_young h hp).2
      (fun i => i.SetPagedState TPagedState.EUnpaged)
    exact this
  · have hp := (mem_of_state h hl).2.1 hst
    have := consistent_setPage_off (consistent_deque_old h hp).1 (consistent_deque_old h hp).2
      (fun i => i.SetPagedState TPagedState.EUnpaged)
    exact this
  · exact ⟨h, by simp⟩
  · have hp := (mem_of_state h hl).2.2.1 hst
    have := consistent_setPage_off (consistent_deque_oldestClean h hp).1
      (consistent_deque_oldestClean h hp).2 (fun i => i.SetPagedState TPagedState.EUnpaged)
    exact this
  · have hp := (mem_of_state h hl).2.2.2 hst
    have := consistent_setPage_off (consistent_deque_oldestDirty h hp).1
      (consistent_deque_oldestDirty h hp).2 (fun i => i.SetPagedState TPagedState.EUnpaged)
    exact this
  · exact ⟨h, by simp⟩

theorem PageFreedTail_fields (s : DPager) (p : Nat) :
    (s.PageFreedTail p).1 = KErrNone ∧
    (s.PageFreedTail p).2.iYoungList = s.iYoungList ∧
    (s.PageFreedTail p).2.iOldList = s.iOldList ∧
    (s.PageFreedTail p).2.iOldestCleanList = s.iOldestCleanList ++ [p] ∧
    (s.PageFreedTail p).2.iOldestDirtyList = s.iOldestDirtyList ∧
    (s.PageFreedTail p).2.iYoungCount = s.iYoungCount ∧
    (s.PageFreedTail p).2.iOldCount = s.iOldCount ∧
    (s.PageFreedTail p).2.iOldestCleanCount = s.iOldestCleanCount + 1 ∧
    (s.PageFreedTail p).2.iOldestDirtyCount = s.iOldestDirtyCount ∧
    ((s.PageFreedTail p).2.pageInfo p).iPagedState = TPagedState.EPagedOldestClean ∧
    ((s.PageFreedTail p).2.pageInfo p).iDirty = false ∧
    (∀ q, q ≠ p → (s.PageFreedTail p).2.pageInfo q = s.pageInfo q) := by
  by_cases hd : (s.pageInfo p).iDirty = true
  · simp [PageFreedTail, SetClean, SetPagedState, setPage, SPageInfo.IsDirty,
      SPageInfo.SetReadOnly, SPageInfo.SetClean, SPageInfo.SetPagedState, hd]
    intro q hq; simp [hq]
  · simp [PageFreedTail, SetClean, SetPagedState, setPage, SPageInfo.IsDirty,
      SPageInfo.SetReadOnly, SPageInfo.SetClean, SPageInfo.SetPagedState, hd]
    intro q hq hq2; exact absurd hq2 hq

theorem consistent_PageFreedTail {s : DPager} (h : s.LiveListConsistent) {p : Nat}
    (hoff : ¬ s.OnLiveList p) : (s.PageFreedTail p).2.LiveListConsistent := by
  obtain ⟨-, f1, f2, f3, f4, g1, g2, g3, g4, hs, -, hq⟩ := PageFreedTail_fields s p
  refine consistent_link_oldestClean h hoff f1 f2 ?_ f4 g1 g2 ?_ g4 hs hq
  · rw [f3]; exact List.perm_append_singleton p _
  · rw [g3, f3, h.2.2.1]; simp

theorem consistent_PageFreed {s : DPager} (h : s.LiveListConsistent) {p : Nat}
    (hl : s.Linked p) : (s.PageFreed p).2.LiveListConsistent := by
  unfold Linked at hl
  rcases hst : (s.pageInfo p).iPagedState
  all_goals simp only [PageFreed, hst, IsSublistState, true_implies] at hl ⊢
  · exact h
  · have hp := (mem_of_state h hl).1 hst
    exact consistent_PageFreedTail (consistent_deque_young h hp).1 (consistent_deque_young h hp).2
  · have hp := (mem_of_state h hl).2.1 hst
    exact consistent_PageFreedTail (consistent_deque_old h hp).1 (consistent_deque_old h hp).2
  · exact h
  · have hp := (mem_of_state h hl).2.2.1 hst
    exact consistent_PageFreedTail (consistent_deque_oldestClean h hp).1
      (consistent_deque_oldestClean h hp).2
  · have hp := (mem_of_state h hl).2.2.2 hst
    exact consistent_PageFreedTail (consistent_deque_oldestDirty h hp).1
      (consistent_deque_oldestDirty h hp).2
  · refine (consistent_setPage_off h ?_ _).1
    intro hon
    obtain ⟨-, -, -, -, h1, h2, h3, h4, -⟩ := h
    rcases hon with hm | hm | hm | hm
    · have := h1 p hm; simp [hst] at this
    · have := h2 p hm; simp [hst] at this
    · have := h3 p hm; simp [hst] at this
    · have := h4 p hm; simp [hst] at this

end DPager

namespace DPager

theorem splice_of_not_mem {q : List Nat} {old : Nat} (new : Nat) (h : old ∉ q) :
    spliceQueue q old new = q := by
  unfold spliceQueue
  conv_rhs => rw [← List.map_id q]
  apply List.map_congr_left
  intro x hx
  have : x ≠ old := fun e => h (e ▸ hx)
  simp [this]

theorem mem_splice {q : List Nat} {old new x : Nat} (h : x ∈ spliceQueue q old new) :
    (x = new ∧ old ∈ q) ∨ (x ∈ q ∧ x ≠ old) := by
  unfold spliceQueue at h
  obtain ⟨y, hy, rfl⟩ := List.mem_map.1 h
  by_cases e : y = old
  · left; subst e; simp; exact hy
  · right; simp [e]; exact hy

theorem nodup_splice {q : List Nat} {old new : Nat} (hq : q.Nodup) (hn : new ∉ q) :
    (spliceQueue q old new).Nodup := by
  unfold spliceQueue
  apply List.Nodup.map_on _ hq
  intro x hx y hy hxy
  by_cases ex : x = old <;> by_cases ey : y = old
  · rw [ex, ey]
  · simp [ex, ey] at hxy; exact absurd (hxy ▸ hy) hn
  · simp [ex, ey] at hxy; exact absurd (hxy ▸ hx) hn
  · simpa [ex, ey] using hxy

theorem consistent_splice {s : DPager} (h : s.LiveListConsistent) {old new : Nat}
    (hst : s.OnLiveList old → (s.pageInfo new).iPagedState = (s.pageInfo old).iPagedState)
    (hoff : ¬ s.OnLiveList new) (st : TPagedState) :
    LiveListConsistent (SetPagedState
      { s with
        iYoungList := spliceQueue s.iYoungList old new
        iOldList := spliceQueue s.iOldList old new
        iOldestCleanList := spliceQueue s.iOldestCleanList old new
        iOldestDirtyList := spliceQueue s.iOldestDirtyList old new } old st) := by
  obtain ⟨n1, n2, n3, n4⟩ := consistent_nodup h
  obtain ⟨c1, c2, c3, c4, h1, h2, h3, h4, -⟩ := h
  have hne : ∀ q, s.OnLiveList q → new ≠ q := fun q hq e => hoff (e ▸ hq)
  have pg : ∀ q, q ≠ old →
      ((SetPagedState
        { s with
          iYoungList := spliceQueue s.iYoungList old new
          iOldList := spliceQueue s.iOldList old new
          iOldestCleanList := spliceQueue s.iOldestCleanList old new
          iOldestDirtyList := spliceQueue s.iOldestDirtyList old new } old st).pageInfo q)
        = s.pageInfo q := by
    intro q hq; simp [SetPagedState, setPage, hq]
  apply consistent_intro
  · show s.iYoungCount = (spliceQueue s.iYoungList old new).length
    rw [c1]; simp [spliceQueue]
  · show s.iOldCount = (spliceQueue s.iOldList old new).length
    rw [c2]; simp [spliceQueue]
  · show s.iOldestCleanCount = (spliceQueue s.iOldestCleanList old new).length
    rw [c3]; simp [spliceQueue]
  · show s.iOldestDirtyCount = (spliceQueue s.iOldestDirtyList old new).length
    rw [c4]; simp [spliceQueue]
  · intro q hq
    rcases mem_splice (show q ∈ spliceQueue s.iYoungList old new from hq) with ⟨rfl, ho⟩ | ⟨hm, hne2⟩
    · rw [pg _ (hne old (Or.inl ho)), hst (Or.inl ho)]; exact h1 old ho
    · rw [pg _ hne2]; exact h1 q hm
  · intro q hq
    rcases mem_splice (show q ∈ spliceQueue s.iOldList old new from hq) with ⟨rfl, ho⟩ | ⟨hm, hne2⟩
    · rw [pg _ (hne old (Or.inr (Or.inl ho))), hst (Or.inr (Or.inl ho))]; exact h2 old ho
    · rw [pg _ hne2]; exact h2 q hm
  · intro q hq
    rcases mem_splice (show q ∈ spliceQueue s.iOldestCleanList old new from hq)
      with ⟨rfl, ho⟩ | ⟨hm, hne2⟩
    · rw [pg _ (hne old (Or.inr (Or.inr (Or.inl ho)))), hst (Or.inr (Or.inr (Or.inl ho)))]
      exact h3 old ho
    · rw [pg _ hne2]; exact h3 q hm
  · intro q hq
    rcases mem_splice (show q ∈ spliceQueue s.iOldestDirtyList old new from hq)
      with ⟨rfl, ho⟩ | ⟨hm, hne2⟩
    · rw [pg _ (hne old (Or.inr (Or.inr (Or.inr ho)))), hst (Or.inr (Or.inr (Or.inr ho)))]
      exact h4 old ho
    · rw [pg _ hne2]; exact h4 q hm
  · exact nodup_splice n1 (fun hm => hoff (Or.inl hm))
  · exact nodup_splice n2 (fun hm => hoff (Or.inr (Or.inl hm)))
  · exact nodup_splice n3 (fun hm => hoff (Or.inr (Or.inr (Or.inl hm))))
  · exact nodup_splice n4 (fun hm => hoff (Or.inr (Or.inr (Or.inr hm))))

theorem not_onLiveList_of_not_sublist {s : DPager} (h : s.LiveListConsistent) {p : Nat}
    (hst : IsSublistState (s.pageInfo p).iPagedState = false) : ¬ s.OnLiveList p := by
  obtain ⟨-, -, -, -, h1, h2, h3, h4, -⟩ := h
  intro hon
  rcases hon with hm | hm | hm | hm
  · rw [h1 p hm] at hst; simp [IsSublistState] at hst
  · rw [h2 p hm] at hst; simp [IsSublistState] at hst
  · rw [h3 p hm] at hst; simp [IsSublistState] at hst
  · rw [h4 p hm] at hst; simp [IsSublistState] at hst

theorem consistent_ReplacePage {s : DPager} (h : s.LiveListConsistent) {old new : Nat}
    (hst : (s.pageInfo new).iPagedState = (s.pageInfo old).iPagedState)
    (hoff : ¬ s.OnLiveList new) : (s.ReplacePage old new).LiveListConsistent := by
  rcases hs : (s.pageInfo old).iPagedState
  all_goals simp only [ReplacePage, hs]
  · exact h
  · exact consistent_splice h (fun _ => hst) hoff _
  · exact consistent_splice h (fun _ => hst) hoff _
  · have hoff2 : ¬ s.OnLiveList old := not_onLiveList_of_not_sublist h (by rw [hs]; rfl)
    have h1 := consistent_setPage_off h hoff2 SPageInfo.ClearPinCount
    exact (consistent_setPage_off h1.1 h1.2 _).1
  · exact consistent_splice h (fun _ => hst) hoff _
  · exact consistent_splice h (fun _ => hst) hoff _
  · exact h

end DPager

namespace DPager

/-! ### `BalanceAges` -/

theorem outside_ageYoungToOld (s : DPager) (link : Nat) :
    (s.ageYoungToOld link).outside = s.outside := rfl

theorem outside_ageOldToOldest (s : DPager) (link : Nat) :
    (s.ageOldToOldest link).outside = s.outside := by
  unfold ageOldToOldest
  dsimp only
  split <;> rfl

theorem outside_BalanceAgesYoung (s : DPager) : s.BalanceAgesYoung.outside = s.outside := by
  unfold BalanceAgesYoung
  dsimp only
  split
  · split
    · rfl
    · exact outside_ageYoungToOld _ _
  · rfl

theorem outside_BalanceAgesOld (s : DPager) (n : Nat) :
    (s.BalanceAgesOld n).outside = s.outside := by
  unfold BalanceAgesOld
  split
  · split
    · rfl
    · exact outside_ageOldToOldest _ _
  · rfl

theorem outside_BalanceAges (s : DPager) : s.BalanceAges.outside = s.outside := by
  unfold BalanceAges
  exact (outside_BalanceAgesOld _ _).trans (outside_BalanceAgesYoung s)

theorem consistent_ageYoungToOld {s : DPager} (h : s.LiveListConsistent) {link : Nat}
    (hm : link ∈ s.iYoungList) : (s.ageYoungToOld link).LiveListConsistent := by
  obtain ⟨h1, hoff⟩ := consistent_deque_young h hm
  refine consistent_link_old h1 hoff rfl (List.Perm.refl _) rfl rfl rfl ?_ rfl rfl ?_ ?_
  · have e : s.iOldCount = (s.iOldList.erase link).length := h1.2.1
    show s.iOldCount + 1 = (s.iOldList.erase link).length + 1
    rw [e]
  · simp [ageYoungToOld, SetPagedState, setPage, SPageInfo.SetPagedState]
  · intro q hq; simp [ageYoungToOld, SetPagedState, setPage, hq]

theorem consistent_ageOldToOldest {s : DPager} (h : s.LiveListConsistent) {link : Nat}
    (hm : link ∈ s.iOldList) : (s.ageOldToOldest link).LiveListConsistent := by
  obtain ⟨h1, hoff⟩ := consistent_deque_old h hm
  unfold ageOldToOldest
  dsimp only
  split
  · refine consistent_link_oldestDirty h1 hoff rfl rfl rfl (List.Perm.refl _) rfl rfl rfl ?_ ?_ ?_
    · have e : s.iOldestDirtyCount = (s.iOldestDirtyList.erase link).length := h1.2.2.2.1
      show s.iOldestDirtyCount + 1 = (s.iOldestDirtyList.erase link).length + 1
      rw [e]
    · simp [SetPagedState, setPage, SPageInfo.SetPagedState]
    · intro q hq; simp [SetPagedState, setPage, hq]
  · refine consistent_link_oldestClean h1 hoff rfl rfl (List.Perm.refl _) rfl rfl rfl ?_ rfl ?_ ?_
    · have e : s.iOldestCleanCount = (s.iOldestCleanList.erase link).length := h1.2.2.1
      show s.iOldestCleanCount + 1 = (s.iOldestCleanList.erase link).length + 1
      rw [e]
    · simp [SetPagedState, setPage, SPageInfo.SetPagedState]
    · intro q hq; simp [SetPagedState, setPage, hq]

theorem consistent_BalanceAgesYoung {s : DPager} (h : s.LiveListConsistent) :
    s.BalanceAgesYoung.LiveListConsistent := by
  unfold BalanceAgesYoung
  dsimp only
  split
  · split
    · exact h
    · next link hl => exact consistent_ageYoungToOld h (List.mem_of_getLast?_eq_some hl)
  · exact h

theorem consistent_BalanceAgesOld {s : DPager} (h : s.LiveListConsistent) (n : Nat) :
    (s.BalanceAgesOld n).LiveListConsistent := by
  unfold BalanceAgesOld
  split
  · split
    · exact h
    · next link hl => exact consistent_ageOldToOldest h (List.mem_of_getLast?_eq_some hl)
  · exact h

theorem consistent_BalanceAges {s : DPager} (h : s.LiveListConsistent) :
    s.BalanceAges.LiveListConsistent := by
  unfold BalanceAges
  exact consistent_BalanceAgesOld (consistent_BalanceAgesYoung h) _

end DPager

namespace DPager

theorem mem_erase_iff_of_ne {l : List Nat} {q p : Nat} (h : q ≠ p) :
    q ∈ l.erase p ↔ q ∈ l := List.mem_erase_of_ne h

theorem onLiveList_ageYoungToOld {s : DPager} {link : Nat} (hm : link ∈ s.iYoungList)
    (q : Nat) : (s.ageYoungToOld link).OnLiveList q ↔ s.OnLiveList q := by
  show (q ∈ s.iYoungList.erase link ∨ q ∈ link :: s.iOldList.erase link
    ∨ q ∈ s.iOldestCleanList.erase link ∨ q ∈ s.iOldestDirtyList.erase link) ↔ _
  unfold OnLiveList
  by_cases e : q = link
  · subst e; simp [hm]
  · simp [e, mem_erase_iff_of_ne e]

theorem onLiveList_ageOldToOldest {s : DPager} {link : Nat} (hm : link ∈ s.iOldList)
    (q : Nat) : (s.ageOldToOldest link).OnLiveList q ↔ s.OnLiveList q := by
  unfold ageOldToOldest
  dsimp only
  split
  · show (q ∈ s.iYoungList.erase link ∨ q ∈ s.iOldList.erase link
      ∨ q ∈ s.iOldestCleanList.erase link ∨ q ∈ link :: s.iOldestDirtyList.erase link) ↔ _
    unfold OnLiveList
    by_cases e : q = link
    · subst e; simp [hm]
    · simp [e, mem_erase_iff_of_ne e]
  · show (q ∈ s.iYoungList.erase link ∨ q ∈ s.iOldList.erase link
      ∨ q ∈ link :: s.iOldestCleanList.erase link ∨ q ∈ s.iOldestDirtyList.erase link) ↔ _
    unfold OnLiveList
    by_cases e : q = link
    · subst e; simp [hm]
    · simp [e, mem_erase_iff_of_ne e]

theorem onLiveList_BalanceAges (s : DPager) (q : Nat) :
    s.BalanceAges.OnLiveList q ↔ s.OnLiveList q := by
  have h1 : s.BalanceAgesYoung.OnLiveList q ↔ s.OnLiveList q := by
    unfold BalanceAgesYoung
    dsimp only
    split
    · split
      · rfl
      · next link hl => exact onLiveList_ageYoungToOld (List.mem_of_getLast?_eq_some hl) q
    · rfl
  have h2 : ∀ (t : DPager) (n : Nat), (t.BalanceAgesOld n).OnLiveList q ↔ t.OnLiveList q := by
    intro t n
    unfold BalanceAgesOld
    split
    · split
      · rfl
      · next link hl => exact onLiveList_ageOldToOldest (List.mem_of_getLast?_eq_some hl) q
    · rfl
  unfold BalanceAges
  exact (h2 _ _).trans h1

theorem liveListSize_eq_counts {s : DPager} (h : s.LiveListConsistent) :
    s.liveListSize = s.iYoungCount + s.iOldCount + s.iOldestCleanCount + s.iOldestDirtyCount := by
  obtain ⟨c1, c2, c3, c4, -⟩ := h
  unfold liveListSize; rw [c1, c2, c3, c4]

theorem liveListSize_BalanceAges {s : DPager} (h : s.LiveListConsistent) :
    s.BalanceAges.liveListSize = s.liveListSize := by
  have hy : s.BalanceAgesYoung.liveListSize = s.liveListSize := by
    unfold BalanceAgesYoung
    dsimp only
    split
    · split
      · rfl
      · next link hl =>
        have hm := List.mem_of_getLast?_eq_some hl
        obtain ⟨m2, m3, m4⟩ := mem_young_only h hm
        show (s.iYoungList.erase link).length + (link :: s.iOldList.erase link).length
          + (s.iOldestCleanList.erase link).length + (s.iOldestDirtyList.erase link).length = _
        rw [List.erase_of_not_mem m2, List.erase_of_not_mem m3, List.erase_of_not_mem m4,
          List.length_erase_of_mem hm]
        have := List.length_pos_of_mem hm
        simp only [liveListSize, List.length_cons]; omega
    · rfl
  have ho : ∀ (t : DPager) (n : Nat), t.LiveListConsistent →
      (t.BalanceAgesOld n).liveListSize = t.liveListSize := by
    intro t n ht
    unfold BalanceAgesOld
    split
    · split
      · rfl
      · next link hl =>
        have hm := List.mem_of_getLast?_eq_some hl
        obtain ⟨m1, m3, m4⟩ := mem_old_only ht hm
        have := List.length_pos_of_mem hm
        unfold ageOldToOldest
        dsimp only
        split
        · show (t.iYoungList.erase link).length + (t.iOldList.erase link).length
            + (t.iOldestCleanList.erase link).length
            + (link :: t.iOldestDirtyList.erase link).length = _
          rw [List.erase_of_not_mem m1, List.erase_of_not_mem m3, List.erase_of_not_mem m4,
            List.length_erase_of_mem hm]
          simp only [liveListSize, List.length_cons]; omega
        · show (t.iYoungList.erase link).length + (t.iOldList.erase link).length
            + (link :: t.iOldestCleanList.erase link).length
            + (t.iOldestDirtyList.erase link).length = _
          rw [List.erase_of_not_mem m1, List.erase_of_not_mem m3, List.erase_of_not_mem m4,
            List.length_erase_of_mem hm]
          simp only [liveListSize, List.length_cons]; omega
    · rfl
  unfold BalanceAges
  rw [ho _ _ (consistent_BalanceAgesYoung h), hy]

end DPager

namespace DPager

/-! ### `Pin` and `Unpin` -/

theorem pinAccount_spec {s : DPager} (h : s.LiveListConsistent) {p : Nat}
    (hoff : ¬ s.OnLiveList p) (args : TPinArgs) :
    (s.PinAccount p args).1.LiveListConsistent ∧ ¬ (s.PinAccount p args).1.OnLiveList p ∧
      ((s.PinAccount p args).1.pageInfo p).iPagedState = TPagedState.EPagedPinned ∧
      ((s.PinAccount p args).1.pageInfo p).iPinCount = (s.pageInfo p).iPinCount ∧
      (s.PinAccount p args).1.iYoungList = s.iYoungList ∧
      (s.PinAccount p args).1.iOldList = s.iOldList ∧
      (s.PinAccount p args).1.iOldestCleanList = s.iOldestCleanList ∧
      (s.PinAccount p args).1.iOldestDirtyList = s.iOldestDirtyList ∧
      (s.PinAccount p args).1.iYoungCount = s.iYoungCount ∧
      (s.PinAccount p args).1.iOldCount = s.iOldCount ∧
      (s.PinAccount p args).1.iOldestCleanCount = s.iOldestCleanCount ∧
      (s.PinAccount p args).1.iOldestDirtyCount = s.iOldestDirtyCount := by
  have e1 := consistent_setPage_off h hoff (fun i => i.SetPagedState TPagedState.EPagedPinned)
  have e2 := consistent_setPage_off e1.1 e1.2 SPageInfo.SetPinnedReserve
  unfold PinAccount
  dsimp only
  split
  · refine ⟨e2.1, e2.2, ?_, ?_, rfl, rfl, rfl, rfl, rfl, rfl, rfl, rfl⟩
    · simp [SetPagedState, setPage, SPageInfo.SetPagedState, SPageInfo.SetPinnedReserve]
    · simp [SetPagedState, setPage, SPageInfo.SetPagedState, SPageInfo.SetPinnedReserve]
  · refine ⟨e1.1, e1.2, ?_, ?_, rfl, rfl, rfl, rfl, rfl, rfl, rfl, rfl⟩
    · simp [SetPagedState, setPage, SPageInfo.SetPagedState]
    · simp [SetPagedState, setPage, SPageInfo.SetPagedState]

theorem incPin_state (s : DPager) (p : Nat) :
    ((s.setPage p SPageInfo.IncPinCount).pageInfo p).iPagedState
      = (s.pageInfo p).iPagedState := by
  simp [setPage, SPageInfo.IncPinCount]

theorem incPin_count (s : DPager) (p : Nat) :
    ((s.setPage p SPageInfo.IncPinCount).pageInfo p).iPinCount
      = (s.pageInfo p).iPinCount + 1 := by
  simp [setPage, SPageInfo.IncPinCount]

/-- What the part of `Pin` before `BalanceAges` does to a frame that is on the live list. -/
theorem pinBeforeBalance_linked {s : DPager} (h : s.LiveListConsistent) {p : Nat}
    (hon : s.OnLiveList p) (args : TPinArgs) :
    ∃ s1 args1, s.PinBeforeBalance p args = some (s1, args1) ∧
      s1.LiveListConsistent ∧ ¬ s1.OnLiveList p ∧
      (s1.pageInfo p).iPagedState = TPagedState.EPagedPinned ∧
      (s1.pageInfo p).iPinCount = (s.pageInfo p).iPinCount + 1 ∧
      s1.iYoungList = s.iYoungList.erase p ∧ s1.iOldList = s.iOldList.erase p ∧
      s1.iOldestCleanList = s.iOldestCleanList.erase p ∧
      s1.iOldestDirtyList = s.iOldestDirtyList.erase p ∧
      s1.iYoungCount = s.iYoungCount - (if p ∈ s.iYoungList then 1 else 0) ∧
      s1.iOldCount = s.iOldCount - (if p ∈ s.iOldList then 1 else 0) ∧
      s1.iOldestCleanCount = s.iOldestCleanCount - (if p ∈ s.iOldestCleanList then 1 else 0) ∧
      s1.iOldestDirtyCount
        = s.iOldestDirtyCount - (if p ∈ s.iOldestDirtyList then 1 else 0) := by
  have h0 := consistent_setPage_same h p SPageInfo.IncPinCount (fun _ => rfl)
  have hst0 := incPin_state s p
  have hpc := incPin_count s p
  rcases hon with hm | hm | hm | hm
  · have hst := h.2.2.2.2.1 p hm
    obtain ⟨m2, m3, m4⟩ := mem_young_only h hm
    have hd := consistent_deque_young h0 (p := p) hm
    have hpos : 0 < s.iYoungCount := by rw [h.1]; exact List.length_pos_of_mem hm
    obtain ⟨a1, a2, a3, a4, l1, l2, l3, l4, k1, k2, k3, k4⟩ := pinAccount_spec hd.1 hd.2 args
    have e : s.PinBeforeBalance p args = some (PinAccount
        { (s.setPage p SPageInfo.IncPinCount).Deque p with
          iYoungCount := sub32 (s.setPage p SPageInfo.IncPinCount).iYoungCount 1 } p args) := by
      simp only [PinBeforeBalance, hst0, hst]
    refine ⟨_, _, e, a1, a2, a3, a4.trans hpc,
      l1, l2, l3, l4, k1.trans ?_, k2.trans ?_, k3.trans ?_, k4.trans ?_⟩
    · show sub32 s.iYoungCount 1 = _
      rw [if_pos hm, sub32_one hpos]
    · show s.iOldCount = _
      rw [if_neg m2]; rfl
    · show s.iOldestCleanCount = _
      rw [if_neg m3]; rfl
    · show s.iOldestDirtyCount = _
      rw [if_neg m4]; rfl
  · have hst := h.2.2.2.2.2.1 p hm
    obtain ⟨m1, m3, m4⟩ := mem_old_only h hm
    have hd := consistent_deque_old h0 (p := p) hm
    have hpos : 0 < s.iOldCount := by rw [h.2.1]; exact List.length_pos_of_mem hm
    obtain ⟨a1, a2, a3, a4, l1, l2, l3, l4, k1, k2, k3, k4⟩ := pinAccount_spec hd.1 hd.2 args
    have e : s.PinBeforeBalance p args = some (PinAccount
        { (s.setPage p SPageInfo.IncPinCount).Deque p with
          iOldCount := sub32 (s.setPage p SPageInfo.IncPinCount).iOldCount 1 } p args) := by
      simp only [PinBeforeBalance, hst0, hst]
    refine ⟨_, _, e, a1, a2, a3, a4.trans hpc,
      l1, l2, l3, l4, k1.trans ?_, k2.trans ?_, k3.trans ?_, k4.trans ?_⟩
    · show s.iYoungCount = _
      rw [if_neg m1]; rfl
    · show sub32 s.iOldCount 1 = _
      rw [if_pos hm, sub32_one hpos]
    · show s.iOldestCleanCount = _
      rw [if_neg m3]; rfl
    · show s.iOldestDirtyCount = _
      rw [if_neg m4]; rfl
  · have hst := h.2.2.2.2.2.2.1 p hm
    obtain ⟨m1, m2, m4⟩ := mem_oldestClean_only h hm
    have hd := consistent_deque_oldestClean h0 (p := p) hm
    have hpos : 0 < s.iOldestCleanCount := by rw [h.2.2.1]; exact List.length_pos_of_mem hm
    obtain ⟨a1, a2, a3, a4, l1, l2, l3, l4, k1, k2, k3, k4⟩ := pinAccount_spec hd.1 hd.2 args
    have e : s.PinBeforeBalance p args = some (PinAccount
        { (s.setPage p SPageInfo.IncPinCount).Deque p with
          iOldestCleanCount := sub32 (s.setPage p SPageInfo.IncPinCount).iOldestCleanCount 1 } p args) := by
      simp only [PinBeforeBalance, hst0, hst]
    refine ⟨_, _, e, a1, a2, a3, a4.trans hpc,
      l1, l2, l3, l4, k1.trans ?_, k2.trans ?_, k3.trans ?_, k4.trans ?_⟩
    · show s.iYoungCount = _
      rw [if_neg m1]; rfl
    · show s.iOldCount = _
      rw [if_neg m2]; rfl
    · show sub32 s.iOldestCleanCount 1 = _
      rw [if_pos hm, sub32_one hpos]
    · show s.iOldestDirtyCount = _
      rw [if_neg m4]; rfl
  · have hst := h.2.2.2.2.2.2.2.1 p hm
    obtain ⟨m1, m2, m3⟩ := mem_oldestDirty_only h hm
    have hd := consistent_deque_oldestDirty h0 (p := p) hm
    have hpos : 0 < s.iOldestDirtyCount := by rw [h.2.2.2.1]; exact List.length_pos_of_mem hm
    obtain ⟨a1, a2, a3, a4, l1, l2, l3, l4, k1, k2, k3, k4⟩ := pinAccount_spec hd.1 hd.2 args
    have e : s.PinBeforeBalance p args = some (PinAccount
        { (s.setPage p SPageInfo.IncPinCount).Deque p with
          iOldestDirtyCount := sub32 (s.setPage p SPageInfo.IncPinCount).iOldestDirtyCount 1 } p args) := by
      simp only [PinBeforeBalance, hst0, hst]
    refine ⟨_, _, e, a1, a2, a3, a4.trans hpc,
      l1, l2, l3, l4, k1.trans ?_, k2.trans ?_, k3.trans ?_, k4.trans ?_⟩
    · show s.iYoungCount = _
      rw [if_neg m1]; rfl
    · show s.iOldCount = _
      rw [if_neg m2]; rfl
    · show s.iOldestCleanCount = _
      rw [if_neg m3]; rfl
    · show sub32 s.iOldestDirtyCount 1 = _
      rw [if_pos hm, sub32_one hpos]

theorem consistent_Pin {s : DPager} (h : s.LiveListConsistent) {p : Nat} (hl : s.Linked p)
    (args : TPinArgs) : (s.Pin p args).1.LiveListConsistent := by
  have h0 := consistent_setPage_same h p SPageInfo.IncPinCount (fun _ => rfl)
  by_cases hs : IsSublistState (s.pageInfo p).iPagedState = true
  · obtain ⟨s1, a1, e, hc, -⟩ := pinBeforeBalance_linked h (hl hs) args
    simp only [Pin, e]
    exact consistent_BalanceAges hc
  · have hoff : ¬ s.OnLiveList p := not_onLiveList_of_not_sublist h (by simpa using hs)
    have hst0 := incPin_state s p
    rcases hst : (s.pageInfo p).iPagedState
    all_goals simp only [hst, IsSublistState, not_true_eq_false] at hs
    all_goals simp only [Pin, PinBeforeBalance, hst0, hst]
    · exact consistent_BalanceAges (pinAccount_spec h0 hoff args).1
    · exact h0
    · exact h0

end DPager

namespace DPager

theorem consistent_Unpin {s : DPager} (h : s.LiveListConsistent) {p : Nat}
    (hst : (s.pageInfo p).iPagedState = TPagedState.EPagedPinned) (args : TPinArgs) :
    (s.Unpin p args).1.LiveListConsistent := by
  have hoff : ¬ s.OnLiveList p := not_onLiveList_of_not_sublist h (by rw [hst]; rfl)
  have e0 := consistent_setPage_off h hoff SPageInfo.DecPinCount
  unfold Unpin
  dsimp only
  split
  · exact e0.1
  · have e1 := consistent_setPage_off e0.1 e0.2 (fun i => i.SetPagedState TPagedState.EUnpaged)
    have e2 := consistent_setPage_off e1.1 e1.2 SPageInfo.ClearPinnedReserve
    exact consistent_BalanceAges (consistent_AddAsYoungestPage e2.1 e2.2)

/-! ### The cleaner -/

theorem SetClean_fields (s : DPager) (p : Nat) :
    (s.SetClean p).iYoungList = s.iYoungList ∧ (s.SetClean p).iOldList = s.iOldList ∧
    (s.SetClean p).iOldestCleanList = s.iOldestCleanList ∧
    (s.SetClean p).iOldestDirtyList = s.iOldestDirtyList ∧
    (s.SetClean p).iYoungCount = s.iYoungCount ∧ (s.SetClean p).iOldCount = s.iOldCount ∧
    (s.SetClean p).iOldestCleanCount = s.iOldestCleanCount ∧
    (s.SetClean p).iOldestDirtyCount = s.iOldestDirtyCount ∧
    (∀ q, ((s.SetClean p).pageInfo q).iPagedState = (s.pageInfo q).iPagedState) := by
  unfold SetClean
  split
  · refine ⟨rfl, rfl, rfl, rfl, rfl, rfl, rfl, rfl, ?_⟩
    intro q
    by_cases e : q = p
    · simp [setPage, e, SPageInfo.SetClean]
    · simp [setPage, e]
  · exact ⟨rfl, rfl, rfl, rfl, rfl, rfl, rfl, rfl, fun _ => rfl⟩

theorem cleanedByManager_fields (arr : List (Option Nat)) (s : DPager) :
    (cleanedByManager arr s).iYoungList = s.iYoungList ∧
    (cleanedByManager arr s).iOldList = s.iOldList ∧
    (cleanedByManager arr s).iOldestCleanList = s.iOldestCleanList ∧
    (cleanedByManager arr s).iOldestDirtyList = s.iOldestDirtyList ∧
    (cleanedByManager arr s).iYoungCount = s.iYoungCount ∧
    (cleanedByManager arr s).iOldCount = s.iOldCount ∧
    (cleanedByManager arr s).iOldestCleanCount = s.iOldestCleanCount ∧
    (cleanedByManager arr s).iOldestDirtyCount = s.iOldestDirtyCount ∧
    (∀ q, ((cleanedByManager arr s).pageInfo q).iPagedState = (s.pageInfo q).iPagedState) := by
  induction arr generalizing s with
  | nil => exact ⟨rfl, rfl, rfl, rfl, rfl, rfl, rfl, rfl, fun _ => rfl⟩
  | cons a rest ih =>
    cases a with
    | none => exact ih s
    | some pi =>
      obtain ⟨a1, a2, a3, a4, a5, a6, a7, a8, a9⟩ := ih (s.SetClean pi)
      obtain ⟨b1, b2, b3, b4, b5, b6, b7, b8, b9⟩ := SetClean_fields s pi
      exact ⟨a1.trans b1, a2.trans b2, a3.trans b3, a4.trans b4, a5.trans b5, a6.trans b6,
        a7.trans b7, a8.trans b8, fun q => (a9 q).trans (b9 q)⟩

theorem consistent_cleanedByManager {s : DPager} (h : s.LiveListConsistent)
    (arr : List (Option Nat)) : (cleanedByManager arr s).LiveListConsistent := by
  obtain ⟨a1, a2, a3, a4, a5, a6, a7, a8, a9⟩ := cleanedByManager_fields arr s
  exact consistent_congr h a1 a2 a3 a4 a5 a6 a7 a8 (fun q _ => a9 q)

theorem consistent_moveCleanedFrame {s : DPager} (h : s.LiveListConsistent) {pi : Nat}
    (hm : pi ∈ s.iOldestDirtyList) : (s.moveCleanedFrame pi).LiveListConsistent := by
  obtain ⟨h1, hoff⟩ := consistent_deque_oldestDirty h hm
  refine consistent_link_oldestClean h1 hoff rfl rfl (List.Perm.refl _) rfl rfl rfl ?_ rfl ?_ ?_
  · have e : s.iOldestCleanCount = (s.iOldestCleanList.erase pi).length := h1.2.2.1
    show s.iOldestCleanCount + 1 = (s.iOldestCleanList.erase pi).length + 1
    rw [e]
  · simp [moveCleanedFrame, SetPagedState, setPage, SPageInfo.SetPagedState]
  · intro q hq; simp [moveCleanedFrame, SetPagedState, setPage, hq]

theorem consistent_moveCleaned (arr : List (Option Nat)) {s : DPager}
    (h : s.LiveListConsistent) (hm : ∀ pi, some pi ∈ arr → pi ∈ s.iOldestDirtyList)
    (hn : (arr.filterMap id).Nodup) : (moveCleaned arr s).LiveListConsistent := by
  induction arr generalizing s with
  | nil => exact h
  | cons a rest ih =>
    cases a with
    | none =>
      exact ih h (fun pi hpi => hm pi (List.mem_cons_of_mem _ hpi)) (by simpa using hn)
    | some pi =>
      have hn2 : pi ∉ rest.filterMap id ∧ (rest.filterMap id).Nodup := by
        simpa [List.filterMap_cons] using hn
      refine ih (consistent_moveCleanedFrame h (hm pi (List.mem_cons_self _ _))) ?_ hn2.2
      intro q hq
      have hne : q ≠ pi := by
        rintro rfl
        exact hn2.1 (List.mem_filterMap.2 ⟨some q, hq, rfl⟩)
      show q ∈ s.iOldestDirtyList.erase pi
      exact (List.mem_erase_of_ne hne).2 (hm q (List.mem_cons_of_mem _ hq))

theorem consistent_CleanSomePages {s : DPager} (h : s.LiveListConsistent)
    (hm : ∀ pi, some pi ∈ s.arrayAfterClean s.SelectPagesToClean →
      (s.pageInfo pi).iPagedState = TPagedState.EPagedOldestDirty ∧ s.OnLiveList pi)
    (hn : ((s.arrayAfterClean s.SelectPagesToClean).filterMap id).Nodup) :
    s.CleanSomePages.2.LiveListConsistent := by
  unfold CleanSomePages
  dsimp only
  split
  · exact h
  · have h1 : LiveListConsistent { s with cleanCalls := s.cleanCalls + 1 } := h
    refine consistent_moveCleaned _ (consistent_cleanedByManager h1 _) ?_ hn
    intro pi hpi
    rw [(cleanedByManager_fields _ _).2.2.2.1]
    exact (mem_of_state h (hm pi hpi).2).2.2.2 (hm pi hpi).1

end DPager

namespace DPager

/-! ### Operations on the live list leave the accounting alone -/

theorem outside_RemovePage (s : DPager) (p : Nat) : (s.RemovePage p).outside = s.outside := by
  unfold RemovePage
  split <;> rfl

theorem outside_AddAsFreePage (s : DPager) (p : Nat) :
    (s.AddAsFreePage p).outside = s.outside := rfl

theorem outside_StealPage (s : DPager) (p : Nat) : (s.StealPage p).2.outside = s.outside := by
  unfold StealPage
  dsimp only
  split
  · exact outside_RemovePage s p
  · exact outside_RemovePage s p

theorem outside_TryStealOldestPage {s : DPager} {out : Option Nat} {r : Int}
    {out1 : Option Nat} {s1 : DPager} (h : s.TryStealOldestPage out = some (r, out1, s1)) :
    s1.outside = s.outside := by
  unfold TryStealOldestPage at h
  split at h
  · exact absurd h (by simp)
  · split at h
    · simp only [Option.some.injEq, Prod.mk.injEq] at h
      rw [← h.2.2]
    · dsimp only at h
      split at h
      · simp only [Option.some.injEq, Prod.mk.injEq] at h
        rw [← h.2.2]
        exact (outside_BalanceAges _).trans (outside_StealPage _ _)
      · simp only [Option.some.injEq, Prod.mk.injEq] at h
        rw [← h.2.2]
        exact outside_StealPage _ _

theorem outside_StealOldestPageLoop (fuel : Nat) (held : Bool) (s : DPager) {p : Nat}
    {s1 : DPager} (h : StealOldestPageLoop fuel held s = some (p, s1)) :
    s1.outside = s.outside := by
  induction fuel generalizing held s with
  | zero => exact absurd h (by simp [StealOldestPageLoop])
  | succ n ih =>
    unfold StealOldestPageLoop at h
    split at h
    · exact absurd h (by simp)
    · next r out s2 ht =>
      have h2 := outside_TryStealOldestPage ht
      split at h
      · split at h
        · exact absurd h (by simp)
        · simp only [Option.some.injEq, Prod.mk.injEq] at h
          rw [← h.2, ← h2]
          split <;> rfl
      · split at h
        · split at h
          · exact absurd h (by simp)
          · rw [ih _ _ h, ← h2]; rfl
        · rw [ih _ _ h, h2]

/-- The fields of the state after `TryGrowLiveList`. -/
theorem tryGrow_spec (s : DPager) :
    s.TryGrowLiveList.1 = (s.allocRam s.allocCalls).isSome ∧
    s.TryGrowLiveList.2.outside =
      { s.outside with
        allocCalls := s.allocCalls + 1
        iNumberOfFreePages :=
          s.iNumberOfFreePages + (if (s.allocRam s.allocCalls).isSome then 1 else 0) } := by
  unfold TryGrowLiveList GetPageFromSystem
  rcases h : s.allocRam s.allocCalls with _ | p
  · exact ⟨rfl, rfl⟩
  · exact ⟨rfl, rfl⟩

/-- The fields of the state after `ReturnPageToSystem()`. -/
theorem returnPage_spec {fuel : Nat} {s s1 : DPager} (h : ReturnPageToSystem fuel s = some s1) :
    ∃ p, s1.outside =
      { s.outside with
        iNumberOfFreePages := sub32 s.iNumberOfFreePages 1
        freedRam := p :: s.freedRam } := by
  unfold ReturnPageToSystem StealOldestPage at h
  split at h
  · exact absurd h (by simp)
  · next p s2 hs =>
    simp only [Option.some.injEq] at h
    have h2 := outside_StealOldestPageLoop _ _ _ hs
    refine ⟨p, ?_⟩
    rw [← h]
    show ({ s2.outside with
        iNumberOfFreePages := sub32 s2.iNumberOfFreePages 1
        freedRam := p :: s2.freedRam } : Outside) = _
    have e1 : s2.iNumberOfFreePages = s.iNumberOfFreePages :=
      congrArg Outside.iNumberOfFreePages h2
    have e2 : s2.freedRam = s.freedRam := congrArg Outside.freedRam h2
    rw [h2, e1, e2]

end DPager

namespace DPager

/-! ### `ReservePage` and `ReservePages` -/

theorem tryGrow_fields (s : DPager) :
    s.TryGrowLiveList.2.iMinimumPageCount = s.iMinimumPageCount ∧
    s.TryGrowLiveList.2.iMaximumPageCount = s.iMaximumPageCount ∧
    s.TryGrowLiveList.2.iReservePageCount = s.iReservePageCount ∧
    s.TryGrowLiveList.2.iMinimumPageLimit = s.iMinimumPageLimit ∧
    s.TryGrowLiveList.2.allocRam = s.allocRam ∧
    s.TryGrowLiveList.2.allocCalls = s.allocCalls + 1 ∧
    (s.TryGrowLiveList.1 = true →
      s.TryGrowLiveList.2.iNumberOfFreePages = s.iNumberOfFreePages + 1) ∧
    (s.TryGrowLiveList.1 = false →
      s.TryGrowLiveList.2.iNumberOfFreePages = s.iNumberOfFreePages) := by
  obtain ⟨h1, h2⟩ := tryGrow_spec s
  refine ⟨congrArg Outside.iMinimumPageCount h2, congrArg Outside.iMaximumPageCount h2,
    congrArg Outside.iReservePageCount h2, congrArg Outside.iMinimumPageLimit h2,
    congrArg Outside.allocRam h2, congrArg Outside.allocCalls h2, ?_, ?_⟩
  · intro ht
    have := congrArg Outside.iNumberOfFreePages h2
    rw [h1] at ht
    simpa [ht] using this
  · intro ht
    have := congrArg Outside.iNumberOfFreePages h2
    rw [h1] at ht
    simpa [ht] using this

/-- The loop of `ReservePage` runs its body at most once. -/
theorem reservePageGrow_eq (s : DPager) (fuel : Nat) (hf : 2 ≤ fuel) :
    ReservePageGrow fuel s =
      if s.iMinimumPageCount = s.iMinimumPageLimit + s.iReservePageCount
          ∧ s.iNumberOfFreePages = 0 then
        some (s.TryGrowLiveList.1, s.TryGrowLiveList.2)
      else some (true, s) := by
  obtain ⟨n, rfl⟩ : ∃ n, fuel = n + 2 := ⟨fuel - 2, by omega⟩
  obtain ⟨g1, g2, g3, g4, -, -, g7, g8⟩ := tryGrow_fields s
  rw [ReservePageGrow]
  split
  · split
    · next hg =>
      rw [ReservePageGrow, if_neg, hg]
      rw [g7 hg]; omega
    · next hg =>
      have : s.TryGrowLiveList.1 = false := by simpa using hg
      rw [this]
  · rfl

/-- What `ReservePage` does to the accounting. -/
theorem reservePage_spec (s : DPager) (fuel : Nat) (hf : 2 ≤ fuel) :
    ∃ r s1, ReservePage fuel s = some (r, s1) ∧
      s1.iMinimumPageLimit = s.iMinimumPageLimit ∧
      s.iMinimumPageCount ≤ s1.iMinimumPageCount ∧
      (r = true → s1.iReservePageCount = s.iReservePageCount + 1) ∧
      (r = false → s1.iReservePageCount = s.iReservePageCount ∧
        s1.iMinimumPageCount = s.iMinimumPageCount ∧
        s1.iMaximumPageCount = s.iMaximumPageCount ∧
        s1.iNumberOfFreePages = s.iNumberOfFreePages) ∧
      (s.iMinimumPageLimit + s.iReservePageCount ≤ s.iMinimumPageCount →
        s.iMinimumPageCount + s.iNumberOfFreePages ≤ s.iMaximumPageCount →
        s1.iMinimumPageLimit + s1.iReservePageCount ≤ s1.iMinimumPageCount ∧
        s1.iMinimumPageCount + s1.iNumberOfFreePages ≤ s1.iMaximumPageCount) := by
  obtain ⟨g1, g2, g3, g4, -, -, g7, g8⟩ := tryGrow_fields s
  unfold ReservePage
  rw [reservePageGrow_eq s fuel hf]
  by_cases hc : s.iMinimumPageCount = s.iMinimumPageLimit + s.iReservePageCount
      ∧ s.iNumberOfFreePages = 0
  · rw [if_pos hc]
    rcases hg : s.TryGrowLiveList.1
    · refine ⟨false, s.TryGrowLiveList.2, rfl, g4, by omega, by simp, ?_, ?_⟩
      · intro _; exact ⟨g3, g1, g2, g8 hg⟩
      · intro i4 i3
        rw [g1, g2, g3, g4, g8 hg]; exact ⟨i4, i3⟩
    · have hfree := g7 hg
      refine ⟨true, _, rfl, ?_⟩
      dsimp only
      rw [if_pos (by rw [g1, g4, g3]; exact hc.1)]
      split
      · refine ⟨g4, ?_, ?_, by simp, ?_⟩
        · show s.iMinimumPageCount ≤ s.TryGrowLiveList.2.iMinimumPageCount + 1
          omega
        · intro _
          show s.TryGrowLiveList.2.iReservePageCount + 1 = _
          omega
        · intro i4 i3
          show s.TryGrowLiveList.2.iMinimumPageLimit + (s.TryGrowLiveList.2.iReservePageCount + 1)
              ≤ s.TryGrowLiveList.2.iMinimumPageCount + 1 ∧
            s.TryGrowLiveList.2.iMinimumPageCount + 1
              + sub32 s.TryGrowLiveList.2.iNumberOfFreePages 1
              ≤ s.TryGrowLiveList.2.iMinimumPageCount + 1
          rw [hfree, hc.2, sub32_one (by omega)]
          omega
      · next hle =>
        have hle2 : ¬ (s.TryGrowLiveList.2.iMinimumPageCount + 1
            > s.TryGrowLiveList.2.iMaximumPageCount) := hle
        refine ⟨g4, ?_, ?_, by simp, ?_⟩
        · show s.iMinimumPageCount ≤ s.TryGrowLiveList.2.iMinimumPageCount + 1
          omega
        · intro _
          show s.TryGrowLiveList.2.iReservePageCount + 1 = _
          omega
        · intro i4 i3
          show s.TryGrowLiveList.2.iMinimumPageLimit + (s.TryGrowLiveList.2.iReservePageCount + 1)
              ≤ s.TryGrowLiveList.2.iMinimumPageCount + 1 ∧
            s.TryGrowLiveList.2.iMinimumPageCount + 1
              + sub32 s.TryGrowLiveList.2.iNumberOfFreePages 1
              ≤ s.TryGrowLiveList.2.iMaximumPageCount
          rw [hfree, hc.2, sub32_one (by omega)]
          omega
  · rw [if_neg hc]
    refine ⟨true, _, rfl, ?_⟩
    dsimp only
    by_cases he : s.iMinimumPageCount = s.iMinimumPageLimit + s.iReservePageCount
    · have hfree : 0 < s.iNumberOfFreePages := by
        rcases Nat.eq_zero_or_pos s.iNumberOfFreePages with h0 | h0
        · exact absurd ⟨he, h0⟩ hc
        · exact h0
      rw [if_pos he]
      split
      · refine ⟨rfl, ?_, ?_, by simp, ?_⟩
        · show s.iMinimumPageCount ≤ s.iMinimumPageCount + 1
          omega
        · intro _; rfl
        · intro i4 i3
          show s.iMinimumPageLimit + (s.iReservePageCount + 1) ≤ s.iMinimumPageCount + 1 ∧
            s.iMinimumPageCount + 1 + sub32 s.iNumberOfFreePages 1 ≤ s.iMinimumPageCount + 1
          rw [sub32_one hfree]
          next hgt =>
          have : s.iMinimumPageCount + 1 > s.iMaximumPageCount := hgt
          omega
      · next hle =>
        have hle2 : ¬ (s.iMinimumPageCount + 1 > s.iMaximumPageCount) := hle
        refine ⟨rfl, ?_, ?_, by simp, ?_⟩
        · show s.iMinimumPageCount ≤ s.iMinimumPageCount + 1
          omega
        · intro _; rfl
        · intro i4 i3
          show s.iMinimumPageLimit + (s.iReservePageCount + 1) ≤ s.iMinimumPageCount + 1 ∧
            s.iMinimumPageCount + 1 + sub32 s.iNumberOfFreePages 1 ≤ s.iMaximumPageCount
          rw [sub32_one hfree]
          omega
    · rw [if_neg he]
      refine ⟨rfl, le_refl _, fun _ => rfl, by simp, ?_⟩
      intro i4 i3
      show s.iMinimumPageLimit + (s.iReservePageCount + 1) ≤ s.iMinimumPageCount ∧
        s.iMinimumPageCount + s.iNumberOfFreePages ≤ s.iMaximumPageCount
      omega

end DPager

namespace DPager

/-- The loop of `ReservePages`: it returns, the count it reached is the number of pages
added to `iReservePageCount`, and a count below the required one means a `ReservePage`
failed. -/
theorem reservePagesLoop_spec (d : Nat) :
    ∀ (s : DPager) (req c fuel : Nat), req - c = d → d + 2 ≤ fuel →
      ∃ c1 s1, ReservePagesLoop fuel s req c = some (c1, s1) ∧ c ≤ c1 ∧
        (c ≤ req → c1 ≤ req) ∧
        s1.iReservePageCount = s.iReservePageCount + (c1 - c) ∧
        s.iMinimumPageCount ≤ s1.iMinimumPageCount ∧
        s1.iMinimumPageLimit = s.iMinimumPageLimit := by
  induction d with
  | zero =>
    intro s req c fuel hd hf
    obtain ⟨n, rfl⟩ : ∃ n, fuel = n + 1 := ⟨fuel - 1, by omega⟩
    rw [ReservePagesLoop, if_neg (by omega)]
    exact ⟨c, s, rfl, le_refl _, fun h => h, by simp, le_refl _, rfl⟩
  | succ d ih =>
    intro s req c fuel hd hf
    obtain ⟨n, rfl⟩ : ∃ n, fuel = n + 1 := ⟨fuel - 1, by omega⟩
    rw [ReservePagesLoop, if_pos (by omega)]
    obtain ⟨r, s1, e, q1, q2, q3, q4, -⟩ := reservePage_spec s n (by omega)
    rw [e]
    cases r with
    | false =>
      refine ⟨c, s1, rfl, le_refl _, fun h => h, ?_, q2, q1⟩
      rw [(q4 rfl).1]; simp
    | true =>
      obtain ⟨c1, s2, e2, p1, p2, p3, p4, p5⟩ := ih s1 req (c + 1) n (by omega) (by omega)
      refine ⟨c1, s2, e2, by omega, fun _ => p2 (by omega), ?_, le_trans q2 p4, p5.trans q1⟩
      rw [p3, q3 rfl]; omega

/-- What `ReservePages` called with `aCount = 0` does. -/
theorem reservePages_spec (s : DPager) (req fuel : Nat) (hf : req + 2 ≤ fuel) :
    ∃ b c s1, ReservePages fuel s req 0 = some (b, c, s1) ∧
      (b = true → c = req ∧ s1.iReservePageCount = s.iReservePageCount + req) ∧
      (b = false → c = 0 ∧ s1.iReservePageCount = s.iReservePageCount) ∧
      s.iMinimumPageCount ≤ s1.iMinimumPageCount := by
  obtain ⟨c1, s1, e, -, p2, p3, p4, -⟩ := reservePagesLoop_spec req s req 0 fuel (by omega) hf
  unfold ReservePages
  rw [e]
  dsimp only
  split
  · next hc =>
    refine ⟨true, c1, s1, rfl, fun _ => ⟨hc, ?_⟩, by simp, p4⟩
    rw [p3, hc]; rfl
  · refine ⟨false, 0, _, rfl, by simp, fun _ => ⟨rfl, ?_⟩, p4⟩
    show sub32 s1.iReservePageCount c1 = _
    rw [p3, sub32_le (by omega)]
    omega

/-! ### `AllocPinReplacementPages` -/

/-- When `AllocPinReplacementPages` returns true the invariant `min + free ≤ max` holds
afterwards, provided `min ≤ max` and `min + free ≤ max + n` held before (both follow from the
invariant). -/
theorem allocPin_true (fuel : Nat) :
    ∀ (s : DPager) (n : Nat) (s1 : DPager),
      AllocPinReplacementPages fuel s n = some (true, s1) →
      s.iMinimumPageCount ≤ s.iMaximumPageCount →
      s.iMinimumPageCount + s.iNumberOfFreePages ≤ s.iMaximumPageCount + n →
      s1.iMinimumPageCount + s1.iNumberOfFreePages ≤ s1.iMaximumPageCount := by
  induction fuel with
  | zero => intro s n s1 h; exact absurd h (by simp [AllocPinReplacementPages])
  | succ k ih =>
    intro s n s1 h hmm hinv
    rw [AllocPinReplacementPages] at h
    split at h
    · next hge =>
      simp only [Option.some.injEq, Prod.mk.injEq, true_and] at h
      rw [← h]
      show s.iMinimumPageCount + sub32 s.iNumberOfFreePages n ≤ s.iMaximumPageCount
      rw [sub32_le hge]
      omega
    · next hlt =>
      obtain ⟨g1, g2, -, -, -, -, g7, -⟩ := tryGrow_fields s
      split at h
      · next hg =>
        refine ih _ n s1 h (by rw [g1, g2]; exact hmm) ?_
        rw [g1, g2, g7 hg]
        omega
      · simp at h

end DPager

namespace DPager

/-! ### `ResizeLiveList` -/

theorem toTInt_sub32 {a b : Nat} (ha : a < 2147483648) (hb : b < 2147483648) :
    toTInt (sub32 a b) = (a : Int) - (b : Int) := by
  unfold toTInt sub32
  split <;> split <;> omega

theorem resizeGrowMin_post (fuel : Nat) :
    ∀ (s : DPager) (aMin : Nat) (r : Int) (s1 : DPager),
      ResizeGrowMin fuel s aMin = some (r, s1) →
      s.iMinimumPageCount + s.iNumberOfFreePages ≤ s.iMaximumPageCount →
      aMin ≤ s.iMaximumPageCount →
      s1.iMinimumPageCount + s1.iNumberOfFreePages ≤ s1.iMaximumPageCount ∧
      s1.iMaximumPageCount = s.iMaximumPageCount ∧
      s1.iReservePageCount = s.iReservePageCount ∧
      s1.iMinimumPageLimit = s.iMinimumPageLimit ∧
      s1.freedRam = s.freedRam ∧
      (s.iMinimumPageCount ≤ aMin → s1.iMinimumPageCount ≤ aMin) ∧
      (r = KErrNone → aMin ≤ s1.iMinimumPageCount) ∧
      (r = KErrNone ∨ r = KErrNoMemory) ∧
      s.iMinimumPageCount ≤ s1.iMinimumPageCount := by
  induction fuel with
  | zero => intro s aMin r s1 h; exact absurd h (by simp [ResizeGrowMin])
  | succ k ih =>
    intro s aMin r s1 h i3 hmax
    rw [ResizeGrowMin] at h
    by_cases hlt : s.iMinimumPageCount < aMin
    · rw [if_pos hlt] at h
      dsimp only at h
      obtain ⟨newMin, hN⟩ : ∃ newMin, newMin =
          (if aMin > s.iMinimumPageCount + s.iNumberOfFreePages then
            s.iMinimumPageCount + s.iNumberOfFreePages else aMin) := ⟨_, rfl⟩
      rw [← hN] at h
      have hnew : s.iMinimumPageCount ≤ newMin := by rw [hN]; split <;> omega
      have hnew2 : newMin ≤ s.iMinimumPageCount + s.iNumberOfFreePages := by
        rw [hN]; split <;> omega
      have hnew3 : newMin ≤ aMin := by rw [hN]; split <;> omega
      have hnew4 : newMin = s.iMinimumPageCount → s.iNumberOfFreePages = 0 := by
        rw [hN]; split <;> omega
      rw [sub32_le hnew] at h
      by_cases hd : newMin - s.iMinimumPageCount ≠ 0
      · rw [if_pos hd] at h
        obtain ⟨p1, p2, p3, p4, p5, p6, p7, p8, p9⟩ := ih _ aMin r s1 h (by
          show newMin + sub32 s.iNumberOfFreePages _ ≤ s.iMaximumPageCount
          rw [sub32_le (by omega)]
          omega) hmax
        exact ⟨p1, p2, p3, p4, p5, fun _ => p6 hnew3, p7, p8, le_trans hnew p9⟩
      · rw [if_neg hd] at h
        have hfree : s.iNumberOfFreePages = 0 := hnew4 (by omega)
        obtain ⟨g1, g2, g3, g4, -, -, g7, g8⟩ := tryGrow_fields s
        have gf : s.TryGrowLiveList.2.freedRam = s.freedRam :=
          congrArg Outside.freedRam (tryGrow_spec s).2
        by_cases hg : s.TryGrowLiveList.1 = true
        · rw [if_pos hg] at h
          obtain ⟨p1, p2, p3, p4, p5, p6, p7, p8, p9⟩ := ih _ aMin r s1 h (by
            rw [g1, g2, g7 hg]; omega) (by rw [g2]; exact hmax)
          exact ⟨p1, p2.trans g2, p3.trans g3, p4.trans g4, p5.trans gf,
            fun hle => p6 (by rw [g1]; exact hle), p7, p8, by rw [← g1]; exact p9⟩
        · rw [if_neg hg] at h
          simp only [Option.some.injEq, Prod.mk.injEq] at h
          have hg2 : s.TryGrowLiveList.1 = false := by simpa using hg
          rw [← h.2, ← h.1]
          refine ⟨by rw [g1, g2, g8 hg2]; exact i3, g2, g3, g4, gf,
            fun hle => by rw [g1]; exact hle, ?_, Or.inr rfl, by rw [g1]⟩
          intro hk; exact absurd hk (by decide)
    · rw [if_neg hlt] at h
      simp only [Option.some.injEq, Prod.mk.injEq] at h
      rw [← h.2, ← h.1]
      exact ⟨i3, rfl, rfl, rfl, rfl, fun hle => hle, fun _ => by omega, Or.inl rfl, le_refl _⟩

theorem resizeShrinkMax_post (fuel : Nat) :
    ∀ (s : DPager) (aMax : Nat) (s1 : DPager),
      ResizeShrinkMax fuel s aMax = some s1 →
      s.iMinimumPageCount + s.iNumberOfFreePages ≤ s.iMaximumPageCount →
      s.iMinimumPageCount ≤ aMax → aMax ≤ s.iMaximumPageCount →
      s1.iMaximumPageCount = aMax ∧
      s1.iMinimumPageCount = s.iMinimumPageCount ∧
      s1.iMinimumPageCount + s1.iNumberOfFreePages ≤ s1.iMaximumPageCount ∧
      s1.iReservePageCount = s.iReservePageCount ∧
      s1.iMinimumPageLimit = s.iMinimumPageLimit ∧
      s1.iNumberOfFreePages + s1.freedRam.length
        = s.iNumberOfFreePages + s.freedRam.length ∧
      s1.iNumberOfFreePages = min s.iNumberOfFreePages (aMax - s.iMinimumPageCount) := by
  induction fuel with
  | zero => intro s aMax s1 h; exact absurd h (by simp [ResizeShrinkMax])
  | succ k ih =>
    intro s aMax s1 h i3 hmin hmax
    rw [ResizeShrinkMax] at h
    by_cases hgt : s.iMaximumPageCount > aMax
    · rw [if_pos hgt] at h
      dsimp only at h
      obtain ⟨newMax, hN⟩ : ∃ newMax, newMax =
          (if aMax < s.iMinimumPageCount + s.iNumberOfFreePages then
            s.iMinimumPageCount + s.iNumberOfFreePages else aMax) := ⟨_, rfl⟩
      rw [← hN] at h
      have hnew : newMax ≤ s.iMaximumPageCount := by rw [hN]; split <;> omega
      have hnew2 : s.iMinimumPageCount + s.iNumberOfFreePages ≤ newMax := by
        rw [hN]; split <;> omega
      have hnew3 : aMax ≤ newMax := by rw [hN]; split <;> omega
      have hnew4 : newMax = s.iMaximumPageCount →
          s.iMinimumPageCount + s.iNumberOfFreePages = s.iMaximumPageCount := by
        rw [hN]; split <;> omega
      rw [sub32_le hnew] at h
      by_cases hd : s.iMaximumPageCount - newMax ≠ 0
      · rw [if_pos hd] at h
        obtain ⟨p1, p2, p3, p4, p5, p6, p7⟩ := ih _ aMax s1 h hnew2 hmin hnew3
        exact ⟨p1, p2, p3, p4, p5, p6, p7⟩
      · rw [if_neg hd] at h
        have hsum := hnew4 (by omega)
        split at h
        · exact absurd h (by simp)
        · next s2 hr =>
          obtain ⟨p, hp⟩ := returnPage_spec hr
          have e1 : s2.iMinimumPageCount = s.iMinimumPageCount :=
            congrArg Outside.iMinimumPageCount hp
          have e2 : s2.iMaximumPageCount = s.iMaximumPageCount :=
            congrArg Outside.iMaximumPageCount hp
          have e3 : s2.iNumberOfFreePages = sub32 s.iNumberOfFreePages 1 :=
            congrArg Outside.iNumberOfFreePages hp
          have e4 : s2.iReservePageCount = s.iReservePageCount :=
            congrArg Outside.iReservePageCount hp
          have e5 : s2.iMinimumPageLimit = s.iMinimumPageLimit :=
            congrArg Outside.iMinimumPageLimit hp
          have e6 : s2.freedRam = p :: s.freedRam := congrArg Outside.freedRam hp
          rw [sub32_one (by omega)] at e3
          obtain ⟨p1, p2, p3, p4, p5, p6, p7⟩ := ih _ aMax s1 h (by rw [e1, e2, e3]; omega)
            (by rw [e1]; exact hmin) (by rw [e2]; exact hmax)
          refine ⟨p1, p2.trans e1, p3, p4.trans e4, p5.trans e5, ?_, ?_⟩
          · rw [p6, e3, e6, List.length_cons]; omega
          · rw [p7, e1, e3]; omega
    · rw [if_neg hgt] at h
      simp only [Option.some.injEq] at h
      rw [← h]
      refine ⟨by omega, rfl, i3, rfl, rfl, rfl, ?_⟩
      omega

end DPager

namespace DPager

theorem ite_lt_eq_max (a b : Nat) : (if a < b then b else a) = max a b := by
  split <;> omega

theorem ite_gt_eq_min (a b : Nat) : (if a > b then b else a) = min a b := by
  split <;> omega

theorem resizeClamp_eq (s : DPager) (aMin aMax : Nat) :
    s.resizeClamp aMin aMax =
      (max aMin (s.iMinimumPageLimit + s.iReservePageCount),
        max aMax (max aMin (s.iMinimumPageLimit + s.iReservePageCount))) := by
  unfold resizeClamp
  simp only [ite_lt_eq_max]

theorem resizeAdjust_fields (s : DPager) (m M : Nat)
    (hM : s.iMaximumPageCount < 2147483648) (hm : s.iMinimumPageCount < 2147483648)
    (hm2 : m < 2147483648) (hM2 : M < 2147483648) :
    (s.resizeAdjust m M).iMinimumPageLimit = s.iMinimumPageLimit ∧
    (s.resizeAdjust m M).iReservePageCount = s.iReservePageCount ∧
    (s.resizeAdjust m M).iMaximumPageCount = max s.iMaximumPageCount M ∧
    (s.resizeAdjust m M).iMinimumPageCount = min s.iMinimumPageCount m ∧
    (s.resizeAdjust m M).iMinimumPageCount + (s.resizeAdjust m M).iNumberOfFreePages
      = s.iMinimumPageCount + s.iNumberOfFreePages ∧
    (s.resizeAdjust m M).freedRam = s.freedRam ∧
    (s.resizeAdjust m M).allocCalls = s.allocCalls ∧
    (s.resizeAdjust m M).allocRam = s.allocRam ∧
    (s.resizeAdjust m M).mgrStealPage = s.mgrStealPage ∧
    (s.resizeAdjust m M).LiveListConsistent = s.LiveListConsistent ∧
    (s.resizeAdjust m M).liveListSize = s.liveListSize := by
  have e1 : toTInt (sub32 M s.iMaximumPageCount) = (M : Int) - s.iMaximumPageCount :=
    toTInt_sub32 hM2 hM
  have e2 : toTInt (sub32 s.iMinimumPageCount m) = (s.iMinimumPageCount : Int) - m :=
    toTInt_sub32 hm hm2
  unfold resizeAdjust
  dsimp only
  rw [e1]
  by_cases c1 : (M : Int) - s.iMaximumPageCount > 0
  · rw [if_pos c1]
    dsimp only
    rw [e2]
    by_cases c2 : (s.iMinimumPageCount : Int) - m > 0
    · rw [if_pos c2]
      dsimp only
      have t1 : ((s.iMinimumPageCount : Int) - m).toNat = s.iMinimumPageCount - m := by omega
      have t2 : ((M : Int) - s.iMaximumPageCount).toNat = M - s.iMaximumPageCount := by omega
      rw [t1, t2, sub32_le (by omega)]
      refine ⟨rfl, rfl, by omega, by omega, by omega, rfl, rfl, rfl, rfl, rfl, rfl⟩
    · rw [if_neg c2]
      dsimp only
      have t2 : ((M : Int) - s.iMaximumPageCount).toNat = M - s.iMaximumPageCount := by omega
      rw [t2]
      refine ⟨rfl, rfl, by omega, by omega, rfl, rfl, rfl, rfl, rfl, rfl, rfl⟩
  · rw [if_neg c1]
    rw [e2]
    by_cases c2 : (s.iMinimumPageCount : Int) - m > 0
    · rw [if_pos c2]
      dsimp only
      have t1 : ((s.iMinimumPageCount : Int) - m).toNat = s.iMinimumPageCount - m := by omega
      rw [t1, sub32_le (by omega)]
      refine ⟨rfl, rfl, by omega, by omega, by omega, rfl, rfl, rfl, rfl, rfl, rfl⟩
    · rw [if_neg c2]
      refine ⟨rfl, rfl, by omega, by omega, rfl, rfl, rfl, rfl, rfl, rfl, rfl⟩

/-- The targets of `ResizeLiveList` and the state at the start of its loops, for arguments
that pass the argument check. -/
theorem resize_unfold (s : DPager) (aMin aMax fuel : Nat) (h0 : aMax ≠ 0)
    (hle : aMin ≤ min aMax (KAbsoluteMaxPageCount s.KPageShift))
    (hr : s.iYoungOldRatio ≠ 0) (r : Int) (s5 : DPager) :
    ResizeLiveList fuel s aMin aMax = some (r, s5) ↔
      ∃ s4, ResizeGrowMin fuel
          (resizeAdjust { s with iMinimumPageLimit := s.computeMinimumPageLimit }
            (max aMin (s.computeMinimumPageLimit + s.iReservePageCount))
            (max (min aMax (KAbsoluteMaxPageCount s.KPageShift))
              (max aMin (s.computeMinimumPageLimit + s.iReservePageCount))))
          (max aMin (s.computeMinimumPageLimit + s.iReservePageCount)) = some (r, s4) ∧
        ResizeShrinkMax fuel s4
          (max (min aMax (KAbsoluteMaxPageCount s.KPageShift))
            (max aMin (s.computeMinimumPageLimit + s.iReservePageCount))) = some s5 := by
  unfold ResizeLiveList
  simp only [resizeArgMin, resizeArgMax, h0, if_false, resizeClamp_eq]
  rw [ite_gt_eq_min aMax, if_neg (by omega), if_neg hr]
  constructor
  · intro h
    split at h
    · exact absurd h (by simp)
    · next r1 s4 hg =>
      split at h
      · exact absurd h (by simp)
      · next s6 hs =>
        simp only [Option.some.injEq, Prod.mk.injEq] at h
        refine ⟨s4, ?_, ?_⟩
        · rw [← h.1]; exact hg
        · rw [← h.2]; exact hs
  · rintro ⟨s4, hg, hs⟩
    rw [hg]
    dsimp only
    rw [hs]

end DPager

namespace DPager

/-- Postcondition of `ResizeLiveList` for arguments that pass the argument check, from a
state whose page counts are below 2^31. -/
theorem resize_post (s : DPager) (aMin aMax fuel : Nat) (h0 : aMax ≠ 0)
    (hle : aMin ≤ min aMax (KAbsoluteMaxPageCount s.KPageShift))
    (i3 : s.iMinimumPageCount + s.iNumberOfFreePages ≤ s.iMaximumPageCount)
    (hM : s.iMaximumPageCount < 2147483648)
    (hL : s.computeMinimumPageLimit + s.iReservePageCount < 2147483648)
    (hK : KAbsoluteMaxPageCount s.KPageShift < 2147483648)
    (r : Int) (s5 : DPager) (h : ResizeLiveList fuel s aMin aMax = some (r, s5)) :
    (r = KErrNone ∨ r = KErrNoMemory) ∧
    s5.iMinimumPageLimit = s.computeMinimumPageLimit ∧
    s5.iReservePageCount = s.iReservePageCount ∧
    s5.iMaximumPageCount = max (min aMax (KAbsoluteMaxPageCount s.KPageShift))
      (max aMin (s.computeMinimumPageLimit + s.iReservePageCount)) ∧
    s5.iMinimumPageCount + s5.iNumberOfFreePages ≤ s5.iMaximumPageCount ∧
    s5.iMinimumPageCount ≤ max aMin (s.computeMinimumPageLimit + s.iReservePageCount) ∧
    (r = KErrNone →
      s5.iMinimumPageCount = max aMin (s.computeMinimumPageLimit + s.iReservePageCount)) := by
  have hr : s.iYoungOldRatio ≠ 0 := by
    intro h1
    unfold ResizeLiveList at h
    simp only [resizeArgMin, resizeArgMax, h0, if_false] at h
    rw [ite_gt_eq_min aMax, if_neg (by omega), if_pos h1] at h
    exact absurd h (by simp)
  obtain ⟨s4, hg, hs⟩ := (resize_unfold s aMin aMax fuel h0 hle hr r s5).1 h
  obtain ⟨a1, a2, a3, a4, a5, -⟩ := resizeAdjust_fields
    { s with iMinimumPageLimit := s.computeMinimumPageLimit }
    (max aMin (s.computeMinimumPageLimit + s.iReservePageCount))
    (max (min aMax (KAbsoluteMaxPageCount s.KPageShift))
      (max aMin (s.computeMinimumPageLimit + s.iReservePageCount)))
    hM (by show s.iMinimumPageCount < _; omega) (by omega) (by omega)
  have b3 : s.iMaximumPageCount = ({ s with iMinimumPageLimit := s.computeMinimumPageLimit }
    : DPager).iMaximumPageCount := rfl
  have b4 : s.iMinimumPageCount = ({ s with iMinimumPageLimit := s.computeMinimumPageLimit }
    : DPager).iMinimumPageCount := rfl
  have b5 : s.iNumberOfFreePages = ({ s with iMinimumPageLimit := s.computeMinimumPageLimit }
    : DPager).iNumberOfFreePages := rfl
  rw [← b3] at a3
  rw [← b4] at a4
  rw [← b4, ← b5] at a5
  obtain ⟨p1, p2, p3, p4, -, p6, p7, p8, -⟩ := resizeGrowMin_post fuel _ _ r s4 hg
    (by rw [a3]; omega) (by rw [a3]; omega)
  obtain ⟨q1, q2, q3, q4, q5, -, -⟩ := resizeShrinkMax_post fuel s4 _ s5 hs p1
    (by have := p6 (by rw [a4]; omega); omega) (by rw [p2, a3]; omega)
  refine ⟨p8, q5.trans (p4.trans a1), q4.trans (p3.trans a2), q1, q3, ?_, ?_⟩
  · rw [q2]; exact p6 (by rw [a4]; omega)
  · intro hk
    rw [q2]
    have := p6 (by rw [a4]; omega)
    have := p7 hk
    omega

end DPager

namespace DPager

theorem growMin_step_grow (k : Nat) (s : DPager) (aMin : Nat)
    (hlt : s.iMinimumPageCount < aMin) (hf : s.iNumberOfFreePages = 0) :
    ResizeGrowMin (k + 1) s aMin =
      if s.TryGrowLiveList.1 then ResizeGrowMin k s.TryGrowLiveList.2 aMin
      else some (KErrNoMemory, s.TryGrowLiveList.2) := by
  rw [ResizeGrowMin, if_pos hlt]
  dsimp only
  rw [hf, Nat.add_zero, if_pos (show aMin > s.iMinimumPageCount from hlt), sub32_le (le_refl _),
    Nat.sub_self, if_neg (by simp)]

theorem growMin_step_consume (k : Nat) (s : DPager) (aMin : Nat)
    (hlt : s.iMinimumPageCount < aMin) (hf : 0 < s.iNumberOfFreePages) :
    ResizeGrowMin (k + 1) s aMin =
      ResizeGrowMin k
        { s with
          iMinimumPageCount := min aMin (s.iMinimumPageCount + s.iNumberOfFreePages)
          iNumberOfFreePages := s.iNumberOfFreePages
            - (min aMin (s.iMinimumPageCount + s.iNumberOfFreePages) - s.iMinimumPageCount) }
        aMin := by
  rw [ResizeGrowMin, if_pos hlt]
  dsimp only
  rw [ite_gt_eq_min, sub32_le (by omega), if_pos (by omega), sub32_le (by omega)]

theorem growMin_done (k : Nat) (s : DPager) (aMin : Nat)
    (hge : ¬ s.iMinimumPageCount < aMin) :
    ResizeGrowMin (k + 1) s aMin = some (KErrNone, s) := by
  rw [ResizeGrowMin, if_neg hge]

/-- When every `TryGrowLiveList` succeeds, the loop that raises `iMinimumPageCount` from a
state without free pages performs one grow per missing page and ends without free pages. -/
theorem growMin_all_succeed (d : Nat) :
    ∀ (s : DPager) (aMin fuel : Nat), aMin - s.iMinimumPageCount = d →
      s.iMinimumPageCount ≤ aMin → s.iNumberOfFreePages = 0 →
      (∀ n, (s.allocRam n).isSome = true) → 2 * d + 1 ≤ fuel →
      ∃ s1, ResizeGrowMin fuel s aMin = some (KErrNone, s1) ∧
        s1.iMinimumPageCount = aMin ∧ s1.iNumberOfFreePages = 0 ∧
        s1.iMaximumPageCount = s.iMaximumPageCount ∧
        s1.allocCalls = s.allocCalls + d := by
  induction d with
  | zero =>
    intro s aMin fuel hd hle hf ha hfuel
    obtain ⟨k, rfl⟩ : ∃ k, fuel = k + 1 := ⟨fuel - 1, by omega⟩
    rw [growMin_done k s aMin (by omega)]
    exact ⟨s, rfl, by omega, hf, rfl, rfl⟩
  | succ d ih =>
    intro s aMin fuel hd hle hf ha hfuel
    obtain ⟨k, rfl⟩ : ∃ k, fuel = k + 2 := ⟨fuel - 2, by omega⟩
    obtain ⟨g1, g2, -, -, g5, g6, g7, -⟩ := tryGrow_fields s
    have hg : s.TryGrowLiveList.1 = true := by rw [(tryGrow_spec s).1]; exact ha _
    rw [growMin_step_grow (k + 1) s aMin (by omega) hf, if_pos hg,
      growMin_step_consume k _ aMin (by rw [g1]; omega) (by rw [g7 hg]; omega)]
    obtain ⟨s1, e, p1, p2, p3, p4⟩ := ih
      { s.TryGrowLiveList.2 with
        iMinimumPageCount := min aMin
          (s.TryGrowLiveList.2.iMinimumPageCount + s.TryGrowLiveList.2.iNumberOfFreePages)
        iNumberOfFreePages := s.TryGrowLiveList.2.iNumberOfFreePages
          - (min aMin
              (s.TryGrowLiveList.2.iMinimumPageCount + s.TryGrowLiveList.2.iNumberOfFreePages)
            - s.TryGrowLiveList.2.iMinimumPageCount) }
      aMin k
      (by show aMin - min aMin _ = d
          rw [g1, g7 hg]; omega)
      (by show min aMin _ ≤ aMin
          omega)
      (by show s.TryGrowLiveList.2.iNumberOfFreePages - _ = 0
          rw [g1, g7 hg]; omega)
      (by intro n
          show (s.TryGrowLiveList.2.allocRam n).isSome = true
          rw [g5]; exact ha n)
      (by omega)
    refine ⟨s1, e, p1, p2, p3.trans g2, ?_⟩
    rw [p4]
    show s.TryGrowLiveList.2.allocCalls + d = _
    rw [g6]; omega

end DPager

namespace DPager

/-! ### Stealing the oldest page -/

theorem liveListSize_Deque {s : DPager} (h : s.LiveListConsistent) {p : Nat}
    (hon : s.OnLiveList p) : (s.Deque p).liveListSize + 1 = s.liveListSize := by
  show (s.iYoungList.erase p).length + (s.iOldList.erase p).length
    + (s.iOldestCleanList.erase p).length + (s.iOldestDirtyList.erase p).length + 1 = _
  unfold liveListSize
  rcases hon with hm | hm | hm | hm
  · obtain ⟨m2, m3, m4⟩ := mem_young_only h hm
    have := List.length_pos_of_mem hm
    rw [List.erase_of_not_mem m2, List.erase_of_not_mem m3, List.erase_of_not_mem m4,
      List.length_erase_of_mem hm]
    omega
  · obtain ⟨m1, m3, m4⟩ := mem_old_only h hm
    have := List.length_pos_of_mem hm
    rw [List.erase_of_not_mem m1, List.erase_of_not_mem m3, List.erase_of_not_mem m4,
      List.length_erase_of_mem hm]
    omega
  · obtain ⟨m1, m2, m4⟩ := mem_oldestClean_only h hm
    have := List.length_pos_of_mem hm
    rw [List.erase_of_not_mem m1, List.erase_of_not_mem m2, List.erase_of_not_mem m4,
      List.length_erase_of_mem hm]
    omega
  · obtain ⟨m1, m2, m3⟩ := mem_oldestDirty_only h hm
    have := List.length_pos_of_mem hm
    rw [List.erase_of_not_mem m1, List.erase_of_not_mem m2, List.erase_of_not_mem m3,
      List.length_erase_of_mem hm]
    omega

theorem sublistState_of_onLiveList {s : DPager} (h : s.LiveListConsistent) {p : Nat}
    (hon : s.OnLiveList p) : IsSublistState (s.pageInfo p).iPagedState = true := by
  obtain ⟨-, -, -, -, h1, h2, h3, h4, -⟩ := h
  rcases hon with hm | hm | hm | hm
  · rw [h1 p hm]; rfl
  · rw [h2 p hm]; rfl
  · rw [h3 p hm]; rfl
  · rw [h4 p hm]; rfl

theorem liveListSize_RemovePage {s : DPager} (h : s.LiveListConsistent) {p : Nat}
    (hon : s.OnLiveList p) : (s.RemovePage p).liveListSize + 1 = s.liveListSize := by
  have hs := sublistState_of_onLiveList h hon
  have hd := liveListSize_Deque h hon
  rcases hst : (s.pageInfo p).iPagedState
  all_goals simp only [hst, IsSublistState] at hs
  all_goals simp only [RemovePage, hst]
  all_goals first | exact absurd hs (by decide) | exact hd

/-- Stealing a frame of the live list from a manager that does not refuse. -/
theorem stealPage_ok {s : DPager} (h : s.LiveListConsistent) {p : Nat}
    (hon : s.OnLiveList p) (hmgr : ∀ n, s.mgrStealPage n = KErrNone) :
    (s.StealPage p).1 = KErrNone ∧ (s.StealPage p).2.LiveListConsistent ∧
      (s.StealPage p).2.liveListSize + 1 = s.liveListSize := by
  have hl : s.Linked p := fun _ => hon
  have hc := (consistent_RemovePage h hl).1
  have hsz := liveListSize_RemovePage h hon
  have ho := outside_RemovePage s p
  unfold StealPage
  dsimp only
  split
  · exact ⟨rfl, hc, hsz⟩
  · refine ⟨?_, hc, hsz⟩
    show (s.RemovePage p).mgrStealPage _ = KErrNone
    rw [show (s.RemovePage p).mgrStealPage = s.mgrStealPage from
      congrArg Outside.mgrStealPage ho]
    exact hmgr _

theorem oldestLink_some {s : DPager} (h : s.LiveListConsistent) (hpos : 0 < s.liveListSize) :
    ∃ p, s.OldestLink = some p ∧ s.OnLiveList p := by
  obtain ⟨c1, c2, c3, c4, -⟩ := h
  have key : ∀ l : List Nat, l ≠ [] → ∃ p, l.getLast? = some p ∧ p ∈ l := by
    intro l hl
    rcases hg : l.getLast? with _ | p
    · exact absurd (List.getLast?_eq_none_iff.1 hg) hl
    · exact ⟨p, rfl, List.mem_of_getLast?_eq_some hg⟩
  unfold OldestLink
  by_cases k1 : s.iOldestCleanCount ≠ 0
  · rw [if_pos k1]
    obtain ⟨p, e, hm⟩ := key s.iOldestCleanList (by
      intro e; rw [e] at c3; exact k1 c3)
    exact ⟨p, e, Or.inr (Or.inr (Or.inl hm))⟩
  · rw [if_neg k1]
    by_cases k2 : s.iOldestDirtyCount ≠ 0
    · rw [if_pos k2]
      obtain ⟨p, e, hm⟩ := key s.iOldestDirtyList (by
        intro e; rw [e] at c4; exact k2 c4)
      exact ⟨p, e, Or.inr (Or.inr (Or.inr hm))⟩
    · rw [if_neg k2]
      by_cases k3 : s.iOldCount ≠ 0
      · rw [if_pos k3]
        obtain ⟨p, e, hm⟩ := key s.iOldList (by
          intro e; rw [e] at c2; exact k3 c2)
        exact ⟨p, e, Or.inr (Or.inl hm)⟩
      · rw [if_neg k3]
        obtain ⟨p, e, hm⟩ := key s.iYoungList (by
          intro e
          unfold liveListSize at hpos
          rw [e] at hpos
          simp only [List.length_nil] at hpos
          omega)
        exact ⟨p, e, Or.inl hm⟩

/-- With the cleaning lock held, or a clean candidate, `TryStealOldestPage` steals. -/
theorem tryStealOldest_ok {s : DPager} (h : s.LiveListConsistent) (hpos : 0 < s.liveListSize)
    (hmgr : ∀ n, s.mgrStealPage n = KErrNone) (out : Option Nat) :
    ∃ p, s.OldestLink = some p ∧
      (((s.pageInfo p).IsDirty && !s.cleaningLockHeld) = true →
        s.TryStealOldestPage out = some (1, out, s)) ∧
      (((s.pageInfo p).IsDirty && !s.cleaningLockHeld) = false →
        ∃ s1, s.TryStealOldestPage out = some (KErrNone, some p, s1) ∧
          s1.LiveListConsistent ∧ s1.liveListSize + 1 = s.liveListSize) := by
  obtain ⟨p, e, hon⟩ := oldestLink_some h hpos
  obtain ⟨q1, q2, q3⟩ := stealPage_ok h hon hmgr
  refine ⟨p, e, ?_, ?_⟩
  · intro hd
    unfold TryStealOldestPage
    rw [e]
    dsimp only
    rw [if_pos hd]
  · intro hd
    refine ⟨(s.StealPage p).2.BalanceAges, ?_, consistent_BalanceAges q2, ?_⟩
    · unfold TryStealOldestPage
      rw [e]
      dsimp only
      rw [if_neg (by simp [hd]), if_pos q1, q1]
    · rw [liveListSize_BalanceAges q2]; exact q3

/-- From a consistent, non-empty live list whose managers do not refuse, `StealOldestPage`
returns a frame within two rounds, and leaves a consistent live list one frame shorter. -/
theorem stealOldest_ok {s : DPager} (h : s.LiveListConsistent) (hpos : 0 < s.liveListSize)
    (hmgr : ∀ n, s.mgrStealPage n = KErrNone) (fuel : Nat) (hf : 2 ≤ fuel) :
    ∃ p s1, StealOldestPage fuel s = some (p, s1) ∧ s1.LiveListConsistent ∧
      s1.liveListSize + 1 = s.liveListSize := by
  obtain ⟨k, rfl⟩ : ∃ k, fuel = k + 2 := ⟨fuel - 2, by omega⟩
  obtain ⟨p, -, h1, h2⟩ := tryStealOldest_ok h hpos hmgr none
  unfold StealOldestPage
  rw [StealOldestPageLoop]
  by_cases hd : ((s.pageInfo p).IsDirty && !s.cleaningLockHeld) = true
  · rw [h1 hd]
    dsimp only
    rw [if_neg (by decide), if_pos rfl]
    simp only [Bool.false_eq_true, if_false]
    have hc : LiveListConsistent { s with cleaningLockHeld := true } := h
    obtain ⟨p2, -, -, h4⟩ := tryStealOldest_ok hc hpos hmgr none
    obtain ⟨s1, e, hc1, hs1⟩ := h4 (by simp)
    rw [StealOldestPageLoop, e]
    dsimp only
    rw [if_pos rfl]
    exact ⟨p2, _, rfl, hc1, hs1⟩
  · obtain ⟨s1, e, hc, hs⟩ := h2 (by simpa using hd)
    rw [e]
    dsimp only
    rw [if_pos rfl]
    refine ⟨p, _, rfl, ?_, ?_⟩
    · exact hc
    · exact hs

end DPager

namespace DPager

/-- The result of `ReturnPageToSystem()` on a consistent, non-empty live list whose managers do
not refuse. -/
theorem returnPage_ok {s : DPager} (h : s.LiveListConsistent) (hpos : 0 < s.liveListSize)
    (hmgr : ∀ n, s.mgrStealPage n = KErrNone) (fuel : Nat) (hf : 2 ≤ fuel) :
    ∃ s1, ReturnPageToSystem fuel s = some s1 ∧ s1.LiveListConsistent ∧
      s1.liveListSize + 1 = s.liveListSize ∧ (∀ n, s1.mgrStealPage n = KErrNone) := by
  obtain ⟨p, s1, e, hc, hs⟩ := stealOldest_ok h hpos hmgr fuel hf
  have ho := outside_StealOldestPageLoop _ _ _ e
  refine ⟨s1.ReturnPageToSystemPage p, ?_, hc, hs, ?_⟩
  · unfold ReturnPageToSystem
    rw [e]
  · intro n
    show s1.mgrStealPage n = KErrNone
    rw [show s1.mgrStealPage = s.mgrStealPage from congrArg Outside.mgrStealPage ho]
    exact hmgr n

/-- The loop that lowers `iMaximumPageCount` returns when the live list holds the frames it
has to give back and the managers do not refuse. -/
theorem shrinkMax_returns (fuel : Nat) :
    ∀ (s : DPager) (aMax b : Nat), s.LiveListConsistent →
      (∀ n, s.mgrStealPage n = KErrNone) →
      s.iMinimumPageCount + s.iNumberOfFreePages ≤ s.iMaximumPageCount →
      s.iMinimumPageCount ≤ aMax → aMax ≤ s.iMaximumPageCount →
      s.iMinimumPageCount + s.iNumberOfFreePages - aMax ≤ s.liveListSize →
      (s.iMaximumPageCount ≠ max aMax (s.iMinimumPageCount + s.iNumberOfFreePages) → b = 1) →
      2 * (s.iMinimumPageCount + s.iNumberOfFreePages - aMax) + b + 1 ≤ fuel →
      ∃ s1, ResizeShrinkMax fuel s aMax = some s1 := by
  induction fuel with
  | zero => intro s aMax b _ _ _ _ _ _ _ hf; omega
  | succ k ih =>
    intro s aMax b hc hmgr i3 hmin hmax hsz hb hf
    rw [ResizeShrinkMax]
    by_cases hgt : s.iMaximumPageCount > aMax
    · rw [if_pos hgt]
      dsimp only
      rw [ite_lt_eq_max, sub32_le (by omega)]
      by_cases hd : s.iMaximumPageCount
          - max aMax (s.iMinimumPageCount + s.iNumberOfFreePages) ≠ 0
      · rw [if_pos hd]
        have hb1 : b = 1 := hb (by omega)
        exact ih _ aMax 0 hc hmgr
          (by show s.iMinimumPageCount + s.iNumberOfFreePages
                ≤ max aMax (s.iMinimumPageCount + s.iNumberOfFreePages)
              omega)
          hmin
          (by show aMax ≤ max aMax (s.iMinimumPageCount + s.iNumberOfFreePages)
              omega)
          hsz
          (by intro hne; exact absurd rfl hne)
          (by show 2 * (s.iMinimumPageCount + s.iNumberOfFreePages - aMax) + 0 + 1 ≤ k; omega)
      · rw [if_neg hd]
        have hsum : s.iMinimumPageCount + s.iNumberOfFreePages = s.iMaximumPageCount := by
          omega
        obtain ⟨s2, e, hc2, hs2, hm2⟩ := returnPage_ok hc (by omega) hmgr k (by omega)
        rw [e]
        dsimp only
        obtain ⟨p, hp⟩ := returnPage_spec e
        have e1 : s2.iMinimumPageCount = s.iMinimumPageCount :=
          congrArg Outside.iMinimumPageCount hp
        have e2 : s2.iMaximumPageCount = s.iMaximumPageCount :=
          congrArg Outside.iMaximumPageCount hp
        have e3 : s2.iNumberOfFreePages = sub32 s.iNumberOfFreePages 1 :=
          congrArg Outside.iNumberOfFreePages hp
        rw [sub32_one (by omega)] at e3
        exact ih s2 aMax 1 hc2 hm2 (by rw [e1, e2, e3]; omega) (by rw [e1]; exact hmin)
          (by rw [e2]; exact hmax) (by rw [e1, e3]; omega) (fun _ => rfl)
          (by rw [e1, e3]; omega)
    · rw [if_neg hgt]
      exact ⟨s, rfl⟩

end DPager

/-! ## Scenario S4 and the example caches -/

namespace DPager

theorem exampleCache_consistent (a b c : Nat) : (exampleCache a b c).LiveListConsistent := by
  refine ⟨rfl, rfl, ?_, rfl, ?_, ?_, ?_, ?_, ?_⟩
  · show a + c = (List.range (a + c)).length
    rw [List.length_range]
  · intro p hp; exact absurd hp (List.not_mem_nil p)
  · intro p hp; exact absurd hp (List.not_mem_nil p)
  · intro p hp
    have hlt : p < a + c := List.mem_range.1 hp
    show (if p < a + c then TPagedState.EPagedOldestClean else TPagedState.EUnpaged)
      = TPagedState.EPagedOldestClean
    rw [if_pos hlt]
  · intro p hp; exact absurd hp (List.not_mem_nil p)
  · show (([] : List Nat) ++ [] ++ List.range (a + c) ++ []).Nodup
    simp only [List.nil_append, List.append_nil]
    exact List.nodup_range (a + c)

theorem exampleCache_size (a b c : Nat) : (exampleCache a b c).liveListSize = a + c := by
  show 0 + 0 + (List.range (a + c)).length + 0 = a + c
  rw [List.length_range]
  omega

/-- Scenario S4 on the code: the reduction of the minimum turns 512 committed pages into free
pages, the reduction of the maximum stops as soon as `min + free` fits, so 100 frames go back
to the system and 512 free pages stay in the cache. -/
theorem resize_S4 (s : DPager) (fuel : Nat)
    (hmin : s.iMinimumPageCount = 1024) (hmax : s.iMaximumPageCount = 4096)
    (hfree : s.iNumberOfFreePages = 100) (hr : s.iYoungOldRatio ≠ 0)
    (hL : s.computeMinimumPageLimit + s.iReservePageCount ≤ 512)
    (hK : 1024 ≤ KAbsoluteMaxPageCount s.KPageShift)
    (hc : s.LiveListConsistent) (hsz : 100 ≤ s.liveListSize)
    (hmgr : ∀ n, s.mgrStealPage n = KErrNone) (hf : 203 ≤ fuel) :
    ∃ s1, ResizeLiveList fuel s 512 1024 = some (KErrNone, s1) ∧
      s1.iMinimumPageCount = 512 ∧ s1.iNumberOfFreePages = 512 ∧
      s1.iMaximumPageCount = 1024 ∧ s1.freedRam.length = s.freedRam.length + 100 := by
  have hm : max 512 (s.computeMinimumPageLimit + s.iReservePageCount) = 512 := by omega
  have hMM : max (min 1024 (KAbsoluteMaxPageCount s.KPageShift)) 512 = 1024 := by omega
  have hu := resize_unfold s 512 1024 fuel (by decide) (by omega) hr
  rw [hm, hMM] at hu
  obtain ⟨-, -, a3, a4, a5, a6, -, -, a9, a10, a11⟩ := resizeAdjust_fields
    { s with iMinimumPageLimit := s.computeMinimumPageLimit } 512 1024
    (by show s.iMaximumPageCount < _; omega) (by show s.iMinimumPageCount < _; omega)
    (by omega) (by omega)
  obtain ⟨t, ht⟩ : ∃ t, t = resizeAdjust
    { s with iMinimumPageLimit := s.computeMinimumPageLimit } 512 1024 := ⟨_, rfl⟩
  rw [← ht] at hu a3 a4 a5 a6 a9 a10 a11
  have c3 : t.iMaximumPageCount = 4096 := by
    rw [a3]; show max s.iMaximumPageCount 1024 = 4096; omega
  have c4 : t.iMinimumPageCount = 512 := by
    rw [a4]; show min s.iMinimumPageCount 512 = 512; omega
  have c5 : t.iNumberOfFreePages = 612 := by
    have : t.iMinimumPageCount + t.iNumberOfFreePages
        = s.iMinimumPageCount + s.iNumberOfFreePages := a5
    omega
  have c6 : t.freedRam = s.freedRam := a6
  have c9 : t.mgrStealPage = s.mgrStealPage := a9
  have c10 : t.LiveListConsistent := by rw [a10]; exact hc
  have c11 : t.liveListSize = s.liveListSize := a11
  obtain ⟨k, rfl⟩ : ∃ k, fuel = k + 1 := ⟨fuel - 1, by omega⟩
  have e1 : ResizeGrowMin (k + 1) t 512 = some (KErrNone, t) :=
    growMin_done k t 512 (by rw [c4]; omega)
  obtain ⟨s1, e2⟩ := shrinkMax_returns (k + 1) t 1024 1 c10
    (by intro n; rw [c9]; exact hmgr n) (by omega) (by omega) (by omega) (by omega)
    (fun _ => rfl) (by omega)
  obtain ⟨q1, q2, -, -, -, q6, q7⟩ := resizeShrinkMax_post (k + 1) t 1024 s1 e2
    (by omega) (by omega) (by omega)
  refine ⟨s1, (hu KErrNone s1).2 ⟨t, e1, e2⟩, by omega, by omega, q1, ?_⟩
  rw [c6] at q6
  omega

end DPager

/-! ## The argument check of `ResizeLiveList` -/

namespace DPager

theorem resizeGrowMin_code (fuel : Nat) :
    ∀ (s : DPager) (aMin : Nat) (r : Int) (s1 : DPager),
      ResizeGrowMin fuel s aMin = some (r, s1) → r = KErrNone ∨ r = KErrNoMemory := by
  induction fuel with
  | zero => intro s aMin r s1 h; exact absurd h (by simp [ResizeGrowMin])
  | succ k ih =>
    intro s aMin r s1 h
    rw [ResizeGrowMin] at h
    by_cases hlt : s.iMinimumPageCount < aMin
    · rw [if_pos hlt] at h
      dsimp only at h
      obtain ⟨newMin, hN⟩ : ∃ newMin, newMin =
          (if aMin > s.iMinimumPageCount + s.iNumberOfFreePages then
            s.iMinimumPageCount + s.iNumberOfFreePages else aMin) := ⟨_, rfl⟩
      rw [← hN] at h
      by_cases hd : sub32 newMin s.iMinimumPageCount ≠ 0
      · rw [if_pos hd] at h
        exact ih _ aMin r s1 h
      · rw [if_neg hd] at h
        by_cases hg : s.TryGrowLiveList.1 = true
        · rw [if_pos hg] at h
          exact ih _ aMin r s1 h
        · rw [if_neg hg] at h
          simp only [Option.some.injEq, Prod.mk.injEq] at h
          exact Or.inr h.1.symm
    · rw [if_neg hlt] at h
      simp only [Option.some.injEq, Prod.mk.injEq] at h
      exact Or.inl h.1.symm

theorem resize_rejects (s : DPager) (aMin aMax fuel : Nat) (h0 : aMax ≠ 0)
    (hgt : aMin > min aMax (KAbsoluteMaxPageCount s.KPageShift)) :
    ResizeLiveList fuel s aMin aMax = some (KErrArgument, s) := by
  have e : s.resizeArgMax aMax = min aMax (KAbsoluteMaxPageCount s.KPageShift) := by
    simp only [resizeArgMax, if_neg h0]
    exact ite_gt_eq_min _ _
  have e2 : s.resizeArgMin aMin aMax = aMin := by simp only [resizeArgMin, if_neg h0]
  simp only [ResizeLiveList, e, e2]
  rw [if_pos hgt]

theorem resize_accepts (s : DPager) (aMin aMax fuel : Nat) (h0 : aMax ≠ 0)
    (hle : aMin ≤ min aMax (KAbsoluteMaxPageCount s.KPageShift)) (r : Int) (s1 : DPager)
    (h : ResizeLiveList fuel s aMin aMax = some (r, s1)) : r = KErrNone ∨ r = KErrNoMemory := by
  by_cases hr : s.iYoungOldRatio = 0
  · have e : s.resizeArgMax aMax = min aMax (KAbsoluteMaxPageCount s.KPageShift) := by
      simp only [resizeArgMax, if_neg h0]
      exact ite_gt_eq_min _ _
    have e2 : s.resizeArgMin aMin aMax = aMin := by simp only [resizeArgMin, if_neg h0]
    simp only [ResizeLiveList, e, e2] at h
    rw [if_neg (by omega), if_pos hr] at h
    exact absurd h (by simp)
  · obtain ⟨s4, e, -⟩ := (resize_unfold s aMin aMax fuel h0 hle hr r s1).1 h
    exact resizeGrowMin_code fuel _ _ r s4 e

end DPager

/-! ## Rollback of `ReservePages`, victim selection, first pin -/

namespace DPager

theorem reservePages_rollback_spec (s : DPager) (req fuel : Nat) (hf : req + 2 ≤ fuel) :
    ∃ c1 s2 b c s1, ReservePagesLoop fuel s req 0 = some (c1, s2) ∧
      ReservePages fuel s req 0 = some (b, c, s1) ∧
      (b = false ↔ c1 < req) ∧ (b = true ↔ c1 = req) ∧
      s2.iReservePageCount = s.iReservePageCount + c1 ∧
      (b = false → c = 0 ∧ s1.iReservePageCount = s.iReservePageCount ∧
        s1.iMinimumPageCount = s2.iMinimumPageCount) ∧
      s.iMinimumPageCount ≤ s1.iMinimumPageCount := by
  obtain ⟨c1, s2, e, -, p2, p3, p4, -⟩ := reservePagesLoop_spec req s req 0 fuel (by omega) hf
  have hle : c1 ≤ req := p2 (Nat.zero_le _)
  by_cases hc : c1 = req
  · refine ⟨c1, s2, true, c1, s2, e, ?_, ?_, ?_, p3, ?_, p4⟩
    · simp only [ReservePages, e, if_pos hc]
    · constructor
      · intro h; exact absurd h (by decide)
      · intro h; omega
    · exact ⟨fun _ => hc, fun _ => rfl⟩
    · intro h; exact absurd h (by decide)
  · refine ⟨c1, s2, false, 0, { s2 with iReservePageCount := sub32 s2.iReservePageCount c1 },
      e, ?_, ?_, ?_, p3, ?_, p4⟩
    · simp only [ReservePages, e, if_neg hc, UnreservePages]
    · exact ⟨fun _ => by omega, fun _ => rfl⟩
    · constructor
      · intro h; exact absurd h (by decide)
      · intro h; exact absurd h hc
    · intro _
      refine ⟨rfl, ?_, rfl⟩
      show sub32 s2.iReservePageCount c1 = _
      rw [p3, sub32_le (by omega)]
      omega

theorem tryStealOldest_unfold {s : DPager} {p : Nat} (hp : s.OldestLink = some p)
    (out : Option Nat) :
    s.TryStealOldestPage out =
      if ((s.pageInfo p).IsDirty && !s.cleaningLockHeld) = true then some (1, out, s)
      else if (s.StealPage p).1 = KErrNone then
        some ((s.StealPage p).1, some p, (s.StealPage p).2.BalanceAges)
      else some ((s.StealPage p).1, out, (s.StealPage p).2) := by
  simp only [TryStealOldestPage, hp]

theorem oldestLink_rule {s : DPager} {p : Nat} (hp : s.OldestLink = some p) :
    (0 < s.iOldestCleanCount → s.iOldestCleanList.getLast? = some p) ∧
    (s.iOldestCleanCount = 0 → 0 < s.iOldestDirtyCount →
      s.iOldestDirtyList.getLast? = some p) ∧
    (s.iOldestCleanCount = 0 → s.iOldestDirtyCount = 0 → 0 < s.iOldCount →
      s.iOldList.getLast? = some p) ∧
    (s.iOldestCleanCount = 0 → s.iOldestDirtyCount = 0 → s.iOldCount = 0 →
      s.iYoungList.getLast? = some p) := by
  unfold OldestLink at hp
  refine ⟨?_, ?_, ?_, ?_⟩
  · intro h1
    rw [if_pos (by omega)] at hp
    exact hp
  · intro h1 h2
    rw [if_neg (by omega), if_pos (by omega)] at hp
    exact hp
  · intro h1 h2 h3
    rw [if_neg (by omega), if_neg (by omega), if_pos (by omega)] at hp
    exact hp
  · intro h1 h2 h3
    rw [if_neg (by omega), if_neg (by omega), if_neg (by omega)] at hp
    exact hp

theorem pageInfo_ageYoungToOld (s : DPager) (link q : Nat) (h : q ≠ link) :
    (s.ageYoungToOld link).pageInfo q = s.pageInfo q := by
  show (if q = link then _ else s.pageInfo q) = _
  rw [if_neg h]

theorem pageInfo_ageOldToOldest (s : DPager) (link q : Nat) (h : q ≠ link) :
    (s.ageOldToOldest link).pageInfo q = s.pageInfo q := by
  unfold ageOldToOldest
  dsimp only
  split
  · show (if q = link then _ else s.pageInfo q) = _
    rw [if_neg h]
  · show (if q = link then _ else s.pageInfo q) = _
    rw [if_neg h]

/-- The call `BalanceAges` leaves the descriptor of a frame that is not on the live list
alone. -/
theorem pageInfo_BalanceAges_off {s : DPager} {q : Nat} (hoff : ¬ s.OnLiveList q) :
    s.BalanceAges.pageInfo q = s.pageInfo q := by
  have h1 : s.BalanceAgesYoung.pageInfo q = s.pageInfo q := by
    unfold BalanceAgesYoung
    dsimp only
    split
    · split
      · rfl
      · next link hl =>
        have hm := List.mem_of_getLast?_eq_some hl
        exact pageInfo_ageYoungToOld s link q (fun e => hoff (Or.inl (e ▸ hm)))
    · rfl
  have h2 : ∀ (t : DPager) (n : Nat), ¬ t.OnLiveList q →
      (t.BalanceAgesOld n).pageInfo q = t.pageInfo q := by
    intro t n ht
    unfold BalanceAgesOld
    split
    · split
      · rfl
      · next link hl =>
        have hm := List.mem_of_getLast?_eq_some hl
        exact pageInfo_ageOldToOldest t link q (fun e => ht (Or.inr (Or.inl (e ▸ hm))))
    · rfl
  have h3 : ¬ s.BalanceAgesYoung.OnLiveList q := by
    intro hq
    have h4 : s.BalanceAgesYoung.OnLiveList q ↔ s.OnLiveList q := by
      unfold BalanceAgesYoung
      dsimp only
      split
      · split
        · rfl
        · next link hl => exact onLiveList_ageYoungToOld (List.mem_of_getLast?_eq_some hl) q
      · rfl
    exact hoff (h4.1 hq)
  unfold BalanceAges
  exact (h2 _ _ h3).trans h1

end DPager

/-! ## Re-entrant pin -/

namespace DPager

theorem pin_pinned (s : DPager) (p : Nat) (args : TPinArgs)
    (h : (s.pageInfo p).iPagedState = TPagedState.EPagedPinned) :
    s.Pin p args = (s.setPage p SPageInfo.IncPinCount, args) := by
  have e : s.PinBeforeBalance p args = none := by
    have h2 := incPin_state s p
    rw [h] at h2
    simp only [PinBeforeBalance, h2]
  simp only [Pin, e]

end DPager

/-! ## `Pin`, `Unpin` and the head of the young queue -/

namespace DPager

theorem outside_AddAsYoungestPage (s : DPager) (p : Nat) :
    (s.AddAsYoungestPage p).outside = s.outside := rfl

theorem outside_setPage (s : DPager) (p : Nat) (f : SPageInfo → SPageInfo) :
    (s.setPage p f).outside = s.outside := rfl

theorem outside_SetPagedState (s : DPager) (p : Nat) (st : TPagedState) :
    (s.SetPagedState p st).outside = s.outside := rfl

theorem outside_PinAccount (s : DPager) (p : Nat) (args : TPinArgs) :
    (s.PinAccount p args).1.outside = s.outside := by
  unfold PinAccount
  dsimp only
  split <;> rfl

theorem outside_Pin (s : DPager) (p : Nat) (args : TPinArgs) :
    (s.Pin p args).1.outside = s.outside := by
  have hst0 := incPin_state s p
  rcases hst : (s.pageInfo p).iPagedState <;> rw [hst] at hst0 <;>
    simp only [Pin, PinBeforeBalance, hst0] <;>
    (try rw [outside_BalanceAges, outside_PinAccount]) <;> rfl

theorem outside_Unpin (s : DPager) (p : Nat) (args : TPinArgs) :
    (s.Unpin p args).1.outside = s.outside := by
  unfold Unpin
  dsimp only
  split
  · rfl
  · rw [outside_BalanceAges, outside_AddAsYoungestPage, outside_setPage,
      outside_SetPagedState, outside_setPage]

theorem young_ageOldToOldest {s : DPager} (h : s.LiveListConsistent) {link : Nat}
    (hm : link ∈ s.iOldList) : (s.ageOldToOldest link).iYoungList = s.iYoungList := by
  obtain ⟨m1, -, -⟩ := mem_old_only h hm
  unfold ageOldToOldest
  dsimp only
  split
  · show s.iYoungList.erase link = s.iYoungList
    exact List.erase_of_not_mem m1
  · show s.iYoungList.erase link = s.iYoungList
    exact List.erase_of_not_mem m1

/-- The second step of `BalanceAges` leaves the young queue and the young frames alone. -/
theorem young_BalanceAgesOld {s : DPager} (h : s.LiveListConsistent) (n : Nat) {p : Nat}
    (hp : p ∈ s.iYoungList) :
    (s.BalanceAgesOld n).iYoungList = s.iYoungList ∧
      (s.BalanceAgesOld n).pageInfo p = s.pageInfo p := by
  unfold BalanceAgesOld
  split
  · split
    · exact ⟨rfl, rfl⟩
    · next link hl =>
      have hm := List.mem_of_getLast?_eq_some hl
      obtain ⟨m1, -, -⟩ := mem_old_only h hm
      exact ⟨young_ageOldToOldest h hm,
        pageInfo_ageOldToOldest s link p (fun e => m1 (e ▸ hp))⟩
  · exact ⟨rfl, rfl⟩

/-- The first step of `BalanceAges` leaves the head of the young queue where it is, when the
live list holds another frame and its size times the ratio fits in 32 bits. -/
theorem head_BalanceAgesYoung {s : DPager} (h : s.LiveListConsistent) {p : Nat}
    {rest : List Nat} (hy : s.iYoungList = p :: rest) (hr : 1 ≤ s.iYoungOldRatio)
    (hsz : 2 ≤ s.liveListSize) (hw : s.liveListSize * s.iYoungOldRatio < 4294967296) :
    (∃ rest1, s.BalanceAgesYoung.iYoungList = p :: rest1) ∧
      s.BalanceAgesYoung.pageInfo p = s.pageInfo p := by
  unfold BalanceAgesYoung
  dsimp only
  by_cases hc : ((s.iOldCount + (s.iOldestCleanCount + s.iOldestDirtyCount))
      * s.iYoungOldRatio) % 4294967296 < s.iYoungCount
  · rw [if_pos hc]
    have hn := (consistent_nodup h).1
    rw [hy] at hn
    cases rest with
    | nil =>
      exfalso
      have e1 : s.iYoungCount = 1 := by rw [h.1, hy]; rfl
      have e2 := liveListSize_eq_counts h
      have e3 : 1 ≤ s.iOldCount + (s.iOldestCleanCount + s.iOldestDirtyCount) := by omega
      have e4 : 1 ≤ (s.iOldCount + (s.iOldestCleanCount + s.iOldestDirtyCount))
          * s.iYoungOldRatio := Nat.mul_pos e3 hr
      have e5 : (s.iOldCount + (s.iOldestCleanCount + s.iOldestDirtyCount))
          * s.iYoungOldRatio ≤ s.liveListSize * s.iYoungOldRatio :=
        Nat.mul_le_mul_right _ (by omega)
      rw [Nat.mod_eq_of_lt (Nat.lt_of_le_of_lt e5 hw)] at hc
      omega
    | cons x xs =>
      split
      · exact ⟨⟨_, hy⟩, rfl⟩
      · next link hl =>
        rw [hy, List.getLast?_cons_cons] at hl
        have hm := List.mem_of_getLast?_eq_some hl
        have hne : p ≠ link := fun e => (List.nodup_cons.1 hn).1 (e ▸ hm)
        refine ⟨⟨(x :: xs).erase link, ?_⟩, pageInfo_ageYoungToOld s link p hne⟩
        show s.iYoungList.erase link = _
        rw [hy, List.erase_cons_tail (by simpa using hne)]
  · rw [if_neg hc]
    exact ⟨⟨_, hy⟩, rfl⟩

/-- The call `BalanceAges` leaves the head of the young queue where it is, when the live
list holds another frame and its size times the ratio fits in 32 bits. -/
theorem head_BalanceAges {s : DPager} (h : s.LiveListConsistent) {p : Nat}
    {rest : List Nat} (hy : s.iYoungList = p :: rest) (hr : 1 ≤ s.iYoungOldRatio)
    (hsz : 2 ≤ s.liveListSize) (hw : s.liveListSize * s.iYoungOldRatio < 4294967296) :
    s.BalanceAges.iYoungList.head? = some p ∧ s.BalanceAges.pageInfo p = s.pageInfo p := by
  obtain ⟨⟨rest1, e1⟩, e2⟩ := head_BalanceAgesYoung h hy hr hsz hw
  have hc := consistent_BalanceAgesYoung h
  obtain ⟨e3, e4⟩ := young_BalanceAgesOld hc (s.iOldestCleanCount + s.iOldestDirtyCount)
    (p := p) (by rw [e1]; exact List.mem_cons_self _ _)
  unfold BalanceAges
  dsimp only
  rw [e3, e4, e1, e2]
  exact ⟨rfl, rfl⟩

end DPager

/-! ## Balanced sequences of `Pin` and `Unpin` on one frame -/

namespace DPager

theorem setPage_same (s : DPager) (p : Nat) (f : SPageInfo → SPageInfo) :
    (s.setPage p f).pageInfo p = f (s.pageInfo p) := by
  show (if p = p then f (s.pageInfo p) else s.pageInfo p) = _
  rw [if_pos rfl]

theorem setPage_other (s : DPager) (p : Nat) (f : SPageInfo → SPageInfo) {q : Nat}
    (h : q ≠ p) : (s.setPage p f).pageInfo q = s.pageInfo q := by
  show (if q = p then f (s.pageInfo q) else s.pageInfo q) = _
  rw [if_neg h]

/-- The state `Unpin` hands to `BalanceAges` on the last unpin of a frame. -/
theorem unpin_last {s : DPager} {p : Nat} (args : TPinArgs)
    (hc : (s.pageInfo p).iPinCount = 1) :
    s.Unpin p args =
      ((AddAsYoungestPage
          (setPage (SetPagedState (s.setPage p SPageInfo.DecPinCount) p TPagedState.EUnpaged)
            p SPageInfo.ClearPinnedReserve) p).BalanceAges,
        if (s.pageInfo p).iPinnedReserve = false then
          { args with iReplacementPages := args.iReplacementPages + 1 }
        else args) := by
  have e0 : ((s.setPage p SPageInfo.DecPinCount).pageInfo p).iPinCount = 0 := by
    rw [setPage_same]
    show (s.pageInfo p).iPinCount - 1 = 0
    rw [hc]
  have e1 : (((s.setPage p SPageInfo.DecPinCount).SetPagedState p
      TPagedState.EUnpaged).pageInfo p).iPinnedReserve = (s.pageInfo p).iPinnedReserve := by
    unfold SetPagedState
    rw [setPage_same, setPage_same]
    rfl
  unfold Unpin
  dsimp only
  rw [if_neg (by rw [e0]; exact fun h => h rfl), e1]
  cases (s.pageInfo p).iPinnedReserve <;> rfl

/-- An unpin that is not the last one only lowers the pin count. -/
theorem unpin_more {s : DPager} {p : Nat} (args : TPinArgs)
    (hc : 2 ≤ (s.pageInfo p).iPinCount) :
    s.Unpin p args = (s.setPage p SPageInfo.DecPinCount, args) := by
  have e0 : ((s.setPage p SPageInfo.DecPinCount).pageInfo p).iPinCount
      = (s.pageInfo p).iPinCount - 1 := by
    rw [setPage_same]; rfl
  unfold Unpin
  dsimp only
  rw [if_pos (by rw [e0]; omega)]

theorem liveListSize_setPage (s : DPager) (p : Nat) (f : SPageInfo → SPageInfo) :
    (s.setPage p f).liveListSize = s.liveListSize := rfl

theorem young_AddAsYoungestPage (s : DPager) (p : Nat) :
    (s.AddAsYoungestPage p).iYoungList = p :: s.iYoungList := rfl

theorem liveListSize_AddAsYoungestPage (s : DPager) (p : Nat) :
    (s.AddAsYoungestPage p).liveListSize = s.liveListSize + 1 := by
  show (p :: s.iYoungList).length + s.iOldList.length + s.iOldestCleanList.length
    + s.iOldestDirtyList.length = s.liveListSize + 1
  unfold liveListSize
  rw [List.length_cons]
  omega

theorem pageInfo_AddAsYoungestPage (s : DPager) (p : Nat) :
    (s.AddAsYoungestPage p).pageInfo p
      = (s.pageInfo p).SetPagedState TPagedState.EPagedYoung := by
  show (if p = p then _ else _) = _
  rw [if_pos rfl]

theorem pinBalance_pin_first {s : DPager} {p : Nat} (args : TPinArgs)
    (h : s.PinBalance p 0) : (s.Pin p args).1.PinBalance p 1 := by
  obtain ⟨hc, hr, hcount, h0, -⟩ := h
  obtain ⟨hon, hsz, hw⟩ := h0 rfl
  obtain ⟨s1, args1, e, c1, hoff, hst, hpc, l1, l2, l3, l4, -⟩ :=
    pinBeforeBalance_linked hc hon args
  have ePin : s.Pin p args = (s1.BalanceAges, args1) := by simp only [Pin, e]
  have hratio : (s.Pin p args).1.iYoungOldRatio = s.iYoungOldRatio :=
    congrArg Outside.iYoungOldRatio (outside_Pin s p args)
  have hsize : s1.liveListSize + 1 = s.liveListSize := by
    have := liveListSize_Deque hc hon
    have e2 : s1.liveListSize = (s.Deque p).liveListSize := by
      unfold liveListSize
      rw [l1, l2, l3, l4]
      rfl
    omega
  have hsz1 : (s.Pin p args).1.liveListSize + 1 = s.liveListSize := by
    rw [ePin]
    show s1.BalanceAges.liveListSize + 1 = _
    rw [liveListSize_BalanceAges c1]
    exact hsize
  refine ⟨?_, by rw [hratio]; exact hr, ?_, fun h => absurd h (by decide),
    fun _ => ⟨?_, by omega, by rw [hsz1, hratio]; exact hw⟩⟩
  · rw [ePin]; exact consistent_BalanceAges c1
  · rw [ePin]
    show (s1.BalanceAges.pageInfo p).iPinCount = 1
    rw [pageInfo_BalanceAges_off hoff, hpc, hcount]
  · rw [ePin]
    show (s1.BalanceAges.pageInfo p).iPagedState = _
    rw [pageInfo_BalanceAges_off hoff, hst]

theorem pinBalance_pin_again {s : DPager} {p n : Nat} (args : TPinArgs) (hn : 0 < n)
    (h : s.PinBalance p n) : (s.Pin p args).1.PinBalance p (n + 1) := by
  obtain ⟨hc, hr, hcount, -, h1⟩ := h
  obtain ⟨hst, hsz, hw⟩ := h1 hn
  rw [pin_pinned s p args hst]
  refine ⟨consistent_setPage_same hc p SPageInfo.IncPinCount (fun _ => rfl), hr, ?_,
    fun h => absurd h (by omega), fun _ => ⟨?_, hsz, hw⟩⟩
  · show ((s.setPage p SPageInfo.IncPinCount).pageInfo p).iPinCount = n + 1
    rw [incPin_count, hcount]
  · show ((s.setPage p SPageInfo.IncPinCount).pageInfo p).iPagedState = _
    rw [incPin_state, hst]

theorem pinBalance_unpin_more {s : DPager} {p n : Nat} (args : TPinArgs) (hn : 0 < n)
    (h : s.PinBalance p (n + 1)) : (s.Unpin p args).1.PinBalance p n := by
  obtain ⟨hc, hr, hcount, -, h1⟩ := h
  obtain ⟨hst, hsz, hw⟩ := h1 (by omega)
  rw [unpin_more args (by omega)]
  refine ⟨consistent_setPage_same hc p SPageInfo.DecPinCount (fun _ => rfl), hr, ?_,
    fun h => absurd h (by omega), fun _ => ⟨?_, hsz, hw⟩⟩
  · show ((s.setPage p SPageInfo.DecPinCount).pageInfo p).iPinCount = n
    rw [setPage_same]
    show (s.pageInfo p).iPinCount - 1 = n
    omega
  · show ((s.setPage p SPageInfo.DecPinCount).pageInfo p).iPagedState = _
    rw [setPage_same]
    exact hst

theorem pinBalance_unpin_last {s : DPager} {p : Nat} (args : TPinArgs)
    (h : s.PinBalance p 1) :
    (s.Unpin p args).1.PinBalance p 0 ∧ (s.Unpin p args).1.IsYoungest p := by
  obtain ⟨hc, hr, hcount, -, h1⟩ := h
  obtain ⟨hst, hsz, hw⟩ := h1 (by decide)
  have hoff : ¬ s.OnLiveList p := not_onLiveList_of_not_sublist hc (by rw [hst]; rfl)
  have e0 := consistent_setPage_off hc hoff SPageInfo.DecPinCount
  have e1 := consistent_setPage_off e0.1 e0.2 (fun i => i.SetPagedState TPagedState.EUnpaged)
  have e2 := consistent_setPage_off e1.1 e1.2 SPageInfo.ClearPinnedReserve
  have e3 := consistent_AddAsYoungestPage e2.1 e2.2
  rw [unpin_last args hcount]
  obtain ⟨t, ht⟩ : ∃ t, t = AddAsYoungestPage
      (setPage (SetPagedState (s.setPage p SPageInfo.DecPinCount) p TPagedState.EUnpaged)
        p SPageInfo.ClearPinnedReserve) p := ⟨_, rfl⟩
  have e3t : t.LiveListConsistent := by rw [ht]; exact e3
  have hy : t.iYoungList = p :: s.iYoungList := by
    rw [ht, young_AddAsYoungestPage]; rfl
  have hout : t.outside = s.outside := by
    rw [ht, outside_AddAsYoungestPage, outside_setPage, outside_SetPagedState,
      outside_setPage]
  have hrt : t.iYoungOldRatio = s.iYoungOldRatio := congrArg Outside.iYoungOldRatio hout
  have hszt : t.liveListSize = s.liveListSize + 1 := by
    rw [ht, liveListSize_AddAsYoungestPage, liveListSize_setPage]
    unfold SetPagedState
    rw [liveListSize_setPage, liveListSize_setPage]
  have hpt : (t.pageInfo p).iPinCount = 0 ∧
      (t.pageInfo p).iPagedState = TPagedState.EPagedYoung := by
    rw [ht, pageInfo_AddAsYoungestPage, setPage_same]
    unfold SetPagedState
    rw [setPage_same, setPage_same]
    exact ⟨by show (s.pageInfo p).iPinCount - 1 = 0; omega, rfl⟩
  obtain ⟨b1, b2⟩ := head_BalanceAges e3t hy (by rw [hrt]; exact hr) (by rw [hszt]; omega)
    (by rw [hszt, hrt]; exact hw)
  rw [← ht]
  have hon : t.BalanceAges.OnLiveList p := by
    cases hl : t.BalanceAges.iYoungList with
    | nil => rw [hl] at b1; exact absurd b1 (by simp)
    | cons x xs =>
      rw [hl] at b1
      have : x = p := by simpa using b1
      exact Or.inl (by rw [hl, this]; exact List.mem_cons_self _ _)
  have hRb : t.BalanceAges.iYoungOldRatio = s.iYoungOldRatio :=
    (congrArg Outside.iYoungOldRatio (outside_BalanceAges t)).trans hrt
  refine ⟨⟨consistent_BalanceAges e3t, ?_, ?_, fun _ => ⟨hon, ?_,
    by rw [liveListSize_BalanceAges e3t, hszt, hRb]; exact hw⟩,
    fun h => absurd h (by decide)⟩, ?_, b1, ?_⟩
  · have := congrArg Outside.iYoungOldRatio (outside_BalanceAges t)
    show 1 ≤ t.BalanceAges.iYoungOldRatio
    rw [show t.BalanceAges.iYoungOldRatio = t.iYoungOldRatio from this, hrt]
    exact hr
  · show (t.BalanceAges.pageInfo p).iPinCount = 0
    rw [b2]; exact hpt.1
  · show 2 ≤ t.BalanceAges.liveListSize
    rw [liveListSize_BalanceAges e3t, hszt]; omega
  · show (t.BalanceAges.pageInfo p).iPinCount = 0
    rw [b2]; exact hpt.1
  · show (t.BalanceAges.pageInfo p).iPagedState = _
    rw [b2]; exact hpt.2

/-- After a balanced sequence of `Pin` and `Unpin` calls on a frame of a live list that holds
another frame and whose size times the ratio fits in 32 bits, the frame is the youngest frame
of the live list. -/
theorem pinCalls_balanced (p : Nat) :
    ∀ (ops : List Bool) (n : Nat) (s : DPager) (args : TPinArgs),
      pinsBalanced n ops = true → s.PinBalance p n → (n = 0 → ops = [] → s.IsYoungest p) →
      (pinCalls (ops.map (fun b => (b, p))) (s, args)).1.IsYoungest p ∧
        (pinCalls (ops.map (fun b => (b, p))) (s, args)).1.PinBalance p 0 := by
  intro ops
  induction ops with
  | nil =>
    intro n s args hb h hy
    have hn : n = 0 := by
      cases n with
      | zero => rfl
      | succ m => exact absurd hb (by simp [pinsBalanced])
    subst hn
    exact ⟨hy rfl rfl, h⟩
  | cons op ops ih =>
    intro n s args hb h _
    cases op with
    | true =>
      have hb2 : pinsBalanced (n + 1) ops = true := by
        simpa only [pinsBalanced] using hb
      have hstep : (s.Pin p args).1.PinBalance p (n + 1) := by
        cases n with
        | zero => exact pinBalance_pin_first args h
        | succ m => exact pinBalance_pin_again args (Nat.succ_pos m) h
      exact ih (n + 1) (s.Pin p args).1 (s.Pin p args).2 hb2 hstep
        (fun h0 => absurd h0 (Nat.succ_ne_zero n))
    | false =>
      cases n with
      | zero => exact absurd hb (by simp [pinsBalanced])
      | succ m =>
        have hb2 : pinsBalanced m ops = true := by
          simpa only [pinsBalanced] using hb
        cases m with
        | zero =>
          obtain ⟨k1, k2⟩ := pinBalance_unpin_last args h
          exact ih 0 (s.Unpin p args).1 (s.Unpin p args).2 hb2 k1 (fun _ _ => k2)
        | succ k =>
          exact ih (k + 1) (s.Unpin p args).1 (s.Unpin p args).2 hb2
            (pinBalance_unpin_more args (Nat.succ_pos k) h)
            (fun h0 => absurd h0 (Nat.succ_ne_zero k))

end DPager

namespace DPager

theorem exampleRatioCache_consistent (n r o : Nat) :
    (exampleRatioCache n r o).LiveListConsistent := exampleCache_consistent n n 0

theorem exampleWide_consistent : exampleWide.LiveListConsistent :=
  exampleRatioCache_consistent 262145 16384 1

theorem exampleRatioCache_on (n r o p : Nat) (h : p < n) :
    (exampleRatioCache n r o).OnLiveList p := by
  right; right; left
  exact List.mem_range.2 (by omega)

theorem exampleRatioCache_size (n r o : Nat) : (exampleRatioCache n r o).liveListSize = n := by
  have := exampleCache_size n n 0
  exact this

end DPager

namespace DPager

theorem exampleRatioCache_off (n r o p : Nat) (h : n ≤ p) :
    ¬ (exampleRatioCache n r o).OnLiveList p := by
  intro hon
  rcases hon with hm | hm | hm | hm
  · exact absurd hm (List.not_mem_nil _)
  · exact absurd hm (List.not_mem_nil _)
  · have hlt : p < n + 0 := List.mem_range.1 hm
    omega
  · exact absurd hm (List.not_mem_nil _)

theorem exampleWrap_consistent : exampleWrap.LiveListConsistent :=
  consistent_AddAsYoungestPage (exampleRatioCache_consistent 262144 16384 1)
    (exampleRatioCache_off 262144 16384 1 262144 (Nat.le_refl _))

end DPager

/-! ## Replacement pages of the pin arguments -/

namespace DPager

theorem countP_update {l : List Nat} (hn : l.Nodup) {q : Nat} (hq : q ∈ l) {f g : Nat → Bool}
    (hfg : ∀ x, x ≠ q → g x = f x) (hf : f q = false) (hg : g q = true) :
    l.countP g = l.countP f + 1 := by
  induction l with
  | nil => exact absurd hq (List.not_mem_nil q)
  | cons a l ih =>
    obtain ⟨ha, hl⟩ := List.nodup_cons.1 hn
    rw [List.countP_cons, List.countP_cons]
    by_cases e : a = q
    · subst e
      have hc : l.countP g = l.countP f :=
        List.countP_congr (fun x hx => by rw [hfg x (fun e => ha (e ▸ hx))])
      rw [hc, hf, hg]
      simp
    · have hq2 : q ∈ l := by
        rcases List.mem_cons.1 hq with h | h
        · exact absurd h.symm e
        · exact h
      rw [ih hl hq2, hfg a e]
      omega

theorem pinnedFrames_congr {s t : DPager} (frames : List Nat)
    (h : ∀ x, (t.pageInfo x).iPagedState = TPagedState.EPagedPinned ↔
      (s.pageInfo x).iPagedState = TPagedState.EPagedPinned) :
    t.pinnedFrames frames = s.pinnedFrames frames := by
  unfold pinnedFrames
  exact List.countP_congr (fun x _ => by rw [decide_eq_decide.2 (h x)])

theorem pinnedFrames_pin {s t : DPager} {frames : List Nat} (hn : frames.Nodup) {q : Nat}
    (hq : q ∈ frames)
    (h : ∀ x, x ≠ q → ((t.pageInfo x).iPagedState = TPagedState.EPagedPinned ↔
      (s.pageInfo x).iPagedState = TPagedState.EPagedPinned))
    (hs : (s.pageInfo q).iPagedState ≠ TPagedState.EPagedPinned)
    (ht : (t.pageInfo q).iPagedState = TPagedState.EPagedPinned) :
    t.pinnedFrames frames = s.pinnedFrames frames + 1 := by
  unfold pinnedFrames
  exact countP_update hn hq (fun x hx => decide_eq_decide.2 (h x hx))
    (decide_eq_false hs) (decide_eq_true ht)

/-- The step `BalanceAges` changes nothing but paged states. -/
theorem pageInfo_BalanceAges (s : DPager) (q : Nat) :
    ∃ st, s.BalanceAges.pageInfo q = (s.pageInfo q).SetPagedState st := by
  have h1 : ∃ st, s.BalanceAgesYoung.pageInfo q = (s.pageInfo q).SetPagedState st := by
    unfold BalanceAgesYoung
    dsimp only
    split
    · split
      · exact ⟨_, rfl⟩
      · next link hl =>
        by_cases e : q = link
        · refine ⟨TPagedState.EPagedOld, ?_⟩
          show (if q = link then _ else _) = _
          rw [if_pos e]
          rfl
        · exact ⟨_, pageInfo_ageYoungToOld s link q e⟩
    · exact ⟨_, rfl⟩
  have h2 : ∀ (t : DPager) (n : Nat),
      ∃ st, (t.BalanceAgesOld n).pageInfo q = (t.pageInfo q).SetPagedState st := by
    intro t n
    unfold BalanceAgesOld
    split
    · split
      · exact ⟨_, rfl⟩
      · next link hl =>
        by_cases e : q = link
        · unfold ageOldToOldest
          dsimp only
          split
          · refine ⟨TPagedState.EPagedOldestDirty, ?_⟩
            show (if q = link then _ else _) = _
            rw [if_pos e]
            rfl
          · refine ⟨TPagedState.EPagedOldestClean, ?_⟩
            show (if q = link then _ else _) = _
            rw [if_pos e]
            rfl
        · exact ⟨_, pageInfo_ageOldToOldest t link q e⟩
    · exact ⟨_, rfl⟩
  obtain ⟨st1, e1⟩ := h1
  obtain ⟨st2, e2⟩ := h2 s.BalanceAgesYoung (s.iOldestCleanCount + s.iOldestDirtyCount)
  refine ⟨st2, ?_⟩
  unfold BalanceAges
  dsimp only
  rw [e2, e1]
  rfl

/-- On a consistent live list `BalanceAges` makes no frame pinned and no pinned frame
unpinned. -/
theorem pinned_BalanceAges {s : DPager} (h : s.LiveListConsistent) (x : Nat) :
    (s.BalanceAges.pageInfo x).iPagedState = TPagedState.EPagedPinned ↔
      (s.pageInfo x).iPagedState = TPagedState.EPagedPinned := by
  by_cases hon : s.OnLiveList x
  · have h1 := sublistState_of_onLiveList h hon
    have h2 := sublistState_of_onLiveList (consistent_BalanceAges h)
      ((onLiveList_BalanceAges s x).2 hon)
    constructor
    · intro e; rw [e] at h2; exact absurd h2 (by decide)
    · intro e; rw [e] at h1; exact absurd h1 (by decide)
  · rw [pageInfo_BalanceAges_off hon]

theorem pinAccount_args (s : DPager) (p : Nat) (args : TPinArgs) :
    (s.PinAccount p args).2 =
      if args.iReplacementPages = EUseReserveForPinReplacementPages then args
      else { args with iReplacementPages := sub32 args.iReplacementPages 1 } := by
  unfold PinAccount
  dsimp only
  split <;> rfl

theorem pinAccount_pageInfo (s : DPager) (p : Nat) (args : TPinArgs) :
    ((s.PinAccount p args).1.pageInfo p).iPagedState = TPagedState.EPagedPinned ∧
    ((s.PinAccount p args).1.pageInfo p).iPinCount = (s.pageInfo p).iPinCount ∧
    ((s.PinAccount p args).1.pageInfo p).iPinnedReserve
      = (if args.iReplacementPages = EUseReserveForPinReplacementPages then true
        else (s.pageInfo p).iPinnedReserve) ∧
    (∀ x, x ≠ p → (s.PinAccount p args).1.pageInfo x = s.pageInfo x) := by
  unfold PinAccount SetPagedState
  dsimp only
  split
  · next hs =>
    rw [setPage_same, setPage_same]
    refine ⟨rfl, rfl, rfl, fun x hx => ?_⟩
    rw [setPage_other _ _ _ hx, setPage_other _ _ _ hx]
  · next hs =>
    rw [setPage_same]
    refine ⟨rfl, rfl, rfl, fun x hx => ?_⟩
    rw [setPage_other _ _ _ hx]

/-- The part of `Pin` before `BalanceAges`, for a frame that is not pinned yet. -/
theorem pinBeforeBalance_some (s : DPager) (p : Nat) (args : TPinArgs)
    (h1 : (s.pageInfo p).iPagedState ≠ TPagedState.EPagedPinned)
    (h2 : (s.pageInfo p).iPagedState ≠ TPagedState.EPagedPinnedMoved) :
    ∃ t, s.PinBeforeBalance p args = some (PinAccount t p args) ∧
      t.pageInfo = (s.setPage p SPageInfo.IncPinCount).pageInfo := by
  have hst0 := incPin_state s p
  rcases hst : (s.pageInfo p).iPagedState
  · rw [hst] at hst0
    exact ⟨s.setPage p SPageInfo.IncPinCount, by simp only [PinBeforeBalance, hst0], rfl⟩
  · rw [hst] at hst0
    exact ⟨{ (s.setPage p SPageInfo.IncPinCount).Deque p with
        iYoungCount := sub32 (s.setPage p SPageInfo.IncPinCount).iYoungCount 1 },
      by simp only [PinBeforeBalance, hst0], rfl⟩
  · rw [hst] at hst0
    exact ⟨{ (s.setPage p SPageInfo.IncPinCount).Deque p with
        iOldCount := sub32 (s.setPage p SPageInfo.IncPinCount).iOldCount 1 },
      by simp only [PinBeforeBalance, hst0], rfl⟩
  · exact absurd hst h1
  · rw [hst] at hst0
    exact ⟨{ (s.setPage p SPageInfo.IncPinCount).Deque p with
        iOldestCleanCount := sub32 (s.setPage p SPageInfo.IncPinCount).iOldestCleanCount 1 },
      by simp only [PinBeforeBalance, hst0], rfl⟩
  · rw [hst] at hst0
    exact ⟨{ (s.setPage p SPageInfo.IncPinCount).Deque p with
        iOldestDirtyCount := sub32 (s.setPage p SPageInfo.IncPinCount).iOldestDirtyCount 1 },
      by simp only [PinBeforeBalance, hst0], rfl⟩
  · exact absurd hst h2

end DPager

namespace DPager

theorem pageInfo_AddAsYoungestPage_other (s : DPager) (p : Nat) {x : Nat} (h : x ≠ p) :
    (s.AddAsYoungestPage p).pageInfo x = s.pageInfo x := by
  show (if x = p then _ else _) = _
  rw [if_neg h]

/-- What `Pin` does to the pin arguments, the pinned-reserve flag and the pin count of a
frame that is not pinned yet. -/
theorem pin_first_spec (s : DPager) (p : Nat) (args : TPinArgs)
    (h1 : (s.pageInfo p).iPagedState ≠ TPagedState.EPagedPinned)
    (h2 : (s.pageInfo p).iPagedState ≠ TPagedState.EPagedPinnedMoved) :
    (s.Pin p args).2 =
      (if args.iReplacementPages = EUseReserveForPinReplacementPages then args
        else { args with iReplacementPages := sub32 args.iReplacementPages 1 }) ∧
    ((s.Pin p args).1.pageInfo p).iPinnedReserve =
      (if args.iReplacementPages = EUseReserveForPinReplacementPages then true
        else (s.pageInfo p).iPinnedReserve) ∧
    ((s.Pin p args).1.pageInfo p).iPinCount = (s.pageInfo p).iPinCount + 1 := by
  obtain ⟨t, e, ht⟩ := pinBeforeBalance_some s p args h1 h2
  have ePin : s.Pin p args = ((t.PinAccount p args).1.BalanceAges, (t.PinAccount p args).2) := by
    simp only [Pin, e]
  obtain ⟨-, a2, a3, -⟩ := pinAccount_pageInfo t p args
  obtain ⟨st, hst⟩ := pageInfo_BalanceAges (t.PinAccount p args).1 p
  have htp : t.pageInfo p = SPageInfo.IncPinCount (s.pageInfo p) := by
    rw [ht, setPage_same]
  rw [ePin]
  refine ⟨pinAccount_args t p args, ?_, ?_⟩
  · show ((t.PinAccount p args).1.BalanceAges.pageInfo p).iPinnedReserve = _
    rw [hst]
    show ((t.PinAccount p args).1.pageInfo p).iPinnedReserve = _
    rw [a3, htp]
    rfl
  · show ((t.PinAccount p args).1.BalanceAges.pageInfo p).iPinCount = _
    rw [hst]
    show ((t.PinAccount p args).1.pageInfo p).iPinCount = _
    rw [a2, htp]
    rfl

/-- The paged states after `Pin` of a frame that is not pinned yet: the frame is pinned, the
other frames are pinned exactly if they were. -/
theorem pin_first_states {s : DPager} (h : s.LiveListConsistent) {p : Nat} (hl : s.Linked p)
    (args : TPinArgs) (h1 : (s.pageInfo p).iPagedState ≠ TPagedState.EPagedPinned)
    (h2 : (s.pageInfo p).iPagedState ≠ TPagedState.EPagedPinnedMoved) :
    ((s.Pin p args).1.pageInfo p).iPagedState = TPagedState.EPagedPinned ∧
    (∀ x, x ≠ p → (((s.Pin p args).1.pageInfo x).iPagedState = TPagedState.EPagedPinned ↔
      (s.pageInfo x).iPagedState = TPagedState.EPagedPinned)) := by
  obtain ⟨t, e, ht⟩ := pinBeforeBalance_some s p args h1 h2
  have ePin : s.Pin p args = ((t.PinAccount p args).1.BalanceAges, (t.PinAccount p args).2) := by
    simp only [Pin, e]
  obtain ⟨a1, -, -, a4⟩ := pinAccount_pageInfo t p args
  have hu : (t.PinAccount p args).1.LiveListConsistent ∧
      ¬ (t.PinAccount p args).1.OnLiveList p := by
    by_cases hon : s.OnLiveList p
    · obtain ⟨s1, args1, e1, c1, hoff, -⟩ := pinBeforeBalance_linked h hon args
      rw [e] at e1
      have e2 : (t.PinAccount p args).1 = s1 := congrArg Prod.fst (Option.some.inj e1)
      rw [e2]
      exact ⟨c1, hoff⟩
    · have hst : (s.pageInfo p).iPagedState = TPagedState.EUnpaged := by
        rcases hs : (s.pageInfo p).iPagedState
        · rfl
        · exact absurd (hl (by rw [hs]; rfl)) hon
        · exact absurd (hl (by rw [hs]; rfl)) hon
        · exact absurd hs h1
        · exact absurd (hl (by rw [hs]; rfl)) hon
        · exact absurd (hl (by rw [hs]; rfl)) hon
        · exact absurd hs h2
      have hst0 := incPin_state s p
      rw [hst] at hst0
      have e1 : s.PinBeforeBalance p args
          = some ((s.setPage p SPageInfo.IncPinCount).PinAccount p args) := by
        simp only [PinBeforeBalance, hst0]
      rw [e] at e1
      have e2 : t.PinAccount p args = (s.setPage p SPageInfo.IncPinCount).PinAccount p args :=
        Option.some.inj e1
      rw [e2]
      have e0 := consistent_setPage_off h hon SPageInfo.IncPinCount
      obtain ⟨b1, b2, -⟩ := pinAccount_spec e0.1 e0.2 args
      exact ⟨b1, b2⟩
  rw [ePin]
  refine ⟨?_, fun x hx => ?_⟩
  · show ((t.PinAccount p args).1.BalanceAges.pageInfo p).iPagedState = _
    rw [pageInfo_BalanceAges_off hu.2, a1]
  · show ((t.PinAccount p args).1.BalanceAges.pageInfo x).iPagedState = _ ↔ _
    rw [pinned_BalanceAges hu.1 x, a4 x hx, ht, setPage_other _ _ _ hx]

/-- The paged states and the pinned-reserve flag after the last `Unpin` of a frame: the frame
is not pinned and not flagged, the other frames are pinned exactly if they were. -/
theorem unpin_last_states {s : DPager} (h : s.LiveListConsistent) {p : Nat}
    (hst : (s.pageInfo p).iPagedState = TPagedState.EPagedPinned)
    (hc : (s.pageInfo p).iPinCount = 1) (args : TPinArgs) :
    ((s.Unpin p args).1.pageInfo p).iPagedState ≠ TPagedState.EPagedPinned ∧
    ((s.Unpin p args).1.pageInfo p).iPinnedReserve = false ∧
    (∀ x, x ≠ p → (((s.Unpin p args).1.pageInfo x).iPagedState = TPagedState.EPagedPinned ↔
      (s.pageInfo x).iPagedState = TPagedState.EPagedPinned)) := by
  have hoff : ¬ s.OnLiveList p := not_onLiveList_of_not_sublist h (by rw [hst]; rfl)
  have e0 := consistent_setPage_off h hoff SPageInfo.DecPinCount
  have e1 := consistent_setPage_off e0.1 e0.2 (fun i => i.SetPagedState TPagedState.EUnpaged)
  have e2 := consistent_setPage_off e1.1 e1.2 SPageInfo.ClearPinnedReserve
  have e3 := consistent_AddAsYoungestPage e2.1 e2.2
  rw [unpin_last args hc]
  obtain ⟨t, ht⟩ : ∃ t, t = AddAsYoungestPage
      (setPage (SetPagedState (s.setPage p SPageInfo.DecPinCount) p TPagedState.EUnpaged)
        p SPageInfo.ClearPinnedReserve) p := ⟨_, rfl⟩
  have e3t : t.LiveListConsistent := by rw [ht]; exact e3
  have hy : t.OnLiveList p := by
    refine Or.inl ?_
    rw [ht, young_AddAsYoungestPage]
    exact List.mem_cons_self _ _
  have hflag : (t.pageInfo p).iPinnedReserve = false := by
    rw [ht, pageInfo_AddAsYoungestPage, setPage_same]
    rfl
  have hother : ∀ x, x ≠ p → t.pageInfo x = s.pageInfo x := by
    intro x hx
    rw [ht, pageInfo_AddAsYoungestPage_other _ _ hx, setPage_other _ _ _ hx]
    unfold SetPagedState
    rw [setPage_other _ _ _ hx, setPage_other _ _ _ hx]
  rw [← ht]
  refine ⟨?_, ?_, fun x hx => ?_⟩
  · show (t.BalanceAges.pageInfo p).iPagedState ≠ _
    have h2 := sublistState_of_onLiveList (consistent_BalanceAges e3t)
      ((onLiveList_BalanceAges t p).2 hy)
    intro e; rw [e] at h2; exact absurd h2 (by decide)
  · show (t.BalanceAges.pageInfo p).iPinnedReserve = false
    obtain ⟨st, hs⟩ := pageInfo_BalanceAges t p
    rw [hs]
    exact hflag
  · show (t.BalanceAges.pageInfo x).iPagedState = _ ↔ _
    rw [pinned_BalanceAges e3t x, hother x hx]

end DPager

namespace DPager

/-- One call of the pin interface within its assertions keeps the live list consistent and
keeps the sum of the replacement pages of the pin arguments and the pinned frames. -/
theorem pinCall_conservation {frames : List Nat} (hn : frames.Nodup) (s : DPager)
    (args : TPinArgs) (c : Bool × Nat) (h : s.LiveListConsistent) (hc : c.2 ∈ frames)
    (hpre : pinCallPre (s, args) c) :
    (pinCall (s, args) c).1.LiveListConsistent ∧
    (pinCall (s, args) c).2.iReplacementPages + (pinCall (s, args) c).1.pinnedFrames frames
      = args.iReplacementPages + s.pinnedFrames frames := by
  obtain ⟨b, q⟩ := c
  cases b with
  | true =>
    have hp : args.iReplacementPages ≠ EUseReserveForPinReplacementPages ∧
        1 ≤ args.iReplacementPages ∧ s.Linked q ∧
        (s.pageInfo q).iPagedState ≠ TPagedState.EPagedPinnedMoved := by
      simpa only [pinCallPre, if_true] using hpre
    obtain ⟨p1, p2, p3, p4⟩ := hp
    have e : pinCall (s, args) (true, q) = s.Pin q args := by simp only [pinCall, if_true]
    rw [e]
    refine ⟨consistent_Pin h p3 args, ?_⟩
    by_cases hst : (s.pageInfo q).iPagedState = TPagedState.EPagedPinned
    · rw [pin_pinned s q args hst]
      have : (s.setPage q SPageInfo.IncPinCount).pinnedFrames frames = s.pinnedFrames frames := by
        refine pinnedFrames_congr frames (fun x => ?_)
        by_cases hx : x = q
        · rw [hx, incPin_state]
        · rw [setPage_other _ _ _ hx]
      show args.iReplacementPages + _ = _
      rw [this]
    · obtain ⟨a1, -, -⟩ := pin_first_spec s q args hst p4
      obtain ⟨b1, b2⟩ := pin_first_states h p3 args hst p4
      rw [pinnedFrames_pin hn hc b2 hst b1, a1, if_neg p1]
      show sub32 args.iReplacementPages 1 + _ = _
      rw [sub32_one (by omega)]
      omega
  | false =>
    have hp : (s.pageInfo q).iPagedState = TPagedState.EPagedPinned ∧
        0 < (s.pageInfo q).iPinCount ∧ (s.pageInfo q).iPinnedReserve = false := by
      simpa only [pinCallPre, Bool.false_eq_true, if_false] using hpre
    obtain ⟨p1, p2, p3⟩ := hp
    have e : pinCall (s, args) (false, q) = s.Unpin q args := by
      simp only [pinCall, Bool.false_eq_true, if_false]
    rw [e]
    refine ⟨consistent_Unpin h p1 args, ?_⟩
    by_cases hcount : (s.pageInfo q).iPinCount = 1
    · obtain ⟨b1, -, b3⟩ := unpin_last_states h p1 hcount args
      have hpf := pinnedFrames_pin hn hc (fun x hx => (b3 x hx).symm) b1 p1
      rw [hpf, unpin_last args hcount, if_pos p3]
      show args.iReplacementPages + 1 + _ = _
      omega
    · rw [unpin_more args (by omega)]
      have : (s.setPage q SPageInfo.DecPinCount).pinnedFrames frames = s.pinnedFrames frames := by
        refine pinnedFrames_congr frames (fun x => ?_)
        by_cases hx : x = q
        · rw [hx, setPage_same]; rfl
        · rw [setPage_other _ _ _ hx]
      show args.iReplacementPages + _ = _
      rw [this]

/-- Over a sequence of `Pin` and `Unpin` calls made within their assertions with counted pin
arguments, the replacement pages of the pin arguments plus the pinned frames are constant. -/
theorem pinCalls_conservation {frames : List Nat} (hn : frames.Nodup) :
    ∀ (cs : List (Bool × Nat)) (s : DPager) (args : TPinArgs), s.LiveListConsistent →
      (∀ c ∈ cs, c.2 ∈ frames) → pinCallsValid cs (s, args) →
      (pinCalls cs (s, args)).1.LiveListConsistent ∧
      (pinCalls cs (s, args)).2.iReplacementPages
          + (pinCalls cs (s, args)).1.pinnedFrames frames
        = args.iReplacementPages + s.pinnedFrames frames := by
  intro cs
  induction cs with
  | nil => intro s args h _ _; exact ⟨h, rfl⟩
  | cons c cs ih =>
    intro s args h hm hv
    obtain ⟨hpre, hrest⟩ := hv
    obtain ⟨k1, k2⟩ := pinCall_conservation hn s args c h (hm c (List.mem_cons_self _ _)) hpre
    obtain ⟨k3, k4⟩ := ih (pinCall (s, args) c).1 (pinCall (s, args) c).2 k1
      (fun c1 hc1 => hm c1 (List.mem_cons_of_mem _ hc1)) hrest
    exact ⟨k3, k4.trans k2⟩

end DPager

namespace DPager

/-- The last `Unpin` of a frame clears its pinned-reserve flag. -/
theorem unpin_last_flag (s : DPager) (p : Nat) (args : TPinArgs)
    (hc : (s.pageInfo p).iPinCount = 1) :
    ((s.Unpin p args).1.pageInfo p).iPinnedReserve = false := by
  rw [unpin_last args hc]
  obtain ⟨st, hs⟩ := pageInfo_BalanceAges (AddAsYoungestPage
      (setPage (SetPagedState (s.setPage p SPageInfo.DecPinCount) p TPagedState.EUnpaged)
        p SPageInfo.ClearPinnedReserve) p) p
  show ((BalanceAges _).pageInfo p).iPinnedReserve = false
  rw [hs, pageInfo_AddAsYoungestPage, setPage_same]
  rfl

end DPager

/-! ## `PageFreed`, `ReplacePage` and `AddAsFreePage` -/

namespace DPager

theorem PageFreedTail_writable (s : DPager) (p : Nat) :
    ((s.PageFreedTail p).2.pageInfo p).iWritable
      = (if (s.pageInfo p).iDirty = true then false else (s.pageInfo p).iWritable) := by
  by_cases hd : (s.pageInfo p).iDirty = true
  · simp [PageFreedTail, SetClean, SetPagedState, setPage, SPageInfo.IsDirty,
      SPageInfo.SetReadOnly, SPageInfo.SetClean, SPageInfo.SetPagedState, hd]
  · simp [PageFreedTail, SetClean, SetPagedState, setPage, SPageInfo.IsDirty,
      SPageInfo.SetReadOnly, SPageInfo.SetClean, SPageInfo.SetPagedState, hd]

/-- The state `PageFreed` hands to its tail for a frame that is on a sublist. -/
theorem pageFreed_unlinked {s : DPager} (h : s.LiveListConsistent) {p : Nat}
    (hon : s.OnLiveList p) :
    ∃ t : DPager, s.PageFreed p = t.PageFreedTail p ∧ t.pageInfo = s.pageInfo ∧
      t.iYoungList = s.iYoungList.erase p ∧ t.iOldList = s.iOldList.erase p ∧
      t.iOldestCleanList = s.iOldestCleanList.erase p ∧
      t.iOldestDirtyList = s.iOldestDirtyList.erase p ∧
      t.iYoungCount + (if (s.pageInfo p).iPagedState = TPagedState.EPagedYoung then 1 else 0)
        = s.iYoungCount ∧
      t.iOldCount + (if (s.pageInfo p).iPagedState = TPagedState.EPagedOld then 1 else 0)
        = s.iOldCount ∧
      t.iOldestCleanCount
          + (if (s.pageInfo p).iPagedState = TPagedState.EPagedOldestClean then 1 else 0)
        = s.iOldestCleanCount ∧
      t.iOldestDirtyCount
          + (if (s.pageInfo p).iPagedState = TPagedState.EPagedOldestDirty then 1 else 0)
        = s.iOldestDirtyCount := by
  have hsub := sublistState_of_onLiveList h hon
  obtain ⟨m1, m2, m3, m4⟩ := mem_of_state h hon
  rcases hst : (s.pageInfo p).iPagedState
  · rw [hst] at hsub; exact absurd hsub (by decide)
  · have hpos : 0 < s.iYoungCount := by rw [h.1]; exact List.length_pos_of_mem (m1 hst)
    refine ⟨{ s.Deque p with iYoungCount := sub32 s.iYoungCount 1 }, ?_, rfl, rfl, rfl, rfl,
      rfl, ?_, ?_, ?_, ?_⟩
    · simp only [PageFreed, hst]
    · show sub32 s.iYoungCount 1 + _ = _
      rw [sub32_one hpos, if_pos rfl]; omega
    · show s.iOldCount + _ = _
      rw [if_neg (by decide)]; rfl
    · show s.iOldestCleanCount + _ = _
      rw [if_neg (by decide)]; rfl
    · show s.iOldestDirtyCount + _ = _
      rw [if_neg (by decide)]; rfl
  · have hpos : 0 < s.iOldCount := by rw [h.2.1]; exact List.length_pos_of_mem (m2 hst)
    refine ⟨{ s.Deque p with iOldCount := sub32 s.iOldCount 1 }, ?_, rfl, rfl, rfl, rfl,
      rfl, ?_, ?_, ?_, ?_⟩
    · simp only [PageFreed, hst]
    · show s.iYoungCount + _ = _
      rw [if_neg (by decide)]; rfl
    · show sub32 s.iOldCount 1 + _ = _
      rw [sub32_one hpos, if_pos rfl]; omega
    · show s.iOldestCleanCount + _ = _
      rw [if_neg (by decide)]; rfl
    · show s.iOldestDirtyCount + _ = _
      rw [if_neg (by decide)]; rfl
  · rw [hst] at hsub; exact absurd hsub (by decide)
  · have hpos : 0 < s.iOldestCleanCount := by
      rw [h.2.2.1]; exact List.length_pos_of_mem (m3 hst)
    refine ⟨{ s.Deque p with iOldestCleanCount := sub32 s.iOldestCleanCount 1 }, ?_, rfl, rfl,
      rfl, rfl, rfl, ?_, ?_, ?_, ?_⟩
    · simp only [PageFreed, hst]
    · show s.iYoungCount + _ = _
      rw [if_neg (by decide)]; rfl
    · show s.iOldCount + _ = _
      rw [if_neg (by decide)]; rfl
    · show sub32 s.iOldestCleanCount 1 + _ = _
      rw [sub32_one hpos, if_pos rfl]; omega
    · show s.iOldestDirtyCount + _ = _
      rw [if_neg (by decide)]; rfl
  · have hpos : 0 < s.iOldestDirtyCount := by
      rw [h.2.2.2.1]; exact List.length_pos_of_mem (m4 hst)
    refine ⟨{ s.Deque p with iOldestDirtyCount := sub32 s.iOldestDirtyCount 1 }, ?_, rfl, rfl,
      rfl, rfl, rfl, ?_, ?_, ?_, ?_⟩
    · simp only [PageFreed, hst]
    · show s.iYoungCount + _ = _
      rw [if_neg (by decide)]; rfl
    · show s.iOldCount + _ = _
      rw [if_neg (by decide)]; rfl
    · show s.iOldestCleanCount + _ = _
      rw [if_neg (by decide)]; rfl
    · show sub32 s.iOldestDirtyCount 1 + _ = _
      rw [sub32_one hpos, if_pos rfl]; omega
  · rw [hst] at hsub; exact absurd hsub (by decide)

end DPager

namespace DPager

/-- Splicing a frame in for a frame of a queue puts it at the position of that frame. -/
theorem splice_decompose {q : List Nat} (hq : q.Nodup) {old : Nat} (hm : old ∈ q)
    (new : Nat) :
    ∃ pre post, q = pre ++ old :: post ∧ spliceQueue q old new = pre ++ new :: post := by
  obtain ⟨pre, post, rfl⟩ := List.append_of_mem hm
  refine ⟨pre, post, rfl, ?_⟩
  have h1 : old ∉ pre := by
    intro hp
    exact (List.nodup_append.1 hq).2.2 hp (List.mem_cons_self _ _)
  have h2 : old ∉ post := (List.nodup_cons.1 (List.nodup_append.1 hq).2.1).1
  have e1 := splice_of_not_mem new h1
  have e2 := splice_of_not_mem new h2
  unfold spliceQueue at e1 e2 ⊢
  rw [List.map_append, List.map_cons, e1, e2, if_pos rfl]

theorem replacePage_sublist (s : DPager) (old new : Nat)
    (hs : IsSublistState (s.pageInfo old).iPagedState = true) :
    s.ReplacePage old new =
      SetPagedState
        { s with
          iYoungList := spliceQueue s.iYoungList old new
          iOldList := spliceQueue s.iOldList old new
          iOldestCleanList := spliceQueue s.iOldestCleanList old new
          iOldestDirtyList := spliceQueue s.iOldestDirtyList old new }
        old TPagedState.EUnpaged := by
  rcases hst : (s.pageInfo old).iPagedState <;> rw [hst] at hs <;>
    first
    | exact absurd hs (by decide)
    | simp only [ReplacePage, hst]

theorem replacePage_pinned (s : DPager) (old new : Nat)
    (hs : (s.pageInfo old).iPagedState = TPagedState.EPagedPinned) :
    s.ReplacePage old new =
      (s.setPage old SPageInfo.ClearPinCount).SetPagedState old
        TPagedState.EPagedPinnedMoved := by
  simp only [ReplacePage, hs]

end DPager

/-! ## The bound on the oldest lists -/

namespace DPager

theorem initCacheLoop_spec (n : Nat) :
    ∀ s : DPager, (∀ k, (s.allocRam k).isSome = true) →
      ∃ s1, InitCacheLoop n s = some s1 ∧
        s1.iOldestCleanCount = s.iOldestCleanCount + n ∧
        s1.iOldestDirtyCount = s.iOldestDirtyCount ∧
        s1.iMinimumPageCount = s.iMinimumPageCount := by
  induction n with
  | zero => intro s _; exact ⟨s, rfl, rfl, rfl, rfl⟩
  | succ n ih =>
    intro s ha
    obtain ⟨p, hp⟩ := Option.isSome_iff_exists.1 (ha s.allocCalls)
    obtain ⟨s1, e, c1, c2, c3⟩ :=
      ih (AddAsFreePage { s with allocCalls := s.allocCalls + 1 } p) ha
    refine ⟨s1, ?_, ?_, c2, c3⟩
    · simp only [InitCacheLoop, hp]
      exact e
    · rw [c1]
      show s.iOldestCleanCount + 1 + n = _
      omega

theorem initCachePopulate_spec (s : DPager) (ha : ∀ k, (s.allocRam k).isSome = true) :
    ∃ s1, s.InitCachePopulate = some s1 ∧
      s1.iOldestCleanCount = s.iOldestCleanCount + (s.iMinimumPageCount - s.iReservePageCount) ∧
      s1.iOldestDirtyCount = 0 ∧
      s1.iMinimumPageCount = s.iMinimumPageCount := by
  obtain ⟨s1, e, c1, c2, c3⟩ :=
    initCacheLoop_spec (s.iMinimumPageCount - s.iReservePageCount)
      { s with
        iNumberOfFreePages := 0
        iNumberOfDirtyPages := 0
        iYoungCount := 0
        iOldCount := 0
        iOldestDirtyCount := 0 } ha
  exact ⟨s1, e, c1, c2, c3⟩

theorem oldest_ageYoungToOld (s : DPager) (link : Nat) :
    (s.ageYoungToOld link).iOldestCleanCount = s.iOldestCleanCount ∧
    (s.ageYoungToOld link).iOldestDirtyCount = s.iOldestDirtyCount := ⟨rfl, rfl⟩

theorem oldest_ageOldToOldest (s : DPager) (link : Nat) :
    (s.ageOldToOldest link).iOldestCleanCount + (s.ageOldToOldest link).iOldestDirtyCount
      = s.iOldestCleanCount + s.iOldestDirtyCount + 1 := by
  unfold ageOldToOldest
  dsimp only
  split
  · show s.iOldestCleanCount + (s.iOldestDirtyCount + 1) = _
    omega
  · show s.iOldestCleanCount + 1 + s.iOldestDirtyCount = _
    omega

theorem oldest_BalanceAgesYoung (s : DPager) :
    s.BalanceAgesYoung.iOldestCleanCount = s.iOldestCleanCount ∧
    s.BalanceAgesYoung.iOldestDirtyCount = s.iOldestDirtyCount := by
  unfold BalanceAgesYoung
  dsimp only
  split
  · split
    · exact ⟨rfl, rfl⟩
    · exact oldest_ageYoungToOld s _
  · exact ⟨rfl, rfl⟩

/-- The step `BalanceAges` adds at most one frame to the oldest lists, and none when they
hold `KMaxOldestPages` frames or more. -/
theorem oldest_BalanceAges (s : DPager) :
    (s.BalanceAges.iOldestCleanCount + s.BalanceAges.iOldestDirtyCount
        = s.iOldestCleanCount + s.iOldestDirtyCount ∨
      (s.iOldestCleanCount + s.iOldestDirtyCount < KMaxOldestPages ∧
        s.BalanceAges.iOldestCleanCount + s.BalanceAges.iOldestDirtyCount
          = s.iOldestCleanCount + s.iOldestDirtyCount + 1)) := by
  obtain ⟨y1, y2⟩ := oldest_BalanceAgesYoung s
  unfold BalanceAges
  dsimp only
  unfold BalanceAgesOld
  split
  · next hc =>
    split
    · left; rw [y1, y2]
    · right
      refine ⟨hc.1, ?_⟩
      rw [oldest_ageOldToOldest, y1, y2]
  · left; rw [y1, y2]

end DPager

/-! ## Accounting of a cleaner run -/

namespace DPager

theorem moveCleanedFrame_fields {s : DPager} (h : s.LiveListConsistent) {pi : Nat}
    (hm : pi ∈ s.iOldestDirtyList) :
    (s.moveCleanedFrame pi).iOldestDirtyList = s.iOldestDirtyList.erase pi ∧
    (s.moveCleanedFrame pi).iOldestCleanList = pi :: s.iOldestCleanList ∧
    (s.moveCleanedFrame pi).iYoungList = s.iYoungList ∧
    (s.moveCleanedFrame pi).iOldList = s.iOldList ∧
    (s.moveCleanedFrame pi).iOldestDirtyCount + 1 = s.iOldestDirtyCount ∧
    (s.moveCleanedFrame pi).iOldestCleanCount = s.iOldestCleanCount + 1 ∧
    (s.moveCleanedFrame pi).iYoungCount = s.iYoungCount ∧
    (s.moveCleanedFrame pi).iOldCount = s.iOldCount ∧
    ((s.moveCleanedFrame pi).pageInfo pi).iPagedState = TPagedState.EPagedOldestClean ∧
    (∀ q, q ≠ pi → (s.moveCleanedFrame pi).pageInfo q = s.pageInfo q) := by
  obtain ⟨m1, m2, m3⟩ := mem_oldestDirty_only h hm
  have hpos : 0 < s.iOldestDirtyCount := by
    rw [h.2.2.2.1]; exact List.length_pos_of_mem hm
  refine ⟨rfl, ?_, ?_, ?_, ?_, rfl, rfl, rfl, ?_, ?_⟩
  · show pi :: s.iOldestCleanList.erase pi = _
    rw [List.erase_of_not_mem m3]
  · show s.iYoungList.erase pi = _
    rw [List.erase_of_not_mem m1]
  · show s.iOldList.erase pi = _
    rw [List.erase_of_not_mem m2]
  · show sub32 s.iOldestDirtyCount 1 + 1 = _
    rw [sub32_one hpos]; omega
  · unfold moveCleanedFrame SetPagedState
    dsimp only
    rw [setPage_same]
    rfl
  · intro q hq
    unfold moveCleanedFrame SetPagedState
    dsimp only
    rw [setPage_other _ _ _ hq]
    rfl

/-- The loop of `CleanSomePages` moves the frames left in the array, one by one, from the
oldest-dirty queue to the head of the oldest-clean queue. -/
theorem moveCleaned_spec (arr : List (Option Nat)) :
    ∀ s : DPager, s.LiveListConsistent → (∀ pi, some pi ∈ arr → pi ∈ s.iOldestDirtyList) →
      (arr.filterMap id).Nodup →
      (moveCleaned arr s).iOldestDirtyCount + (arr.filterMap id).length
        = s.iOldestDirtyCount ∧
      (moveCleaned arr s).iOldestCleanCount
        = s.iOldestCleanCount + (arr.filterMap id).length ∧
      (moveCleaned arr s).iOldestCleanList
        = (arr.filterMap id).reverse ++ s.iOldestCleanList ∧
      (moveCleaned arr s).iOldestDirtyList
        = (arr.filterMap id).foldl List.erase s.iOldestDirtyList ∧
      (moveCleaned arr s).iYoungList = s.iYoungList ∧
      (moveCleaned arr s).iOldList = s.iOldList ∧
      (moveCleaned arr s).iYoungCount = s.iYoungCount ∧
      (moveCleaned arr s).iOldCount = s.iOldCount ∧
      (∀ pi ∈ arr.filterMap id,
        ((moveCleaned arr s).pageInfo pi).iPagedState = TPagedState.EPagedOldestClean) ∧
      (∀ q, q ∉ arr.filterMap id → (moveCleaned arr s).pageInfo q = s.pageInfo q) := by
  induction arr with
  | nil =>
    intro s _ _ _
    refine ⟨rfl, rfl, rfl, rfl, rfl, rfl, rfl, rfl, ?_, fun _ _ => rfl⟩
    intro pi hpi
    exact absurd hpi (List.not_mem_nil pi)
  | cons a rest ih =>
    intro s h hm hn
    cases a with
    | none =>
      have e : (none :: rest).filterMap id = rest.filterMap id := rfl
      rw [e] at hn ⊢
      exact ih s h (fun pi hpi => hm pi (List.mem_cons_of_mem _ hpi)) hn
    | some pi =>
      have e : (some pi :: rest).filterMap id = pi :: rest.filterMap id := rfl
      rw [e] at hn ⊢
      obtain ⟨hn1, hn2⟩ := List.nodup_cons.1 hn
      have hpi := hm pi (List.mem_cons_self _ _)
      obtain ⟨f1, f2, f3, f4, f5, f6, f7, f8, f9, f10⟩ := moveCleanedFrame_fields h hpi
      have hm2 : ∀ q, some q ∈ rest → q ∈ (s.moveCleanedFrame pi).iOldestDirtyList := by
        intro q hq
        have hne : q ≠ pi := by
          rintro rfl
          exact hn1 (List.mem_filterMap.2 ⟨some q, hq, rfl⟩)
        rw [f1]
        exact (List.mem_erase_of_ne hne).2 (hm q (List.mem_cons_of_mem _ hq))
      obtain ⟨g1, g2, g3, g4, g5, g6, g7, g8, g9, g10⟩ :=
        ih (s.moveCleanedFrame pi) (consistent_moveCleanedFrame h hpi) hm2 hn2
      show (moveCleaned rest (s.moveCleanedFrame pi)).iOldestDirtyCount + _ = _ ∧
        (moveCleaned rest (s.moveCleanedFrame pi)).iOldestCleanCount = _ ∧
        (moveCleaned rest (s.moveCleanedFrame pi)).iOldestCleanList = _ ∧
        (moveCleaned rest (s.moveCleanedFrame pi)).iOldestDirtyList = _ ∧
        (moveCleaned rest (s.moveCleanedFrame pi)).iYoungList = _ ∧
        (moveCleaned rest (s.moveCleanedFrame pi)).iOldList = _ ∧
        (moveCleaned rest (s.moveCleanedFrame pi)).iYoungCount = _ ∧
        (moveCleaned rest (s.moveCleanedFrame pi)).iOldCount = _ ∧
        (∀ q ∈ pi :: rest.filterMap id,
          ((moveCleaned rest (s.moveCleanedFrame pi)).pageInfo q).iPagedState
            = TPagedState.EPagedOldestClean) ∧
        (∀ q, q ∉ pi :: rest.filterMap id →
          (moveCleaned rest (s.moveCleanedFrame pi)).pageInfo q = s.pageInfo q)
      refine ⟨?_, ?_, ?_, ?_, g5.trans f3, g6.trans f4, g7.trans f7, g8.trans f8, ?_, ?_⟩
      · rw [List.length_cons]; omega
      · rw [g2, f6, List.length_cons]; omega
      · rw [g3, f2, List.reverse_cons, List.append_assoc]; rfl
      · rw [g4, f1]; rfl
      · intro q hq
        rcases List.mem_cons.1 hq with hq1 | hq1
        · rw [hq1, g10 pi hn1]; exact f9
        · exact g9 q hq1
      · intro q hq
        have hq1 : q ≠ pi := fun e => hq (e ▸ List.mem_cons_self _ _)
        have hq2 : q ∉ rest.filterMap id := fun e => hq (List.mem_cons_of_mem _ e)
        rw [g10 q hq2, f10 q hq1]

theorem length_arrayAfterClean (s : DPager) (arr : List (Option Nat)) :
    (s.arrayAfterClean arr).length = arr.length := by
  unfold arrayAfterClean
  rw [List.length_map, List.length_range]

theorem length_filterMap_id_le (l : List (Option Nat)) :
    (l.filterMap id).length ≤ l.length := List.length_filterMap_le id l

theorem length_filterMap_id_of_isSome (l : List (Option Nat))
    (h : ∀ e ∈ l, e.isSome = true) : (l.filterMap id).length = l.length := by
  induction l with
  | nil => rfl
  | cons a rest ih =>
    cases a with
    | none => exact absurd (h none (List.mem_cons_self _ _)) (by decide)
    | some x =>
      show (x :: rest.filterMap id).length = _
      rw [List.length_cons, List.length_cons,
        ih (fun e he => h e (List.mem_cons_of_mem _ he))]

/-- What a cleaner run does to the oldest queues, in terms of the frames the manager leaves
in the array. -/
theorem cleanSomePages_spec {s : DPager} (h : s.LiveListConsistent)
    (hm : ∀ pi ∈ (s.arrayAfterClean s.SelectPagesToClean).filterMap id,
      (s.pageInfo pi).iPagedState = TPagedState.EPagedOldestDirty ∧ s.OnLiveList pi)
    (hn : ((s.arrayAfterClean s.SelectPagesToClean).filterMap id).Nodup) :
    s.CleanSomePages.1 = s.SelectPagesToClean.length ∧
    s.CleanSomePages.2.iOldestDirtyCount
        + ((s.arrayAfterClean s.SelectPagesToClean).filterMap id).length
      = s.iOldestDirtyCount ∧
    s.CleanSomePages.2.iOldestCleanCount
      = s.iOldestCleanCount + ((s.arrayAfterClean s.SelectPagesToClean).filterMap id).length ∧
    s.CleanSomePages.2.iOldestCleanList
      = ((s.arrayAfterClean s.SelectPagesToClean).filterMap id).reverse
        ++ s.iOldestCleanList ∧
    s.CleanSomePages.2.iOldestDirtyList
      = ((s.arrayAfterClean s.SelectPagesToClean).filterMap id).foldl List.erase
        s.iOldestDirtyList ∧
    (∀ pi ∈ (s.arrayAfterClean s.SelectPagesToClean).filterMap id,
      (s.CleanSomePages.2.pageInfo pi).iPagedState = TPagedState.EPagedOldestClean) := by
  by_cases h0 : s.SelectPagesToClean.length = 0
  · have e : s.CleanSomePages = (0, s) := by
      unfold CleanSomePages
      dsimp only
      rw [if_pos h0]
    have e2 : s.arrayAfterClean s.SelectPagesToClean = [] :=
      List.eq_nil_of_length_eq_zero (by rw [length_arrayAfterClean, h0])
    rw [e, e2]
    refine ⟨h0.symm, rfl, rfl, rfl, rfl, ?_⟩
    intro pi hpi
    exact absurd hpi (List.not_mem_nil pi)
  · have e : s.CleanSomePages = (s.SelectPagesToClean.length,
        moveCleaned (s.arrayAfterClean s.SelectPagesToClean)
          (cleanedByManager (s.arrayAfterClean s.SelectPagesToClean)
            { s with cleanCalls := s.cleanCalls + 1 })) := by
      unfold CleanSomePages
      dsimp only
      rw [if_neg h0]
    have h1 : LiveListConsistent { s with cleanCalls := s.cleanCalls + 1 } := h
    obtain ⟨a1, a2, a3, a4, a5, a6, a7, a8, a9⟩ :=
      cleanedByManager_fields (s.arrayAfterClean s.SelectPagesToClean)
        { s with cleanCalls := s.cleanCalls + 1 }
    obtain ⟨g1, g2, g3, g4, -, -, -, -, g9, -⟩ :=
      moveCleaned_spec (s.arrayAfterClean s.SelectPagesToClean) _
        (consistent_cleanedByManager h1 _)
        (by
          intro pi hpi
          rw [a4]
          have hx := hm pi (List.mem_filterMap.2 ⟨some pi, hpi, rfl⟩)
          exact (mem_of_state h hx.2).2.2.2 hx.1) hn
    rw [e]
    refine ⟨rfl, ?_, ?_, ?_, ?_, g9⟩
    · rw [g1, a8]
    · rw [g2, a7]
    · rw [g3, a3]
    · rw [g4, a4]

end DPager

/-! ## Selection of the pages to clean -/

namespace DPager

theorem selectWalk_eq (pages : Nat → SPageInfo) (K : Nat) :
    ∀ (l out : List Nat), out.length ≤ K →
      selectWalk pages K l out
        = out ++ (l.filter (fun pi => !(pages pi).IsWritable)).take (K - out.length) := by
  intro l
  induction l with
  | nil => intro out _; simp [selectWalk]
  | cons pi rest ih =>
    intro out hout
    rw [selectWalk]
    by_cases hlt : out.length < K
    · rw [if_pos hlt]
      by_cases hw : (!(pages pi).IsWritable) = true
      · have ef : (pi :: rest).filter (fun pi => !(pages pi).IsWritable)
            = pi :: rest.filter (fun pi => !(pages pi).IsWritable) := by
          rw [List.filter_cons]
          exact if_pos hw
        rw [if_pos hw, ih (out ++ [pi]) (by rw [List.length_append]; simpa using hlt), ef]
        obtain ⟨d, hd⟩ : ∃ d, K - out.length = d + 1 := ⟨K - out.length - 1, by omega⟩
        have hd2 : K - (out ++ [pi]).length = d := by
          rw [List.length_append]; simp; omega
        rw [hd, hd2, List.take_succ_cons, List.append_assoc]
        rfl
      · have ef : (pi :: rest).filter (fun pi => !(pages pi).IsWritable)
            = rest.filter (fun pi => !(pages pi).IsWritable) := by
          rw [List.filter_cons]
          exact if_neg hw
        rw [if_neg hw, ih out hout, ef]
    · rw [if_neg hlt]
      have : K - out.length = 0 := by omega
      rw [this, List.take_zero, List.append_nil]

theorem selectNoColour_eq (s : DPager) :
    s.SelectPagesToCleanNoColour
      = ((s.iOldestDirtyList.reverse.filter (fun pi => !(s.pageInfo pi).IsWritable)).take
          s.KMaxPagesToClean).map some := by
  unfold SelectPagesToCleanNoColour
  rw [selectWalk_eq _ _ _ [] (Nat.zero_le _)]
  rfl

theorem selectNoColour_length (s : DPager) :
    s.SelectPagesToCleanNoColour.length
      = min s.KMaxPagesToClean
          (s.iOldestDirtyList.countP (fun pi => !(s.pageInfo pi).IsWritable)) := by
  rw [selectNoColour_eq, List.length_map, List.length_take, ← List.countP_eq_length_filter,
    List.countP_reverse]

end DPager

/-! ## The two steps of `BalanceAges`, queue by queue -/

namespace DPager

theorem erase_getLast {l : List Nat} {x : Nat} (hn : l.Nodup) (hl : l.getLast? = some x) :
    ∃ rest, l = rest ++ [x] ∧ l.erase x = rest := by
  have e : l.dropLast ++ [x] = l := List.dropLast_append_getLast? x (by rw [hl]; rfl)
  refine ⟨l.dropLast, e.symm, ?_⟩
  have hn2 := hn
  rw [← e] at hn2
  have hx : x ∉ l.dropLast := by
    intro hm
    have := (List.nodup_append.1 hn2).2.2
    exact this hm (List.mem_singleton_self x)
  conv_lhs => rw [← e]
  rw [List.erase_append_right _ hx]
  simp

theorem erase_of_not_mem {l : List Nat} {x : Nat} (h : x ∉ l) : l.erase x = l :=
  List.erase_of_not_mem h

/-- A 32-bit product that is below a count whenever the exact product is. -/
theorem wrapped_lt_of_lt {a y : Nat} (h : a < y) : a % 4294967296 < y :=
  Nat.lt_of_le_of_lt (Nat.mod_le a 4294967296) h

/-- A 32-bit product is the exact product when the exact product fits in 32 bits. -/
theorem wrapped_eq_of_lt {a : Nat} (h : a < 4294967296) : a % 4294967296 = a :=
  Nat.mod_eq_of_lt h

/-- The first step of `BalanceAges` when it fires: the last young frame becomes the first old
frame and nothing else moves. -/
theorem balanceAgesYoung_step {s : DPager} (h : s.LiveListConsistent)
    (hc : ((s.iOldCount + (s.iOldestCleanCount + s.iOldestDirtyCount)) * s.iYoungOldRatio)
      % 4294967296 < s.iYoungCount) :
    ∃ link rest, s.iYoungList = rest ++ [link] ∧
      s.BalanceAgesYoung.iYoungList = rest ∧
      s.BalanceAgesYoung.iOldList = link :: s.iOldList ∧
      s.BalanceAgesYoung.iOldestCleanList = s.iOldestCleanList ∧
      s.BalanceAgesYoung.iOldestDirtyList = s.iOldestDirtyList ∧
      s.BalanceAgesYoung.iYoungCount + 1 = s.iYoungCount ∧
      s.BalanceAgesYoung.iOldCount = s.iOldCount + 1 ∧
      s.BalanceAgesYoung.iOldestCleanCount = s.iOldestCleanCount ∧
      s.BalanceAgesYoung.iOldestDirtyCount = s.iOldestDirtyCount ∧
      s.BalanceAgesYoung.pageInfo link
        = (s.pageInfo link).SetPagedState TPagedState.EPagedOld ∧
      (∀ q, q ≠ link → s.BalanceAgesYoung.pageInfo q = s.pageInfo q) := by
  have hpos : 0 < s.iYoungList.length := by
    rw [← h.1]; omega
  obtain ⟨link, hl⟩ : ∃ link, s.iYoungList.getLast? = some link := by
    cases hq : s.iYoungList with
    | nil => rw [hq] at hpos; simp at hpos
    | cons a t => exact ⟨_, List.getLast?_eq_getLast _ (List.cons_ne_nil a t)⟩
  have hm := List.mem_of_getLast?_eq_some hl
  obtain ⟨rest, e1, e2⟩ := erase_getLast (consistent_nodup h).1 hl
  obtain ⟨m1, m2, m3⟩ := mem_young_only h hm
  have hb : s.BalanceAgesYoung = s.ageYoungToOld link := by
    unfold BalanceAgesYoung
    dsimp only
    rw [if_pos hc, hl]
  rw [hb]
  refine ⟨link, rest, e1, e2, ?_, erase_of_not_mem m2, erase_of_not_mem m3, ?_, rfl, rfl, rfl,
    ?_, fun q hq => pageInfo_ageYoungToOld s link q hq⟩
  · show link :: s.iOldList.erase link = _
    rw [erase_of_not_mem m1]
  · show sub32 s.iYoungCount 1 + 1 = s.iYoungCount
    rw [sub32_one (by omega)]; omega
  · show (if link = link then _ else _) = _
    rw [if_pos rfl]
    rfl

/-- The first step of `BalanceAges` when it does not fire. -/
theorem balanceAgesYoung_idle {s : DPager}
    (hc : ¬ ((s.iOldCount + (s.iOldestCleanCount + s.iOldestDirtyCount)) * s.iYoungOldRatio)
      % 4294967296 < s.iYoungCount) : s.BalanceAgesYoung = s := by
  unfold BalanceAgesYoung
  dsimp only
  rw [if_neg hc]

/-- The second step of `BalanceAges` when it fires: the last old frame becomes the first
oldest-dirty frame if it is dirty and the first oldest-clean frame otherwise. -/
theorem balanceAgesOld_step {s : DPager} (h : s.LiveListConsistent) {n : Nat}
    (hc : n < KMaxOldestPages ∧ n * s.iOldOldestRatio < s.iOldCount) :
    ∃ link rest, s.iOldList = rest ++ [link] ∧
      (s.BalanceAgesOld n).iOldList = rest ∧
      (s.BalanceAgesOld n).iYoungList = s.iYoungList ∧
      (s.BalanceAgesOld n).iYoungCount = s.iYoungCount ∧
      (s.BalanceAgesOld n).iOldCount + 1 = s.iOldCount ∧
      (∀ q, q ≠ link → (s.BalanceAgesOld n).pageInfo q = s.pageInfo q) ∧
      ((s.pageInfo link).IsDirty = true →
        (s.BalanceAgesOld n).iOldestDirtyList = link :: s.iOldestDirtyList ∧
        (s.BalanceAgesOld n).iOldestCleanList = s.iOldestCleanList ∧
        (s.BalanceAgesOld n).iOldestDirtyCount = s.iOldestDirtyCount + 1 ∧
        (s.BalanceAgesOld n).iOldestCleanCount = s.iOldestCleanCount ∧
        (s.BalanceAgesOld n).pageInfo link
          = (s.pageInfo link).SetPagedState TPagedState.EPagedOldestDirty) ∧
      ((s.pageInfo link).IsDirty = false →
        (s.BalanceAgesOld n).iOldestCleanList = link :: s.iOldestCleanList ∧
        (s.BalanceAgesOld n).iOldestDirtyList = s.iOldestDirtyList ∧
        (s.BalanceAgesOld n).iOldestCleanCount = s.iOldestCleanCount + 1 ∧
        (s.BalanceAgesOld n).iOldestDirtyCount = s.iOldestDirtyCount ∧
        (s.BalanceAgesOld n).pageInfo link
          = (s.pageInfo link).SetPagedState TPagedState.EPagedOldestClean) := by
  have hpos : 0 < s.iOldList.length := by
    rw [← h.2.1]; omega
  obtain ⟨link, hl⟩ : ∃ link, s.iOldList.getLast? = some link := by
    cases hq : s.iOldList with
    | nil => rw [hq] at hpos; simp at hpos
    | cons a t => exact ⟨_, List.getLast?_eq_getLast _ (List.cons_ne_nil a t)⟩
  have hm := List.mem_of_getLast?_eq_some hl
  obtain ⟨rest, e1, e2⟩ := erase_getLast (consistent_nodup h).2.1 hl
  obtain ⟨m1, m2, m3⟩ := mem_old_only h hm
  have hb : s.BalanceAgesOld n = s.ageOldToOldest link := by
    unfold BalanceAgesOld
    rw [if_pos hc, hl]
  rw [hb]
  have hcnt : sub32 s.iOldCount 1 + 1 = s.iOldCount := by
    rw [sub32_one (by omega)]; omega
  refine ⟨link, rest, e1, ?_, ?_, ?_, ?_, fun q hq => pageInfo_ageOldToOldest s link q hq,
    ?_, ?_⟩
  · unfold ageOldToOldest; dsimp only; split <;> exact e2
  · unfold ageOldToOldest; dsimp only; split <;> exact erase_of_not_mem m1
  · unfold ageOldToOldest; dsimp only; split <;> rfl
  · unfold ageOldToOldest; dsimp only; split <;> exact hcnt
  · intro hd
    unfold ageOldToOldest
    dsimp only
    split
    · refine ⟨?_, erase_of_not_mem m2, rfl, rfl, ?_⟩
      · show link :: s.iOldestDirtyList.erase link = _
        rw [erase_of_not_mem m3]
      · show (if link = link then _ else _) = _
        rw [if_pos rfl]
        rfl
    · next hx =>
      exact absurd (show (s.pageInfo link).IsDirty = true from hd) hx
  · intro hd
    unfold ageOldToOldest
    dsimp only
    split
    · next hx =>
      have hx2 : (s.pageInfo link).IsDirty = true := hx
      rw [hd] at hx2
      cases hx2
    · refine ⟨?_, erase_of_not_mem m3, rfl, rfl, ?_⟩
      · show link :: s.iOldestCleanList.erase link = _
        rw [erase_of_not_mem m2]
      · show (if link = link then _ else _) = _
        rw [if_pos rfl]
        rfl

/-- The second step of `BalanceAges` when it does not fire. -/
theorem balanceAgesOld_idle {s : DPager} {n : Nat}
    (hc : ¬ (n < KMaxOldestPages ∧ n * s.iOldOldestRatio < s.iOldCount)) :
    s.BalanceAgesOld n = s := by
  unfold BalanceAgesOld
  rw [if_neg hc]

end DPager

/-! ## The young/old ratio across `BalanceAges` -/

namespace DPager

/-- One `BalanceAges` establishes the young/old ratio when a single move suffices. -/
theorem ratio_BalanceAges {u : DPager} (h : u.LiveListConsistent)
    (hk : u.iYoungCount ≤
      (u.iOldCount + u.iOldestCleanCount + u.iOldestDirtyCount + 1) * u.iYoungOldRatio + 1) :
    u.BalanceAges.iYoungCount ≤
      (u.BalanceAges.iOldCount + u.BalanceAges.iOldestCleanCount
        + u.BalanceAges.iOldestDirtyCount) * u.BalanceAges.iYoungOldRatio := by
  have hR : u.BalanceAges.iYoungOldRatio = u.iYoungOldRatio :=
    congrArg Outside.iYoungOldRatio (outside_BalanceAges u)
  have hR1 : u.BalanceAgesYoung.iYoungOldRatio = u.iYoungOldRatio :=
    congrArg Outside.iYoungOldRatio (outside_BalanceAgesYoung u)
  have h1 := consistent_BalanceAgesYoung h
  -- after the first step the ratio holds
  have step1 : u.BalanceAgesYoung.iYoungCount ≤
      (u.BalanceAgesYoung.iOldCount + u.BalanceAgesYoung.iOldestCleanCount
        + u.BalanceAgesYoung.iOldestDirtyCount) * u.iYoungOldRatio := by
    by_cases hc : ((u.iOldCount + (u.iOldestCleanCount + u.iOldestDirtyCount))
        * u.iYoungOldRatio) % 4294967296 < u.iYoungCount
    · obtain ⟨link, rest, -, -, -, -, -, c1, c2, c3, c4, -, -⟩ := balanceAgesYoung_step h hc
      rw [c2, c3, c4]
      have e : (u.iOldCount + 1 + u.iOldestCleanCount + u.iOldestDirtyCount)
          = (u.iOldCount + u.iOldestCleanCount + u.iOldestDirtyCount + 1) := by omega
      rw [e]
      omega
    · rw [balanceAgesYoung_idle hc]
      have e : (u.iOldCount + (u.iOldestCleanCount + u.iOldestDirtyCount))
          = (u.iOldCount + u.iOldestCleanCount + u.iOldestDirtyCount) := by omega
      rw [e] at hc
      have hle := Nat.mod_le
        ((u.iOldCount + u.iOldestCleanCount + u.iOldestDirtyCount) * u.iYoungOldRatio)
        4294967296
      omega
  rw [hR]
  show (u.BalanceAgesYoung.BalanceAgesOld _).iYoungCount ≤
    ((u.BalanceAgesYoung.BalanceAgesOld _).iOldCount
      + (u.BalanceAgesYoung.BalanceAgesOld _).iOldestCleanCount
      + (u.BalanceAgesYoung.BalanceAgesOld _).iOldestDirtyCount) * u.iYoungOldRatio
  generalize u.iOldestCleanCount + u.iOldestDirtyCount = n
  by_cases hc : n < KMaxOldestPages ∧ n * u.BalanceAgesYoung.iOldOldestRatio
      < u.BalanceAgesYoung.iOldCount
  · obtain ⟨link, rest, -, -, -, c1, c2, -, c3, c4⟩ := balanceAgesOld_step h1 hc
    rw [c1]
    cases hd : (u.BalanceAgesYoung.pageInfo link).IsDirty with
    | true =>
      obtain ⟨-, -, d1, d2, -⟩ := c3 hd
      rw [d1, d2]
      have e : (u.BalanceAgesYoung.BalanceAgesOld n).iOldCount
          + u.BalanceAgesYoung.iOldestCleanCount + (u.BalanceAgesYoung.iOldestDirtyCount + 1)
          = u.BalanceAgesYoung.iOldCount + u.BalanceAgesYoung.iOldestCleanCount
            + u.BalanceAgesYoung.iOldestDirtyCount := by omega
      rw [e]
      exact step1
    | false =>
      obtain ⟨-, -, d1, d2, -⟩ := c4 hd
      rw [d1, d2]
      have e : (u.BalanceAgesYoung.BalanceAgesOld n).iOldCount
          + (u.BalanceAgesYoung.iOldestCleanCount + 1) + u.BalanceAgesYoung.iOldestDirtyCount
          = u.BalanceAgesYoung.iOldCount + u.BalanceAgesYoung.iOldestCleanCount
            + u.BalanceAgesYoung.iOldestDirtyCount := by omega
      rw [e]
      exact step1
  · rw [balanceAgesOld_idle hc]
    exact step1

/-- The counts after `RemovePage` of a frame on the live list: either the young count or the
sum of the other three counts drops by one. -/
theorem removePage_counts {s : DPager} (h : s.LiveListConsistent) {p : Nat}
    (hon : s.OnLiveList p) :
    (s.RemovePage p).iYoungOldRatio = s.iYoungOldRatio ∧
    (((s.RemovePage p).iYoungCount + 1 = s.iYoungCount ∧
        (s.RemovePage p).iOldCount + (s.RemovePage p).iOldestCleanCount
          + (s.RemovePage p).iOldestDirtyCount
          = s.iOldCount + s.iOldestCleanCount + s.iOldestDirtyCount) ∨
      ((s.RemovePage p).iYoungCount = s.iYoungCount ∧
        (s.RemovePage p).iOldCount + (s.RemovePage p).iOldestCleanCount
          + (s.RemovePage p).iOldestDirtyCount + 1
          = s.iOldCount + s.iOldestCleanCount + s.iOldestDirtyCount)) := by
  refine ⟨congrArg Outside.iYoungOldRatio (outside_RemovePage s p), ?_⟩
  obtain ⟨c1, c2, c3, c4, h1, h2, h3, h4, -⟩ := h
  rcases hon with hm | hm | hm | hm
  · have hst := h1 p hm
    have hpos : 0 < s.iYoungCount := by rw [c1]; exact List.length_pos_of_mem hm
    left
    simp only [RemovePage, hst]
    refine ⟨?_, rfl⟩
    show sub32 s.iYoungCount 1 + 1 = _
    rw [sub32_one hpos]; omega
  · have hst := h2 p hm
    have hpos : 0 < s.iOldCount := by rw [c2]; exact List.length_pos_of_mem hm
    right
    simp only [RemovePage, hst]
    refine ⟨rfl, ?_⟩
    show sub32 s.iOldCount 1 + s.iOldestCleanCount + s.iOldestDirtyCount + 1 = _
    rw [sub32_one hpos]; omega
  · have hst := h3 p hm
    have hpos : 0 < s.iOldestCleanCount := by rw [c3]; exact List.length_pos_of_mem hm
    right
    simp only [RemovePage, hst]
    refine ⟨rfl, ?_⟩
    show s.iOldCount + sub32 s.iOldestCleanCount 1 + s.iOldestDirtyCount + 1 = _
    rw [sub32_one hpos]; omega
  · have hst := h4 p hm
    have hpos : 0 < s.iOldestDirtyCount := by rw [c4]; exact List.length_pos_of_mem hm
    right
    simp only [RemovePage, hst]
    refine ⟨rfl, ?_⟩
    show s.iOldCount + s.iOldestCleanCount + sub32 s.iOldestDirtyCount 1 + 1 = _
    rw [sub32_one hpos]; omega

end DPager

/-! ## Scenario S1: page-in and rejuvenation at the head of the young queue -/

namespace DPager

theorem exampleS1_consistent : exampleS1.LiveListConsistent := by
  apply consistent_intro
  · show 192 = (List.range' 1000 192).length
    rw [List.length_range']
  · show 48 = (List.range' 2000 48).length
    rw [List.length_range']
  · show 16 = (List.range' 3000 16).length
    rw [List.length_range']
  · rfl
  · intro p hp
    have hp2 : p ∈ List.range' 1000 192 := hp
    rw [List.mem_range'_1] at hp2
    show (if 1000 ≤ p ∧ p < 1192 then TPagedState.EPagedYoung else _) = _
    rw [if_pos ⟨hp2.1, by omega⟩]
  · intro p hp
    have hp2 : p ∈ List.range' 2000 48 := hp
    rw [List.mem_range'_1] at hp2
    show (if 1000 ≤ p ∧ p < 1192 then TPagedState.EPagedYoung
      else if 2000 ≤ p ∧ p < 2048 then TPagedState.EPagedOld else _) = _
    rw [if_neg (by omega), if_pos ⟨hp2.1, by omega⟩]
  · intro p hp
    have hp2 : p ∈ List.range' 3000 16 := hp
    rw [List.mem_range'_1] at hp2
    show (if 1000 ≤ p ∧ p < 1192 then TPagedState.EPagedYoung
      else if 2000 ≤ p ∧ p < 2048 then TPagedState.EPagedOld
      else if 3000 ≤ p ∧ p < 3016 then TPagedState.EPagedOldestClean else _) = _
    rw [if_neg (by omega), if_neg (by omega), if_pos ⟨hp2.1, by omega⟩]
  · intro p hp
    cases hp
  · exact List.nodup_range' 1000 192
  · exact List.nodup_range' 2000 48
  · exact List.nodup_range' 3000 16
  · exact List.nodup_nil

/-- Page-in of an unpaged frame is `AddAsYoungestPage` followed by `BalanceAges`. -/
theorem pagedIn_unpaged {s : DPager} {p : Nat}
    (hst : (s.pageInfo p).iPagedState = TPagedState.EUnpaged) :
    s.PagedIn p = (s.AddAsYoungestPage p).BalanceAges := by
  simp only [PagedIn, hst]

/-- The counts after `BalanceAges` when both of its steps fire. -/
theorem balanceAges_both {u : DPager} (h : u.LiveListConsistent)
    (h1 : ((u.iOldCount + (u.iOldestCleanCount + u.iOldestDirtyCount)) * u.iYoungOldRatio)
      % 4294967296 < u.iYoungCount)
    (h2 : u.iOldestCleanCount + u.iOldestDirtyCount < KMaxOldestPages)
    (h3 : (u.iOldestCleanCount + u.iOldestDirtyCount) * u.iOldOldestRatio < u.iOldCount + 1) :
    u.BalanceAges.iYoungCount + 1 = u.iYoungCount ∧
    u.BalanceAges.iOldCount = u.iOldCount ∧
    u.BalanceAges.iOldestCleanCount + u.BalanceAges.iOldestDirtyCount
      = u.iOldestCleanCount + u.iOldestDirtyCount + 1 := by
  obtain ⟨link, rest, -, -, -, -, -, c1, c2, c3, c4, -, -⟩ := balanceAgesYoung_step h h1
  have hc := consistent_BalanceAgesYoung h
  have hratio : u.BalanceAgesYoung.iOldOldestRatio = u.iOldOldestRatio :=
    congrArg Outside.iOldOldestRatio (outside_BalanceAgesYoung u)
  have hcond : u.iOldestCleanCount + u.iOldestDirtyCount < KMaxOldestPages ∧
      (u.iOldestCleanCount + u.iOldestDirtyCount) * u.BalanceAgesYoung.iOldOldestRatio
        < u.BalanceAgesYoung.iOldCount := by
    rw [hratio, c2]
    exact ⟨h2, h3⟩
  obtain ⟨link2, rest2, -, -, -, d1, d2, -, d3, d4⟩ := balanceAgesOld_step hc hcond
  show (u.BalanceAgesYoung.BalanceAgesOld _).iYoungCount + 1 = _ ∧
    (u.BalanceAgesYoung.BalanceAgesOld _).iOldCount = _ ∧
    (u.BalanceAgesYoung.BalanceAgesOld _).iOldestCleanCount
      + (u.BalanceAgesYoung.BalanceAgesOld _).iOldestDirtyCount = _
  refine ⟨by rw [d1]; exact c1, by omega, ?_⟩
  cases hd : (u.BalanceAgesYoung.pageInfo link2).IsDirty with
  | true =>
    obtain ⟨-, -, e1, e2, -⟩ := d3 hd
    rw [e1, e2, c3, c4]; omega
  | false =>
    obtain ⟨-, -, e1, e2, -⟩ := d4 hd
    rw [e1, e2, c3, c4]; omega

/-- Moving the head of the young queue to the head of the young queue (`RemovePage` then
`AddAsYoungestPage`) gives back the same queues. -/
theorem rejuvenate_head {t : DPager} (h : t.LiveListConsistent) {p : Nat} {rest : List Nat}
    (hy : t.iYoungList = p :: rest) :
    ((t.RemovePage p).AddAsYoungestPage p).iYoungList = p :: rest ∧
    ((t.RemovePage p).AddAsYoungestPage p).LiveListConsistent ∧
    ((t.RemovePage p).AddAsYoungestPage p).liveListSize = t.liveListSize ∧
    ((t.RemovePage p).AddAsYoungestPage p).iYoungOldRatio = t.iYoungOldRatio := by
  have hm : p ∈ t.iYoungList := by rw [hy]; exact List.mem_cons_self _ _
  have hon : t.OnLiveList p := Or.inl hm
  have hst := h.2.2.2.2.1 p hm
  obtain ⟨k1, k2⟩ := consistent_RemovePage h (fun _ => hon)
  have hoff := k2 (sublistState_of_onLiveList h hon)
  refine ⟨?_, consistent_AddAsYoungestPage k1 hoff, ?_, ?_⟩
  · rw [young_AddAsYoungestPage]
    simp only [RemovePage, hst]
    show p :: t.iYoungList.erase p = _
    rw [hy, List.erase_cons_head]
  · rw [liveListSize_AddAsYoungestPage]
    have := liveListSize_RemovePage h hon
    omega
  · exact (congrArg Outside.iYoungOldRatio (outside_AddAsYoungestPage _ p)).trans
      (congrArg Outside.iYoungOldRatio (outside_RemovePage t p))

end DPager

namespace DPager

/-- Page-in of an unpaged frame into the live list of scenario S1. -/
theorem pagedIn_S1 {s : DPager} {p : Nat} (h : s.LiveListConsistent)
    (hy : s.iYoungCount = 192) (ho : s.iOldCount = 48)
    (hs : s.iOldestCleanCount + s.iOldestDirtyCount = 16)
    (hr : s.iYoungOldRatio = 3) (hr2 : s.iOldOldestRatio = 3)
    (hst : (s.pageInfo p).iPagedState = TPagedState.EUnpaged) :
    (s.AddAsYoungestPage p).iYoungCount = 193 ∧
    (s.PagedIn p).iYoungList.head? = some p ∧
    ((s.PagedIn p).pageInfo p).iPagedState = TPagedState.EPagedYoung ∧
    (s.PagedIn p).iYoungCount = 192 ∧
    (s.PagedIn p).iOldCount = 48 ∧
    (s.PagedIn p).iOldestCleanCount + (s.PagedIn p).iOldestDirtyCount = 17 ∧
    (s.PagedIn p).LiveListConsistent ∧
    (s.PagedIn p).iYoungOldRatio = 3 := by
  have hoff : ¬ s.OnLiveList p := not_onLiveList_of_not_sublist h (by rw [hst]; rfl)
  have hc := consistent_AddAsYoungestPage h hoff
  have e1 : (s.AddAsYoungestPage p).iYoungCount = 193 := by
    show s.iYoungCount + 1 = 193
    omega
  have hsz : 2 ≤ (s.AddAsYoungestPage p).liveListSize := by
    rw [liveListSize_AddAsYoungestPage, liveListSize_eq_counts h]
    omega
  have hR : (s.AddAsYoungestPage p).iYoungOldRatio = 3 := hr
  have hw : (s.AddAsYoungestPage p).liveListSize * (s.AddAsYoungestPage p).iYoungOldRatio
      < 4294967296 := by
    rw [hR, liveListSize_AddAsYoungestPage, liveListSize_eq_counts h]
    omega
  obtain ⟨k1, k2⟩ := head_BalanceAges hc (young_AddAsYoungestPage s p) (by rw [hR]; omega) hsz hw
  have hO : (s.AddAsYoungestPage p).iOldCount = 48 := ho
  have hS : (s.AddAsYoungestPage p).iOldestCleanCount
      + (s.AddAsYoungestPage p).iOldestDirtyCount = 16 := hs
  have hR2 : (s.AddAsYoungestPage p).iOldOldestRatio = 3 := hr2
  obtain ⟨b1, b2, b3⟩ := balanceAges_both hc
    (by rw [hO, hS, hR, e1]; decide) (by rw [hS]; decide) (by rw [hS, hR2, hO]; decide)
  rw [pagedIn_unpaged hst]
  refine ⟨e1, k1, ?_, by omega, by omega, by omega, consistent_BalanceAges hc, ?_⟩
  · rw [k2, pageInfo_AddAsYoungestPage]
    rfl
  · exact (congrArg Outside.iYoungOldRatio (outside_BalanceAges _)).trans hR

/-- The rejuvenation of the frame at the head of the young queue leaves it there, when the
live list holds another frame, its size times the ratio fits in 32 bits and the page table is
not demand paged. -/
theorem rejuvenate_head_stays {t : DPager} (h : t.LiveListConsistent) {p : Nat}
    {rest : List Nat} (hy : t.iYoungList = p :: rest) (hr : 1 ≤ t.iYoungOldRatio)
    (hsz : 2 ≤ t.liveListSize) (hw : t.liveListSize * t.iYoungOldRatio < 4294967296) :
    ((t.RemovePage p).AddAsYoungestPage p).iYoungList = t.iYoungList ∧
    ((t.RemovePage p).AddAsYoungestPage p).BalanceAges.iYoungList.head? = some p ∧
    (∀ f : FaultContext, f.pageTableDemandPaged = false →
      (t.rejuvenateFrame f p).1 = KErrNone ∧
      (t.rejuvenateFrame f p).2.iYoungList.head? = some p) := by
  obtain ⟨a1, a2, a3, a4⟩ := rejuvenate_head h hy
  refine ⟨by rw [a1, hy], ?_, ?_⟩
  · exact (head_BalanceAges a2 a1 (by rw [a4]; exact hr) (by rw [a3]; exact hsz)
      (by rw [a3, a4]; exact hw)).1
  · intro f hf
    have hm : p ∈ t.iYoungList := by rw [hy]; exact List.mem_cons_self _ _
    have hst := h.2.2.2.2.1 p hm
    refine ⟨rfl, ?_⟩
    obtain ⟨u, hu⟩ : ∃ u : DPager, u = (if f.readWrite then t.SetWritable p else t) := ⟨_, rfl⟩
    have hu1 : u.LiveListConsistent := by
      rw [hu]
      split
      · exact consistent_setPage_same h p _ (fun _ => rfl)
      · exact h
    have hu2 : u.iYoungList = p :: rest := by
      rw [hu]
      split
      · exact hy
      · exact hy
    have hu3 : u.liveListSize = t.liveListSize := by
      rw [hu]
      split
      · exact liveListSize_setPage t p _
      · rfl
    have hu4 : u.iYoungOldRatio = t.iYoungOldRatio := by
      rw [hu]
      split
      · rfl
      · rfl
    obtain ⟨b1, b2, b3, b4⟩ := rejuvenate_head hu1 hu2
    have key := (head_BalanceAges b2 b1 (by rw [b4, hu4]; exact hr)
      (by rw [b3, hu3]; exact hsz) (by rw [b3, b4, hu3, hu4]; exact hw)).1
    have e : (t.rejuvenateFrame f p).2
        = ((u.RemovePage p).AddAsYoungestPage p).BalanceAges := by
      unfold rejuvenateFrame
      simp only [hst, IsSublistState, if_true, RejuvenatePageTable, hf, Bool.not_false]
      rw [hu]
    rw [e]
    exact key

end DPager

/-! ## The page count of `DDemandPagingLock::Alloc` -/

namespace DDemandPagingLock

/-- A value in the range of `TInt` is not changed by the wrap. -/
theorem wrap_eq (x : Int) (h1 : -2147483648 ≤ x) (h2 : x < 2147483648) :
    toTInt (toTUint x) = x := by
  unfold toTInt toTUint
  split <;> omega

/-- The stored page count without the wrap, when the sum and the result are in the range of
`TInt`. -/
theorem maxPageCount_exact (k : Nat) (size : Int)
    (h1 : -2147483648 ≤ size - 1 + ((2 : Int) ^ k - 1))
    (h2 : size - 1 + ((2 : Int) ^ k - 1) < 2147483648)
    (h3 : -2147483648 ≤ (size - 1 + ((2 : Int) ^ k - 1)) / (2 : Int) ^ k + 1)
    (h4 : (size - 1 + ((2 : Int) ^ k - 1)) / (2 : Int) ^ k + 1 < 2147483648) :
    maxPageCount k size = (size - 1 + ((2 : Int) ^ k - 1)) / (2 : Int) ^ k + 1 := by
  unfold maxPageCount
  rw [wrap_eq _ h1 h2, wrap_eq _ h3 h4]

/-- For a size of at least 1 whose sum `size - 1 + KPageMask` is in the range of `TInt`, and
pages of at least two bytes, the stored page count is `ceil((size - 1) / pagesize) + 1`. -/
theorem maxPageCount_eq (k n : Nat) (hn : 1 ≤ n) (hk : 1 ≤ k)
    (hov : n - 1 + (2 ^ k - 1) < 2147483648) :
    maxPageCount k (n : Int) = (((n - 1 + (2 ^ k - 1)) / 2 ^ k + 1 : Nat) : Int) := by
  have hP : 1 ≤ 2 ^ k := Nat.one_le_two_pow
  have h2 : 2 ≤ 2 ^ k := by
    calc 2 = 2 ^ 1 := rfl
      _ ≤ 2 ^ k := Nat.pow_le_pow_right (by decide) hk
  have e : (n : Int) - 1 + ((2 : Int) ^ k - 1) = ((n - 1 + (2 ^ k - 1) : Nat) : Int) := by
    push_cast [Nat.cast_sub hn, Nat.cast_sub hP]
    rfl
  have ed : ((n : Int) - 1 + ((2 : Int) ^ k - 1)) / (2 : Int) ^ k
      = (((n - 1 + (2 ^ k - 1)) / 2 ^ k : Nat) : Int) := by
    rw [e]
    have e3 : ((2 : Int) ^ k) = ((2 ^ k : Nat) : Int) := by push_cast; rfl
    rw [e3]
    exact (Int.natCast_div _ _).symm
  have hq : (n - 1 + (2 ^ k - 1)) / 2 ^ k < 1073741824 := by
    apply Nat.div_lt_of_lt_mul
    calc n - 1 + (2 ^ k - 1) < 2147483648 := hov
      _ = 2 * 1073741824 := rfl
      _ ≤ 2 ^ k * 1073741824 := Nat.mul_le_mul_right _ h2
  obtain ⟨q, hqe⟩ : ∃ q : Nat, q = (n - 1 + (2 ^ k - 1)) / 2 ^ k := ⟨_, rfl⟩
  rw [← hqe] at ed hq ⊢
  obtain ⟨m, hme⟩ : ∃ m : Nat, m = n - 1 + (2 ^ k - 1) := ⟨_, rfl⟩
  rw [← hme] at e hov
  rw [maxPageCount_exact k n (by rw [e]; omega) (by rw [e]; omega) (by rw [ed]; omega)
    (by rw [ed]; omega), ed]
  push_cast
  rfl

/-- Rounding `n - 1` up to pages against rounding `n` up to pages. -/
theorem ceil_pred (P n : Nat) (hP : 2 ≤ P) (hn : 1 ≤ n) :
    (n % P ≠ 1 → (n - 1 + (P - 1)) / P = (n + (P - 1)) / P) ∧
    (n % P = 1 → (n - 1 + (P - 1)) / P + 1 = (n + (P - 1)) / P) := by
  have hdm := Nat.div_add_mod n P
  have hlt := Nat.mod_lt n (show 0 < P by omega)
  obtain ⟨q, hq⟩ : ∃ q, q = n / P := ⟨_, rfl⟩
  obtain ⟨r, hr⟩ : ∃ r, r = n % P := ⟨_, rfl⟩
  rw [← hq, ← hr] at hdm
  rw [← hr] at hlt
  rw [← hr]
  have hmul : (q + 1) * P = P * q + P := by ring
  have hmul0 : q * P = P * q := Nat.mul_comm q P
  have hpos : 0 < P := by omega
  constructor
  · intro h1
    by_cases h0 : r = 0
    · have hq1 : 1 ≤ q := by
        rcases Nat.eq_zero_or_pos q with hz | hz
        · rw [hz, h0] at hdm; omega
        · exact hz
      have a : (n - 1 + (P - 1)) / P = q :=
        Nat.div_eq_of_lt_le (by rw [hmul0]; omega) (by rw [hmul]; omega)
      have b : (n + (P - 1)) / P = q :=
        Nat.div_eq_of_lt_le (by rw [hmul0]; omega) (by rw [hmul]; omega)
      rw [a, b]
    · have hmul2 : (q + 1 + 1) * P = P * q + P + P := by ring
      have a : (n - 1 + (P - 1)) / P = q + 1 :=
        Nat.div_eq_of_lt_le (by rw [hmul]; omega) (by rw [hmul2]; omega)
      have b : (n + (P - 1)) / P = q + 1 :=
        Nat.div_eq_of_lt_le (by rw [hmul]; omega) (by rw [hmul2]; omega)
      rw [a, b]
  · intro h1
    have hmul2 : (q + 1 + 1) * P = P * q + P + P := by ring
    have a : (n - 1 + (P - 1)) / P = q :=
      Nat.div_eq_of_lt_le (by rw [hmul0]; omega) (by rw [hmul]; omega)
    have b : (n + (P - 1)) / P = q + 1 :=
      Nat.div_eq_of_lt_le (by rw [hmul]; omega) (by rw [hmul2]; omega)
    rw [a, b]

/-- The call `Alloc` on a freshly constructed lock returns, with the pages reserved on
success and nothing reserved on failure. -/
theorem alloc_spec (s : DPager) (MaxPageTables : Nat → Nat) (K : Nat) (newMapping : Bool)
    (aSize : Int) :
    ∃ r l1 s1,
      Alloc (reserveCount s.KPageShift MaxPageTables K aSize + 2) s new MaxPageTables K
        newMapping aSize = some (r, l1, s1) ∧
      l1.iMaxPageCount = maxPageCount s.KPageShift aSize ∧
      (r = KErrNone →
        l1.iReservedPageCount = reserveCount s.KPageShift MaxPageTables K aSize ∧
        s1.iReservePageCount
          = s.iReservePageCount + reserveCount s.KPageShift MaxPageTables K aSize) ∧
      (r ≠ KErrNone →
        l1.iReservedPageCount = 0 ∧ s1.iReservePageCount = s.iReservePageCount) := by
  obtain ⟨b, c, s1, e, p1, p2, -⟩ := DPager.reservePages_spec s
    (reserveCount s.KPageShift MaxPageTables K aSize) _ (le_refl _)
  unfold Alloc
  dsimp only
  have e2 : DPager.ReservePages (reserveCount s.KPageShift MaxPageTables K aSize + 2) s
      (reserveCount s.KPageShift MaxPageTables K aSize) new.iReservedPageCount
      = some (b, c, s1) := e
  rw [e2]
  cases b with
  | false =>
    obtain ⟨q1, q2⟩ := p2 rfl
    exact ⟨_, _, _, rfl, rfl, fun h => absurd h (by decide), fun _ => ⟨q1, q2⟩⟩
  | true =>
    obtain ⟨q1, q2⟩ := p1 rfl
    cases newMapping with
    | true =>
      exact ⟨_, _, _, rfl, rfl, fun _ => ⟨q1, q2⟩, fun h => absurd rfl h⟩
    | false =>
      refine ⟨_, _, _, rfl, rfl, fun h => absurd h (by decide), fun _ => ⟨rfl, ?_⟩⟩
      show sub32 s1.iReservePageCount c = _
      rw [q2, q1, DPager.sub32_le (by omega)]
      omega

end DDemandPagingLock

/-! ## `DiscardPage` -/

namespace DPager

/-- The `while` loop of `DiscardPage` on a frame that can be stolen: it ends, touching only
the allocator call count, the free page count and the page cleaning lock, and on `KErrNone`
there is a free page or a newly allocated frame. -/
theorem discardLoop_spec (s : DPager) (old : Nat) (br : Bool) (n : Nat)
    (hcan : DiscardCanStealPage (s.pageInfo old) br = true) :
    ∃ r0 new0 hv a f c,
      DiscardPageLoop (n + 2) s old br none false
        = some (r0, new0, hv,
            { s with allocCalls := a, iNumberOfFreePages := f, cleaningLockHeld := c }) ∧
      (r0 = KErrNone ∨ r0 = KErrNoMemory) ∧
      (r0 = KErrNone →
        ((0 < s.iNumberOfFreePages ∧ new0 = none ∧ f = s.iNumberOfFreePages) ∨
          (s.iNumberOfFreePages = 0 ∧ new0 = s.allocRam s.allocCalls ∧
            new0.isSome = true ∧ f = 1))) := by
  by_cases hf : s.iNumberOfFreePages = 0
  · cases ha : s.allocRam s.allocCalls with
    | none =>
      refine ⟨KErrNoMemory, none, false, s.allocCalls + 1, s.iNumberOfFreePages,
        s.cleaningLockHeld, ?_, Or.inr rfl, fun h => absurd h (by decide)⟩
      simp [DiscardPageLoop, hf, GetPageFromSystem, ha]
    | some p =>
      cases hd : (s.pageInfo old).IsDirty with
      | false =>
        refine ⟨KErrNone, some p, false, s.allocCalls + 1, 1, s.cleaningLockHeld, ?_,
          Or.inl rfl, fun _ => Or.inr ⟨hf, rfl, rfl, rfl⟩⟩
        simp [DiscardPageLoop, hf, GetPageFromSystem, ha, hd, hcan]
      | true =>
        refine ⟨KErrNone, some p, true, s.allocCalls + 1, 1, true, ?_,
          Or.inl rfl, fun _ => Or.inr ⟨hf, rfl, rfl, rfl⟩⟩
        simp [DiscardPageLoop, hf, GetPageFromSystem, ha, hd, hcan]
  · cases hd : (s.pageInfo old).IsDirty with
    | false =>
      refine ⟨KErrNone, none, false, s.allocCalls, s.iNumberOfFreePages, s.cleaningLockHeld,
        ?_, Or.inl rfl, fun _ => Or.inl ⟨by omega, rfl, rfl⟩⟩
      simp [DiscardPageLoop, hf, hd]
    | true =>
      refine ⟨KErrNone, none, true, s.allocCalls, s.iNumberOfFreePages, true,
        ?_, Or.inl rfl, fun _ => Or.inl ⟨by omega, rfl, rfl⟩⟩
      simp [DiscardPageLoop, hf, hd, hcan]

end DPager

namespace DPager

theorem removePage_of_unpaged {s : DPager} {p : Nat}
    (hst : (s.pageInfo p).iPagedState = TPagedState.EUnpaged) : s.RemovePage p = s := by
  simp only [RemovePage, hst]

/-- After `RemovePage` a frame that was not pinned is unpaged and on no queue. -/
theorem removePage_unpaged {s : DPager} (h : s.LiveListConsistent) {p : Nat}
    (hl : s.Linked p)
    (hnp : (s.pageInfo p).iPagedState ≠ TPagedState.EPagedPinned)
    (hnm : (s.pageInfo p).iPagedState ≠ TPagedState.EPagedPinnedMoved) :
    ((s.RemovePage p).pageInfo p).iPagedState = TPagedState.EUnpaged ∧
      ¬ (s.RemovePage p).OnLiveList p := by
  obtain ⟨-, k2⟩ := consistent_RemovePage h hl
  rcases hst : (s.pageInfo p).iPagedState
  · rw [removePage_of_unpaged hst]
    exact ⟨hst, not_onLiveList_of_not_sublist h (by rw [hst]; rfl)⟩
  · refine ⟨?_, k2 (by rw [hst]; rfl)⟩
    simp only [RemovePage, hst, SetPagedState]
    rw [setPage_same]; rfl
  · refine ⟨?_, k2 (by rw [hst]; rfl)⟩
    simp only [RemovePage, hst, SetPagedState]
    rw [setPage_same]; rfl
  · exact absurd hst hnp
  · refine ⟨?_, k2 (by rw [hst]; rfl)⟩
    simp only [RemovePage, hst, SetPagedState]
    rw [setPage_same]; rfl
  · refine ⟨?_, k2 (by rw [hst]; rfl)⟩
    simp only [RemovePage, hst, SetPagedState]
    rw [setPage_same]; rfl
  · exact absurd hst hnm

/-- After `StealPage` a frame that was not pinned is unpaged and on no queue, whatever the
manager answers. -/
theorem stealPage_facts {s : DPager} (h : s.LiveListConsistent) {p : Nat} (hl : s.Linked p)
    (hnp : (s.pageInfo p).iPagedState ≠ TPagedState.EPagedPinned)
    (hnm : (s.pageInfo p).iPagedState ≠ TPagedState.EPagedPinnedMoved) :
    ((s.StealPage p).2.pageInfo p).iPagedState = TPagedState.EUnpaged ∧
      ¬ (s.StealPage p).2.OnLiveList p ∧
      (s.StealPage p).2.outside = s.outside := by
  obtain ⟨a, b⟩ := removePage_unpaged h hl hnp hnm
  refine ⟨?_, ?_, outside_StealPage s p⟩
  · unfold StealPage
    dsimp only
    split
    · exact a
    · exact a
  · unfold StealPage
    dsimp only
    split
    · exact b
    · exact b

/-- The descriptor of another frame and the queues, less the tail of the oldest-clean queue,
are as before after `AddAsFreePage`. -/
theorem addAsFreePage_other (s : DPager) {n p : Nat} (hne : p ≠ n) :
    (s.AddAsFreePage n).pageInfo p = s.pageInfo p ∧
      ((s.AddAsFreePage n).OnLiveList p ↔ s.OnLiveList p) := by
  constructor
  · show (if p = n then _ else (if p = n then _ else s.pageInfo p)) = _
    rw [if_neg hne, if_neg hne]
  · show (p ∈ s.iYoungList ∨ p ∈ s.iOldList ∨ p ∈ s.iOldestCleanList ++ [n]
      ∨ p ∈ s.iOldestDirtyList) ↔ _
    unfold OnLiveList
    simp [hne]

end DPager

namespace DPager

/-- The steal of `DiscardPage` leaves a frame that was not pinned unpaged and on no queue. -/
theorem discardSteal_facts {s : DPager} (h : s.LiveListConsistent) {p : Nat} (hl : s.Linked p)
    (hnp : (s.pageInfo p).iPagedState ≠ TPagedState.EPagedPinned)
    (hnm : (s.pageInfo p).iPagedState ≠ TPagedState.EPagedPinnedMoved) :
    ((s.discardSteal p KErrNone).2.pageInfo p).iPagedState = TPagedState.EUnpaged ∧
      ¬ (s.discardSteal p KErrNone).2.OnLiveList p ∧
      (s.discardSteal p KErrNone).2.outside = s.outside := by
  obtain ⟨f1, f2, f3⟩ := stealPage_facts h hl hnp hnm
  unfold discardSteal
  dsimp only
  rw [if_pos rfl]
  split
  · show (((s.StealPage p).2.RemovePage p).pageInfo p).iPagedState = _ ∧
      ¬ ((s.StealPage p).2.RemovePage p).OnLiveList p ∧
      ((s.StealPage p).2.RemovePage p).outside = _
    rw [removePage_of_unpaged f1]
    exact ⟨f1, f2, f3⟩
  · exact ⟨f1, f2, f3⟩

/-- The frame that `DiscardPage` returns to the system stays unpaged and off the queues. -/
theorem discardReturn_facts {s : DPager} {p : Nat}
    (hst : (s.pageInfo p).iPagedState = TPagedState.EUnpaged) (hoff : ¬ s.OnLiveList p) :
    ((s.discardReturn p KErrNone).pageInfo p).iPagedState = TPagedState.EUnpaged ∧
      ¬ (s.discardReturn p KErrNone).OnLiveList p ∧
      (s.discardReturn p KErrNone).iMinimumPageCount = s.iMinimumPageCount ∧
      (s.discardReturn p KErrNone).iNumberOfFreePages = sub32 s.iNumberOfFreePages 1 := by
  unfold discardReturn
  rw [if_pos rfl]
  have hoff2 : ¬ (s.ReturnPageToSystemPage p).OnLiveList p := hoff
  refine ⟨?_, ?_, ?_, ?_⟩
  · rw [pageInfo_BalanceAges_off hoff2]
    exact hst
  · rw [onLiveList_BalanceAges]
    exact hoff2
  · exact congrArg Outside.iMinimumPageCount (outside_BalanceAges _)
  · exact congrArg Outside.iNumberOfFreePages (outside_BalanceAges _)

/-- The end of `DiscardPage` on a frame that was not pinned, when the loop left `KErrNone`
with a free page at hand or with a newly allocated frame as the only free page. -/
theorem discardTail_spec {s0 : DPager} (h : s0.LiveListConsistent) {old : Nat}
    (hl : s0.Linked old)
    (hnp : (s0.pageInfo old).iPagedState ≠ TPagedState.EPagedPinned)
    (hnm : (s0.pageInfo old).iPagedState ≠ TPagedState.EPagedPinnedMoved)
    (new0 : Option Nat) (hv : Bool) (hne : new0 ≠ some old)
    (hfree : (new0 = none ∧ 0 < s0.iNumberOfFreePages) ∨
      (new0.isSome = true ∧ s0.iNumberOfFreePages = 1))
    (hr : (s0.DiscardPageTail old KErrNone new0 hv).1 = KErrNone) :
    ((s0.DiscardPageTail old KErrNone new0 hv).2.pageInfo old).iPagedState
        = TPagedState.EUnpaged ∧
      ¬ (s0.DiscardPageTail old KErrNone new0 hv).2.OnLiveList old ∧
      (s0.DiscardPageTail old KErrNone new0 hv).2.iMinimumPageCount = s0.iMinimumPageCount ∧
      (s0.DiscardPageTail old KErrNone new0 hv).2.iNumberOfFreePages + 1
        = s0.iNumberOfFreePages ∧
      (∀ n, new0 = some n →
        (s0.DiscardPageTail old KErrNone new0 hv).2.iOldestCleanList.getLast? = some n) := by
  obtain ⟨f1, f2, f3⟩ := discardSteal_facts h hl hnp hnm
  obtain ⟨a, ha⟩ : ∃ a, a = s0.discardSteal old KErrNone := ⟨_, rfl⟩
  rw [← ha] at f1 f2 f3
  have hfree1 : a.2.iNumberOfFreePages = s0.iNumberOfFreePages :=
    congrArg Outside.iNumberOfFreePages f3
  have hmin1 : a.2.iMinimumPageCount = s0.iMinimumPageCount :=
    congrArg Outside.iMinimumPageCount f3
  have hpos : ¬ (a.1 = KErrNone ∧ a.2.iNumberOfFreePages = 0) := by
    rcases hfree with ⟨-, k⟩ | ⟨-, k⟩ <;> omega
  have hb : a.2.discardTopUp old a.1 new0 = (a.1, new0, a.2) := by
    unfold discardTopUp
    rw [if_neg hpos]
  have hd : s0.DiscardPageTail old KErrNone new0 hv
      = (a.1, if hv then
          { (a.2.discardReturn old a.1).discardSpare new0 with cleaningLockHeld := false }
          else (a.2.discardReturn old a.1).discardSpare new0) := by
    unfold DiscardPageTail
    dsimp only
    rw [← ha, hb]
  rw [hd] at hr ⊢
  have hr1 : a.1 = KErrNone := hr
  rw [hr1]
  obtain ⟨g1, g2, g3, g4⟩ := discardReturn_facts f1 f2
  obtain ⟨s4, hs4⟩ : ∃ s4, s4 = a.2.discardReturn old KErrNone := ⟨_, rfl⟩
  rw [← hs4] at g1 g2 g3 g4 ⊢
  have key : ((s4.discardSpare new0).pageInfo old).iPagedState = TPagedState.EUnpaged ∧
      ¬ (s4.discardSpare new0).OnLiveList old ∧
      (s4.discardSpare new0).iMinimumPageCount = s0.iMinimumPageCount ∧
      (s4.discardSpare new0).iNumberOfFreePages + 1 = s0.iNumberOfFreePages ∧
      (∀ n, new0 = some n → (s4.discardSpare new0).iOldestCleanList.getLast? = some n) := by
    rcases hfree with ⟨k1, k2⟩ | ⟨k1, k2⟩
    · rw [k1]
      refine ⟨g1, g2, g3.trans hmin1, ?_, fun n e => by cases e⟩
      show s4.iNumberOfFreePages + 1 = _
      rw [g4, hfree1, sub32_one k2]
      omega
    · cases hn : new0 with
      | none => rw [hn] at k1; cases k1
      | some n =>
        have hne2 : old ≠ n := fun e => hne (by rw [hn, e])
        have hz : s4.iNumberOfFreePages = 0 := by
          rw [g4, hfree1, k2]; rfl
        have e5 : s4.discardSpare (some n) = s4.AddAsFreePage n := by
          unfold discardSpare
          dsimp only
          rw [if_pos hz]
        rw [e5]
        obtain ⟨q1, q2⟩ := addAsFreePage_other s4 hne2
        refine ⟨by rw [q1]; exact g1, fun hc => g2 (q2.1 hc), g3.trans hmin1, ?_, ?_⟩
        · show s4.iNumberOfFreePages + 1 = _
          rw [hz, k2]
        · intro m hm
          have e : n = m := Option.some.inj hm
          show (s4.iOldestCleanList ++ [n]).getLast? = some m
          rw [List.getLast?_append, e]
          rfl
  cases hv with
  | false => exact key
  | true => exact key

/-- The end of `DiscardPage` passes on the `KErrNoMemory` of the loop. -/
theorem discardTail_noMemory (s : DPager) (old : Nat) (new0 : Option Nat) (hv : Bool) :
    (s.DiscardPageTail old KErrNoMemory new0 hv).1 = KErrNoMemory := by
  have e1 : s.discardSteal old KErrNoMemory = (KErrNoMemory, s) := by
    have k1 : ¬ KErrNoMemory = KErrNone := by decide
    have k2 : ¬ KErrNoMemory = KErrCompletion := by decide
    unfold discardSteal
    dsimp only
    rw [if_neg k1]
    dsimp only
    rw [if_neg k2]
  have e2 : s.discardTopUp old KErrNoMemory new0 = (KErrNoMemory, new0, s) := by
    unfold discardTopUp
    have k1 : ¬ KErrNoMemory = KErrNone := by decide
    rw [if_neg (fun k => k1 k.1)]
  unfold DiscardPageTail
  dsimp only
  rw [e1]
  dsimp only
  rw [e2]

/-- The call `DiscardPage` on a frame that can be stolen and is not pinned returns; when it
returns `KErrNone` the frame is unpaged and on no queue, and the page accounting has lost at
most one free page. -/
theorem discardPage_spec {s : DPager} (h : s.LiveListConsistent) {old : Nat}
    (hl : s.Linked old) (br : Bool) (movePage : Int) (n : Nat)
    (hcan : DiscardCanStealPage (s.pageInfo old) br = true)
    (hnp : (s.pageInfo old).iPagedState ≠ TPagedState.EPagedPinned)
    (hnm : (s.pageInfo old).iPagedState ≠ TPagedState.EPagedPinnedMoved)
    (halloc : s.allocRam s.allocCalls ≠ some old) :
    ∃ r s1, s.DiscardPage (n + 2) old br movePage = some (r, s1) ∧
      (r = KErrNone →
        (s1.pageInfo old).iPagedState = TPagedState.EUnpaged ∧ ¬ s1.OnLiveList old ∧
        s1.iMinimumPageCount = s.iMinimumPageCount ∧
        (0 < s.iNumberOfFreePages → s1.iNumberOfFreePages + 1 = s.iNumberOfFreePages) ∧
        (s.iNumberOfFreePages = 0 → s1.iNumberOfFreePages = 0 ∧
          ∃ m, s.allocRam s.allocCalls = some m ∧ s1.iOldestCleanList.getLast? = some m)) := by
  obtain ⟨r0, new0, hv, a, f, c, e, hcode, hk⟩ := discardLoop_spec s old br n hcan
  obtain ⟨s0, hs0⟩ : ∃ s0 : DPager,
      s0 = { s with allocCalls := a, iNumberOfFreePages := f, cleaningLockHeld := c } :=
    ⟨_, rfl⟩
  rw [← hs0] at e
  have hd : s.DiscardPage (n + 2) old br movePage
      = some (s0.DiscardPageTail old r0 new0 hv) := by
    unfold DiscardPage
    rw [hcan, e]
    rfl
  rw [hd]
  refine ⟨(s0.DiscardPageTail old r0 new0 hv).1, (s0.DiscardPageTail old r0 new0 hv).2, rfl,
    fun hr => ?_⟩
  have hr0 : r0 = KErrNone := by
    rcases hcode with k | k
    · exact k
    · rw [k, discardTail_noMemory s0 old new0 hv] at hr
      exact absurd hr (by decide)
  rw [hr0] at hr ⊢
  have hc0 : s0.LiveListConsistent := by
    rw [hs0]
    exact consistent_congr h rfl rfl rfl rfl rfl rfl rfl rfl (fun _ _ => rfl)
  have hl0 : s0.Linked old := by rw [hs0]; exact hl
  have hnp0 : (s0.pageInfo old).iPagedState ≠ TPagedState.EPagedPinned := by
    rw [hs0]; exact hnp
  have hnm0 : (s0.pageInfo old).iPagedState ≠ TPagedState.EPagedPinnedMoved := by
    rw [hs0]; exact hnm
  have hf0 : s0.iNumberOfFreePages = f := by rw [hs0]
  have hm0 : s0.iMinimumPageCount = s.iMinimumPageCount := by rw [hs0]
  rcases hk hr0 with ⟨k1, k2, k3⟩ | ⟨k1, k2, k3, k4⟩
  · obtain ⟨t1, t2, t3, t4, -⟩ := discardTail_spec hc0 hl0 hnp0 hnm0 new0 hv
      (by rw [k2]; exact fun e => Option.noConfusion e)
      (Or.inl ⟨k2, by rw [hf0, k3]; exact k1⟩) hr
    refine ⟨t1, t2, t3.trans hm0, fun _ => by rw [t4, hf0, k3], fun hz => ?_⟩
    omega
  · obtain ⟨t1, t2, t3, t4, t5⟩ := discardTail_spec hc0 hl0 hnp0 hnm0 new0 hv
      (by rw [k2]; exact halloc) (Or.inr ⟨k3, by rw [hf0, k4]⟩) hr
    refine ⟨t1, t2, t3.trans hm0, fun hp => by omega, fun _ => ⟨by omega, ?_⟩⟩
    obtain ⟨m, hn⟩ := Option.isSome_iff_exists.1 k3
    exact ⟨m, by rw [← k2, hn], t5 m hn⟩

end DPager

/-! ## The invariant of the paging request pool -/

namespace DPagingRequestPool

theorem setRequest_same (p : DPagingRequestPool) (k : Nat) (r : DPoolPagingRequest) :
    (p.setRequest k r).iRequests k = r := by
  show (if k = k then r else p.iRequests k) = r
  rw [if_pos rfl]

theorem setRequest_other (p : DPagingRequestPool) (k : Nat) (r : DPoolPagingRequest)
    {j : Nat} (h : j ≠ k) : (p.setRequest k r).iRequests j = p.iRequests j := by
  show (if j = k then r else p.iRequests j) = _
  rw [if_neg h]

/-- A page of a contiguous region collides with the region. -/
theorem collision_of_mem {aMemory aIndex aCount : Nat} (hc : aCount ≤ 4294967296)
    (hi : aIndex < 4294967296) {e : Nat × Nat}
    (he : e ∈ DPagingRequest.contiguousRegion aMemory aIndex aCount) :
    e.1 = aMemory ∧ sub32 e.2 aIndex < aCount := by
  unfold DPagingRequest.contiguousRegion at he
  rw [List.mem_map] at he
  obtain ⟨t, ht, rfl⟩ := he
  rw [List.mem_range] at ht
  refine ⟨rfl, ?_⟩
  show sub32 ((aIndex + t) % 4294967296) aIndex < aCount
  unfold sub32
  split <;> omega

/-- A request that holds a page of a contiguous region is found to collide with it. -/
theorem isCollision_of_mem {r : DPagingRequest} {aMemory aIndex aCount : Nat}
    (hc : aCount ≤ 4294967296) (hi : aIndex < 4294967296) {e : Nat × Nat}
    (he : e ∈ DPagingRequest.contiguousRegion aMemory aIndex aCount)
    (hr : e ∈ r.iUseRegion) : r.IsCollisionContiguous aMemory aIndex aCount = true := by
  obtain ⟨a, b⟩ := collision_of_mem hc hi he
  unfold DPagingRequest.IsCollisionContiguous
  rw [List.any_eq_true]
  exact ⟨e, hr, by simp [a, b]⟩

/-- A request that collides with a region has a use region. -/
theorem region_of_isCollision {r : DPagingRequest} {aMemory aIndex aCount : Nat}
    (h : r.IsCollisionContiguous aMemory aIndex aCount = true) : r.iUseRegion ≠ [] := by
  intro e
  unfold DPagingRequest.IsCollisionContiguous at h
  rw [e] at h
  simp at h

theorem contiguousRegion_ne_nil (aMemory aIndex : Nat) {aCount : Nat} (h : 0 < aCount) :
    DPagingRequest.contiguousRegion aMemory aIndex aCount ≠ [] := by
  unfold DPagingRequest.contiguousRegion
  intro e
  have := congrArg List.length e
  simp at this
  omega

/-- What `FindCollisionContiguous` finds is a request of the group that collides. -/
theorem findCollision_some {p : DPagingRequestPool} {aMemory aIndex aCount req : Nat}
    (h : p.FindCollisionContiguous aMemory aIndex aCount = some req) :
    req < p.iNumRequests ∧
      (p.iRequests req).IsCollisionContiguous aMemory aIndex aCount = true := by
  unfold FindCollisionContiguous at h
  exact ⟨List.mem_range.1 (List.mem_of_find?_eq_some h),
    List.find?_some
      (p := fun k => (p.iRequests k).IsCollisionContiguous aMemory aIndex aCount) h⟩

/-- When `FindCollisionContiguous` finds nothing no request of the group collides. -/
theorem findCollision_none {p : DPagingRequestPool} {aMemory aIndex aCount : Nat}
    (h : p.FindCollisionContiguous aMemory aIndex aCount = none) {k : Nat}
    (hk : k < p.iNumRequests) :
    (p.iRequests k).IsCollisionContiguous aMemory aIndex aCount = false := by
  unfold FindCollisionContiguous at h
  rw [List.find?_eq_none] at h
  have := h k (List.mem_range.2 hk)
  simpa using this

theorem invariant_new (n : Nat) (w : Bool) : Invariant n (DPagingRequestPool.new n w) := by
  refine ⟨rfl, List.nodup_range n, fun k hk => List.mem_range.1 hk,
    fun k hk => ⟨fun _ => rfl, fun _ => List.mem_range.2 hk⟩, fun k _ => le_refl _,
    fun k _ => ⟨?_, fun h => absurd rfl h⟩, ?_, ?_⟩
  · intro h
    cases h
  · intro k _ h
    cases h
  · intro j k _ _ _ e he
    cases he

/-- One more user of a request that has users keeps the invariant. -/
theorem invariant_wait {n : Nat} {p : DPagingRequestPool} (h : Invariant n p) {req : Nat}
    (hu : req < n → 0 < (p.iRequests req).iUsageCount) : Invariant n (p.Wait req) := by
  obtain ⟨h0, h1, h2, h3, h4, h5, h6, h7⟩ := h
  unfold Wait
  refine ⟨h0, h1, h2, ?_, ?_, ?_, ?_, ?_⟩
  · intro k hk
    by_cases e : k = req
    · subst e
      rw [setRequest_same]
      have := hu hk
      have := h3 k hk
      constructor
      · intro hm
        have := this.1 hm
        omega
      · intro hz
        have hz2 : (p.iRequests k).iUsageCount + 1 = 0 := hz
        omega
    · rw [setRequest_other _ _ _ e]
      exact h3 k hk
  · intro k hk
    by_cases e : k = req
    · subst e
      rw [setRequest_same]
      have := h4 k hk
      show 0 ≤ (p.iRequests k).iUsageCount + 1
      omega
    · rw [setRequest_other _ _ _ e]
      exact h4 k hk
  · intro k hk
    by_cases e : k = req
    · subst e
      rw [setRequest_same]
      exact h5 k hk
    · rw [setRequest_other _ _ _ e]
      exact h5 k hk
  · intro k hk
    by_cases e : k = req
    · subst e
      rw [setRequest_same]
      intro hh
      have := h6 k hk hh
      show 0 < (p.iRequests k).iUsageCount + 1
      omega
    · rw [setRequest_other _ _ _ e]
      exact h6 k hk
  · intro j k hj hk hjk
    have key : ∀ x, ((p.setRequest req
        { p.iRequests req with iUsageCount := (p.iRequests req).iUsageCount + 1 }).iRequests
          x).iUseRegion = (p.iRequests x).iUseRegion := by
      intro x
      by_cases e : x = req
      · subst e
        rw [setRequest_same]
      · rw [setRequest_other _ _ _ e]
    rw [key, key]
    exact h7 j k hj hk hjk

end DPagingRequestPool
namespace DPagingRequestPool

/-- Taking the first request of the free list for a new user keeps the invariant. -/
theorem invariant_take {n : Nat} {p : DPagingRequestPool} (h : Invariant n p) {req : Nat}
    {rest : List Nat} (hf : p.iFreeList = req :: rest) :
    req < n ∧ Invariant n (Wait { p with iFreeList := rest } req) := by
  obtain ⟨h0, h1, h2, h3, h4, h5, h6, h7⟩ := h
  have hm : req ∈ p.iFreeList := by rw [hf]; exact List.mem_cons_self _ _
  have hreq : req < n := h2 req hm
  have hz : (p.iRequests req).iUsageCount = 0 := (h3 req hreq).1 hm
  have hnh : (p.iRequests req).iMutexHeld = false := by
    cases hh : (p.iRequests req).iMutexHeld with
    | false => rfl
    | true => have := h6 req hreq hh; omega
  rw [hf] at h1 h2 h3
  have hn := List.nodup_cons.1 h1
  refine ⟨hreq, ?_⟩
  unfold Wait
  refine ⟨h0, hn.2, fun k hk => h2 k (List.mem_cons_of_mem _ hk), ?_, ?_, ?_, ?_, ?_⟩
  · intro k hk
    by_cases e : k = req
    · subst e
      rw [setRequest_same]
      constructor
      · intro hm2
        exact absurd hm2 hn.1
      · intro hz2
        have hz3 : (p.iRequests k).iUsageCount + 1 = 0 := hz2
        omega
    · rw [setRequest_other _ _ _ e]
      rw [← h3 k hk]
      show k ∈ rest ↔ k ∈ req :: rest
      simp [e]
  · intro k hk
    by_cases e : k = req
    · subst e
      rw [setRequest_same]
      show 0 ≤ (p.iRequests k).iUsageCount + 1
      omega
    · rw [setRequest_other _ _ _ e]
      exact h4 k hk
  · intro k hk
    by_cases e : k = req
    · subst e
      rw [setRequest_same]
      exact h5 k hk
    · rw [setRequest_other _ _ _ e]
      exact h5 k hk
  · intro k hk
    by_cases e : k = req
    · subst e
      rw [setRequest_same]
      intro hh
      have hh2 : (p.iRequests k).iMutexHeld = true := hh
      rw [hnh] at hh2
      cases hh2
    · rw [setRequest_other _ _ _ e]
      exact h6 k hk
  · intro j k hj hk hjk
    have key : ∀ x, ((setRequest { p with iFreeList := rest } req
        { p.iRequests req with iUsageCount := (p.iRequests req).iUsageCount + 1 }).iRequests
          x).iUseRegion = (p.iRequests x).iUseRegion := by
      intro x
      by_cases e : x = req
      · subst e
        rw [setRequest_same]
      · rw [setRequest_other _ _ _ e]
    rw [key, key]
    exact h7 j k hj hk hjk

/-- The index of the random choice lies in the array. -/
theorem random_index_lt (seed n : Nat) (hn : 0 < n) :
    (seed * 69069 + 1) % 4294967296 * n / 4294967296 < n := by
  apply Nat.div_lt_of_lt_mul
  have h : (seed * 69069 + 1) % 4294967296 < 4294967296 := Nat.mod_lt _ (by decide)
  calc (seed * 69069 + 1) % 4294967296 * n < 4294967296 * n :=
        Nat.mul_lt_mul_of_pos_right h hn

/-- The call `GetRequest` chooses a request of the group and keeps the invariant. -/
theorem invariant_getRequest {n : Nat} {p p1 : DPagingRequestPool} (h : Invariant n p)
    {aMemory aIndex aCount req : Nat}
    (hg : p.GetRequest aMemory aIndex aCount = some (req, p1)) :
    req < n ∧ Invariant n p1 := by
  have h0 := h.1
  unfold GetRequest at hg
  by_cases hz : p.iNumRequests = 0
  · rw [if_pos hz] at hg
    cases hg
  · rw [if_neg hz] at hg
    cases hc : p.FindCollisionContiguous aMemory aIndex aCount with
    | some r =>
      rw [hc] at hg
      have e := Option.some.inj hg
      have e1 : r = req := congrArg Prod.fst e
      have e2 : p.Wait r = p1 := congrArg Prod.snd e
      obtain ⟨c1, c2⟩ := findCollision_some hc
      rw [h0] at c1
      have h5 := h.2.2.2.2.2.1
      have h6 := h.2.2.2.2.2.2.1
      have hh := (h5 r c1).2 (region_of_isCollision c2)
      rw [← e1, ← e2]
      exact ⟨c1, invariant_wait h (fun _ => h6 r c1 hh)⟩
    | none =>
      rw [hc] at hg
      cases hf : p.iFreeList with
      | cons r rest =>
        rw [hf] at hg
        have e := Option.some.inj hg
        have e1 : r = req := congrArg Prod.fst e
        have e2 : Wait { p with iFreeList := rest } r = p1 := congrArg Prod.snd e
        rw [← e1, ← e2]
        exact invariant_take h hf
      | nil =>
        rw [hf] at hg
        have e := Option.some.inj hg
        have e1 : (p.RandomSeed * 69069 + 1) % 4294967296 * p.iNumRequests / 4294967296
            = req := congrArg Prod.fst e
        have e2 : Wait
            { p with RandomSeed := (p.RandomSeed * 69069 + 1) % 4294967296, iFreeList := [] }
            ((p.RandomSeed * 69069 + 1) % 4294967296 * p.iNumRequests / 4294967296)
            = p1 := congrArg Prod.snd e
        rw [← hf] at e2
        have hlt := random_index_lt p.RandomSeed p.iNumRequests (by omega)
        rw [e1] at hlt e2
        rw [h0] at hlt
        have hinv : Invariant n { p with RandomSeed := (p.RandomSeed * 69069 + 1) % 4294967296 } :=
          h
        have h3 := h.2.2.2.1
        have h4 := h.2.2.2.2.1
        have hne : ¬ (p.iRequests req).iUsageCount = 0 := by
          intro hu
          have := (h3 req hlt).2 hu
          rw [hf] at this
          cases this
        have hge := h4 req hlt
        rw [← e2]
        exact ⟨hlt, invariant_wait hinv (fun _ => by
          show 0 < (p.iRequests req).iUsageCount
          omega)⟩

end DPagingRequestPool
namespace DPagingRequestPool

/-- The request after `Release`: no use region, one user less, the mutex free. -/
theorem release_request (p : DPagingRequestPool) (req : Nat) :
    (p.Release req).iRequests req
      = { iUseRegion := [], iUsageCount := (p.iRequests req).iUsageCount - 1,
          iMutexHeld := false } ∧
    (∀ k, k ≠ req → (p.Release req).iRequests k = p.iRequests k) ∧
    (p.Release req).iNumRequests = p.iNumRequests ∧
    (p.Release req).iPageWriteRequest = p.iPageWriteRequest ∧
    (p.Release req).RandomSeed = p.RandomSeed ∧
    (p.Release req).iFreeList
      = (if (p.iRequests req).iUsageCount - 1 = 0 then req :: p.iFreeList else p.iFreeList) := by
  unfold Release Signal
  dsimp only
  rw [setRequest_same]
  have e : (p.iRequests req).ResetUse.iUsageCount = (p.iRequests req).iUsageCount := rfl
  rw [e]
  split
  · refine ⟨?_, ?_, rfl, rfl, rfl, rfl⟩
    · show (setRequest _ _ _).iRequests req = _
      rw [setRequest_same]
      rfl
    · intro k hk
      show (setRequest _ _ _).iRequests k = _
      rw [setRequest_other _ _ _ hk, setRequest_other _ _ _ hk]
  · refine ⟨?_, ?_, rfl, rfl, rfl, rfl⟩
    · rw [setRequest_same]
      rfl
    · intro k hk
      rw [setRequest_other _ _ _ hk, setRequest_other _ _ _ hk]

/-- Releasing a request that has a user keeps the invariant. -/
theorem invariant_release {n : Nat} {p : DPagingRequestPool} (h : Invariant n p) {req : Nat}
    (hreq : req < n) (hu : 0 < (p.iRequests req).iUsageCount) :
    Invariant n (p.Release req) := by
  obtain ⟨h0, h1, h2, h3, h4, h5, h6, h7⟩ := h
  obtain ⟨r1, r2, r3, r4, r5, r6⟩ := release_request p req
  have hnm : req ∉ p.iFreeList := fun hm => by
    have := (h3 req hreq).1 hm
    omega
  refine ⟨r3.trans h0, ?_, ?_, ?_, ?_, ?_, ?_, ?_⟩
  · rw [r6]
    split
    · exact List.nodup_cons.2 ⟨hnm, h1⟩
    · exact h1
  · rw [r6]
    intro k hk
    split at hk
    · rcases List.mem_cons.1 hk with e | e
      · rw [e]; exact hreq
      · exact h2 k e
    · exact h2 k hk
  · intro k hk
    rw [r6]
    by_cases e : k = req
    · subst e
      rw [r1]
      show _ ↔ (p.iRequests k).iUsageCount - 1 = 0
      by_cases hz : (p.iRequests k).iUsageCount - 1 = 0
      · rw [if_pos hz]
        exact ⟨fun _ => hz, fun _ => List.mem_cons_self _ _⟩
      · rw [if_neg hz]
        exact ⟨fun hm => absurd hm hnm, fun hz2 => absurd hz2 hz⟩
    · rw [r2 k e, ← h3 k hk]
      split
      · simp [e]
      · exact Iff.rfl
  · intro k hk
    by_cases e : k = req
    · subst e
      rw [r1]
      show 0 ≤ (p.iRequests k).iUsageCount - 1
      omega
    · rw [r2 k e]
      exact h4 k hk
  · intro k hk
    by_cases e : k = req
    · subst e
      rw [r1]
      constructor
      · intro hh
        cases hh
      · intro hh
        exact absurd rfl hh
    · rw [r2 k e]
      exact h5 k hk
  · intro k hk
    by_cases e : k = req
    · subst e
      rw [r1]
      intro hh
      cases hh
    · rw [r2 k e]
      exact h6 k hk
  · intro j k hj hk hjk e he
    by_cases ej : j = req
    · subst ej
      rw [r1] at he
      cases he
    · rw [r2 j ej] at he
      by_cases ek : k = req
      · subst ek
        rw [r1]
        exact List.not_mem_nil e
      · rw [r2 k ek]
        exact h7 j k hj hk hjk e he

/-- On a request without a use region `Signal` is `Release`. -/
theorem signal_eq_release (p : DPagingRequestPool) (req : Nat)
    (hr : (p.iRequests req).iUseRegion = []) : p.Signal req = p.Release req := by
  have e : p.setRequest req (p.iRequests req).ResetUse = p := by
    have e1 : (p.iRequests req).ResetUse = p.iRequests req := by
      unfold DPoolPagingRequest.ResetUse
      rw [← hr]
    rw [e1]
    unfold setRequest
    have e2 : (fun j => if j = req then p.iRequests req else p.iRequests j) = p.iRequests := by
      funext j
      split
      · next hj => rw [hj]
      · rfl
    rw [e2]
  unfold Release
  rw [e]

end DPagingRequestPool
namespace DPagingRequestPool

/-- Installing a region that collides with no request keeps the invariant. -/
theorem invariant_install {n : Nat} {p : DPagingRequestPool} (h : Invariant n p)
    {req aMemory aIndex aCount : Nat} (hreq : req < n)
    (hu : 0 < (p.iRequests req).iUsageCount) (hc0 : 0 < aCount)
    (hc : aCount ≤ 4294967296) (hi : aIndex < 4294967296)
    (hnc : p.FindCollisionContiguous aMemory aIndex aCount = none) :
    Invariant n (p.setRequest req
      { (p.iRequests req).SetUseContiguous aMemory aIndex aCount with iMutexHeld := true }) := by
  obtain ⟨h0, h1, h2, h3, h4, h5, h6, h7⟩ := h
  have hreg : ∀ (k : Nat) (e : Nat × Nat), k < n →
      e ∈ DPagingRequest.contiguousRegion aMemory aIndex aCount →
      e ∉ (p.iRequests k).iUseRegion := by
    intro k e hk he hm
    have c1 := isCollision_of_mem (r := (p.iRequests k).toDPagingRequest) hc hi he hm
    have c2 := findCollision_none hnc (k := k) (by rw [h0]; exact hk)
    rw [c1] at c2
    cases c2
  refine ⟨h0, h1, h2, ?_, ?_, ?_, ?_, ?_⟩
  · intro k hk
    by_cases e : k = req
    · subst e
      rw [setRequest_same]
      exact h3 k hk
    · rw [setRequest_other _ _ _ e]
      exact h3 k hk
  · intro k hk
    by_cases e : k = req
    · subst e
      rw [setRequest_same]
      exact h4 k hk
    · rw [setRequest_other _ _ _ e]
      exact h4 k hk
  · intro k hk
    by_cases e : k = req
    · subst e
      rw [setRequest_same]
      exact ⟨fun _ => contiguousRegion_ne_nil aMemory aIndex hc0, fun _ => rfl⟩
    · rw [setRequest_other _ _ _ e]
      exact h5 k hk
  · intro k hk
    by_cases e : k = req
    · subst e
      rw [setRequest_same]
      exact fun _ => hu
    · rw [setRequest_other _ _ _ e]
      exact h6 k hk
  · intro j k hj hk hjk e he
    by_cases ej : j = req
    · subst ej
      rw [setRequest_same] at he
      rw [setRequest_other _ _ _ (fun x => hjk x.symm)]
      exact hreg k e hk he
    · rw [setRequest_other _ _ _ ej] at he
      by_cases ek : k = req
      · subst ek
        rw [setRequest_same]
        exact fun hm => hreg j e hj hm he
      · rw [setRequest_other _ _ _ ek]
        exact h7 j k hj hk hjk e he

/-- The second half of `AcquirePageReadRequest` keeps the invariant. -/
theorem invariant_acquireEnd {n : Nat} {p : DPagingRequestPool} (h : Invariant n p)
    {req aMemory aIndex aCount : Nat} (hreq : req < n)
    (hm : (p.iRequests req).iMutexHeld = false)
    (hu : 0 < (p.iRequests req).iUsageCount) (hc0 : 0 < aCount)
    (hc : aCount ≤ 4294967296) (hi : aIndex < 4294967296) :
    Invariant n (p.AcquirePageReadRequestEnd req aMemory aIndex aCount).2 := by
  unfold AcquirePageReadRequestEnd
  split
  · have hr : (p.iRequests req).iUseRegion = [] := by
      by_contra hne
      have := (h.2.2.2.2.2.1 req hreq).2 hne
      rw [hm] at this
      cases this
    show Invariant n (p.Signal req)
    rw [signal_eq_release p req hr]
    exact invariant_release h hreq hu
  · next hcol =>
    have hnc : p.FindCollisionContiguous aMemory aIndex aCount = none := by
      cases hf : p.FindCollisionContiguous aMemory aIndex aCount with
      | none => rfl
      | some k => exact absurd (Or.inr (by rw [hf]; rfl)) hcol
    exact invariant_install h hreq hu hc0 hc hi hnc

/-- Every reachable state of the pool satisfies the invariant. -/
theorem reachable_invariant {n : Nat} {w : Bool} {p : DPagingRequestPool}
    (h : Reachable n w p) : Invariant n p := by
  induction h with
  | init => exact invariant_new n w
  | acquireBegin aMemory aIndex aCount _ hb ih =>
    unfold AcquirePageReadRequestBegin at hb
    split at hb
    · cases hb
    · split at hb
      · cases hb
      · next req1 p2 hg =>
        have e := Option.some.inj hb
        have e2 := congrArg Prod.snd e
        dsimp only at e2
        rw [← e2]
        exact (invariant_getRequest ih hg).2
  | acquireEnd req aMemory aIndex aCount _ hreq hm hu hc0 hc hi ih =>
    exact invariant_acquireEnd ih (by rw [← ih.1]; exact hreq) hm hu hc0 hc hi
  | release req _ hreq hm ih =>
    exact invariant_release ih (by rw [← ih.1]; exact hreq)
      (ih.2.2.2.2.2.2.1 req (by rw [← ih.1]; exact hreq) hm)
  | acquireWrite aMemory aIndex aCount _ hw ih =>
    unfold AcquirePageWriteRequest at hw
    split at hw
    · cases hw
    · have e := Option.some.inj hw
      rw [← e]
      exact ih
  | releaseWrite _ ih => exact ih

end DPagingRequestPool
namespace DPagingRequestPool

/-- A new user leaves the use regions, the number of requests and the write request alone. -/
theorem wait_frame (p : DPagingRequestPool) (req : Nat) :
    ((p.Wait req).iRequests req).iUsageCount = (p.iRequests req).iUsageCount + 1 ∧
    (∀ k, k ≠ req → (p.Wait req).iRequests k = p.iRequests k) ∧
    (∀ k, ((p.Wait req).iRequests k).iUseRegion = (p.iRequests k).iUseRegion) ∧
    (p.Wait req).iNumRequests = p.iNumRequests ∧
    (p.Wait req).iPageWriteRequest = p.iPageWriteRequest ∧
    (p.Wait req).iFreeList = p.iFreeList := by
  unfold Wait
  refine ⟨by rw [setRequest_same], fun k hk => setRequest_other _ _ _ hk, ?_, rfl, rfl, rfl⟩
  intro k
  by_cases e : k = req
  · subst e
    rw [setRequest_same]
  · rw [setRequest_other _ _ _ e]

/-- The call `GetRequest` adds one user to the chosen request and changes no other request;
it takes the request off the free list only when no request collides with the region. -/
theorem getRequest_spec {p p1 : DPagingRequestPool} {aMemory aIndex aCount req : Nat}
    (hg : p.GetRequest aMemory aIndex aCount = some (req, p1)) :
    (p1.iRequests req).iUsageCount = (p.iRequests req).iUsageCount + 1 ∧
    (∀ k, k ≠ req → p1.iRequests k = p.iRequests k) ∧
    (∀ k, (p1.iRequests k).iUseRegion = (p.iRequests k).iUseRegion) ∧
    p1.iNumRequests = p.iNumRequests ∧
    p1.iPageWriteRequest = p.iPageWriteRequest ∧
    (p1.iFreeList = p.iFreeList ∨
      (p.FindCollisionContiguous aMemory aIndex aCount = none ∧
        p.iFreeList = req :: p1.iFreeList)) := by
  unfold GetRequest at hg
  by_cases hz : p.iNumRequests = 0
  · rw [if_pos hz] at hg
    cases hg
  · rw [if_neg hz] at hg
    cases hc : p.FindCollisionContiguous aMemory aIndex aCount with
    | some r =>
      rw [hc] at hg
      have e := Option.some.inj hg
      have e1 : r = req := congrArg Prod.fst e
      have e2 : p.Wait r = p1 := congrArg Prod.snd e
      rw [← e1, ← e2]
      obtain ⟨a, b, c, d, f, g⟩ := wait_frame p r
      exact ⟨a, b, c, d, f, Or.inl g⟩
    | none =>
      rw [hc] at hg
      cases hf : p.iFreeList with
      | cons r rest =>
        rw [hf] at hg
        have e := Option.some.inj hg
        have e1 : r = req := congrArg Prod.fst e
        have e2 : Wait { p with iFreeList := rest } r = p1 := congrArg Prod.snd e
        rw [← e1, ← e2]
        obtain ⟨a, b, c, d, f, g⟩ := wait_frame { p with iFreeList := rest } r
        exact ⟨a, b, c, d, f, Or.inr ⟨rfl, by rw [g]⟩⟩
      | nil =>
        rw [hf] at hg
        have e := Option.some.inj hg
        have e1 : (p.RandomSeed * 69069 + 1) % 4294967296 * p.iNumRequests / 4294967296
            = req := congrArg Prod.fst e
        have e2 : Wait
            { p with RandomSeed := (p.RandomSeed * 69069 + 1) % 4294967296, iFreeList := [] }
            ((p.RandomSeed * 69069 + 1) % 4294967296 * p.iNumRequests / 4294967296)
            = p1 := congrArg Prod.snd e
        rw [e1] at e2
        rw [← e2]
        obtain ⟨a, b, c, d, f, g⟩ := wait_frame
          { p with RandomSeed := (p.RandomSeed * 69069 + 1) % 4294967296, iFreeList := [] } req
        exact ⟨a, b, c, d, f, Or.inl g⟩

/-- The call `Signal` takes one user off the request, returns it to the head of the free
list exactly when no user is left, and changes no use region. -/
theorem signal_spec (p : DPagingRequestPool) (req : Nat) :
    ((p.Signal req).iRequests req).iUsageCount = (p.iRequests req).iUsageCount - 1 ∧
    (p.Signal req).iFreeList
      = (if (p.iRequests req).iUsageCount - 1 = 0 then req :: p.iFreeList
          else p.iFreeList) ∧
    (∀ k, ((p.Signal req).iRequests k).iUseRegion = (p.iRequests k).iUseRegion) ∧
    (∀ k, k ≠ req → (p.Signal req).iRequests k = p.iRequests k) ∧
    (p.Signal req).iNumRequests = p.iNumRequests ∧
    (p.Signal req).iPageWriteRequest = p.iPageWriteRequest := by
  have key : ∀ k, ((p.setRequest req
      { p.iRequests req with
        iUsageCount := (p.iRequests req).iUsageCount - 1, iMutexHeld := false }).iRequests
        k).iUseRegion = (p.iRequests k).iUseRegion := by
    intro k
    by_cases e : k = req
    · subst e
      rw [setRequest_same]
    · rw [setRequest_other _ _ _ e]
  unfold Signal
  dsimp only
  split
  · refine ⟨?_, rfl, key, ?_, rfl, rfl⟩
    · show ((setRequest _ _ _).iRequests req).iUsageCount = _
      rw [setRequest_same]
    · intro k hk
      show (setRequest _ _ _).iRequests k = _
      rw [setRequest_other _ _ _ hk]
  · refine ⟨?_, rfl, key, ?_, rfl, rfl⟩
    · rw [setRequest_same]
    · intro k hk
      rw [setRequest_other _ _ _ hk]

/-- The second half of `AcquirePageReadRequest`: the region is installed in the request
exactly when it collides with no read request and not with the write request; otherwise 0
is returned and no use region changes. -/
theorem acquireEnd_spec (p : DPagingRequestPool) (req aMemory aIndex aCount : Nat) :
    ((p.AcquirePageReadRequestEnd req aMemory aIndex aCount).1 = some req ∧
      p.writeCollision aMemory aIndex aCount = false ∧
      (∀ k, k < p.iNumRequests →
        (p.iRequests k).IsCollisionContiguous aMemory aIndex aCount = false) ∧
      ((p.AcquirePageReadRequestEnd req aMemory aIndex aCount).2.iRequests req).iUseRegion
        = DPagingRequest.contiguousRegion aMemory aIndex aCount ∧
      (∀ k, k ≠ req →
        (p.AcquirePageReadRequestEnd req aMemory aIndex aCount).2.iRequests k
          = p.iRequests k)) ∨
    ((p.AcquirePageReadRequestEnd req aMemory aIndex aCount).1 = none ∧
      (p.writeCollision aMemory aIndex aCount = true ∨
        ∃ k, k < p.iNumRequests ∧
          (p.iRequests k).IsCollisionContiguous aMemory aIndex aCount = true) ∧
      (∀ k, ((p.AcquirePageReadRequestEnd req aMemory aIndex aCount).2.iRequests k).iUseRegion
        = (p.iRequests k).iUseRegion) ∧
      (p.AcquirePageReadRequestEnd req aMemory aIndex aCount).2.iPageWriteRequest
        = p.iPageWriteRequest) := by
  unfold AcquirePageReadRequestEnd
  split
  · next hcol =>
    right
    obtain ⟨-, -, s3, -, -, s6⟩ := signal_spec p req
    refine ⟨rfl, ?_, s3, s6⟩
    rcases hcol with hw | hf
    · exact Or.inl hw
    · right
      cases hc : p.FindCollisionContiguous aMemory aIndex aCount with
      | none => rw [hc] at hf; cases hf
      | some k =>
        obtain ⟨c1, c2⟩ := findCollision_some hc
        exact ⟨k, c1, c2⟩
  · next hcol =>
    left
    have hw : p.writeCollision aMemory aIndex aCount = false := by
      cases hx : p.writeCollision aMemory aIndex aCount with
      | false => rfl
      | true => exact absurd (Or.inl hx) hcol
    have hnc : p.FindCollisionContiguous aMemory aIndex aCount = none := by
      cases hf : p.FindCollisionContiguous aMemory aIndex aCount with
      | none => rfl
      | some k => exact absurd (Or.inr (by rw [hf]; rfl)) hcol
    refine ⟨rfl, hw, fun k hk => findCollision_none hnc hk, ?_, ?_⟩
    · show ((setRequest _ _ _).iRequests req).iUseRegion = _
      rw [setRequest_same]
      rfl
    · intro k hk
      show (setRequest _ _ _).iRequests k = _
      rw [setRequest_other _ _ _ hk]

end DPagingRequestPool
namespace DPagingRequestPool

/-- The example pool is reached by one `AcquirePageReadRequest` on the new pool. -/
theorem examplePool_reachable : Reachable 2 true examplePool := by
  have r0 : Reachable 2 true (DPagingRequestPool.new 2 true) := Reachable.init
  have r1 : Reachable 2 true (Wait { DPagingRequestPool.new 2 true with iFreeList := [1] } 0) :=
    @Reachable.acquireBegin 2 true _ _ 0 7 10 3 r0 rfl
  exact Reachable.acquireEnd 0 7 10 3 r1 (by decide) rfl (by decide) (by decide) (by decide)
    (by decide)

end DPagingRequestPool

/-! ## Runs of occupied slots -/

namespace DPager

namespace TSequentialColourSelector

theorem getD_set {α : Type} (l : List α) (i j : Nat) (a d : α) :
    (l.set i a).getD j d = if i = j ∧ i < l.length then a else l.getD j d := by
  simp only [List.getD_eq_getElem?_getD, List.getElem?_set]
  by_cases h : i = j
  · subst h
    by_cases h2 : i < l.length
    · simp [h2]
    · simp [h2, List.getElem?_eq_none (Nat.le_of_not_lt h2)]
  · simp [h]

theorem getD_set_same {α : Type} (l : List α) (i : Nat) (a d : α) (h : i < l.length) :
    (l.set i a).getD i d = a := by
  rw [getD_set, if_pos ⟨rfl, h⟩]

theorem getD_set_other {α : Type} (l : List α) {i j : Nat} (a d : α) (h : i ≠ j) :
    (l.set i a).getD j d = l.getD j d := by
  rw [getD_set, if_neg (fun k => h k.1)]

theorem occupied_set_same (slot : List (Option Nat)) (i o : Nat) (h : i < slot.length) :
    occupied (slot.set i (some o)) i = true := by
  unfold occupied
  rw [getD_set_same _ _ _ _ h]
  rfl

theorem occupied_set_other (slot : List (Option Nat)) {i j : Nat} (o : Nat) (h : i ≠ j) :
    occupied (slot.set i (some o)) j = occupied slot j := by
  unfold occupied
  rw [getD_set_other _ _ _ h]

theorem occupied_lt {slot : List (Option Nat)} {i : Nat} (h : occupied slot i = true) :
    i < slot.length := by
  by_contra hn
  unfold occupied at h
  rw [List.getD_eq_getElem?_getD, List.getElem?_eq_none (Nat.le_of_not_lt hn)] at h
  cases h

theorem runEnding_le (slot : List (Option Nat)) (k : Nat) : runEnding slot k ≤ k + 1 := by
  induction k with
  | zero =>
    unfold runEnding
    split <;> omega
  | succ k ih =>
    unfold runEnding
    split <;> omega

theorem runEnding_pos_iff (slot : List (Option Nat)) (k : Nat) :
    0 < runEnding slot k ↔ occupied slot k = true := by
  cases k with
  | zero =>
    unfold runEnding
    split
    · next h => exact ⟨fun _ => h, fun _ => by omega⟩
    · next h => exact ⟨fun k => by omega, fun k => absurd k h⟩
  | succ k =>
    unfold runEnding
    split
    · next h => exact ⟨fun _ => h, fun _ => by omega⟩
    · next h => exact ⟨fun k => by omega, fun k => absurd k h⟩

theorem runEnding_zero_iff (slot : List (Option Nat)) (k : Nat) :
    runEnding slot k = 0 ↔ occupied slot k = false := by
  have := runEnding_pos_iff slot k
  constructor
  · intro h
    cases ho : occupied slot k with
    | false => rfl
    | true => have := this.2 ho; omega
  · intro h
    by_contra hn
    have := this.1 (by omega)
    rw [h] at this
    cases this

theorem runEnding_succ_of_occupied (slot : List (Option Nat)) (k : Nat)
    (h : occupied slot (k + 1) = true) : runEnding slot (k + 1) = runEnding slot k + 1 := by
  conv_lhs => unfold runEnding
  rw [if_pos h]

/-- The slots of the run that ends at slot `k` are occupied. -/
theorem runEnding_occupied (slot : List (Option Nat)) (k : Nat) :
    ∀ m, m ≤ k → k < m + runEnding slot k → occupied slot m = true := by
  induction k with
  | zero =>
    intro m hm hk
    have hm0 : m = 0 := by omega
    subst hm0
    exact (runEnding_pos_iff slot 0).1 (by omega)
  | succ k ih =>
    intro m hm hk
    have hpos : occupied slot (k + 1) = true := (runEnding_pos_iff slot (k + 1)).1 (by omega)
    by_cases e : m = k + 1
    · rw [e]; exact hpos
    · rw [runEnding_succ_of_occupied slot k hpos] at hk
      exact ih m (by omega) (by omega)

/-- The slot just before the run that ends at slot `k` is empty. -/
theorem runEnding_stops (slot : List (Option Nat)) (k : Nat) :
    runEnding slot k ≤ k → occupied slot (k - runEnding slot k) = false := by
  induction k with
  | zero =>
    intro h
    have h0 : runEnding slot 0 = 0 := by omega
    rw [h0]
    exact (runEnding_zero_iff slot 0).1 h0
  | succ k ih =>
    intro h
    cases ho : occupied slot (k + 1) with
    | false =>
      have h0 := (runEnding_zero_iff slot (k + 1)).2 ho
      rw [h0]
      exact ho
    | true =>
      rw [runEnding_succ_of_occupied slot k ho] at h ⊢
      have e : k + 1 - (runEnding slot k + 1) = k - runEnding slot k := by omega
      rw [e]
      exact ih (by omega)

/-- A stretch of occupied slots up to slot `k` is part of the run that ends at slot `k`. -/
theorem runEnding_ge (slot : List (Option Nat)) (k : Nat) :
    ∀ a, a ≤ k + 1 → (∀ m, a ≤ m → m ≤ k → occupied slot m = true) →
      k + 1 - a ≤ runEnding slot k := by
  induction k with
  | zero =>
    intro a ha h
    by_cases e : a = 0
    · have := (runEnding_pos_iff slot 0).2 (h 0 (by omega) (le_refl _))
      omega
    · omega
  | succ k ih =>
    intro a ha h
    by_cases e : a = k + 2
    · omega
    · have ho := h (k + 1) (by omega) (le_refl _)
      rw [runEnding_succ_of_occupied slot k ho]
      have := ih a (by omega) (fun m h1 h2 => h m h1 (by omega))
      omega

/-- The run lengths up to slot `k` depend on the slots up to `k` only. -/
theorem runEnding_congr (s1 s2 : List (Option Nat)) (k : Nat)
    (h : ∀ m, m ≤ k → occupied s1 m = occupied s2 m) : runEnding s1 k = runEnding s2 k := by
  induction k with
  | zero =>
    unfold runEnding
    rw [h 0 (le_refl _)]
  | succ k ih =>
    unfold runEnding
    rw [h (k + 1) (le_refl _), ih (fun m hm => h m (by omega))]

/-- The run lengths from an empty slot on depend on the slots from there on only. -/
theorem runEnding_congr_after (s1 s2 : List (Option Nat)) (b : Nat)
    (h1 : occupied s1 b = false) (h2 : occupied s2 b = false) (k : Nat)
    (h : ∀ m, b ≤ m → m ≤ k → occupied s1 m = occupied s2 m) (hk : b ≤ k) :
    runEnding s1 k = runEnding s2 k := by
  induction k with
  | zero =>
    have hb : b = 0 := by omega
    subst hb
    rw [(runEnding_zero_iff s1 0).2 h1, (runEnding_zero_iff s2 0).2 h2]
  | succ k ih =>
    by_cases e : b = k + 1
    · subst e
      rw [(runEnding_zero_iff s1 _).2 h1, (runEnding_zero_iff s2 _).2 h2]
    · unfold runEnding
      rw [h (k + 1) (by omega) (le_refl _),
        ih (fun m hm1 hm2 => h m hm1 (by omega)) (by omega)]

theorem maxBelow_ge (f : Nat → Nat) (n : Nat) : ∀ k, k < n → f k ≤ maxBelow f n := by
  induction n with
  | zero => intro k hk; omega
  | succ n ih =>
    intro k hk
    unfold maxBelow
    by_cases e : k = n
    · rw [e]; exact Nat.le_max_right _ _
    · exact Nat.le_trans (ih k (by omega)) (Nat.le_max_left _ _)

theorem maxBelow_le (f : Nat → Nat) (n b : Nat) (h : ∀ k, k < n → f k ≤ b) :
    maxBelow f n ≤ b := by
  induction n with
  | zero => exact Nat.zero_le _
  | succ n ih =>
    unfold maxBelow
    exact Nat.max_le.2 ⟨ih (fun k hk => h k (by omega)), h n (by omega)⟩

theorem maxBelow_attained (f : Nat → Nat) (n : Nat) (h : 0 < maxBelow f n) :
    ∃ k, k < n ∧ f k = maxBelow f n := by
  induction n with
  | zero => exact absurd h (by unfold maxBelow; omega)
  | succ n ih =>
    unfold maxBelow at h ⊢
    by_cases hc : maxBelow f n ≤ f n
    · exact ⟨n, by omega, by rw [Nat.max_eq_right hc]⟩
    · have hm : max (maxBelow f n) (f n) = maxBelow f n := Nat.max_eq_left (by omega)
      rw [hm] at h ⊢
      obtain ⟨k, hk, e⟩ := ih h
      exact ⟨k, by omega, e⟩

end TSequentialColourSelector

end DPager
namespace DPager

namespace TSequentialColourSelector

/-- The run lengths after an object is put in the empty slot `i`. -/
theorem runEnding_set (slot : List (Option Nat)) (i o : Nat) (hi : i < slot.length)
    (he : occupied slot i = false) :
    (∀ k, k < i → runEnding (slot.set i (some o)) k = runEnding slot k) ∧
    runEnding (slot.set i (some o)) i = (if i = 0 then 1 else runEnding slot (i - 1) + 1) ∧
    (∀ k, i < k → (∀ m, i < m → m ≤ k → occupied slot m = true) →
      runEnding (slot.set i (some o)) k
        = runEnding slot k + runEnding (slot.set i (some o)) i) ∧
    (∀ b k, i < b → b ≤ k → occupied slot b = false →
      runEnding (slot.set i (some o)) k = runEnding slot k) := by
  have hsame := occupied_set_same slot i o hi
  have hother : ∀ j, i ≠ j → occupied (slot.set i (some o)) j = occupied slot j :=
    fun j hj => occupied_set_other slot o hj
  have h1 : ∀ k, k < i → runEnding (slot.set i (some o)) k = runEnding slot k := by
    intro k hk
    exact runEnding_congr _ _ k (fun m hm => hother m (by omega))
  refine ⟨h1, ?_, ?_, ?_⟩
  · cases i with
    | zero =>
      unfold runEnding
      rw [hsame]
      rfl
    | succ i =>
      rw [runEnding_succ_of_occupied _ i hsame, h1 i (by omega)]
      rfl
  · intro k
    induction k with
    | zero => intro hk; omega
    | succ k ih =>
      intro hk hall
      have ho := hall (k + 1) hk (le_refl _)
      have ho2 : occupied (slot.set i (some o)) (k + 1) = true := by
        rw [hother (k + 1) (by omega)]; exact ho
      rw [runEnding_succ_of_occupied _ k ho2, runEnding_succ_of_occupied _ k ho]
      by_cases e : k = i
      · subst e
        rw [(runEnding_zero_iff slot k).2 he]
        omega
      · rw [ih (by omega) (fun m h1 h2 => hall m h1 (by omega))]
        omega
  · intro b k hb hbk hbe
    exact runEnding_congr_after _ _ b (by rw [hother b (by omega)]; exact hbe) hbe k
      (fun m h1 _ => hother m (by omega)) hbk

/-- The inner `while` of `AddCandidate`: it stops at the first index from `j` on that is
outside the array or holds 0, having added `add` to the entries before it. -/
theorem extendRun_spec (A : Nat) (add : Int) :
    ∀ (fuel j : Nat) (seq : List Int), A ≤ j + fuel →
      j ≤ (extendRun A add fuel j seq).1 ∧
      ((extendRun A add fuel j seq).1 ≤ A ∨ (extendRun A add fuel j seq).1 = j) ∧
      (∀ k, j ≤ k → k < (extendRun A add fuel j seq).1 →
        seq.getD k 0 ≠ 0 ∧
        (extendRun A add fuel j seq).2.getD k 0 = toTInt8 (seq.getD k 0 + add)) ∧
      (∀ k, (k < j ∨ (extendRun A add fuel j seq).1 ≤ k) →
        (extendRun A add fuel j seq).2.getD k 0 = seq.getD k 0) ∧
      ((extendRun A add fuel j seq).1 < A → seq.getD (extendRun A add fuel j seq).1 0 = 0) ∧
      (extendRun A add fuel j seq).2.length = seq.length := by
  intro fuel
  induction fuel with
  | zero =>
    intro j seq hf
    unfold extendRun
    refine ⟨le_refl _, Or.inr rfl, fun k h1 h2 => by omega, fun k _ => rfl,
      fun h => by omega, rfl⟩
  | succ fuel ih =>
    intro j seq hf
    unfold extendRun
    by_cases hc : j < A ∧ seq.getD j 0 ≠ 0
    · rw [if_pos hc]
      obtain ⟨a1, a2, a3, a4, a5, a6⟩ :=
        ih (j + 1) (seq.set j (toTInt8 (seq.getD j 0 + add))) (by omega)
      obtain ⟨r, hr⟩ : ∃ r, r = extendRun A add fuel (j + 1)
          (seq.set j (toTInt8 (seq.getD j 0 + add))) := ⟨_, rfl⟩
      rw [← hr] at a1 a2 a3 a4 a5 a6 ⊢
      have hjl : j < seq.length := by
        by_contra hn
        have := hc.2
        rw [List.getD_eq_getElem?_getD, List.getElem?_eq_none (Nat.le_of_not_lt hn)] at this
        exact this rfl
      refine ⟨by omega, ?_, ?_, ?_, ?_, ?_⟩
      · rcases a2 with h | h
        · exact Or.inl h
        · left; omega
      · intro k h1 h2
        by_cases e : k = j
        · subst e
          refine ⟨hc.2, ?_⟩
          rw [a4 k (Or.inl (by omega)), getD_set_same _ _ _ _ hjl]
        · obtain ⟨b1, b2⟩ := a3 k (by omega) h2
          rw [getD_set_other _ _ _ (fun x => e x.symm)] at b1 b2
          exact ⟨b1, b2⟩
      · intro k hk
        rcases hk with hk | hk
        · rw [a4 k (Or.inl (by omega)), getD_set_other _ _ _ (by omega)]
        · rw [a4 k (Or.inr hk), getD_set_other _ _ _ (by omega)]
      · intro h
        have := a5 h
        rw [getD_set_other _ _ _ (by omega)] at this
        exact this
      · rw [a6, List.length_set]
    · rw [if_neg hc]
      refine ⟨le_refl _, Or.inr rfl, fun k h1 h2 => by omega, fun k _ => rfl, ?_, rfl⟩
      intro h
      by_contra hn
      exact hc ⟨h, hn⟩

end TSequentialColourSelector

end DPager
namespace DPager

namespace TSequentialColourSelector

theorem toTInt8_id {n : Int} (h1 : 0 ≤ n) (h2 : n ≤ 127) : toTInt8 n = n := by
  unfold toTInt8
  omega

/-- Along a stretch of occupied slots the run length grows by one per slot. -/
theorem runEnding_stretch (s : List (Option Nat)) (k : Nat) :
    ∀ k2, k ≤ k2 → (∀ m, k < m → m ≤ k2 → occupied s m = true) →
      runEnding s k2 = runEnding s k + (k2 - k) := by
  intro k2
  induction k2 with
  | zero =>
    intro h _
    have : k = 0 := by omega
    subst this
    rfl
  | succ k2 ih =>
    intro h hall
    by_cases e : k = k2 + 1
    · subst e
      omega
    · rw [runEnding_succ_of_occupied s k2 (hall (k2 + 1) (by omega) (le_refl _)),
        ih (by omega) (fun m h1 h2 => hall m h1 (by omega))]
      omega

/-- The run length array after the body of `AddCandidate` has put an object in the empty
slot `i`: it holds the run lengths of the new slot array, and the loop stopped just after
the run that contains slot `i`. -/
theorem place_seq (A : Nat) (hA : A ≤ 127) (slot : List (Option Nat)) (seq : List Int)
    (hl : slot.length = A) (hs : seq.length = A)
    (hinv : ∀ k, k < A → seq.getD k 0 = (runEnding slot k : Int))
    (i o : Nat) (hi : i < A) (he : occupied slot i = false)
    (here : Int) (hhd : here = if i = 0 then 1 else toTInt8 (seq.getD (i - 1) 0 + 1))
    (r : Nat × List Int)
    (hr : r = extendRun A here (A - (i + 1)) (i + 1) (seq.set i here)) :
    i < r.1 ∧ r.1 ≤ A ∧ r.2.length = A ∧
    (∀ k, k < A → r.2.getD k 0 = (runEnding (slot.set i (some o)) k : Int)) ∧
    (∀ k, k < A → runEnding slot k ≤ runEnding (slot.set i (some o)) k) ∧
    (∀ k, k < A → (k < i ∨ r.1 ≤ k) →
      runEnding (slot.set i (some o)) k = runEnding slot k) ∧
    (∀ k, i ≤ k → k < r.1 →
      runEnding (slot.set i (some o)) k ≤ runEnding (slot.set i (some o)) (r.1 - 1)) := by
  obtain ⟨q1, q2, q3, q4⟩ := runEnding_set slot i o (by rw [hl]; exact hi) he
  have hhere : here = (runEnding (slot.set i (some o)) i : Int) := by
    rw [hhd, q2]
    by_cases e : i = 0
    · rw [if_pos e, if_pos e]; rfl
    · rw [if_neg e, if_neg e, hinv (i - 1) (by omega)]
      have := runEnding_le slot (i - 1)
      rw [toTInt8_id (by omega) (by omega)]
      push_cast
      rfl
  have hile : runEnding (slot.set i (some o)) i ≤ i + 1 := runEnding_le _ i
  obtain ⟨a1, a2, a3, a4, a5, a6⟩ :=
    extendRun_spec A here (A - (i + 1)) (i + 1) (seq.set i here) (by omega)
  rw [← hr] at a1 a2 a3 a4 a5 a6
  have hstop : r.1 ≤ A := by
    rcases a2 with h | h
    · exact h
    · rw [h]; omega
  have hseq1 : ∀ k, k ≠ i → (seq.set i here).getD k 0 = seq.getD k 0 :=
    fun k hk => getD_set_other _ _ _ (fun x => hk x.symm)
  -- the slots between `i` and the stop are occupied
  have hocc : ∀ m, i < m → m < r.1 → occupied slot m = true := by
    intro m h1 h2
    have := (a3 m (by omega) h2).1
    rw [hseq1 m (by omega), hinv m (by omega)] at this
    exact (runEnding_pos_iff slot m).1 (by
      rcases Nat.eq_zero_or_pos (runEnding slot m) with hz | hz
      · rw [hz] at this; exact absurd rfl this
      · exact hz)
  have hstopEmpty : r.1 < A → occupied slot r.1 = false := by
    intro h
    have := a5 h
    rw [hseq1 _ (by omega), hinv _ h] at this
    exact (runEnding_zero_iff slot _).1 (by exact_mod_cast this)
  have hafter : ∀ k, k < A → r.1 ≤ k →
      runEnding (slot.set i (some o)) k = runEnding slot k := by
    intro k hk hk2
    exact q4 r.1 k (by omega) hk2 (hstopEmpty (by omega))
  have hmid : ∀ k, i < k → k < r.1 →
      runEnding (slot.set i (some o)) k
        = runEnding slot k + runEnding (slot.set i (some o)) i :=
    fun k h1 h2 => q3 k h1 (fun m hm1 hm2 => hocc m hm1 (by omega))
  refine ⟨by omega, hstop, by rw [a6, List.length_set, hs], ?_, ?_, ?_, ?_⟩
  · intro k hk
    by_cases hk1 : k < i
    · rw [a4 k (Or.inl (by omega)), hseq1 k (by omega), hinv k hk, q1 k hk1]
    · by_cases hk2 : k = i
      · subst hk2
        rw [a4 k (Or.inl (by omega)), getD_set_same _ _ _ _ (by rw [hs]; exact hi), hhere]
      · by_cases hk3 : k < r.1
        · rw [(a3 k (by omega) hk3).2, hseq1 k hk2, hinv k hk, hhere, hmid k (by omega) hk3]
          have := runEnding_le (slot.set i (some o)) k
          rw [hmid k (by omega) hk3] at this
          rw [toTInt8_id (by omega) (by omega)]
          push_cast
          rfl
        · rw [a4 k (Or.inr (by omega)), hseq1 k hk2, hinv k hk, hafter k hk (by omega)]
  · intro k hk
    by_cases hk1 : k < i
    · rw [q1 k hk1]
    · by_cases hk2 : k = i
      · subst hk2
        rw [(runEnding_zero_iff slot k).2 he]
        exact Nat.zero_le _
      · by_cases hk3 : k < r.1
        · rw [hmid k (by omega) hk3]
          omega
        · rw [hafter k hk (by omega)]
  · intro k hk hcase
    rcases hcase with h | h
    · exact q1 k h
    · exact hafter k hk h
  · intro k hk1 hk2
    have hocc2 : ∀ m, k < m → m ≤ r.1 - 1 → occupied (slot.set i (some o)) m = true := by
      intro m h1 h2
      rw [occupied_set_other slot o (by omega)]
      exact hocc m (by omega) (by omega)
    rw [runEnding_stretch _ k (r.1 - 1) (by omega) hocc2]
    omega

end TSequentialColourSelector

end DPager
namespace DPager

namespace TSequentialColourSelector

/-- The body of `AddCandidate` keeps the run invariant. -/
theorem place_invariant {c : TSequentialColourSelector} (h : c.RunInvariant)
    (hA : c.KArrayLength ≤ 127) (o : Nat) {i : Nat} (hi : i < c.KArrayLength)
    (he : occupied c.iSlot i = false) :
    (c.place o i).RunInvariant ∧ (c.place o i).iSlot = c.iSlot.set i (some o) ∧
      (c.place o i).KArrayLength = c.KArrayLength ∧
      (c.place o i).KMaxLength = c.KMaxLength ∧
      (c.place o i).KPageColourCount = c.KPageColourCount := by
  obtain ⟨h1, h2, h3, h4, h5, h6, h7⟩ := h
  obtain ⟨here, hhd⟩ : ∃ here : Int,
      here = if i = 0 then 1 else toTInt8 (c.iSeqLength.getD (i - 1) 0 + 1) := ⟨_, rfl⟩
  obtain ⟨r, hr⟩ : ∃ r, r = extendRun c.KArrayLength here (c.KArrayLength - (i + 1)) (i + 1)
      (c.iSeqLength.set i here) := ⟨_, rfl⟩
  obtain ⟨p1, p2, p3, p4, p5, p6, p7⟩ :=
    place_seq c.KArrayLength hA c.iSlot c.iSeqLength h1 h2 h5 i o hi he here hhd r hr
  obtain ⟨M, hM⟩ : ∃ M, M = maxBelow (runEnding c.iSlot) c.KArrayLength := ⟨_, rfl⟩
  obtain ⟨cur, hcur⟩ : ∃ cur, cur = runEnding (c.iSlot.set i (some o)) (r.1 - 1) := ⟨_, rfl⟩
  rw [← hM] at h6
  have hcurD : r.2.getD (r.1 - 1) 0 = (cur : Int) := by
    rw [p4 (r.1 - 1) (by omega), hcur]
  have hmax : maxBelow (runEnding (c.iSlot.set i (some o))) c.KArrayLength = max M cur := by
    apply Nat.le_antisymm
    · apply maxBelow_le
      intro k hk
      by_cases hc : k < i ∨ r.1 ≤ k
      · rw [p6 k hk hc]
        exact Nat.le_trans (by rw [hM]; exact maxBelow_ge _ _ k hk) (Nat.le_max_left _ _)
      · exact Nat.le_trans (by rw [hcur]; exact p7 k (by omega) (by omega))
          (Nat.le_max_right _ _)
    · apply Nat.max_le.2
      constructor
      · rw [hM]
        apply maxBelow_le
        intro k hk
        exact Nat.le_trans (p5 k hk) (maxBelow_ge _ _ k hk)
      · rw [hcur]
        exact maxBelow_ge _ _ _ (by omega)
  have hp : c.place o i =
      if r.2.getD (r.1 - 1) 0 > c.iLongestLength then
        { c with
          iSlot := c.iSlot.set i (some o)
          iSeqLength := r.2
          iLongestLength := r.2.getD (r.1 - 1) 0
          iLongestStart := (r.1 : Int) - r.2.getD (r.1 - 1) 0 }
      else { c with iSlot := c.iSlot.set i (some o), iSeqLength := r.2 } := by
    rw [hr, hhd]
    rfl
  rw [hp, hcurD]
  by_cases hgt : (cur : Int) > c.iLongestLength
  · rw [if_pos hgt]
    refine ⟨⟨?_, p3, h3, h4, p4, ?_, ?_⟩, rfl, rfl, rfl, rfl⟩
    · show (c.iSlot.set i (some o)).length = c.KArrayLength
      rw [List.length_set, h1]
    · show (cur : Int) = ((maxBelow (runEnding (c.iSlot.set i (some o))) c.KArrayLength
        : Nat) : Int)
      rw [hmax]
      rw [h6] at hgt
      have : M < cur := by exact_mod_cast hgt
      rw [Nat.max_eq_right (by omega)]
    · intro _
      refine ⟨r.1 - 1, (show r.1 - 1 < c.KArrayLength by omega), ?_, ?_⟩
      · show ((runEnding (c.iSlot.set i (some o)) (r.1 - 1) : Nat) : Int) = (cur : Int)
        rw [hcur]
      · show (r.1 : Int) - (cur : Int) = ((r.1 - 1 : Nat) : Int) + 1 - (cur : Int)
        omega
  · rw [if_neg hgt]
    have hle : cur ≤ M := by
      rw [h6] at hgt
      have : ¬ M < cur := fun k => hgt (by exact_mod_cast k)
      omega
    refine ⟨⟨?_, p3, h3, h4, p4, ?_, ?_⟩, rfl, rfl, rfl, rfl⟩
    · show (c.iSlot.set i (some o)).length = c.KArrayLength
      rw [List.length_set, h1]
    · show c.iLongestLength = ((maxBelow (runEnding (c.iSlot.set i (some o))) c.KArrayLength
        : Nat) : Int)
      rw [hmax, h6, Nat.max_eq_left hle]
    · intro hpos
      obtain ⟨e, e1, e2, e3⟩ := h7 hpos
      refine ⟨e, e1, ?_, e3⟩
      show ((runEnding (c.iSlot.set i (some o)) e : Nat) : Int) = c.iLongestLength
      have k1 := p5 e e1
      have k2 : runEnding (c.iSlot.set i (some o)) e ≤ max M cur := by
        rw [← hmax]; exact maxBelow_ge _ _ e e1
      rw [Nat.max_eq_left hle] at k2
      rw [h6] at e2 ⊢
      have : runEnding c.iSlot e = M := by exact_mod_cast e2
      have : runEnding (c.iSlot.set i (some o)) e = M := by omega
      rw [this]

end TSequentialColourSelector

end DPager
namespace DPager

namespace TSequentialColourSelector

theorem occupied_replicate (n i : Nat) : occupied (List.replicate n none) i = false := by
  unfold occupied
  rw [List.getD_eq_getElem?_getD, List.getElem?_replicate]
  split <;> rfl

theorem occupied_of_getD {slot : List (Option Nat)} {i o : Nat}
    (h : slot.getD i none = some o) : occupied slot i = true := by
  unfold occupied
  rw [h]
  rfl

/-- The new selector satisfies the run invariant. -/
theorem new_runInvariant (K C : Nat) : (TSequentialColourSelector.new K C).RunInvariant := by
  unfold TSequentialColourSelector.new
  refine ⟨List.length_replicate _ _, List.length_replicate _ _, Dvd.intro_left _ rfl, ?_, ?_,
    ?_, ?_⟩
  · show (K + C - 1) / C * C = 0 ∨ (0 < K ∧ K ≤ (K + C - 1) / C * C)
    rcases Nat.eq_zero_or_pos C with hz | hp
    · left; rw [hz]; rfl
    · rcases Nat.eq_zero_or_pos K with hk | hk
      · left
        rw [hk, Nat.div_eq_of_lt (by omega)]
        exact Nat.zero_mul C
      · right
        have h1 := Nat.div_add_mod (K + C - 1) C
        have h2 := Nat.mod_lt (K + C - 1) hp
        have h3 : (K + C - 1) / C * C = C * ((K + C - 1) / C) := Nat.mul_comm _ _
        exact ⟨hk, by omega⟩
  · intro i hi
    show (List.replicate _ (0 : Int)).getD i 0 = ((runEnding (List.replicate _ none) i : Nat) : Int)
    rw [(runEnding_zero_iff _ i).2 (occupied_replicate _ i), List.getD_eq_getElem?_getD,
      List.getElem?_replicate]
    split <;> rfl
  · show (0 : Int) = ((maxBelow (runEnding (List.replicate _ none)) _ : Nat) : Int)
    have : maxBelow (runEnding (List.replicate ((K + C - 1) / C * C) none))
        ((K + C - 1) / C * C) ≤ 0 := by
      apply maxBelow_le
      intro k _
      rw [(runEnding_zero_iff _ k).2 (occupied_replicate _ k)]
    have e : maxBelow (runEnding (List.replicate ((K + C - 1) / C * C) none))
        ((K + C - 1) / C * C) = 0 := by omega
    rw [e]
    rfl
  · intro h
    have h0 : (0 : Int) < 0 := h
    exact absurd h0 (by decide)

theorem new_objectInvariant (K C : Nat) :
    (TSequentialColourSelector.new K C).ObjectInvariant [] := by
  have key : ∀ i o, (TSequentialColourSelector.new K C).iSlot.getD i none ≠ some o := by
    intro i o h
    have := occupied_of_getD h
    rw [show (TSequentialColourSelector.new K C).iSlot = List.replicate _ none from rfl,
      occupied_replicate] at this
    cases this
  exact ⟨fun i o h => absurd h (key i o), fun i j o h => absurd h (key i o)⟩

/-- The `for` loop of `AddCandidate` either finds no empty slot and changes nothing, or puts
the object in an empty slot of the colour class it started in. -/
theorem addFrom_cases (c : TSequentialColourSelector) (o : Nat) :
    ∀ fuel i, c.addFrom o fuel i = c ∨
      ∃ k, k < c.KArrayLength ∧ occupied c.iSlot k = false ∧
        k % c.KPageColourCount = i % c.KPageColourCount ∧ c.addFrom o fuel i = c.place o k := by
  intro fuel
  induction fuel with
  | zero => intro i; left; rfl
  | succ fuel ih =>
    intro i
    unfold addFrom
    by_cases h1 : i < c.KArrayLength
    · rw [if_pos h1]
      by_cases h2 : (c.iSlot.getD i none).isNone = true
      · rw [if_pos h2]
        right
        refine ⟨i, h1, ?_, rfl, rfl⟩
        unfold occupied
        cases hx : c.iSlot.getD i none with
        | none => rfl
        | some x => rw [hx] at h2; cases h2
      · rw [if_neg h2]
        rcases ih (i + c.KPageColourCount) with h | ⟨k, k1, k2, k3, k4⟩
        · exact Or.inl h
        · exact Or.inr ⟨k, k1, k2, by rw [k3, Nat.add_mod_right], k4⟩
    · rw [if_neg h1]
      left; rfl

/-- The method `AddCandidate` keeps the run invariant and the constants. -/
theorem addCandidate_runInvariant {c : TSequentialColourSelector} (h : c.RunInvariant)
    (hA : c.KArrayLength ≤ 127) (o col : Nat) :
    (c.AddCandidate o col).RunInvariant ∧
      (c.AddCandidate o col).KArrayLength = c.KArrayLength ∧
      (c.AddCandidate o col).KMaxLength = c.KMaxLength ∧
      (c.AddCandidate o col).KPageColourCount = c.KPageColourCount := by
  unfold AddCandidate
  rcases addFrom_cases c o c.KArrayLength col with e | ⟨k, k1, k2, -, k4⟩
  · rw [e]
    exact ⟨h, rfl, rfl, rfl⟩
  · rw [k4]
    obtain ⟨a, -, b, d, f⟩ := place_invariant h hA o k1 k2
    exact ⟨a, b, d, f⟩

/-- The method `AddCandidate` keeps the object invariant when the object is new and its
colour is a colour. -/
theorem addCandidate_objectInvariant {c : TSequentialColourSelector} (h : c.RunInvariant)
    (hA : c.KArrayLength ≤ 127) {calls : List (Nat × Nat)} (ho : c.ObjectInvariant calls)
    (o col : Nat) (hnew : ∀ x, (o, x) ∉ calls) (hcol : col < c.KPageColourCount) :
    (c.AddCandidate o col).ObjectInvariant (calls ++ [(o, col)]) := by
  obtain ⟨o1, o2⟩ := ho
  unfold AddCandidate
  rcases addFrom_cases c o c.KArrayLength col with e | ⟨k, k1, k2, k3, k4⟩
  · rw [e]
    refine ⟨?_, o2⟩
    intro i x hx
    obtain ⟨cl, c1, c2⟩ := o1 i x hx
    exact ⟨cl, List.mem_append_left _ c1, c2⟩
  · rw [k4]
    obtain ⟨-, a, -, -, f⟩ := place_invariant h hA o k1 k2
    have hk : k < c.iSlot.length := by rw [h.1]; exact k1
    have hget : ∀ i x, (c.iSlot.set k (some o)).getD i none = some x →
        (i = k ∧ x = o) ∨ (i ≠ k ∧ c.iSlot.getD i none = some x) := by
      intro i x hx
      by_cases e : i = k
      · subst e
        rw [getD_set_same _ _ _ _ hk] at hx
        exact Or.inl ⟨rfl, (Option.some.inj hx).symm⟩
      · rw [getD_set_other _ _ _ (fun y => e y.symm)] at hx
        exact Or.inr ⟨e, hx⟩
    unfold ObjectInvariant
    rw [a, f]
    constructor
    · intro i x hx
      rcases hget i x hx with ⟨e1, e2⟩ | ⟨-, e2⟩
      · refine ⟨col, ?_, ?_⟩
        · rw [e2]; exact List.mem_append_right _ (List.mem_singleton_self _)
        · rw [e1, k3, Nat.mod_eq_of_lt hcol]
      · obtain ⟨cl, c1, c2⟩ := o1 i x e2
        exact ⟨cl, List.mem_append_left _ c1, c2⟩
    · intro i j x hi hj
      rcases hget i x hi with ⟨e1, e2⟩ | ⟨e1, e2⟩
      · rcases hget j x hj with ⟨d1, -⟩ | ⟨-, d2⟩
        · rw [e1, d1]
        · rw [e2] at d2
          obtain ⟨cl, c1, -⟩ := o1 j o d2
          exact absurd c1 (hnew cl)
      · rcases hget j x hj with ⟨-, d2⟩ | ⟨-, d2⟩
        · rw [d2] at e2
          obtain ⟨cl, c1, -⟩ := o1 i o e2
          exact absurd c1 (hnew cl)
        · exact o2 i j x e2 d2

end TSequentialColourSelector

end DPager

/-! ## `FindLongestRun` -/

namespace DPager

namespace TSequentialColourSelector

/-- The search for the first hole: the slots it passed are occupied and, unless it ran out
of steps, the slot it stopped at is empty. -/
theorem firstHole_spec (slot : List (Option Nat)) :
    ∀ fuel i, i ≤ firstHole slot fuel i ∧ firstHole slot fuel i ≤ i + fuel ∧
      (∀ m, i ≤ m → m < firstHole slot fuel i → occupied slot m = true) ∧
      (firstHole slot fuel i < i + fuel → occupied slot (firstHole slot fuel i) = false) := by
  intro fuel
  induction fuel with
  | zero =>
    intro i
    unfold firstHole
    exact ⟨le_refl _, le_refl _, fun m h1 h2 => by omega, fun h => by omega⟩
  | succ fuel ih =>
    intro i
    unfold firstHole
    by_cases hc : (slot.getD i none).isSome = true
    · rw [if_pos hc]
      obtain ⟨a1, a2, a3, a4⟩ := ih (i + 1)
      refine ⟨by omega, by omega, ?_, fun h => a4 (by omega)⟩
      intro m h1 h2
      by_cases e : m = i
      · rw [e]; exact hc
      · exact a3 m (by omega) h2
    · rw [if_neg hc]
      refine ⟨le_refl _, by omega, fun m h1 h2 => by omega, fun _ => ?_⟩
      unfold occupied
      cases hx : (slot.getD i none).isSome with
      | false => rfl
      | true => exact absurd hx hc

theorem getD_drop_take {α : Type} (l : List α) (S len k : Nat) (d : α) (hk : k < len) :
    ((l.drop S).take len).getD k d = l.getD (S + k) d := by
  simp only [List.getD_eq_getElem?_getD, List.getElem?_take, List.getElem?_drop, if_pos hk]

theorem getD_take {α : Type} (l : List α) (len k : Nat) (d : α) (hk : k < len) :
    (l.take len).getD k d = l.getD k d := by
  simp only [List.getD_eq_getElem?_getD, List.getElem?_take, if_pos hk]

/-- The two copies of `FindLongestRun` give the slots from `S` on, the array regarded
circularly. -/
theorem circular_slice (slot : List (Option Nat)) (A S n : Nat) (hl : slot.length = A)
    (hS : S < A) (hn : n ≤ A) :
    ((slot.drop S).take (min n (A - S)) ++ slot.take (n - min n (A - S))).length = n ∧
    ∀ k, k < n →
      ((slot.drop S).take (min n (A - S)) ++ slot.take (n - min n (A - S))).getD k none
        = slot.getD ((S + k) % A) none := by
  have hlen1 : ((slot.drop S).take (min n (A - S))).length = min n (A - S) := by
    rw [List.length_take, List.length_drop, hl]
    omega
  constructor
  · rw [List.length_append, hlen1, List.length_take, hl]
    omega
  · intro k hk
    rw [List.getD_eq_getElem?_getD, List.getElem?_append, hlen1]
    by_cases h1 : k < min n (A - S)
    · rw [if_pos h1, ← List.getD_eq_getElem?_getD, getD_drop_take _ _ _ _ _ h1,
        Nat.mod_eq_of_lt (by omega)]
    · rw [if_neg h1, ← List.getD_eq_getElem?_getD, getD_take _ _ _ _ (by omega)]
      have e : (S + k) % A = k - min n (A - S) := by
        have h2 : min n (A - S) = A - S := by omega
        rw [h2]
        have h3 : S + k = A + (k - (A - S)) := by omega
        rw [h3, Nat.add_mod_left, Nat.mod_eq_of_lt (by omega)]
      rw [e]

theorem isRun_iff (slot : List (Option Nat)) (A start len : Nat) :
    isRun slot A start len = true ↔ ∀ k, k < len → occupied slot ((start + k) % A) = true := by
  unfold isRun
  rw [List.all_eq_true]
  constructor
  · intro h k hk
    exact h k (List.mem_range.2 hk)
  · intro h k hk
    exact h k (List.mem_range.1 hk)

theorem hasRun_iff (slot : List (Option Nat)) (A len : Nat) :
    hasRun slot A len = true ↔ ∃ start, start < A ∧ isRun slot A start len = true := by
  unfold hasRun
  rw [List.any_eq_true]
  constructor
  · rintro ⟨s, hs, h⟩
    exact ⟨s, List.mem_range.1 hs, h⟩
  · rintro ⟨s, hs, h⟩
    exact ⟨s, List.mem_range.2 hs, h⟩

/-- A run that does not wrap is no longer than the longest of the run lengths. -/
theorem isRun_linear {slot : List (Option Nat)} {A start len : Nat}
    (h : isRun slot A start len = true) (hw : start + len ≤ A) :
    len ≤ maxBelow (runEnding slot) A := by
  rcases Nat.eq_zero_or_pos len with hz | hp
  · omega
  · rw [isRun_iff] at h
    have h1 := runEnding_ge slot (start + len - 1) start (by omega) (by
      intro m hm1 hm2
      have := h (m - start) (by omega)
      rw [show start + (m - start) = m by omega, Nat.mod_eq_of_lt (by omega)] at this
      exact this)
    have h2 := maxBelow_ge (runEnding slot) A (start + len - 1) (by omega)
    omega

end TSequentialColourSelector

end DPager
namespace DPager

namespace TSequentialColourSelector

/-- The wrap check of `FindLongestRun` when the first and the last slot are occupied and not
all slots are: the first hole ends the run from slot 0, that run and the run up to the last
slot do not meet, and no run that wraps is longer than the two together. -/
theorem wrap_facts (slot : List (Option Nat)) (A : Nat) (hl : slot.length = A) (hA : 0 < A)
    (h0 : occupied slot 0 = true) (hlast : occupied slot (A - 1) = true)
    (hnot : maxBelow (runEnding slot) A < A) :
    1 ≤ firstHole slot A 1 ∧
    runEnding slot (firstHole slot A 1 - 1) = firstHole slot A 1 ∧
    1 ≤ runEnding slot (A - 1) ∧
    runEnding slot (A - 1) + firstHole slot A 1 < A ∧
    (∀ m, m < firstHole slot A 1 → occupied slot m = true) ∧
    (∀ m, A - runEnding slot (A - 1) ≤ m → m < A → occupied slot m = true) ∧
    (∀ start len, start < A → len ≤ A → A < start + len →
      isRun slot A start len = true → len ≤ runEnding slot (A - 1) + firstHole slot A 1) := by
  obtain ⟨f1, f2, f3, f4⟩ := firstHole_spec slot A 1
  obtain ⟨h, hh⟩ : ∃ h, h = firstHole slot A 1 := ⟨_, rfl⟩
  obtain ⟨a, ha⟩ : ∃ a, a = runEnding slot (A - 1) := ⟨_, rfl⟩
  rw [← hh] at f1 f2 f3 f4 ⊢
  rw [← ha]
  have hpre : ∀ m, m < h → occupied slot m = true := by
    intro m hm
    by_cases e : m = 0
    · rw [e]; exact h0
    · exact f3 m (by omega) hm
  have hle : h ≤ A := by
    by_contra hn
    have := occupied_lt (f3 A (by omega) (by omega))
    omega
  have hlt : h < A := by
    by_contra hn
    have e : h = A := by omega
    have k1 := runEnding_ge slot (A - 1) 0 (by omega) (fun m _ hm => hpre m (by omega))
    have k2 := maxBelow_ge (runEnding slot) A (A - 1) (by omega)
    omega
  have hempty : occupied slot h = false := f4 (by omega)
  have hrun : runEnding slot (h - 1) = h := by
    have k1 := runEnding_ge slot (h - 1) 0 (by omega) (fun m _ hm => hpre m (by omega))
    have k2 := runEnding_le slot (h - 1)
    omega
  have hapos : 1 ≤ a := by
    rw [ha]
    exact (runEnding_pos_iff slot (A - 1)).2 hlast
  have hale : a ≤ A := by
    rw [ha]
    have := runEnding_le slot (A - 1)
    omega
  have hsuf : ∀ m, A - a ≤ m → m < A → occupied slot m = true := by
    intro m h1 h2
    exact runEnding_occupied slot (A - 1) m (by omega) (by rw [← ha]; omega)
  have hsep : a + h < A := by
    by_contra hn
    have := hsuf h (by omega) hlt
    rw [hempty] at this
    cases this
  refine ⟨f1, hrun, hapos, hsep, hpre, hsuf, ?_⟩
  intro start len hs hlen hw hr
  rw [isRun_iff] at hr
  have hb : start + len - A ≤ h := by
    by_contra hn
    have := hr (A - start + h) (by omega)
    rw [show start + (A - start + h) = A + h by omega, Nat.add_mod_left,
      Nat.mod_eq_of_lt hlt, hempty] at this
    cases this
  have hs2 : A - start ≤ a := by
    have := runEnding_ge slot (A - 1) start (by omega) (by
      intro m hm1 hm2
      have := hr (m - start) (by omega)
      rw [show start + (m - start) = m by omega, Nat.mod_eq_of_lt (by omega)] at this
      exact this)
    rw [← ha] at this
    omega
  omega

end TSequentialColourSelector

end DPager
namespace DPager

namespace TSequentialColourSelector

/-- The wrap check of `FindLongestRun` on a selector that holds an object: afterwards
`iLongestLength` and `iLongestStart` describe a run of occupied slots, the array regarded
circularly, and no run is longer, up to `KMaxLength`. -/
theorem wrapCheck_spec {c : TSequentialColourSelector} (h : c.RunInvariant)
    (hpos : 0 < maxBelow (runEnding c.iSlot) c.KArrayLength)
    (c1 : TSequentialColourSelector)
    (hc1 : c1 =
      if c.iLongestLength < (c.KMaxLength : Int) ∧ (c.iSlot.getD 0 none).isSome
          ∧ (c.iSlot.getD (c.KArrayLength - 1) none).isSome then
        if c.iSeqLength.getD (c.KArrayLength - 1) 0
            + c.iSeqLength.getD (firstHole c.iSlot c.KArrayLength 1 - 1) 0
            > c.iLongestLength then
          { c with
            iLongestLength := c.iSeqLength.getD (c.KArrayLength - 1) 0
              + c.iSeqLength.getD (firstHole c.iSlot c.KArrayLength 1 - 1) 0
            iLongestStart := (c.KArrayLength : Int)
              - c.iSeqLength.getD (c.KArrayLength - 1) 0 }
        else c
      else c) :
    c1.iSlot = c.iSlot ∧ c1.KArrayLength = c.KArrayLength ∧ c1.KMaxLength = c.KMaxLength ∧
    ∃ L S : Nat, c1.iLongestLength = (L : Int) ∧ c1.iLongestStart = (S : Int) ∧
      0 < L ∧ L ≤ c.KArrayLength ∧ S < c.KArrayLength ∧
      (∀ k, k < L → occupied c.iSlot ((S + k) % c.KArrayLength) = true) ∧
      (∀ start len, start < c.KArrayLength → len ≤ c.KArrayLength →
        isRun c.iSlot c.KArrayLength start len = true →
        min c.KMaxLength len ≤ min L c.KMaxLength) := by
  obtain ⟨h1, h2, h3, h4, h5, h6, h7⟩ := h
  obtain ⟨M, hM⟩ : ∃ M, M = maxBelow (runEnding c.iSlot) c.KArrayLength := ⟨_, rfl⟩
  rw [← hM] at h6 hpos
  have hApos : 0 < c.KArrayLength := by
    by_contra hn
    have e : c.KArrayLength = 0 := by omega
    rw [e] at hM
    have : M = 0 := hM
    omega
  have hK : 0 < c.KMaxLength ∧ c.KMaxLength ≤ c.KArrayLength := by
    rcases h4 with k | k
    · omega
    · exact k
  have hMA : M ≤ c.KArrayLength := by
    rw [hM]
    apply maxBelow_le
    intro k hk
    have := runEnding_le c.iSlot k
    omega
  obtain ⟨e, e1, e2, e3⟩ := h7 (by rw [h6]; exact_mod_cast hpos)
  rw [h6] at e2 e3
  have e2N : runEnding c.iSlot e = M := by exact_mod_cast e2
  have eLe := runEnding_le c.iSlot e
  -- the run that the linear search found
  have hlin : c.iLongestLength = (M : Int) ∧ c.iLongestStart = ((e + 1 - M : Nat) : Int) ∧
      e + 1 - M < c.KArrayLength ∧
      (∀ k, k < M → occupied c.iSlot ((e + 1 - M + k) % c.KArrayLength) = true) := by
    refine ⟨h6, by rw [e3]; omega, by omega, ?_⟩
    intro k hk
    rw [Nat.mod_eq_of_lt (by omega)]
    exact runEnding_occupied c.iSlot e _ (by omega) (by omega)
  -- runs that do not wrap
  have hnowrap : ∀ start len, start + len ≤ c.KArrayLength →
      isRun c.iSlot c.KArrayLength start len = true → len ≤ M := by
    intro start len hw hr
    rw [hM]
    exact isRun_linear hr hw
  by_cases hcond : c.iLongestLength < (c.KMaxLength : Int) ∧ (c.iSlot.getD 0 none).isSome
      ∧ (c.iSlot.getD (c.KArrayLength - 1) none).isSome
  · rw [if_pos hcond] at hc1
    obtain ⟨hlt, hs0, hsl⟩ := hcond
    rw [h6] at hlt
    have hltN : M < c.KMaxLength := by exact_mod_cast hlt
    obtain ⟨w1, w2, w3, w4, w5, w6, w7⟩ := wrap_facts c.iSlot c.KArrayLength h1 hApos hs0 hsl
      (by rw [← hM]; omega)
    have hsA := h5 (c.KArrayLength - 1) (by omega)
    have hsH := h5 (firstHole c.iSlot c.KArrayLength 1 - 1) (by omega)
    rw [w2] at hsH
    rw [hsA, hsH, h6] at hc1
    generalize firstHole c.iSlot c.KArrayLength 1 = hole at w1 w2 w3 w4 w5 w6 w7 hc1
    generalize runEnding c.iSlot (c.KArrayLength - 1) = a at w1 w2 w3 w4 w5 w6 w7 hc1
    by_cases hgt : (a : Int) + (hole : Int) > (M : Int)
    · rw [if_pos hgt] at hc1
      have hgtN : M < a + hole := by exact_mod_cast hgt
      rw [hc1]
      refine ⟨rfl, rfl, rfl, a + hole, c.KArrayLength - a, by push_cast; rfl, ?_, by omega,
        by omega, by omega, ?_, ?_⟩
      · show (c.KArrayLength : Int) - (a : Int) = ((c.KArrayLength - a : Nat) : Int)
        omega
      · intro k hk
        by_cases hka : k < a
        · rw [Nat.mod_eq_of_lt (by omega)]
          exact w6 _ (by omega) (by omega)
        · rw [show c.KArrayLength - a + k = c.KArrayLength + (k - a) by omega,
            Nat.add_mod_left, Nat.mod_eq_of_lt (by omega)]
          exact w5 _ (by omega)
      · intro start len hs hlen hr
        by_cases hw : start + len ≤ c.KArrayLength
        · have := hnowrap start len hw hr
          omega
        · have := w7 start len hs hlen (by omega) hr
          omega
    · rw [if_neg hgt] at hc1
      have hleN : a + hole ≤ M := by
        have : ¬ M < a + hole := fun k => hgt (by exact_mod_cast k)
        omega
      rw [hc1]
      refine ⟨rfl, rfl, rfl, M, e + 1 - M, hlin.1, hlin.2.1, hpos, hMA, hlin.2.2.1,
        hlin.2.2.2, ?_⟩
      intro start len hs hlen hr
      by_cases hw : start + len ≤ c.KArrayLength
      · have := hnowrap start len hw hr
        omega
      · have := w7 start len hs hlen (by omega) hr
        omega
  · rw [if_neg hcond] at hc1
    rw [hc1]
    refine ⟨rfl, rfl, rfl, M, e + 1 - M, hlin.1, hlin.2.1, hpos, hMA, hlin.2.2.1,
      hlin.2.2.2, ?_⟩
    intro start len hs hlen hr
    by_cases hw : start + len ≤ c.KArrayLength
    · have := hnowrap start len hw hr
      omega
    · -- a run that wraps has the first and the last slot occupied
      rw [isRun_iff] at hr
      have o0 : occupied c.iSlot 0 = true := by
        have := hr (c.KArrayLength - start) (by omega)
        rw [show start + (c.KArrayLength - start) = c.KArrayLength by omega,
          Nat.mod_self] at this
        exact this
      have ol : occupied c.iSlot (c.KArrayLength - 1) = true := by
        have := hr (c.KArrayLength - 1 - start) (by omega)
        rw [show start + (c.KArrayLength - 1 - start) = c.KArrayLength - 1 by omega,
          Nat.mod_eq_of_lt (by omega)] at this
        exact this
      have hge : ¬ c.iLongestLength < (c.KMaxLength : Int) :=
        fun k => hcond ⟨k, o0, ol⟩
      rw [h6] at hge
      have : ¬ M < c.KMaxLength := fun k => hge (by exact_mod_cast k)
      omega

end TSequentialColourSelector

end DPager
namespace DPager

namespace TSequentialColourSelector

/-- The method `FindLongestRun` under the run invariant: it returns the length `n` of the
list it writes, which is the slots of a run of `n` occupied slots from some slot `S` on, the
array regarded circularly; `n` is at most `KMaxLength`, is 0 exactly when all slots are
empty, and no run is longer, up to `KMaxLength`. -/
theorem findLongestRun_spec {c : TSequentialColourSelector} (h : c.RunInvariant) :
    ∃ n S : Nat,
      c.FindLongestRun.1.iLongestLength = (n : Int) ∧
      c.FindLongestRun.2.length = n ∧ n ≤ c.KMaxLength ∧ n ≤ c.KArrayLength ∧
      (n = 0 ↔ ∀ i, occupied c.iSlot i = false) ∧
      (∀ k, k < n → occupied c.iSlot ((S + k) % c.KArrayLength) = true ∧
        c.FindLongestRun.2.getD k none
          = c.iSlot.getD ((S + k) % c.KArrayLength) none) ∧
      (∀ start len, start < c.KArrayLength → len ≤ c.KArrayLength →
        isRun c.iSlot c.KArrayLength start len = true → min c.KMaxLength len ≤ n) := by
  have h1 := h.1
  have h6 := h.2.2.2.2.2.1
  by_cases hz : maxBelow (runEnding c.iSlot) c.KArrayLength = 0
  · have hl0 : c.iLongestLength = 0 := by rw [h6, hz]; rfl
    have hf : c.FindLongestRun = (c, []) := by
      unfold FindLongestRun
      rw [if_pos hl0]
    have hempty : ∀ i, occupied c.iSlot i = false := by
      intro i
      by_cases hi : i < c.KArrayLength
      · have := maxBelow_ge (runEnding c.iSlot) c.KArrayLength i hi
        exact (runEnding_zero_iff c.iSlot i).1 (by omega)
      · cases ho : occupied c.iSlot i with
        | false => rfl
        | true =>
          have := occupied_lt ho
          omega
    rw [hf]
    refine ⟨0, 0, hl0, rfl, Nat.zero_le _, Nat.zero_le _, ⟨fun _ => hempty, fun _ => rfl⟩,
      fun k hk => by omega, ?_⟩
    intro start len _ _ hr
    rw [isRun_iff] at hr
    rcases Nat.eq_zero_or_pos len with hl | hl
    · rw [hl]; simp
    · have := hr 0 hl
      rw [hempty] at this
      cases this
  · have hpos : 0 < maxBelow (runEnding c.iSlot) c.KArrayLength := by omega
    have hne : ¬ c.iLongestLength = 0 := by
      rw [h6]
      intro k
      have : maxBelow (runEnding c.iSlot) c.KArrayLength = 0 := by exact_mod_cast k
      omega
    obtain ⟨c1, hc1⟩ : ∃ c1 : TSequentialColourSelector, c1 =
      if c.iLongestLength < (c.KMaxLength : Int) ∧ (c.iSlot.getD 0 none).isSome
          ∧ (c.iSlot.getD (c.KArrayLength - 1) none).isSome then
        if c.iSeqLength.getD (c.KArrayLength - 1) 0
            + c.iSeqLength.getD (firstHole c.iSlot c.KArrayLength 1 - 1) 0
            > c.iLongestLength then
          { c with
            iLongestLength := c.iSeqLength.getD (c.KArrayLength - 1) 0
              + c.iSeqLength.getD (firstHole c.iSlot c.KArrayLength 1 - 1) 0
            iLongestStart := (c.KArrayLength : Int)
              - c.iSeqLength.getD (c.KArrayLength - 1) 0 }
        else c
      else c := ⟨_, rfl⟩
    have hf : c.FindLongestRun =
        ({ c1 with iLongestLength := min c1.iLongestLength (c1.KMaxLength : Int) },
          (c1.iSlot.drop c1.iLongestStart.toNat).take
              (min (min c1.iLongestLength (c1.KMaxLength : Int))
                ((c1.KArrayLength : Int) - c1.iLongestStart)).toNat
            ++ c1.iSlot.take
              (min c1.iLongestLength (c1.KMaxLength : Int)
                - min (min c1.iLongestLength (c1.KMaxLength : Int))
                    ((c1.KArrayLength : Int) - c1.iLongestStart)).toNat) := by
      unfold FindLongestRun
      rw [if_neg hne, hc1]
    obtain ⟨s1, s2, s3, L, S, s4, s5, s6, s7, s8, s9, s10⟩ := wrapCheck_spec h hpos c1 hc1
    have hK : 0 < c.KMaxLength ∧ c.KMaxLength ≤ c.KArrayLength := by
      rcases h.2.2.2.1 with k | k
      · omega
      · exact k
    rw [hf, s1, s2, s3, s4, s5]
    have en : min (L : Int) (c.KMaxLength : Int) = ((min L c.KMaxLength : Nat) : Int) := by
      omega
    have el : (min (min (L : Int) (c.KMaxLength : Int)) ((c.KArrayLength : Int) - (S : Int))).toNat
        = min (min L c.KMaxLength) (c.KArrayLength - S) := by
      omega
    have er : (min (L : Int) (c.KMaxLength : Int)
        - min (min (L : Int) (c.KMaxLength : Int)) ((c.KArrayLength : Int) - (S : Int))).toNat
        = min L c.KMaxLength - min (min L c.KMaxLength) (c.KArrayLength - S) := by
      omega
    have es : (S : Int).toNat = S := by omega
    rw [el, er, es]
    obtain ⟨t1, t2⟩ := circular_slice c.iSlot c.KArrayLength S (min L c.KMaxLength) h1 s8
      (by omega)
    refine ⟨min L c.KMaxLength, S, en, t1, by omega, by omega, ?_, ?_, ?_⟩
    · constructor
      · intro k
        omega
      · intro hall
        have := s9 0 s6
        rw [hall] at this
        cases this
    · intro k hk
      exact ⟨s9 k (by omega), t2 k hk⟩
    · exact s10

end TSequentialColourSelector

end DPager
namespace DPager

namespace TSequentialColourSelector

theorem addCandidates_cons (c : TSequentialColourSelector) (x : Nat × Nat)
    (l : List (Nat × Nat)) :
    c.AddCandidates (x :: l) = (c.AddCandidate x.1 x.2).AddCandidates l := rfl

/-- A sequence of `AddCandidate` calls keeps the run invariant and the constants. -/
theorem addCandidates_runInvariant (calls : List (Nat × Nat)) :
    ∀ {c : TSequentialColourSelector}, c.RunInvariant → c.KArrayLength ≤ 127 →
      (c.AddCandidates calls).RunInvariant ∧
      (c.AddCandidates calls).KArrayLength = c.KArrayLength ∧
      (c.AddCandidates calls).KMaxLength = c.KMaxLength ∧
      (c.AddCandidates calls).KPageColourCount = c.KPageColourCount := by
  induction calls with
  | nil => intro c h _; exact ⟨h, rfl, rfl, rfl⟩
  | cons x l ih =>
    intro c h hA
    obtain ⟨a1, a2, a3, a4⟩ := addCandidate_runInvariant h hA x.1 x.2
    obtain ⟨b1, b2, b3, b4⟩ := ih a1 (by rw [a2]; exact hA)
    rw [addCandidates_cons]
    exact ⟨b1, b2.trans a2, b3.trans a3, b4.trans a4⟩

/-- A sequence of `AddCandidate` calls with new objects and colours below the colour count
keeps the object invariant. -/
theorem addCandidates_objectInvariant (calls : List (Nat × Nat)) :
    ∀ {c : TSequentialColourSelector} (done : List (Nat × Nat)), c.RunInvariant →
      c.KArrayLength ≤ 127 → c.ObjectInvariant done →
      ((done ++ calls).map Prod.fst).Nodup →
      (∀ x, x ∈ calls → x.2 < c.KPageColourCount) →
      (c.AddCandidates calls).ObjectInvariant (done ++ calls) := by
  induction calls with
  | nil =>
    intro c done _ _ ho _ _
    rw [List.append_nil]
    exact ho
  | cons x l ih =>
    intro c done h hA ho hnd hcol
    obtain ⟨a1, a2, a3, a4⟩ := addCandidate_runInvariant h hA x.1 x.2
    have hnd2 : ((done ++ [x] ++ l).map Prod.fst).Nodup := by
      rw [List.append_assoc]
      exact hnd
    have hnew : ∀ y, (x.1, y) ∉ done := by
      intro y hy
      rw [List.map_append, List.map_cons] at hnd
      have := (List.nodup_append.1 hnd).2.2
      exact this (List.mem_map.2 ⟨(x.1, y), hy, rfl⟩) (List.mem_cons_self _ _)
    have ho2 := addCandidate_objectInvariant h hA ho x.1 x.2 hnew
      (hcol x (List.mem_cons_self _ _))
    have := ih (done ++ [x]) a1 (by rw [a2]; exact hA) ho2 hnd2
      (fun y hy => by rw [a4]; exact hcol y (List.mem_cons_of_mem _ hy))
    rw [addCandidates_cons]
    rw [List.append_assoc] at this
    exact this

theorem foldr_max_spec (l : List Nat) :
    (∀ x, x ∈ l → x ≤ l.foldr max 0) ∧ (l.foldr max 0 = 0 ∨ l.foldr max 0 ∈ l) := by
  induction l with
  | nil => exact ⟨fun x hx => absurd hx (List.not_mem_nil x), Or.inl rfl⟩
  | cons a t ih =>
    obtain ⟨i1, i2⟩ := ih
    rw [List.foldr_cons]
    constructor
    · intro x hx
      rcases List.mem_cons.1 hx with e | e
      · rw [e]; exact Nat.le_max_left _ _
      · exact Nat.le_trans (i1 x e) (Nat.le_max_right _ _)
    · right
      by_cases hc : t.foldr max 0 ≤ a
      · rw [Nat.max_eq_left hc]
        exact List.mem_cons_self _ _
      · rw [Nat.max_eq_right (by omega)]
        rcases i2 with e | e
        · omega
        · exact List.mem_cons_of_mem _ e

/-- A run is no longer than the longest run. -/
theorem le_longestRun {slot : List (Option Nat)} {A len : Nat} (hlen : len ≤ A)
    (h : hasRun slot A len = true) : len ≤ longestRun slot A := by
  unfold longestRun
  apply (foldr_max_spec _).1
  rw [List.mem_filter]
  exact ⟨List.mem_range.2 (by omega), h⟩

/-- The longest run is a run, unless it is 0. -/
theorem longestRun_spec (slot : List (Option Nat)) (A : Nat) :
    longestRun slot A = 0 ∨
      (hasRun slot A (longestRun slot A) = true ∧ longestRun slot A ≤ A) := by
  rcases (foldr_max_spec ((List.range (A + 1)).filter (hasRun slot A))).2 with e | e
  · exact Or.inl e
  · right
    rw [List.mem_filter] at e
    have := List.mem_range.1 e.1
    exact ⟨e.2, by unfold longestRun; omega⟩

/-- The value `FindLongestRun` returns is the length of the longest run, up to
`KMaxLength`. -/
theorem findLongestRun_longest {c : TSequentialColourSelector} (h : c.RunInvariant) :
    c.FindLongestRun.1.iLongestLength
      = ((min c.KMaxLength (longestRun c.iSlot c.KArrayLength) : Nat) : Int) ∧
    c.FindLongestRun.2.length = min c.KMaxLength (longestRun c.iSlot c.KArrayLength) ∧
    (c.FindLongestRun.1.iLongestLength = 0 ↔ ∀ i, c.iSlot.getD i none = none) := by
  obtain ⟨n, S, s1, s2, s3, s4, s5, s6, s7⟩ := findLongestRun_spec h
  have hn : n = min c.KMaxLength (longestRun c.iSlot c.KArrayLength) := by
    apply Nat.le_antisymm
    · apply Nat.le_min.2
      refine ⟨s3, ?_⟩
      rcases Nat.eq_zero_or_pos n with hz | hp
      · omega
      · apply le_longestRun s4
        rw [hasRun_iff]
        refine ⟨S % c.KArrayLength, Nat.mod_lt _ (by omega), ?_⟩
        rw [isRun_iff]
        intro k hk
        rw [Nat.mod_add_mod]
        exact (s6 k hk).1
    · rcases longestRun_spec c.iSlot c.KArrayLength with e | ⟨e1, e2⟩
      · rw [e]; simp
      · rw [hasRun_iff] at e1
        obtain ⟨start, hs, hr⟩ := e1
        exact s7 start _ hs e2 hr
  refine ⟨by rw [s1, hn], by rw [s2, hn], ?_⟩
  rw [s1]
  constructor
  · intro hz i
    have hz2 : n = 0 := by exact_mod_cast hz
    have := (s5.1 hz2) i
    unfold occupied at this
    cases hx : c.iSlot.getD i none with
    | none => rfl
    | some x => rw [hx] at this; cases this
  · intro hall
    have : n = 0 := s5.2 (fun i => by unfold occupied; rw [hall i]; rfl)
    rw [this]
    rfl

end TSequentialColourSelector

end DPager
namespace DPager

namespace TSequentialColourSelector

theorem mod_ne_of_lt {A S k1 k2 : Nat} (h1 : k1 < k2) (h2 : k2 < A) :
    (S + k1) % A ≠ (S + k2) % A := by
  intro e
  have := Nat.sub_mod_eq_zero_of_mod_eq e.symm
  rw [show S + k2 - (S + k1) = k2 - k1 by omega, Nat.mod_eq_of_lt (by omega)] at this
  omega

/-- The objects `FindLongestRun` writes: each was added, no two are the same, and the colour
of each is the colour of the one before plus one, modulo the colour count. -/
theorem findLongestRun_objects {c : TSequentialColourSelector} (h : c.RunInvariant)
    {calls : List (Nat × Nat)} (ho : c.ObjectInvariant calls) :
    c.FindLongestRun.1.iLongestLength = (c.FindLongestRun.2.length : Int) ∧
    c.FindLongestRun.2.length ≤ c.KMaxLength ∧
    (∀ k, k < c.FindLongestRun.2.length →
      ∃ o col, c.FindLongestRun.2.getD k none = some o ∧ (o, col) ∈ calls) ∧
    c.FindLongestRun.2.Nodup ∧
    (∀ k, k + 1 < c.FindLongestRun.2.length →
      ∃ o1 col1 o2 col2, c.FindLongestRun.2.getD k none = some o1 ∧
        c.FindLongestRun.2.getD (k + 1) none = some o2 ∧
        (o1, col1) ∈ calls ∧ (o2, col2) ∈ calls ∧
        col2 = (col1 + 1) % c.KPageColourCount) := by
  obtain ⟨n, S, s1, s2, s3, s4, -, s6, -⟩ := findLongestRun_spec h
  obtain ⟨o1, o2⟩ := ho
  have hdvd := h.2.2.1
  -- the object and its colour at position `k`
  have hat : ∀ k, k < n → ∃ o, c.iSlot.getD ((S + k) % c.KArrayLength) none = some o ∧
      c.FindLongestRun.2.getD k none = some o ∧
      (o, (S + k) % c.KPageColourCount) ∈ calls := by
    intro k hk
    obtain ⟨a, b⟩ := s6 k hk
    unfold occupied at a
    cases hx : c.iSlot.getD ((S + k) % c.KArrayLength) none with
    | none => rw [hx] at a; cases a
    | some o =>
      obtain ⟨col, c1, c2⟩ := o1 _ o hx
      rw [Nat.mod_mod_of_dvd _ hdvd] at c2
      rw [c2] at c1
      exact ⟨o, rfl, by rw [b, hx], c1⟩
  rw [s2]
  refine ⟨s1, s3, ?_, ?_, ?_⟩
  · intro k hk
    obtain ⟨o, -, b, d⟩ := hat k hk
    exact ⟨o, _, b, d⟩
  · rw [List.nodup_iff_getElem?_ne_getElem?]
    intro i j hij hj
    rw [s2] at hj
    obtain ⟨oi, ai, bi, -⟩ := hat i (by omega)
    obtain ⟨oj, aj, bj, -⟩ := hat j hj
    intro e
    have hi2 : i < c.FindLongestRun.2.length := by rw [s2]; omega
    have hj2 : j < c.FindLongestRun.2.length := by rw [s2]; omega
    rw [List.getD_eq_getElem?_getD, List.getElem?_eq_getElem hi2] at bi
    rw [List.getD_eq_getElem?_getD, List.getElem?_eq_getElem hj2] at bj
    rw [List.getElem?_eq_getElem hi2, List.getElem?_eq_getElem hj2] at e
    have e2 := Option.some.inj e
    rw [Option.getD_some] at bi bj
    rw [e2, bj] at bi
    have e3 : oj = oi := Option.some.inj bi
    rw [e3] at aj
    exact mod_ne_of_lt hij (by omega) (o2 _ _ oi ai aj)
  · intro k hk
    obtain ⟨oa, -, ba, da⟩ := hat k (by omega)
    obtain ⟨ob, -, bb, db⟩ := hat (k + 1) hk
    refine ⟨oa, _, ob, _, ba, bb, da, db, ?_⟩
    rw [show S + (k + 1) = S + k + 1 by omega, Nat.add_mod (S + k) 1,
      Nat.add_mod ((S + k) % c.KPageColourCount) 1, Nat.mod_mod]

end TSequentialColourSelector

end DPager

/-! ## The seed of the random choice -/

namespace DPagingRequestPool

/-- The call `GetRequest` leaves the seed alone or, on the random choice, advances it by one
step of the generator. -/
theorem getRequest_seed {p p1 : DPagingRequestPool} {aMemory aIndex aCount req : Nat}
    (hg : p.GetRequest aMemory aIndex aCount = some (req, p1)) :
    p1.RandomSeed = p.RandomSeed ∨
      p1.RandomSeed = (p.RandomSeed * 69069 + 1) % 4294967296 := by
  unfold GetRequest at hg
  by_cases hz : p.iNumRequests = 0
  · rw [if_pos hz] at hg
    cases hg
  · rw [if_neg hz] at hg
    cases hc : p.FindCollisionContiguous aMemory aIndex aCount with
    | some r =>
      rw [hc] at hg
      have e2 : p.Wait r = p1 := congrArg Prod.snd (Option.some.inj hg)
      rw [← e2]
      exact Or.inl rfl
    | none =>
      rw [hc] at hg
      cases hf : p.iFreeList with
      | cons r rest =>
        rw [hf] at hg
        have e2 := congrArg Prod.snd (Option.some.inj hg)
        dsimp only at e2
        rw [← e2]
        exact Or.inl rfl
      | nil =>
        rw [hf] at hg
        have e2 := congrArg Prod.snd (Option.some.inj hg)
        dsimp only at e2
        rw [← e2]
        exact Or.inr rfl

theorem signal_seed (p : DPagingRequestPool) (req : Nat) :
    (p.Signal req).RandomSeed = p.RandomSeed := by
  unfold Signal
  dsimp only
  split <;> rfl

/-- The seed of a reachable pool is the initial seed advanced by some number of steps of the
generator. -/
theorem reachable_seed {n : Nat} {w : Bool} {p : DPagingRequestPool} (h : Reachable n w p) :
    ∃ k, p.RandomSeed = (fun x => (x * 69069 + 1) % 4294967296)^[k] 33333 := by
  induction h with
  | init => exact ⟨0, rfl⟩
  | @acquireBegin p p1 req aMemory aIndex aCount _ hb ih =>
    obtain ⟨k, hk⟩ := ih
    unfold AcquirePageReadRequestBegin at hb
    split at hb
    · simp at hb
    · cases hg : p.GetRequest aMemory aIndex aCount with
      | none => rw [hg] at hb; cases hb
      | some v =>
        obtain ⟨r, q⟩ := v
        rw [hg] at hb
        have e2 := congrArg Prod.snd (Option.some.inj hb)
        dsimp only at e2
        rw [← e2]
        rcases getRequest_seed hg with e | e
        · exact ⟨k, by rw [e, hk]⟩
        · refine ⟨k + 1, ?_⟩
          rw [e, hk, Function.iterate_succ_apply']
  | @acquireEnd p req aMemory aIndex aCount _ _ _ _ _ _ _ ih =>
    obtain ⟨k, hk⟩ := ih
    refine ⟨k, ?_⟩
    rw [← hk]
    unfold AcquirePageReadRequestEnd
    split
    · exact signal_seed p req
    · rfl
  | @release p req _ _ _ ih =>
    obtain ⟨k, hk⟩ := ih
    refine ⟨k, ?_⟩
    rw [← hk]
    exact signal_seed _ req
  | @acquireWrite p p1 aMemory aIndex aCount _ hw ih =>
    obtain ⟨k, hk⟩ := ih
    refine ⟨k, ?_⟩
    rw [← hk]
    unfold AcquirePageWriteRequest at hw
    split at hw
    · cases hw
    · have e := Option.some.inj hw
      rw [← e]
  | @releaseWrite p _ ih =>
    obtain ⟨k, hk⟩ := ih
    exact ⟨k, hk⟩

end DPagingRequestPool

/-! ## The page count of `Lock` against the one of `Alloc` -/

namespace DDemandPagingLock

/-- The page count of `Lock` as a quotient of natural numbers, when the sums fit 32 bits. -/
theorem numPages_eq (k start : Nat) (size : Int) (h0 : 0 ≤ size) (hT : size < 2147483648)
    (hov : size + 2 * ((2 : Int) ^ k - 1) < 4294967296) :
    numPages k start size = ((size.toNat + start % 2 ^ k + (2 ^ k - 1)) / 2 ^ k : Nat) := by
  have hM : 0 < 2 ^ k := Nat.two_pow_pos k
  have hoff : start % 2 ^ k < 2 ^ k := Nat.mod_lt _ hM
  have hcast : ((2 ^ k : Nat) : Int) = (2 : Int) ^ k := by push_cast; rfl
  have hov2 : size.toNat + 2 * (2 ^ k - 1) < 4294967296 := by
    have : ((size.toNat + 2 * (2 ^ k - 1) : Nat) : Int) < 4294967296 := by
      push_cast
      rw [Int.toNat_of_nonneg h0, Nat.cast_sub hM]
      push_cast
      exact hov
    exact_mod_cast this
  have hu : toTUint size = size.toNat := by
    unfold toTUint
    rw [Int.emod_eq_of_lt h0 (by omega)]
  unfold numPages
  dsimp only
  rw [hu, Nat.and_pow_two_sub_one_eq_mod, Nat.mod_eq_of_lt (by omega),
    Nat.shiftRight_eq_div_pow]
  have hx : (size.toNat + start % 2 ^ k + (2 ^ k - 1)) / 2 ^ k < 2147483648 := by
    rcases Nat.eq_zero_or_pos k with hk | hk
    · subst hk
      simp
      omega
    · have h2 : 2 ≤ 2 ^ k := by
        calc 2 = 2 ^ 1 := rfl
          _ ≤ 2 ^ k := Nat.pow_le_pow_right (by decide) hk
      apply Nat.div_lt_of_lt_mul
      calc size.toNat + start % 2 ^ k + (2 ^ k - 1) < 4294967296 := by omega
        _ = 2 * 2147483648 := rfl
        _ ≤ 2 ^ k * 2147483648 := Nat.mul_le_mul_right _ h2
  unfold toTInt
  rw [Nat.mod_eq_of_lt (by omega), if_pos hx]

/-- The page count of `Alloc` as a quotient of natural numbers, for a size that is not
negative and with `size + 2*KPageMask` in the range of `TInt`. -/
theorem maxPageCount_nat (k : Nat) (size : Int) (h0 : 0 ≤ size)
    (hov : size + 2 * ((2 : Int) ^ k - 1) < 2147483648) :
    maxPageCount k size = ((size.toNat + 2 * (2 ^ k - 1)) / 2 ^ k : Nat) := by
  have hM : 0 < 2 ^ k := Nat.two_pow_pos k
  have hMi : (0 : Int) < (2 : Int) ^ k := by positivity
  have e : (size - 1 + ((2 : Int) ^ k - 1)) / (2 : Int) ^ k + 1
      = (size - 1 + ((2 : Int) ^ k - 1) + 1 * (2 : Int) ^ k) / (2 : Int) ^ k := by
    rw [Int.add_mul_ediv_right _ _ (ne_of_gt hMi)]
  have e2 : size - 1 + ((2 : Int) ^ k - 1) + 1 * (2 : Int) ^ k
      = ((size.toNat + 2 * (2 ^ k - 1) : Nat) : Int) := by
    push_cast
    rw [Int.toNat_of_nonneg h0, Nat.cast_sub hM]
    push_cast
    ring
  have e3 : ((2 : Int) ^ k) = ((2 ^ k : Nat) : Int) := by push_cast; rfl
  have e4 : (size - 1 + ((2 : Int) ^ k - 1)) / (2 : Int) ^ k + 1
      = ((size.toNat + 2 * (2 ^ k - 1)) / 2 ^ k : Nat) := by
    rw [e, e2]
    conv_lhs => rw [e3]
    exact (Int.natCast_div _ _).symm
  have hov2 : size.toNat + 2 * (2 ^ k - 1) < 2147483648 := by
    have : ((size.toNat + 2 * (2 ^ k - 1) : Nat) : Int) < 2147483648 := by
      push_cast
      rw [Int.toNat_of_nonneg h0, Nat.cast_sub hM]
      push_cast
      exact hov
    exact_mod_cast this
  have hq : (size.toNat + 2 * (2 ^ k - 1)) / 2 ^ k < 2147483648 :=
    Nat.lt_of_le_of_lt (Nat.div_le_self _ _) hov2
  have hmi : (1 : Int) ≤ (2 : Int) ^ k := hMi
  obtain ⟨q, hqe⟩ : ∃ q : Nat, q = (size.toNat + 2 * (2 ^ k - 1)) / 2 ^ k := ⟨_, rfl⟩
  rw [← hqe] at e4 hq ⊢
  rw [maxPageCount_exact k size (by omega) (by omega) (by rw [e4]; omega)
    (by rw [e4]; omega), e4]

end DDemandPagingLock

/-! ## The collision test as a test on intervals -/

namespace DPagingRequest

/-- The collision test finds a stored pair of the memory object whose index, less `aIndex`
modulo 2^32, is below `aCount`. -/
theorem isCollision_iff (r : DPagingRequest) (aMemory aIndex aCount : Nat) :
    r.IsCollisionContiguous aMemory aIndex aCount = true ↔
      ∃ e ∈ r.iUseRegion, e.1 = aMemory ∧ sub32 e.2 aIndex < aCount := by
  unfold IsCollisionContiguous
  rw [List.any_eq_true]
  constructor
  · rintro ⟨e, he, h⟩
    simp only [Bool.and_eq_true, decide_eq_true_eq] at h
    exact ⟨e, he, h⟩
  · rintro ⟨e, he, h⟩
    exact ⟨e, he, by simp only [Bool.and_eq_true, decide_eq_true_eq]; exact h⟩

/-- The unsigned test `TUint(index - aIndex) < aCount` is `aIndex ≤ index < aIndex + aCount`
when `aIndex + aCount` does not overflow. -/
theorem sub32_lt_iff (x i n : Nat) (hi : i + n ≤ 4294967296) :
    sub32 x i < n ↔ i ≤ x ∧ x < i + n := by
  unfold sub32
  split <;> omega

theorem mem_contiguousRegion (aMemory aIndex aCount : Nat) (hs : aIndex + aCount ≤ 4294967296)
    (e : Nat × Nat) :
    e ∈ contiguousRegion aMemory aIndex aCount ↔
      e.1 = aMemory ∧ aIndex ≤ e.2 ∧ e.2 < aIndex + aCount := by
  unfold contiguousRegion
  rw [List.mem_map]
  constructor
  · rintro ⟨t, ht, rfl⟩
    rw [List.mem_range] at ht
    dsimp only
    rw [Nat.mod_eq_of_lt (by omega)]
    exact ⟨rfl, by omega, by omega⟩
  · rintro ⟨h1, h2, h3⟩
    refine ⟨e.2 - aIndex, List.mem_range.2 (by omega), ?_⟩
    rw [Nat.mod_eq_of_lt (by omega)]
    obtain ⟨a, b⟩ := e
    dsimp only at h1 h2 h3 ⊢
    rw [h1]
    congr 1
    omega

/-- The check of a contiguous use region against itself. -/
theorem checkUse_contiguousRegion (aMemory aIndex aCount : Nat) :
    CheckUseContiguous { iUseRegion := contiguousRegion aMemory aIndex aCount }
      aMemory aIndex aCount = true := by
  have hl : (contiguousRegion aMemory aIndex aCount).length = aCount := by
    unfold contiguousRegion
    simp
  unfold CheckUseContiguous iUseRegionCount
  dsimp only
  rw [if_neg (by rw [hl]; exact fun h => h rfl), List.all_eq_true]
  intro i hi
  rw [List.mem_range, hl] at hi
  have hg : (contiguousRegion aMemory aIndex aCount).getD i (0, 0)
      = (aMemory, (aIndex + i) % 4294967296) := by
    unfold contiguousRegion
    rw [List.getD_eq_getElem?_getD, List.getElem?_map, List.getElem?_range hi]
    rfl
  rw [hg]
  simp

end DPagingRequest

/-! ## The page counts that `InitCache` configures -/

namespace DPager

/-- The fields of the state that the first part of `InitCache` leaves. -/
theorem initCacheConfigure_fields (s : DPager) (y : Nat) (config : SDemandPagingConfig)
    (b : Bool) :
    ∃ R limit min2,
      R = (if config.iYoungOldRatio ≠ 0 then config.iYoungOldRatio else KDefaultYoungOldRatio) ∧
      limit = y * (1 + R) / R + s.reservedPagesRequired ∧
      2 * y ≤ min2 ∧
      (s.InitCacheConfigure y config b).iYoungOldRatio = R ∧
      (s.InitCacheConfigure y config b).iMinYoungPages = y ∧
      (s.InitCacheConfigure y config b).iAbsoluteMinPageCount = 2 * y ∧
      (s.InitCacheConfigure y config b).iReservePageCount = s.iReservePageCount ∧
      (s.InitCacheConfigure y config b).iMinimumPageLimit = max limit (2 * y) ∧
      (s.InitCacheConfigure y config b).iMinimumPageCount
        = max min2 (max limit (2 * y) + s.iReservePageCount) := by
  refine ⟨_, _,
    max (if config.iMinPages ≠ 0 then config.iMinPages
      else if b then KDefaultMinPages
      else y * ((if config.iYoungOldRatio ≠ 0 then config.iYoungOldRatio
        else KDefaultYoungOldRatio) + 1)) (2 * y),
    rfl, rfl, ?_, rfl, rfl, rfl, rfl, ?_, ?_⟩
  · exact le_max_right _ (2 * y)
  · exact ite_lt_eq_max _ _
  · unfold InitCacheConfigure
    simp only [gt_iff_lt, ite_lt_eq_max]

/-- With a ratio of at least 1 and a minimum page count of at least twice `iMinYoungPages`,
the young pages left by the old and oldest pages are at least `iMinYoungPages`. -/
theorem initMinYoung_ge (s : DPager) (hr : 1 ≤ s.iYoungOldRatio)
    (hm : 2 * s.iMinYoungPages ≤ s.iMinimumPageCount) :
    s.initMinYoung = s.iMinimumPageCount - s.iMinimumPageCount / (1 + s.iYoungOldRatio) ∧
    s.iMinYoungPages ≤ s.initMinYoung := by
  have h1 : s.iMinimumPageCount / (1 + s.iYoungOldRatio) ≤ s.iMinimumPageCount / 2 :=
    Nat.div_le_div_left (by omega) (by decide)
  have h2 : s.iMinimumPageCount / (1 + s.iYoungOldRatio) ≤ s.iMinimumPageCount :=
    Nat.div_le_self _ _
  have e : s.initMinYoung = s.iMinimumPageCount - s.iMinimumPageCount / (1 + s.iYoungOldRatio) := by
    unfold initMinYoung initMinOldAndOldest
    rw [sub32_le h2]
  refine ⟨e, ?_⟩
  rw [e]
  omega

end DPager

/-! ## The accounting slack under the operations that grow and shrink the live list -/

namespace DPager

theorem liveCount_eq_size {s : DPager} (h : s.LiveListConsistent) :
    s.liveCount = s.liveListSize := by
  rw [liveListSize_eq_counts h]
  rfl

theorem slack_eq {s t : DPager} (h1 : t.liveCount = s.liveCount)
    (h2 : t.iMinimumPageCount = s.iMinimumPageCount)
    (h3 : t.iNumberOfFreePages = s.iNumberOfFreePages) :
    t.accountingSlack = s.accountingSlack := by
  unfold accountingSlack
  rw [h1, h2, h3]

/-- The step `TryGrowLiveList` keeps the slack: a frame that is obtained counts as free and
as oldest clean. -/
theorem slack_tryGrow (s : DPager) :
    s.TryGrowLiveList.2.accountingSlack = s.accountingSlack := by
  unfold TryGrowLiveList GetPageFromSystem
  rcases h : s.allocRam s.allocCalls with _ | p
  · rfl
  · show (((s.iYoungCount + s.iOldCount + (s.iOldestCleanCount + 1) + s.iOldestDirtyCount
      : Nat) : Int)) - ((s.iMinimumPageCount : Int) + ((s.iNumberOfFreePages + 1 : Nat) : Int))
      = ((s.iYoungCount + s.iOldCount + s.iOldestCleanCount + s.iOldestDirtyCount : Nat) : Int)
        - ((s.iMinimumPageCount : Int) + (s.iNumberOfFreePages : Int))
    push_cast
    ring

theorem oldestLink_pos {s : DPager} {p : Nat} (h : s.OldestLink = some p) :
    0 < s.liveListSize := by
  have key : ∀ l : List Nat, l.getLast? = some p → 0 < l.length := fun l hl =>
    List.length_pos_of_mem (List.mem_of_getLast?_eq_some hl)
  unfold OldestLink at h
  unfold liveListSize
  split_ifs at h
  · have := key _ h; omega
  · have := key _ h; omega
  · have := key _ h; omega
  · have := key _ h; omega

/-- When the retry loop of `StealOldestPage` returns, on a consistent live list whose
managers do not refuse, the live list is consistent and one frame shorter. -/
theorem stealLoop_post (fuel : Nat) :
    ∀ (held : Bool) (s : DPager) (p : Nat) (s1 : DPager), s.LiveListConsistent →
      (∀ n, s.mgrStealPage n = KErrNone) →
      StealOldestPageLoop fuel held s = some (p, s1) →
      s1.LiveListConsistent ∧ s1.liveListSize + 1 = s.liveListSize := by
  induction fuel with
  | zero => intro held s p s1 _ _ h; exact absurd h (by simp [StealOldestPageLoop])
  | succ k ih =>
    intro held s p s1 hc hmgr h
    rw [StealOldestPageLoop] at h
    rcases hl : s.OldestLink with _ | q
    · have : s.TryStealOldestPage none = none := by
        unfold TryStealOldestPage
        rw [hl]
      rw [this] at h
      exact absurd h (by simp)
    · have hpos := oldestLink_pos hl
      obtain ⟨p2, -, h1, h2⟩ := tryStealOldest_ok hc hpos hmgr none
      by_cases hd : ((s.pageInfo p2).IsDirty && !s.cleaningLockHeld) = true
      · rw [h1 hd] at h
        dsimp only at h
        rw [if_neg (by decide), if_pos rfl] at h
        cases held with
        | true => exact absurd h (by simp)
        | false =>
          simp only [Bool.false_eq_true, if_false] at h
          exact ih true { s with cleaningLockHeld := true } p s1 hc hmgr h
      · obtain ⟨s2, e, hc2, hs2⟩ := h2 (by simpa using hd)
        rw [e] at h
        dsimp only at h
        rw [if_pos rfl] at h
        have e2 := congrArg Prod.snd (Option.some.inj h)
        dsimp only at e2
        rw [← e2]
        cases held with
        | true => exact ⟨hc2, hs2⟩
        | false => exact ⟨hc2, hs2⟩

/-- What `ReturnPageToSystem()` does when it returns, from a consistent live list whose
managers do not refuse and with a free page accounted. -/
theorem returnPage_post {s s1 : DPager} {fuel : Nat} (h : s.LiveListConsistent)
    (hmgr : ∀ n, s.mgrStealPage n = KErrNone) (hfree : 0 < s.iNumberOfFreePages)
    (e : ReturnPageToSystem fuel s = some s1) :
    s1.LiveListConsistent ∧ s1.liveListSize + 1 = s.liveListSize ∧
    (∀ n, s1.mgrStealPage n = KErrNone) ∧
    s1.iMinimumPageCount = s.iMinimumPageCount ∧
    s1.iMaximumPageCount = s.iMaximumPageCount ∧
    s1.iNumberOfFreePages + 1 = s.iNumberOfFreePages ∧
    s1.freedRam.length = s.freedRam.length + 1 ∧
    s1.accountingSlack = s.accountingSlack := by
  obtain ⟨p, hp⟩ := returnPage_spec e
  have e1 : s1.iMinimumPageCount = s.iMinimumPageCount := congrArg Outside.iMinimumPageCount hp
  have e2 : s1.iMaximumPageCount = s.iMaximumPageCount := congrArg Outside.iMaximumPageCount hp
  have e3 : s1.iNumberOfFreePages = sub32 s.iNumberOfFreePages 1 :=
    congrArg Outside.iNumberOfFreePages hp
  have e4 : s1.freedRam = p :: s.freedRam := congrArg Outside.freedRam hp
  have e5 : s1.mgrStealPage = s.mgrStealPage := congrArg Outside.mgrStealPage hp
  rw [sub32_one hfree] at e3
  have hs : s1.LiveListConsistent ∧ s1.liveListSize + 1 = s.liveListSize := by
    unfold ReturnPageToSystem StealOldestPage at e
    split at e
    · exact absurd e (by simp)
    · next q s2 hq =>
      have := stealLoop_post _ _ _ _ _ h hmgr hq
      simp only [Option.some.injEq] at e
      rw [← e]
      exact this
  refine ⟨hs.1, hs.2, fun n => by rw [e5]; exact hmgr n, e1, e2, by omega,
    by rw [e4]; rfl, ?_⟩
  unfold accountingSlack
  rw [liveCount_eq_size hs.1, liveCount_eq_size h, e1, e3]
  have := hs.2
  omega

/-- The loop guard of `RemoveExcessPages` implies a free page when the minimum is not above
the maximum. -/
theorem free_pos_of_tooMany {s : DPager} (hmm : s.iMinimumPageCount ≤ s.iMaximumPageCount)
    (h : s.HaveTooManyPages = true) : 0 < s.iNumberOfFreePages := by
  unfold HaveTooManyPages at h
  have := of_decide_eq_true h
  omega

/-- What `RemoveExcessPages` does when it returns. -/
theorem removeExcess_post (fuel : Nat) :
    ∀ (s s1 : DPager), s.LiveListConsistent → (∀ n, s.mgrStealPage n = KErrNone) →
      s.iMinimumPageCount ≤ s.iMaximumPageCount →
      RemoveExcessPages fuel s = some s1 →
      s1.LiveListConsistent ∧ (∀ n, s1.mgrStealPage n = KErrNone) ∧
      s1.iMinimumPageCount = s.iMinimumPageCount ∧
      s1.iMaximumPageCount = s.iMaximumPageCount ∧
      s1.iMinimumPageCount + s1.iNumberOfFreePages ≤ s1.iMaximumPageCount ∧
      s1.iNumberOfFreePages
          + (s.iMinimumPageCount + s.iNumberOfFreePages - s.iMaximumPageCount)
        = s.iNumberOfFreePages ∧
      s1.freedRam.length = s.freedRam.length
          + (s.iMinimumPageCount + s.iNumberOfFreePages - s.iMaximumPageCount) ∧
      s1.liveListSize + (s.iMinimumPageCount + s.iNumberOfFreePages - s.iMaximumPageCount)
        = s.liveListSize ∧
      s1.accountingSlack = s.accountingSlack := by
  induction fuel with
  | zero => intro s s1 _ _ _ h; exact absurd h (by simp [RemoveExcessPages])
  | succ k ih =>
    intro s s1 hc hmgr hmm h
    rw [RemoveExcessPages] at h
    by_cases ht : s.HaveTooManyPages = true
    · rw [if_pos ht] at h
      have hfree := free_pos_of_tooMany hmm ht
      have ht2 : s.iMinimumPageCount + s.iNumberOfFreePages > s.iMaximumPageCount :=
        of_decide_eq_true ht
      split at h
      · exact absurd h (by simp)
      · next s2 hr =>
        obtain ⟨q1, q2, q3, q4, q5, q6, q7, q8⟩ := returnPage_post hc hmgr hfree hr
        obtain ⟨p1, p2, p3, p4, p5, p6, p7, p8, p9⟩ := ih s2 s1 q1 q3 (by omega) h
        refine ⟨p1, p2, p3.trans q4, p4.trans q5, p5, by omega, by omega, by omega,
          p9.trans q8⟩
    · rw [if_neg ht] at h
      simp only [Option.some.injEq] at h
      rw [← h]
      have ht2 : ¬ s.iMinimumPageCount + s.iNumberOfFreePages > s.iMaximumPageCount := by
        intro hx
        exact ht (decide_eq_true hx)
      refine ⟨hc, hmgr, rfl, rfl, by omega, by omega, by omega, by omega, rfl⟩

/-- The loop `RemoveExcessPages` returns when the live list holds the excess frames. -/
theorem removeExcess_total (e : Nat) :
    ∀ (s : DPager) (fuel : Nat), s.LiveListConsistent → (∀ n, s.mgrStealPage n = KErrNone) →
      s.iMinimumPageCount ≤ s.iMaximumPageCount →
      s.iMinimumPageCount + s.iNumberOfFreePages - s.iMaximumPageCount = e →
      e ≤ s.liveListSize → e + 2 ≤ fuel →
      ∃ s1, RemoveExcessPages fuel s = some s1 := by
  induction e with
  | zero =>
    intro s fuel hc hmgr hmm he hsz hf
    obtain ⟨k, rfl⟩ : ∃ k, fuel = k + 1 := ⟨fuel - 1, by omega⟩
    rw [RemoveExcessPages, if_neg]
    · exact ⟨s, rfl⟩
    · unfold HaveTooManyPages
      simp only [decide_eq_true_eq]
      omega
  | succ e ih =>
    intro s fuel hc hmgr hmm he hsz hf
    obtain ⟨k, rfl⟩ : ∃ k, fuel = k + 1 := ⟨fuel - 1, by omega⟩
    have ht : s.HaveTooManyPages = true := by
      unfold HaveTooManyPages
      simp only [decide_eq_true_eq]
      omega
    rw [RemoveExcessPages, if_pos ht]
    obtain ⟨s2, hr, -, -, -⟩ := returnPage_ok hc (by omega) hmgr k (by omega)
    obtain ⟨q1, q2, q3, q4, q5, q6, q7, q8⟩ :=
      returnPage_post hc hmgr (free_pos_of_tooMany hmm ht) hr
    rw [hr]
    exact ih s2 k q1 q3 (by omega) (by omega) (by omega) (by omega)

end DPager

/-! ## The accounting slack under `ReservePage`, `DonatePages` and `ReclaimPages` -/

namespace DPager

theorem slack_reservePageGrow (fuel : Nat) :
    ∀ (s : DPager) (b : Bool) (s1 : DPager), ReservePageGrow fuel s = some (b, s1) →
      s1.accountingSlack = s.accountingSlack ∧
      (b = true → s1.iMinimumPageCount = s1.iMinimumPageLimit + s1.iReservePageCount →
        0 < s1.iNumberOfFreePages) := by
  induction fuel with
  | zero => intro s b s1 h; exact absurd h (by simp [ReservePageGrow])
  | succ k ih =>
    intro s b s1 h
    rw [ReservePageGrow] at h
    split at h
    · split at h
      · obtain ⟨p1, p2⟩ := ih _ b s1 h
        exact ⟨p1.trans (slack_tryGrow s), p2⟩
      · simp only [Option.some.injEq, Prod.mk.injEq] at h
        rw [← h.2, ← h.1]
        exact ⟨slack_tryGrow s, fun hb => absurd hb (by decide)⟩
    · next hc =>
      simp only [Option.some.injEq, Prod.mk.injEq] at h
      rw [← h.2]
      refine ⟨rfl, fun _ he => ?_⟩
      rcases Nat.eq_zero_or_pos s.iNumberOfFreePages with h0 | h0
      · exact absurd ⟨he, h0⟩ hc
      · exact h0

/-- The operation `ReservePage` keeps the slack: a page that is reserved moves from the free
count to the minimum. -/
theorem slack_reservePage {s : DPager} {fuel : Nat} {r : Bool} {s1 : DPager}
    (h : ReservePage fuel s = some (r, s1)) : s1.accountingSlack = s.accountingSlack := by
  unfold ReservePage at h
  split at h
  · exact absurd h (by simp)
  · next t hg =>
    simp only [Option.some.injEq, Prod.mk.injEq] at h
    rw [← h.2]
    exact (slack_reservePageGrow fuel s false t hg).1
  · next t hg =>
    obtain ⟨p1, p2⟩ := slack_reservePageGrow fuel s true t hg
    simp only [Option.some.injEq, Prod.mk.injEq] at h
    rw [← h.2, ← p1]
    by_cases he : t.iMinimumPageCount = t.iMinimumPageLimit + t.iReservePageCount
    · have hfree := p2 rfl he
      rw [if_pos he]
      have key : ∀ u : DPager, u.liveCount = t.liveCount →
          u.iMinimumPageCount = t.iMinimumPageCount + 1 →
          u.iNumberOfFreePages = sub32 t.iNumberOfFreePages 1 →
          u.accountingSlack = t.accountingSlack := by
        intro u h1 h2 h3
        unfold accountingSlack
        rw [h1, h2, h3, sub32_one hfree]
        push_cast
        omega
      split
      · exact key _ rfl rfl rfl
      · exact key _ rfl rfl rfl
    · rw [if_neg he]
      rfl

/-- Removing a linked frame of the live list together with one free page, then balancing,
keeps the slack. -/
theorem slack_reclaimStep {t : DPager} {page : Nat} (hc : t.LiveListConsistent)
    (hon : t.OnLiveList page) (hfree : 0 < t.iNumberOfFreePages) :
    (RemovePage { t with iNumberOfFreePages := sub32 t.iNumberOfFreePages 1 }
        page).BalanceAges.accountingSlack = t.accountingSlack ∧
    (RemovePage { t with iNumberOfFreePages := sub32 t.iNumberOfFreePages 1 }
        page).BalanceAges.LiveListConsistent ∧
    (RemovePage { t with iNumberOfFreePages := sub32 t.iNumberOfFreePages 1 }
        page).BalanceAges.outside
      = { t.outside with iNumberOfFreePages := t.iNumberOfFreePages - 1 } := by
  obtain ⟨u, hu⟩ : ∃ u : DPager, u = { t with iNumberOfFreePages := sub32 t.iNumberOfFreePages 1 } :=
    ⟨_, rfl⟩
  rw [← hu]
  have hcu : u.LiveListConsistent := by rw [hu]; exact hc
  have honu : u.OnLiveList page := by rw [hu]; exact hon
  have hlu : u.Linked page := fun _ => honu
  have c1 := (consistent_RemovePage hcu hlu).1
  have z1 := liveListSize_RemovePage hcu honu
  have o1 := outside_RemovePage u page
  have c2 := consistent_BalanceAges c1
  have z2 := liveListSize_BalanceAges c1
  have o2 := outside_BalanceAges (u.RemovePage page)
  have ou : u.outside = { t.outside with iNumberOfFreePages := t.iNumberOfFreePages - 1 } := by
    rw [hu]
    show ({ t.outside with iNumberOfFreePages := sub32 t.iNumberOfFreePages 1 } : Outside) = _
    rw [sub32_one hfree]
  have oo := (o2.trans o1).trans ou
  refine ⟨?_, c2, oo⟩
  have e1 : (u.RemovePage page).BalanceAges.iMinimumPageCount = t.iMinimumPageCount :=
    congrArg Outside.iMinimumPageCount oo
  have e2 : (u.RemovePage page).BalanceAges.iNumberOfFreePages = t.iNumberOfFreePages - 1 :=
    congrArg Outside.iNumberOfFreePages oo
  have zu : u.liveListSize = t.liveListSize := by rw [hu]; rfl
  unfold accountingSlack
  rw [liveCount_eq_size c2, liveCount_eq_size hc, e1, e2, z2]
  omega

/-- One frame donated: the slack is kept. -/
theorem slack_donatePage {s s1 : DPager} {fuel : Nat} {pagePhys : Nat × Bool}
    (hc : s.LiveListConsistent) (hmgr : ∀ n, s.mgrStealPage n = KErrNone)
    (hmm : s.iMinimumPageCount ≤ s.iMaximumPageCount)
    (h : DonatePage fuel s pagePhys = some s1) :
    s1.accountingSlack = s.accountingSlack ∧ s1.LiveListConsistent := by
  unfold DonatePage at h
  split at h
  · simp only [Option.some.injEq] at h
    rw [← h]; exact ⟨rfl, hc⟩
  · split at h
    · next hst =>
      have hoff : ¬ s.OnLiveList pagePhys.1 :=
        not_onLiveList_of_not_sublist hc (by rw [hst]; rfl)
      have c1 := consistent_AddAsYoungestPage hc hoff
      dsimp only at h
      split at h
      · exact absurd h (by simp)
      · next s3 hr =>
        simp only [Option.some.injEq] at h
        obtain ⟨p1, -, p3, -, -, -, -, -, p9⟩ := removeExcess_post fuel
          { s.AddAsYoungestPage pagePhys.1 with
            iNumberOfFreePages := (s.AddAsYoungestPage pagePhys.1).iNumberOfFreePages + 1 }
          s3 c1 hmgr hmm hr
        have c2 := consistent_BalanceAges p1
        have z2 := liveListSize_BalanceAges p1
        have o2 := outside_BalanceAges s3
        rw [← h]
        refine ⟨?_, c2⟩
        have e0 : s3.BalanceAges.accountingSlack = s3.accountingSlack := by
          unfold accountingSlack
          rw [liveCount_eq_size c2, liveCount_eq_size p1, z2,
            show s3.BalanceAges.iMinimumPageCount = s3.iMinimumPageCount from
              congrArg Outside.iMinimumPageCount o2,
            show s3.BalanceAges.iNumberOfFreePages = s3.iNumberOfFreePages from
              congrArg Outside.iNumberOfFreePages o2]
        rw [e0, p9]
        show (((s.iYoungCount + 1 + s.iOldCount + s.iOldestCleanCount + s.iOldestDirtyCount
          : Nat) : Int)) - ((s.iMinimumPageCount : Int) + ((s.iNumberOfFreePages + 1 : Nat) : Int))
          = ((s.iYoungCount + s.iOldCount + s.iOldestCleanCount + s.iOldestDirtyCount : Nat)
              : Int) - ((s.iMinimumPageCount : Int) + (s.iNumberOfFreePages : Int))
        push_cast
        ring
    · simp only [Option.some.injEq] at h
      rw [← h]; exact ⟨rfl, hc⟩

end DPager

namespace DPager

/-- The step `TryGrowLiveList` with an allocator that hands out an unpaged frame keeps the
live list consistent and leaves the frames of the live list where they are. -/
theorem consistent_tryGrow {s : DPager} (hc : s.LiveListConsistent)
    (hfresh : ∀ q, s.allocRam s.allocCalls = some q →
      (s.pageInfo q).iPagedState = TPagedState.EUnpaged) :
    s.TryGrowLiveList.2.LiveListConsistent ∧
    (∀ p, s.OnLiveList p →
      s.TryGrowLiveList.2.OnLiveList p ∧ s.TryGrowLiveList.2.pageInfo p = s.pageInfo p) := by
  unfold TryGrowLiveList GetPageFromSystem
  rcases h : s.allocRam s.allocCalls with _ | q
  · exact ⟨hc, fun p hp => ⟨hp, rfl⟩⟩
  · have hoff : ¬ s.OnLiveList q :=
      not_onLiveList_of_not_sublist hc (by rw [hfresh q h]; rfl)
    have key : ∀ u : DPager, u.LiveListConsistent → ¬ u.OnLiveList q →
        (∀ p, s.OnLiveList p → u.OnLiveList p) → u.pageInfo = s.pageInfo →
        (u.AddAsFreePage q).LiveListConsistent ∧
        ∀ p, s.OnLiveList p →
          (u.AddAsFreePage q).OnLiveList p ∧ (u.AddAsFreePage q).pageInfo p = s.pageInfo p := by
      intro u hcu hoffu hon hpi
      refine ⟨consistent_AddAsFreePage hcu hoffu, ?_⟩
      intro p hp
      have hne : p ≠ q := fun e => hoff (e ▸ hp)
      obtain ⟨a, b⟩ := addAsFreePage_other u hne
      exact ⟨b.2 (hon p hp), by rw [a, hpi]⟩
    exact key
      { s with
        allocCalls := s.allocCalls + 1
        iNumberOfFreePages := s.iNumberOfFreePages + 1 }
      hc hoff (fun p hp => hp) rfl

theorem reclaimLoop_nil {fuel : Nat} {s s1 : DPager} {r0 r : Int}
    (h : ReclaimPagesLoop fuel s r0 [] = some (r, s1)) : s1 = s := by
  cases fuel with
  | zero => exact absurd h (by simp [ReclaimPagesLoop])
  | succ k =>
    rw [ReclaimPagesLoop] at h
    simp only [Option.some.injEq, Prod.mk.injEq] at h
    exact h.2.symm

/-- The loop of `ReclaimPages` on a committed frame of the live list with a free page
accounted: the frame is removed together with one free page. -/
theorem reclaimLoop_ready {t : DPager} {page : Nat} (k : Nat) (r0 : Int)
    (hst : (t.pageInfo page).iPagedState ≠ TPagedState.EUnpaged)
    (hfree : 0 < t.iNumberOfFreePages) :
    ReclaimPagesLoop (k + 1) t r0 [(page, true)] =
      ReclaimPagesLoop k
        (RemovePage { t with iNumberOfFreePages := sub32 t.iNumberOfFreePages 1 }
          page).BalanceAges r0 [] := by
  rw [ReclaimPagesLoop]
  dsimp only
  rw [if_neg (by simp), if_neg hst, if_neg (by omega)]

/-- The loop of `ReclaimPages` on one page keeps the slack. -/
theorem slack_reclaimLoop_single {s s1 : DPager} {fuel : Nat} {pagePhys : Nat × Bool}
    {r0 r : Int} (hc : s.LiveListConsistent) (hl : s.Linked pagePhys.1)
    (hp1 : (s.pageInfo pagePhys.1).iPagedState ≠ TPagedState.EPagedPinned)
    (hp2 : (s.pageInfo pagePhys.1).iPagedState ≠ TPagedState.EPagedPinnedMoved)
    (hfresh : ∀ q, s.allocRam s.allocCalls = some q →
      (s.pageInfo q).iPagedState = TPagedState.EUnpaged)
    (h : ReclaimPagesLoop fuel s r0 [pagePhys] = some (r, s1)) :
    s1.accountingSlack = s.accountingSlack ∧ s1.LiveListConsistent ∧
    s1.mgrStealPage = s.mgrStealPage ∧ s1.iMinimumPageCount = s.iMinimumPageCount ∧
    s1.iMaximumPageCount = s.iMaximumPageCount := by
  obtain ⟨page, c⟩ := pagePhys
  dsimp only at hl hp1 hp2
  have same : s1 = s → s1.accountingSlack = s.accountingSlack ∧ s1.LiveListConsistent ∧
      s1.mgrStealPage = s.mgrStealPage ∧ s1.iMinimumPageCount = s.iMinimumPageCount ∧
      s1.iMaximumPageCount = s.iMaximumPageCount := by
    intro e; rw [e]; exact ⟨rfl, hc, rfl, rfl, rfl⟩
  have ready : ∀ (t : DPager) (k : Nat), t.LiveListConsistent → t.OnLiveList page →
      (t.pageInfo page).iPagedState ≠ TPagedState.EUnpaged → 0 < t.iNumberOfFreePages →
      ReclaimPagesLoop (k + 1) t r0 [(page, true)] = some (r, s1) →
      s1.accountingSlack = t.accountingSlack ∧ s1.LiveListConsistent ∧
      s1.mgrStealPage = t.mgrStealPage ∧ s1.iMinimumPageCount = t.iMinimumPageCount ∧
      s1.iMaximumPageCount = t.iMaximumPageCount := by
    intro t k hct hont hstt hfreet ht
    rw [reclaimLoop_ready k r0 hstt hfreet] at ht
    have e := reclaimLoop_nil ht
    obtain ⟨a1, a2, a3⟩ := slack_reclaimStep hct hont hfreet
    rw [e]
    exact ⟨a1, a2, congrArg Outside.mgrStealPage a3, congrArg Outside.iMinimumPageCount a3,
      congrArg Outside.iMaximumPageCount a3⟩
  cases fuel with
  | zero => exact absurd h (by simp [ReclaimPagesLoop])
  | succ k =>
    cases c with
    | false =>
      rw [ReclaimPagesLoop] at h
      dsimp only at h
      rw [if_pos (by simp)] at h
      exact same (reclaimLoop_nil h)
    | true =>
      by_cases hst : (s.pageInfo page).iPagedState = TPagedState.EUnpaged
      · rw [ReclaimPagesLoop] at h
        dsimp only at h
        rw [if_neg (by simp), if_pos hst] at h
        exact same (reclaimLoop_nil h)
      · have hsub : IsSublistState (s.pageInfo page).iPagedState = true := by
          rcases hx : (s.pageInfo page).iPagedState <;> first
            | rfl
            | exact absurd hx hst
            | exact absurd hx hp1
            | exact absurd hx hp2
        have hon : s.OnLiveList page := hl hsub
        by_cases hfree : s.iNumberOfFreePages < 1
        · rw [ReclaimPagesLoop] at h
          dsimp only at h
          rw [if_neg (by simp), if_neg hst, if_pos hfree] at h
          obtain ⟨g1, g2, -, -, -, -, g7, g8⟩ := tryGrow_fields s
          have gm : s.TryGrowLiveList.2.mgrStealPage = s.mgrStealPage :=
            congrArg Outside.mgrStealPage (tryGrow_spec s).2
          obtain ⟨t1, t2⟩ := consistent_tryGrow hc hfresh
          by_cases hg : s.TryGrowLiveList.1 = true
          · rw [if_pos hg] at h
            obtain ⟨j, rfl⟩ : ∃ j, k = j + 1 := by
              cases k with
              | zero => exact absurd h (by simp [ReclaimPagesLoop])
              | succ j => exact ⟨j, rfl⟩
            obtain ⟨b1, b2, b3, b4, b5⟩ := ready _ j t1 (t2 page hon).1
              (by rw [(t2 page hon).2]; exact hst) (by rw [g7 hg]; omega) h
            exact ⟨b1.trans (slack_tryGrow s), b2, b3.trans gm, b4.trans g1, b5.trans g2⟩
          · rw [if_neg hg] at h
            simp only [Option.some.injEq, Prod.mk.injEq] at h
            rw [← h.2]
            exact ⟨slack_tryGrow s, t1, gm, g1, g2⟩
        · exact ready s k hc hon hst (by omega) h

/-- The operation `ReclaimPages` on one page keeps the slack. -/
theorem slack_reclaimPages_single {s s1 : DPager} {fuel : Nat} {pagePhys : Nat × Bool}
    {r : Int} (hc : s.LiveListConsistent) (hmgr : ∀ n, s.mgrStealPage n = KErrNone)
    (hmm : s.iMinimumPageCount ≤ s.iMaximumPageCount) (hl : s.Linked pagePhys.1)
    (hp1 : (s.pageInfo pagePhys.1).iPagedState ≠ TPagedState.EPagedPinned)
    (hp2 : (s.pageInfo pagePhys.1).iPagedState ≠ TPagedState.EPagedPinnedMoved)
    (hfresh : ∀ q, s.allocRam s.allocCalls = some q →
      (s.pageInfo q).iPagedState = TPagedState.EUnpaged)
    (h : ReclaimPages fuel s [pagePhys] = some (r, s1)) :
    s1.accountingSlack = s.accountingSlack := by
  unfold ReclaimPages at h
  split at h
  · exact absurd h (by simp)
  · next r1 t hloop =>
    obtain ⟨a1, a2, a3, a4, a5⟩ := slack_reclaimLoop_single hc hl hp1 hp2 hfresh hloop
    split at h
    · exact absurd h (by simp)
    · next s2 hr =>
      simp only [Option.some.injEq, Prod.mk.injEq] at h
      obtain ⟨-, -, -, -, -, -, -, -, p9⟩ := removeExcess_post fuel t s2 a2
        (fun n => by rw [a3]; exact hmgr n) (by rw [a4, a5]; exact hmm) hr
      rw [← h.2, p9, a1]

/-- The operation `DonatePages` on one page keeps the slack. -/
theorem slack_donatePages_single {s s1 : DPager} {fuel : Nat} {pagePhys : Nat × Bool}
    (hc : s.LiveListConsistent) (hmgr : ∀ n, s.mgrStealPage n = KErrNone)
    (hmm : s.iMinimumPageCount ≤ s.iMaximumPageCount)
    (h : DonatePages fuel s [pagePhys] = some s1) :
    s1.accountingSlack = s.accountingSlack := by
  rw [DonatePages] at h
  split at h
  · exact absurd h (by simp)
  · next t ht =>
    rw [DonatePages] at h
    simp only [Option.some.injEq] at h
    rw [← h]
    exact (slack_donatePage hc hmgr hmm ht).1

end DPager

/-! ## The accounting slack under `ResizeLiveList` -/

namespace DPager

/-- Once the loop that raises the minimum has no more than one free page and no room to
overshoot, it ends without a free page and with the minimum at most the target. -/
theorem growMin_phaseB (fuel : Nat) :
    ∀ (s : DPager) (aMin : Nat) (r : Int) (s1 : DPager), s.iNumberOfFreePages ≤ 1 →
      s.iMinimumPageCount + s.iNumberOfFreePages ≤ aMin →
      ResizeGrowMin fuel s aMin = some (r, s1) →
      s1.iNumberOfFreePages = 0 ∧ s1.iMinimumPageCount ≤ aMin := by
  induction fuel with
  | zero => intro s aMin r s1 _ _ h; exact absurd h (by simp [ResizeGrowMin])
  | succ k ih =>
    intro s aMin r s1 h1 h2 h
    obtain ⟨g1, -, -, -, -, -, g7, g8⟩ := tryGrow_fields s
    by_cases hlt : s.iMinimumPageCount < aMin
    · by_cases hf : s.iNumberOfFreePages = 0
      · rw [growMin_step_grow k s aMin hlt hf] at h
        by_cases hg : s.TryGrowLiveList.1 = true
        · rw [if_pos hg] at h
          exact ih _ aMin r s1 (by rw [g7 hg]; omega) (by rw [g1, g7 hg]; omega) h
        · rw [if_neg hg] at h
          simp only [Option.some.injEq, Prod.mk.injEq] at h
          rw [← h.2, g1, g8 (by simpa using hg)]
          exact ⟨hf, by omega⟩
      · rw [growMin_step_consume k s aMin hlt (by omega)] at h
        refine ih _ aMin r s1 ?_ ?_ h
        · show s.iNumberOfFreePages
            - (min aMin (s.iMinimumPageCount + s.iNumberOfFreePages) - s.iMinimumPageCount) ≤ 1
          omega
        · show min aMin (s.iMinimumPageCount + s.iNumberOfFreePages)
            + (s.iNumberOfFreePages
              - (min aMin (s.iMinimumPageCount + s.iNumberOfFreePages) - s.iMinimumPageCount))
            ≤ aMin
          omega
    · rw [growMin_done k s aMin hlt] at h
      simp only [Option.some.injEq, Prod.mk.injEq] at h
      rw [← h.2]
      exact ⟨by omega, by omega⟩

/-- The loop that raises the minimum keeps the slack; either it has not touched the live
list, or it ends without a free page and with the minimum at most the target. -/
theorem growMin_slack (fuel : Nat) :
    ∀ (s : DPager) (aMin : Nat) (r : Int) (s1 : DPager),
      ResizeGrowMin fuel s aMin = some (r, s1) →
      s1.accountingSlack = s.accountingSlack ∧ s1.mgrStealPage = s.mgrStealPage ∧
      ((s.LiveListConsistent → s1.LiveListConsistent) ∨
        (s1.iNumberOfFreePages = 0 ∧ s1.iMinimumPageCount ≤ aMin)) := by
  induction fuel with
  | zero => intro s aMin r s1 h; exact absurd h (by simp [ResizeGrowMin])
  | succ k ih =>
    intro s aMin r s1 h
    obtain ⟨g1, -, -, -, -, -, g7, g8⟩ := tryGrow_fields s
    have gm : s.TryGrowLiveList.2.mgrStealPage = s.mgrStealPage :=
      congrArg Outside.mgrStealPage (tryGrow_spec s).2
    by_cases hlt : s.iMinimumPageCount < aMin
    · by_cases hf : s.iNumberOfFreePages = 0
      · rw [growMin_step_grow k s aMin hlt hf] at h
        by_cases hg : s.TryGrowLiveList.1 = true
        · rw [if_pos hg] at h
          obtain ⟨p1, p2, -⟩ := ih _ aMin r s1 h
          exact ⟨p1.trans (slack_tryGrow s), p2.trans gm,
            Or.inr (growMin_phaseB k _ aMin r s1 (by rw [g7 hg]; omega)
              (by rw [g1, g7 hg]; omega) h)⟩
        · rw [if_neg hg] at h
          simp only [Option.some.injEq, Prod.mk.injEq] at h
          rw [← h.2]
          refine ⟨slack_tryGrow s, gm, Or.inr ⟨?_, ?_⟩⟩
          · rw [g8 (by simpa using hg)]; exact hf
          · rw [g1]; omega
      · rw [growMin_step_consume k s aMin hlt (by omega)] at h
        obtain ⟨p1, p2, p3⟩ := ih _ aMin r s1 h
        refine ⟨p1.trans ?_, p2, ?_⟩
        · show (s.liveCount : Int)
            - (((min aMin (s.iMinimumPageCount + s.iNumberOfFreePages) : Nat) : Int)
              + ((s.iNumberOfFreePages
                - (min aMin (s.iMinimumPageCount + s.iNumberOfFreePages)
                  - s.iMinimumPageCount) : Nat) : Int))
            = (s.liveCount : Int) - ((s.iMinimumPageCount : Int) + (s.iNumberOfFreePages : Int))
          omega
        · rcases p3 with p3 | p3
          · exact Or.inl (fun hc => p3 hc)
          · exact Or.inr p3
    · rw [growMin_done k s aMin hlt] at h
      simp only [Option.some.injEq, Prod.mk.injEq] at h
      rw [← h.2]
      exact ⟨rfl, rfl, Or.inl (fun hc => hc)⟩

/-- The loop that lowers the maximum keeps the slack, from a consistent live list whose
managers do not refuse. -/
theorem shrinkMax_slack (fuel : Nat) :
    ∀ (s : DPager) (aMax : Nat) (s1 : DPager), s.LiveListConsistent →
      (∀ n, s.mgrStealPage n = KErrNone) →
      s.iMinimumPageCount + s.iNumberOfFreePages ≤ s.iMaximumPageCount →
      s.iMinimumPageCount ≤ aMax →
      ResizeShrinkMax fuel s aMax = some s1 →
      s1.accountingSlack = s.accountingSlack := by
  induction fuel with
  | zero => intro s aMax s1 _ _ _ _ h; exact absurd h (by simp [ResizeShrinkMax])
  | succ k ih =>
    intro s aMax s1 hc hmgr i3 hmin h
    rw [ResizeShrinkMax] at h
    by_cases hgt : s.iMaximumPageCount > aMax
    · rw [if_pos hgt] at h
      dsimp only at h
      rw [ite_lt_eq_max, sub32_le (by omega)] at h
      by_cases hd : s.iMaximumPageCount
          - max aMax (s.iMinimumPageCount + s.iNumberOfFreePages) ≠ 0
      · rw [if_pos hd] at h
        exact ih { s with
            iMaximumPageCount := max aMax (s.iMinimumPageCount + s.iNumberOfFreePages) }
          aMax s1 hc hmgr
          (by show s.iMinimumPageCount + s.iNumberOfFreePages
                ≤ max aMax (s.iMinimumPageCount + s.iNumberOfFreePages)
              omega)
          hmin h
      · rw [if_neg hd] at h
        split at h
        · exact absurd h (by simp)
        · next s2 hr =>
          obtain ⟨q1, q2, q3, q4, q5, q6, q7, q8⟩ :=
            returnPage_post hc hmgr (by omega) hr
          exact (ih s2 aMax s1 q1 q3 (by omega) (by omega) h).trans q8
    · rw [if_neg hgt] at h
      simp only [Option.some.injEq] at h
      rw [← h]

/-- The loop that lowers the maximum does not touch the live list when `min + free` fits the
target. -/
theorem shrinkMax_slack_fits (fuel : Nat) :
    ∀ (s : DPager) (aMax : Nat) (s1 : DPager),
      s.iMinimumPageCount + s.iNumberOfFreePages ≤ aMax →
      ResizeShrinkMax fuel s aMax = some s1 →
      s1.accountingSlack = s.accountingSlack := by
  induction fuel with
  | zero => intro s aMax s1 _ h; exact absurd h (by simp [ResizeShrinkMax])
  | succ k ih =>
    intro s aMax s1 hfit h
    rw [ResizeShrinkMax] at h
    by_cases hgt : s.iMaximumPageCount > aMax
    · rw [if_pos hgt] at h
      dsimp only at h
      rw [ite_lt_eq_max, sub32_le (by omega),
        if_pos (by omega)] at h
      exact ih { s with
          iMaximumPageCount := max aMax (s.iMinimumPageCount + s.iNumberOfFreePages) }
        aMax s1 hfit h
    · rw [if_neg hgt] at h
      simp only [Option.some.injEq] at h
      rw [← h]

/-- The operation `ResizeLiveList` keeps the slack, from a consistent live list whose
managers do not refuse, with `min + free <= max` and page counts below 2^31. -/
theorem slack_resize {s : DPager} (hc : s.LiveListConsistent)
    (hmgr : ∀ n, s.mgrStealPage n = KErrNone)
    (i3 : s.iMinimumPageCount + s.iNumberOfFreePages ≤ s.iMaximumPageCount)
    (hM : s.iMaximumPageCount < 2147483648)
    (hL : s.computeMinimumPageLimit + s.iReservePageCount < 2147483648)
    (hK : KAbsoluteMaxPageCount s.KPageShift < 2147483648)
    {fuel a b : Nat} {r : Int} {s5 : DPager}
    (h : ResizeLiveList fuel s a b = some (r, s5)) :
    s5.accountingSlack = s.accountingSlack := by
  unfold ResizeLiveList at h
  obtain ⟨aMin0, hA⟩ : ∃ aMin0, aMin0 = s.resizeArgMin a b := ⟨_, rfl⟩
  obtain ⟨aMax0, hB⟩ : ∃ aMax0, aMax0 = s.resizeArgMax b := ⟨_, rfl⟩
  have hB2 : aMax0 ≤ KAbsoluteMaxPageCount s.KPageShift := by
    rw [hB]
    unfold resizeArgMax
    dsimp only
    rw [ite_gt_eq_min]
    omega
  dsimp only at h
  rw [← hA, ← hB] at h
  by_cases harg : aMin0 > aMax0
  · rw [if_pos harg] at h
    simp only [Option.some.injEq, Prod.mk.injEq] at h
    rw [← h.2]
  · rw [if_neg harg] at h
    by_cases hr : s.iYoungOldRatio = 0
    · rw [if_pos hr] at h
      exact absurd h (by simp)
    · rw [if_neg hr] at h
      rw [resizeClamp_eq] at h
      dsimp only at h
      obtain ⟨s0, h0⟩ : ∃ s0 : DPager,
          s0 = { s with iMinimumPageLimit := s.computeMinimumPageLimit } := ⟨_, rfl⟩
      obtain ⟨aMin, hmn⟩ : ∃ aMin, aMin = max aMin0 (s.computeMinimumPageLimit
          + s.iReservePageCount) := ⟨_, rfl⟩
      obtain ⟨aMax, hmx⟩ : ∃ aMax, aMax = max aMax0 aMin := ⟨_, rfl⟩
      rw [← h0, ← hmn, ← hmx] at h
      have hc0 : s0.LiveListConsistent := by rw [h0]; exact hc
      have b1 : s0.iMaximumPageCount = s.iMaximumPageCount := by rw [h0]
      have b2 : s0.iMinimumPageCount = s.iMinimumPageCount := by rw [h0]
      have b3 : s0.iNumberOfFreePages = s.iNumberOfFreePages := by rw [h0]
      have b4 : s0.mgrStealPage = s.mgrStealPage := by rw [h0]
      have b5 : s0.accountingSlack = s.accountingSlack := by rw [h0]; rfl
      obtain ⟨-, -, a3, a4, a5, -, -, -, a9, a10, a11⟩ := resizeAdjust_fields s0 aMin aMax
        (by rw [b1]; exact hM) (by rw [b2]; omega) (by omega) (by omega)
      have hca : (s0.resizeAdjust aMin aMax).LiveListConsistent := by rw [a10]; exact hc0
      have sa : (s0.resizeAdjust aMin aMax).accountingSlack = s0.accountingSlack := by
        unfold accountingSlack
        rw [liveCount_eq_size hca, liveCount_eq_size hc0, a11]
        have := a5
        omega
      split at h
      · exact absurd h (by simp)
      · next r1 s4 hg =>
        obtain ⟨p1, p2, -, -, -, p6, -, -, -⟩ := resizeGrowMin_post fuel _ _ r1 s4 hg
          (by rw [a5, a3, b1, b2, b3]; omega) (by rw [a3]; omega)
        obtain ⟨k1, k2, k3⟩ := growMin_slack fuel _ _ r1 s4 hg
        have hmin4 : s4.iMinimumPageCount ≤ aMin := p6 (by rw [a4]; omega)
        split at h
        · exact absurd h (by simp)
        · next s6 hs =>
          simp only [Option.some.injEq, Prod.mk.injEq] at h
          rw [← h.2]
          have tail : s6.accountingSlack = s4.accountingSlack := by
            rcases k3 with k3 | k3
            · exact shrinkMax_slack fuel s4 aMax s6 (k3 hca)
                (fun n => by rw [k2, a9, b4]; exact hmgr n) p1 (by omega) hs
            · exact shrinkMax_slack_fits fuel s4 aMax s6 (by omega) hs
          rw [tail, k1, sa, b5]

end DPager

/-! ## `GetFreePages` -/

namespace DPager

/-- With at least `n` free pages accounted and `n` frames on the live list, the loop of
`GetFreePages(n)` returns `n` frames to the system and ends with `aNumPages = 0`. -/
theorem getFreePagesLoop_all (n : Nat) :
    ∀ (s : DPager) (fuel : Nat), s.LiveListConsistent → (∀ k, s.mgrStealPage k = KErrNone) →
      n ≤ s.iNumberOfFreePages → s.iNumberOfFreePages < 2147483648 → n ≤ s.liveListSize →
      n + 2 ≤ fuel →
      ∃ s1, GetFreePagesLoop fuel s (n : Int) = some (0, s1) ∧ s1.LiveListConsistent ∧
        s1.iNumberOfFreePages + n = s.iNumberOfFreePages ∧
        s1.liveListSize + n = s.liveListSize ∧
        s1.freedRam.length = s.freedRam.length + n ∧
        s1.iMinimumPageCount = s.iMinimumPageCount ∧
        s1.iMaximumPageCount = s.iMaximumPageCount ∧
        s1.accountingSlack = s.accountingSlack := by
  induction n with
  | zero =>
    intro s fuel hc hmgr hn h31 hsz hf
    obtain ⟨k, rfl⟩ : ∃ k, fuel = k + 1 := ⟨fuel - 1, by omega⟩
    rw [GetFreePagesLoop, if_neg (by simp)]
    exact ⟨s, rfl, hc, rfl, rfl, rfl, rfl, rfl, rfl⟩
  | succ n ih =>
    intro s fuel hc hmgr hn h31 hsz hf
    obtain ⟨k, rfl⟩ : ∃ k, fuel = k + 1 := ⟨fuel - 1, by omega⟩
    have ht : toTInt s.iNumberOfFreePages = (s.iNumberOfFreePages : Int) := by
      unfold toTInt
      rw [Nat.mod_eq_of_lt (by omega), if_pos h31]
    rw [GetFreePagesLoop, if_pos (by rw [ht]; push_cast; omega)]
    obtain ⟨s2, hr, -, -, -⟩ := returnPage_ok hc (by omega) hmgr k (by omega)
    obtain ⟨q1, q2, q3, q4, q5, q6, q7, q8⟩ := returnPage_post hc hmgr (by omega) hr
    rw [hr]
    dsimp only
    have hcast : ((n + 1 : Nat) : Int) - 1 = (n : Int) := by push_cast; ring
    rw [hcast]
    obtain ⟨s1, e, p1, p2, p3, p4, p5, p6, p7⟩ :=
      ih s2 k q1 q3 (by omega) (by omega) (by omega) (by omega)
    exact ⟨s1, e, p1, by omega, by omega, by omega, p5.trans q4, p6.trans q5, p7.trans q8⟩

end DPager

/-! ## One iteration of the shrink loops -/

namespace DPager

/-- In the loop that lowers the maximum, `ReturnPageToSystem` is reached with a free page
accounted: the difference `delta` is 0 only when `min + free` is the maximum. -/
theorem shrinkMax_free_pos {s : DPager} {aMax : Nat}
    (i3 : s.iMinimumPageCount + s.iNumberOfFreePages ≤ s.iMaximumPageCount)
    (hmin : s.iMinimumPageCount ≤ aMax) (hgt : s.iMaximumPageCount > aMax)
    (hd : sub32 s.iMaximumPageCount
      (if aMax < s.iMinimumPageCount + s.iNumberOfFreePages then
        s.iMinimumPageCount + s.iNumberOfFreePages else aMax) = 0) :
    0 < s.iNumberOfFreePages := by
  rw [ite_lt_eq_max, sub32_le (by omega)] at hd
  omega

/-- One iteration of the loop that lowers the maximum: either the maximum drops, or one frame
goes back to the system and the free count drops; the conditions under which the loop runs
hold again afterwards. -/
theorem shrinkMax_iteration {s : DPager} {aMax : Nat} (hc : s.LiveListConsistent)
    (hmgr : ∀ n, s.mgrStealPage n = KErrNone)
    (i3 : s.iMinimumPageCount + s.iNumberOfFreePages ≤ s.iMaximumPageCount)
    (hmin : s.iMinimumPageCount ≤ aMax) (hgt : s.iMaximumPageCount > aMax)
    (hsz : s.iMinimumPageCount + s.iNumberOfFreePages - aMax ≤ s.liveListSize)
    (k : Nat) (hk : 2 ≤ k) :
    ∃ t, ResizeShrinkMax (k + 1) s aMax = ResizeShrinkMax k t aMax ∧
      ((t.iMaximumPageCount < s.iMaximumPageCount ∧
          t.iNumberOfFreePages = s.iNumberOfFreePages) ∨
        (t.iNumberOfFreePages < s.iNumberOfFreePages ∧
          t.iMaximumPageCount = s.iMaximumPageCount)) ∧
      t.LiveListConsistent ∧ (∀ n, t.mgrStealPage n = KErrNone) ∧
      t.iMinimumPageCount + t.iNumberOfFreePages ≤ t.iMaximumPageCount ∧
      t.iMinimumPageCount = s.iMinimumPageCount ∧ aMax ≤ t.iMaximumPageCount ∧
      t.iMinimumPageCount + t.iNumberOfFreePages - aMax ≤ t.liveListSize := by
  rw [ResizeShrinkMax, if_pos hgt]
  dsimp only
  rw [ite_lt_eq_max, sub32_le (by omega)]
  by_cases hd : s.iMaximumPageCount - max aMax (s.iMinimumPageCount + s.iNumberOfFreePages) ≠ 0
  · rw [if_pos hd]
    refine ⟨{ s with iMaximumPageCount := max aMax (s.iMinimumPageCount + s.iNumberOfFreePages) },
      rfl, Or.inl ⟨?_, rfl⟩, hc, hmgr, ?_, rfl, ?_, hsz⟩
    · show max aMax (s.iMinimumPageCount + s.iNumberOfFreePages) < s.iMaximumPageCount
      omega
    · show s.iMinimumPageCount + s.iNumberOfFreePages
        ≤ max aMax (s.iMinimumPageCount + s.iNumberOfFreePages)
      omega
    · show aMax ≤ max aMax (s.iMinimumPageCount + s.iNumberOfFreePages)
      omega
  · rw [if_neg hd]
    have hsum : s.iMinimumPageCount + s.iNumberOfFreePages = s.iMaximumPageCount := by omega
    obtain ⟨t, hr, -, -, -⟩ := returnPage_ok hc (by omega) hmgr k hk
    obtain ⟨q1, q2, q3, q4, q5, q6, q7, q8⟩ := returnPage_post hc hmgr (by omega) hr
    rw [hr]
    exact ⟨t, rfl, Or.inr ⟨by omega, q5⟩, q1, q3, by omega, q4, by omega, by omega⟩

/-- One iteration of `RemoveExcessPages`: one frame goes back to the system and the free
count drops by one. -/
theorem removeExcess_iteration {s : DPager} (hc : s.LiveListConsistent)
    (hmgr : ∀ n, s.mgrStealPage n = KErrNone)
    (hmm : s.iMinimumPageCount ≤ s.iMaximumPageCount) (ht : s.HaveTooManyPages = true)
    (hsz : 0 < s.liveListSize) (k : Nat) (hk : 2 ≤ k) :
    ∃ t, ReturnPageToSystem k s = some t ∧
      RemoveExcessPages (k + 1) s = RemoveExcessPages k t ∧
      t.iNumberOfFreePages + 1 = s.iNumberOfFreePages ∧
      t.iMinimumPageCount = s.iMinimumPageCount ∧
      t.iMaximumPageCount = s.iMaximumPageCount ∧
      t.freedRam.length = s.freedRam.length + 1 ∧
      t.LiveListConsistent ∧ (∀ n, t.mgrStealPage n = KErrNone) := by
  obtain ⟨t, hr, -, -, -⟩ := returnPage_ok hc hsz hmgr k hk
  obtain ⟨q1, q2, q3, q4, q5, q6, q7, q8⟩ :=
    returnPage_post hc hmgr (free_pos_of_tooMany hmm ht) hr
  refine ⟨t, hr, ?_, q6, q4, q5, q7, q1, q3⟩
  rw [RemoveExcessPages, if_pos ht, hr]

end DPager

namespace DPager

/-- A call of `ResizeLiveList` that gets past the argument check enters the loop that lowers
the maximum with `min + free <= max` and `min <= aMax <= max`, for `aMax` the clamped
maximum, and leaves it with the maximum equal to `aMax`. -/
theorem resize_shrink_entry {s : DPager}
    (i3 : s.iMinimumPageCount + s.iNumberOfFreePages ≤ s.iMaximumPageCount)
    (hM : s.iMaximumPageCount < 2147483648)
    (hL : s.computeMinimumPageLimit + s.iReservePageCount < 2147483648)
    (hK : KAbsoluteMaxPageCount s.KPageShift < 2147483648)
    {fuel a b : Nat} {r : Int} {s5 : DPager}
    (h : ResizeLiveList fuel s a b = some (r, s5)) :
    (r = KErrArgument ∧ s5 = s) ∨
    ∃ s4, ResizeShrinkMax fuel s4
        (max (s.resizeArgMax b)
          (max (s.resizeArgMin a b) (s.computeMinimumPageLimit + s.iReservePageCount)))
        = some s5 ∧
      s4.iMinimumPageCount + s4.iNumberOfFreePages ≤ s4.iMaximumPageCount ∧
      s4.iMinimumPageCount ≤ max (s.resizeArgMax b)
        (max (s.resizeArgMin a b) (s.computeMinimumPageLimit + s.iReservePageCount)) ∧
      max (s.resizeArgMax b)
          (max (s.resizeArgMin a b) (s.computeMinimumPageLimit + s.iReservePageCount))
        ≤ s4.iMaximumPageCount ∧
      s5.iMaximumPageCount = max (s.resizeArgMax b)
        (max (s.resizeArgMin a b) (s.computeMinimumPageLimit + s.iReservePageCount)) := by
  unfold ResizeLiveList at h
  obtain ⟨aMin0, hA⟩ : ∃ aMin0, aMin0 = s.resizeArgMin a b := ⟨_, rfl⟩
  obtain ⟨aMax0, hB⟩ : ∃ aMax0, aMax0 = s.resizeArgMax b := ⟨_, rfl⟩
  have hB2 : aMax0 ≤ KAbsoluteMaxPageCount s.KPageShift := by
    rw [hB]
    unfold resizeArgMax
    dsimp only
    rw [ite_gt_eq_min]
    omega
  dsimp only at h
  rw [← hA, ← hB] at h ⊢
  by_cases harg : aMin0 > aMax0
  · rw [if_pos harg] at h
    simp only [Option.some.injEq, Prod.mk.injEq] at h
    exact Or.inl ⟨h.1.symm, h.2.symm⟩
  · rw [if_neg harg] at h
    by_cases hr : s.iYoungOldRatio = 0
    · rw [if_pos hr] at h
      exact absurd h (by simp)
    · rw [if_neg hr] at h
      rw [resizeClamp_eq] at h
      dsimp only at h
      obtain ⟨s0, h0⟩ : ∃ s0 : DPager,
          s0 = { s with iMinimumPageLimit := s.computeMinimumPageLimit } := ⟨_, rfl⟩
      obtain ⟨aMin, hmn⟩ : ∃ aMin, aMin = max aMin0 (s.computeMinimumPageLimit
          + s.iReservePageCount) := ⟨_, rfl⟩
      obtain ⟨aMax, hmx⟩ : ∃ aMax, aMax = max aMax0 aMin := ⟨_, rfl⟩
      rw [← h0, ← hmn, ← hmx] at h
      rw [← hmn, ← hmx]
      have b1 : s0.iMaximumPageCount = s.iMaximumPageCount := by rw [h0]
      have b2 : s0.iMinimumPageCount = s.iMinimumPageCount := by rw [h0]
      have b3 : s0.iNumberOfFreePages = s.iNumberOfFreePages := by rw [h0]
      obtain ⟨-, -, a3, a4, a5, -⟩ := resizeAdjust_fields s0 aMin aMax
        (by rw [b1]; exact hM) (by rw [b2]; omega) (by omega) (by omega)
      split at h
      · exact absurd h (by simp)
      · next r1 s4 hg =>
        obtain ⟨p1, p2, -, -, -, p6, -, -, -⟩ := resizeGrowMin_post fuel _ _ r1 s4 hg
          (by rw [a5, a3, b1, b2, b3]; omega) (by rw [a3]; omega)
        have hmin4 : s4.iMinimumPageCount ≤ aMin := p6 (by rw [a4]; omega)
        split at h
        · exact absurd h (by simp)
        · next s6 hs =>
          simp only [Option.some.injEq, Prod.mk.injEq] at h
          rw [← h.2]
          obtain ⟨q1, -⟩ := resizeShrinkMax_post fuel s4 aMax s6 hs p1 (by omega)
            (by rw [p2, a3]; omega)
          exact Or.inr ⟨s4, hs, p1, by omega, by rw [p2, a3]; omega, q1⟩

end DPager

/-! ## The claims -/

/-- C1: live-list consistency (each count is the length of its queue, every frame on a queue
has the paged state of that queue, no frame is linked twice) is an invariant of the live-list
operations. It is preserved by `AddAsYoungestPage` and `AddAsFreePage` of an unpaged frame, by
`PageFreed`, `RemovePage` and `Pin` of a frame whose link is where its state says, by
`ReplacePage` when the new frame has the state of the old one and is not yet linked, by
`BalanceAges`, by `Unpin` of a pinned frame, and by `CleanSomePages` when the frames the
manager leaves in the array are distinct linked frames in state `EPagedOldestDirty`. -/
theorem liveList_consistency_invariant (s : DPager) (h : s.LiveListConsistent) :
    (∀ p, (s.pageInfo p).iPagedState = TPagedState.EUnpaged →
      (s.AddAsYoungestPage p).LiveListConsistent) ∧
    (∀ p, (s.pageInfo p).iPagedState = TPagedState.EUnpaged →
      (s.AddAsFreePage p).LiveListConsistent) ∧
    (∀ p, s.Linked p → (s.PageFreed p).2.LiveListConsistent) ∧
    (∀ p, s.Linked p → (s.RemovePage p).LiveListConsistent) ∧
    (∀ old new, (s.pageInfo new).iPagedState = (s.pageInfo old).iPagedState →
      ¬ s.OnLiveList new → (s.ReplacePage old new).LiveListConsistent) ∧
    s.BalanceAges.LiveListConsistent ∧
    (∀ p args, s.Linked p → (s.Pin p args).1.LiveListConsistent) ∧
    (∀ p args, (s.pageInfo p).iPagedState = TPagedState.EPagedPinned →
      (s.Unpin p args).1.LiveListConsistent) ∧
    ((∀ pi ∈ (s.arrayAfterClean s.SelectPagesToClean).filterMap id,
        (s.pageInfo pi).iPagedState = TPagedState.EPagedOldestDirty ∧ s.OnLiveList pi) →
      ((s.arrayAfterClean s.SelectPagesToClean).filterMap id).Nodup →
      s.CleanSomePages.2.LiveListConsistent) := by
  refine ⟨?_, ?_, ?_, ?_, ?_, ?_, ?_, ?_, ?_⟩
  · intro p hp
    exact DPager.consistent_AddAsYoungestPage h
      (DPager.not_onLiveList_of_not_sublist h (by rw [hp]; rfl))
  · intro p hp
    exact DPager.consistent_AddAsFreePage h
      (DPager.not_onLiveList_of_not_sublist h (by rw [hp]; rfl))
  · intro p hp
    exact DPager.consistent_PageFreed h hp
  · intro p hp
    exact (DPager.consistent_RemovePage h hp).1
  · intro old new hst hoff
    exact DPager.consistent_ReplacePage h hst hoff
  · exact DPager.consistent_BalanceAges h
  · intro p args hp
    exact DPager.consistent_Pin h hp args
  · intro p args hp
    exact DPager.consistent_Unpin h hp args
  · intro hm hn
    refine DPager.consistent_CleanSomePages h ?_ hn
    intro pi hpi
    exact hm pi (List.mem_filterMap.2 ⟨some pi, hpi, rfl⟩)

/-- Witness for C1: the example state is consistent, and stays so under each operation at a
concrete frame. -/
theorem liveList_consistency_invariant_witness :
    DPager.exampleState.LiveListConsistent ∧
    (DPager.exampleState.AddAsYoungestPage 9).LiveListConsistent ∧
    (DPager.exampleState.AddAsFreePage 9).LiveListConsistent ∧
    (DPager.exampleState.PageFreed 5).2.LiveListConsistent ∧
    (DPager.exampleState.RemovePage 1).LiveListConsistent ∧
    (DPager.exampleState.ReplacePage 3 7).LiveListConsistent ∧
    DPager.exampleState.BalanceAges.LiveListConsistent ∧
    (DPager.exampleState.Pin 2 ⟨1⟩).1.LiveListConsistent ∧
    (DPager.exampleState.Unpin 6 ⟨0⟩).1.LiveListConsistent ∧
    DPager.exampleState.CleanSomePages.2.LiveListConsistent :=
  have h : DPager.exampleState.LiveListConsistent := by decide
  have t := liveList_consistency_invariant DPager.exampleState h
  ⟨h, t.1 9 (by decide), t.2.1 9 (by decide), t.2.2.1 5 (by decide), t.2.2.2.1 1 (by decide),
    t.2.2.2.2.1 3 7 (by decide) (by decide), t.2.2.2.2.2.1, t.2.2.2.2.2.2.1 2 ⟨1⟩ (by decide),
    t.2.2.2.2.2.2.2.1 6 ⟨0⟩ (by decide), t.2.2.2.2.2.2.2.2 (by decide) (by decide)⟩

/-- C2: `ReservePage` maintains the reservation invariants. From a state in which
`min_page_count ≥ min_limit + reserve_page_count` and `min_page_count + free_pages ≤
max_page_count`, whatever the frame allocator answers, `ReservePage` returns, both
inequalities hold afterwards, a return of true has raised `reserve_page_count` by exactly 1,
and a return of false has left `min_page_count` and `reserve_page_count` unchanged. -/
theorem reservePage_maintains_invariants (s : DPager) (fuel : Nat) (hf : 2 ≤ fuel)
    (i4 : s.iMinimumPageCount ≥ s.iMinimumPageLimit + s.iReservePageCount)
    (i3 : s.iMinimumPageCount + s.iNumberOfFreePages ≤ s.iMaximumPageCount) :
    ∃ r s1, DPager.ReservePage fuel s = some (r, s1) ∧
      s1.iMinimumPageCount ≥ s1.iMinimumPageLimit + s1.iReservePageCount ∧
      s1.iMinimumPageCount + s1.iNumberOfFreePages ≤ s1.iMaximumPageCount ∧
      (r = true → s1.iReservePageCount = s.iReservePageCount + 1) ∧
      (r = false → s1.iMinimumPageCount = s.iMinimumPageCount ∧
        s1.iReservePageCount = s.iReservePageCount) := by
  obtain ⟨r, s1, e, -, -, q3, q4, q5⟩ := DPager.reservePage_spec s fuel hf
  exact ⟨r, s1, e, (q5 i4 i3).1, (q5 i4 i3).2, q3, fun hr => ⟨(q4 hr).2.1, (q4 hr).1⟩⟩

/-- Witness for C2: the example state satisfies both invariants. -/
theorem reservePage_maintains_invariants_witness :
    (2 ≤ 2) ∧
    DPager.exampleState.iMinimumPageCount
      ≥ DPager.exampleState.iMinimumPageLimit + DPager.exampleState.iReservePageCount ∧
    DPager.exampleState.iMinimumPageCount + DPager.exampleState.iNumberOfFreePages
      ≤ DPager.exampleState.iMaximumPageCount ∧
    ∃ r s1, DPager.ReservePage 2 DPager.exampleState = some (r, s1) ∧
      s1.iMinimumPageCount ≥ s1.iMinimumPageLimit + s1.iReservePageCount ∧
      s1.iMinimumPageCount + s1.iNumberOfFreePages ≤ s1.iMaximumPageCount ∧
      (r = true → s1.iReservePageCount = DPager.exampleState.iReservePageCount + 1) ∧
      (r = false → s1.iMinimumPageCount = DPager.exampleState.iMinimumPageCount ∧
        s1.iReservePageCount = DPager.exampleState.iReservePageCount) :=
  ⟨by decide, by decide, by decide,
    reservePage_maintains_invariants DPager.exampleState 2 (by decide) (by decide) (by decide)⟩

/-- C3: resize postcondition. For `max ≠ 0` and `min ≤ min(max, KAbsoluteMaxPageCount)`, from
a state with `min_page_count + free_pages ≤ max_page_count` whose page counts are below 2^31
(`ResizeLiveList` tests their differences as `TInt`), a `ResizeLiveList(min, max)` that
returns `KErrNone` leaves `iMinimumPageCount = m = max(min, iMinimumPageLimit +
iReservePageCount)`, `iMaximumPageCount = max(min(max, KAbsoluteMaxPageCount), m)` and
`min_page_count + free_pages ≤ max_page_count`. Scenario S3: from `(min=256, max=1024,
free=0)`, with every `TryGrowLiveList` succeeding, `ResizeLiveList(768, 1024)` returns
`KErrNone` after exactly 512 grows, in the state `(min=768, free=0, max=1024)`. -/
theorem resizeLiveList_postcondition :
    (∀ (s : DPager) (aMin aMax fuel : Nat) (s1 : DPager),
      aMax ≠ 0 → aMin ≤ min aMax (KAbsoluteMaxPageCount s.KPageShift) →
      s.iMinimumPageCount + s.iNumberOfFreePages ≤ s.iMaximumPageCount →
      s.iMaximumPageCount < 2147483648 →
      s.computeMinimumPageLimit + s.iReservePageCount < 2147483648 →
      KAbsoluteMaxPageCount s.KPageShift < 2147483648 →
      DPager.ResizeLiveList fuel s aMin aMax = some (KErrNone, s1) →
      s1.iMinimumPageCount = max aMin (s1.iMinimumPageLimit + s1.iReservePageCount) ∧
      s1.iMaximumPageCount = max (min aMax (KAbsoluteMaxPageCount s.KPageShift))
        (max aMin (s1.iMinimumPageLimit + s1.iReservePageCount)) ∧
      s1.iMinimumPageCount + s1.iNumberOfFreePages ≤ s1.iMaximumPageCount) ∧
    (∀ (s : DPager) (fuel : Nat),
      s.iMinimumPageCount = 256 → s.iMaximumPageCount = 1024 → s.iNumberOfFreePages = 0 →
      s.iYoungOldRatio ≠ 0 → s.computeMinimumPageLimit + s.iReservePageCount ≤ 768 →
      1024 ≤ KAbsoluteMaxPageCount s.KPageShift →
      (∀ n, (s.allocRam n).isSome = true) → 1025 ≤ fuel →
      ∃ s1, DPager.ResizeLiveList fuel s 768 1024 = some (KErrNone, s1) ∧
        s1.iMinimumPageCount = 768 ∧ s1.iNumberOfFreePages = 0 ∧
        s1.iMaximumPageCount = 1024 ∧ s1.allocCalls = s.allocCalls + 512) := by
  constructor
  · intro s aMin aMax fuel s1 h0 hle i3 hM hL hK h
    obtain ⟨-, q2, q3, q4, q5, -, q7⟩ :=
      DPager.resize_post s aMin aMax fuel h0 hle i3 hM hL hK _ _ h
    rw [q2, q3]
    exact ⟨q7 rfl, q4, q5⟩
  · intro s fuel hmin hmax hfree hr hL hK ha hf
    have hm : max 768 (s.computeMinimumPageLimit + s.iReservePageCount) = 768 := by omega
    have hMM : max (min 1024 (KAbsoluteMaxPageCount s.KPageShift)) 768 = 1024 := by omega
    have hu := DPager.resize_unfold s 768 1024 fuel (by decide) (by omega) hr
    rw [hm, hMM] at hu
    obtain ⟨a1, a2, a3, a4, a5, a6, a7, a8, -⟩ := DPager.resizeAdjust_fields
      { s with iMinimumPageLimit := s.computeMinimumPageLimit } 768 1024
      (by show s.iMaximumPageCount < _; omega) (by show s.iMinimumPageCount < _; omega)
      (by omega) (by omega)
    obtain ⟨t, ht⟩ : ∃ t, t = DPager.resizeAdjust
      { s with iMinimumPageLimit := s.computeMinimumPageLimit } 768 1024 := ⟨_, rfl⟩
    rw [← ht] at hu a3 a4 a5 a7 a8
    have c3 : t.iMaximumPageCount = 1024 := by
      rw [a3]; show max s.iMaximumPageCount 1024 = 1024; omega
    have c4 : t.iMinimumPageCount = 256 := by
      rw [a4]; show min s.iMinimumPageCount 768 = 256; omega
    have c5 : t.iNumberOfFreePages = 0 := by
      have : t.iMinimumPageCount + t.iNumberOfFreePages
          = s.iMinimumPageCount + s.iNumberOfFreePages := a5
      omega
    have c7 : t.allocCalls = s.allocCalls := a7
    have c8 : t.allocRam = s.allocRam := a8
    obtain ⟨s4, e, p1, p2, p3, p4⟩ := DPager.growMin_all_succeed 512 t 768 fuel
      (by rw [c4]) (by rw [c4]; omega) c5 (by intro n; rw [c8]; exact ha n) (by omega)
    refine ⟨s4, (hu KErrNone s4).2 ⟨s4, e, ?_⟩, p1, p2, by rw [p3, c3], by rw [p4, c7]⟩
    obtain ⟨k, rfl⟩ : ∃ k, fuel = k + 1 := ⟨fuel - 1, by omega⟩
    rw [DPager.ResizeShrinkMax, if_neg (by rw [p3, c3]; decide)]

/-- Witness for C3: `ResizeLiveList(6, 8)` on the example state, and scenario S3 on a cache of
256 frames. -/
theorem resizeLiveList_postcondition_witness :
    (8 ≠ 0 ∧ 6 ≤ min 8 (KAbsoluteMaxPageCount DPager.exampleState.KPageShift) ∧
      DPager.ResizeLiveList 10 DPager.exampleState 6 8
        = some (KErrNone, DPager.exampleResized) ∧
      DPager.exampleResized.iMinimumPageCount
        = max 6 (DPager.exampleResized.iMinimumPageLimit
            + DPager.exampleResized.iReservePageCount) ∧
      DPager.exampleResized.iMaximumPageCount
        = max (min 8 (KAbsoluteMaxPageCount DPager.exampleState.KPageShift))
            (max 6 (DPager.exampleResized.iMinimumPageLimit
              + DPager.exampleResized.iReservePageCount)) ∧
      DPager.exampleResized.iMinimumPageCount + DPager.exampleResized.iNumberOfFreePages
        ≤ DPager.exampleResized.iMaximumPageCount) ∧
    (∃ s1, DPager.ResizeLiveList 1025 (DPager.exampleCache 256 1024 0) 768 1024
        = some (KErrNone, s1) ∧
      s1.iMinimumPageCount = 768 ∧ s1.iNumberOfFreePages = 0 ∧
      s1.iMaximumPageCount = 1024 ∧
      s1.allocCalls = (DPager.exampleCache 256 1024 0).allocCalls + 512) :=
  have e : DPager.ResizeLiveList 10 DPager.exampleState 6 8
      = some (KErrNone, DPager.exampleResized) := by rfl
  have h1 : (6 : Nat) ≤ min 8 (KAbsoluteMaxPageCount DPager.exampleState.KPageShift) := by
    decide
  ⟨⟨by decide, h1, e,
      resizeLiveList_postcondition.1 DPager.exampleState 6 8 10 DPager.exampleResized
        (by decide) h1 (by decide) (by decide) (by decide) (by decide) e⟩,
    resizeLiveList_postcondition.2 (DPager.exampleCache 256 1024 0) 1025 rfl rfl rfl
      (by decide) (by decide) (by decide) (fun _ => rfl) (by decide)⟩

/-- C4 (as amended): scenario S4. From the state `(min=1024, max=4096, free=100)` with
`min_limit + reserve_page_count ≤ 512`, on a consistent live list of at least 100 frames whose
managers never refuse a steal, `ResizeLiveList(512, 1024)` returns `KErrNone`, returns exactly
100 frames to the system and ends in the state `(min=512, free=512, max=1024)`. -/
theorem resizeLiveList_scenario_S4 (s : DPager) (fuel : Nat)
    (hmin : s.iMinimumPageCount = 1024) (hmax : s.iMaximumPageCount = 4096)
    (hfree : s.iNumberOfFreePages = 100) (hr : s.iYoungOldRatio ≠ 0)
    (hlim : s.iMinimumPageLimit = s.computeMinimumPageLimit)
    (hL : s.iMinimumPageLimit + s.iReservePageCount ≤ 512)
    (hK : 1024 ≤ KAbsoluteMaxPageCount s.KPageShift)
    (hc : s.LiveListConsistent) (hsz : 100 ≤ s.liveListSize)
    (hmgr : ∀ n, s.mgrStealPage n = KErrNone) (hf : 203 ≤ fuel) :
    ∃ s1, DPager.ResizeLiveList fuel s 512 1024 = some (KErrNone, s1) ∧
      s1.iMinimumPageCount = 512 ∧ s1.iNumberOfFreePages = 512 ∧
      s1.iMaximumPageCount = 1024 ∧ s1.freedRam.length = s.freedRam.length + 100 :=
  DPager.resize_S4 s fuel hmin hmax hfree hr (by rw [← hlim]; exact hL) hK hc hsz hmgr hf

/-- Witness for C4 (as amended): a cache of 1124 unused frames in the state of scenario S4. -/
theorem resizeLiveList_scenario_S4_witness :
    ∃ s1, DPager.ResizeLiveList 203 (DPager.exampleCache 1024 4096 100) 512 1024
        = some (KErrNone, s1) ∧
      s1.iMinimumPageCount = 512 ∧ s1.iNumberOfFreePages = 512 ∧
      s1.iMaximumPageCount = 1024 ∧
      s1.freedRam.length = (DPager.exampleCache 1024 4096 100).freedRam.length + 100 :=
  resizeLiveList_scenario_S4 (DPager.exampleCache 1024 4096 100) 203 rfl rfl rfl (by decide)
    (by decide) (by decide) (by decide) (DPager.exampleCache_consistent 1024 4096 100)
    (by rw [DPager.exampleCache_size]; decide) (fun _ => rfl) (by decide)

/-- Counterexample to C4 as stated: on a cache in the state `(min=1024, max=4096, free=100)`
with `min_limit + reserve_page_count = 14`, `ResizeLiveList(512, 1024)` does not end with
`free = 0` and does not return 612 frames: it ends with `free = 512` after returning 100. -/
theorem resizeLiveList_scenario_S4_counterexample :
    (DPager.exampleCache 1024 4096 100).iMinimumPageCount = 1024 ∧
    (DPager.exampleCache 1024 4096 100).iMaximumPageCount = 4096 ∧
    (DPager.exampleCache 1024 4096 100).iNumberOfFreePages = 100 ∧
    (DPager.exampleCache 1024 4096 100).iMinimumPageLimit
      + (DPager.exampleCache 1024 4096 100).iReservePageCount ≤ 512 ∧
    ¬ ∃ r s1, DPager.ResizeLiveList 300 (DPager.exampleCache 1024 4096 100) 512 1024
        = some (r, s1) ∧
      s1.iMinimumPageCount = 512 ∧ s1.iNumberOfFreePages = 0 ∧
      s1.iMaximumPageCount = 1024 ∧
      s1.freedRam.length = (DPager.exampleCache 1024 4096 100).freedRam.length + 612 := by
  refine ⟨rfl, rfl, rfl, by decide, ?_⟩
  rintro ⟨r, s1, e, -, hfree, -, -⟩
  obtain ⟨s2, e2, -, q, -, -⟩ := DPager.resize_S4 (DPager.exampleCache 1024 4096 100) 300
    rfl rfl rfl (by decide) (by decide) (by decide)
    (DPager.exampleCache_consistent 1024 4096 100)
    (by rw [DPager.exampleCache_size]; decide) (fun _ => rfl) (by decide)
  rw [e2] at e
  have h2 : s2 = s1 := congrArg Prod.snd (Option.some.inj e)
  rw [h2] at q
  omega

/-- C5: the argument check of `ResizeLiveList`. For `max ≠ 0`: when `min > min(max,
KAbsoluteMaxPageCount)` the call returns `KErrArgument` and the state (so each of
`iMinimumPageCount`, `iMaximumPageCount`, `iNumberOfFreePages`, `iMinimumPageLimit`) is
unchanged; otherwise no return of the call is `KErrArgument`. A requested minimum below
`min_limit + reserve_page_count` (within the range of `TInt`) is not rejected but raised: a
return of `KErrNone` leaves `iMinimumPageCount = iMinimumPageLimit + iReservePageCount` and
`iMaximumPageCount` the larger of that bound and the clamped maximum. -/
theorem resizeLiveList_argument_check :
    (∀ (s : DPager) (aMin aMax fuel : Nat), aMax ≠ 0 →
      aMin > min aMax (KAbsoluteMaxPageCount s.KPageShift) →
      DPager.ResizeLiveList fuel s aMin aMax = some (KErrArgument, s)) ∧
    (∀ (s : DPager) (aMin aMax fuel : Nat) (r : Int) (s1 : DPager), aMax ≠ 0 →
      aMin ≤ min aMax (KAbsoluteMaxPageCount s.KPageShift) →
      DPager.ResizeLiveList fuel s aMin aMax = some (r, s1) → r ≠ KErrArgument) ∧
    (∀ (s : DPager) (aMin aMax fuel : Nat) (s1 : DPager), aMax ≠ 0 →
      aMin ≤ min aMax (KAbsoluteMaxPageCount s.KPageShift) →
      aMin < s.computeMinimumPageLimit + s.iReservePageCount →
      s.iMinimumPageCount + s.iNumberOfFreePages ≤ s.iMaximumPageCount →
      s.iMaximumPageCount < 2147483648 →
      s.computeMinimumPageLimit + s.iReservePageCount < 2147483648 →
      KAbsoluteMaxPageCount s.KPageShift < 2147483648 →
      DPager.ResizeLiveList fuel s aMin aMax = some (KErrNone, s1) →
      s1.iMinimumPageLimit = s.computeMinimumPageLimit ∧
      s1.iReservePageCount = s.iReservePageCount ∧
      s1.iMinimumPageCount = s1.iMinimumPageLimit + s1.iReservePageCount ∧
      s1.iMaximumPageCount = max (min aMax (KAbsoluteMaxPageCount s.KPageShift))
        (s1.iMinimumPageLimit + s1.iReservePageCount)) := by
  refine ⟨?_, ?_, ?_⟩
  · intro s aMin aMax fuel h0 hgt
    exact DPager.resize_rejects s aMin aMax fuel h0 hgt
  · intro s aMin aMax fuel r s1 h0 hle h hr
    rcases DPager.resize_accepts s aMin aMax fuel h0 hle r s1 h with h1 | h1
    · rw [h1] at hr; exact absurd hr (by decide)
    · rw [h1] at hr; exact absurd hr (by decide)
  · intro s aMin aMax fuel s1 h0 hle hlt i3 hM hL hK h
    obtain ⟨-, q2, q3, q4, -, -, q7⟩ :=
      DPager.resize_post s aMin aMax fuel h0 hle i3 hM hL hK _ _ h
    have hm : max aMin (s.computeMinimumPageLimit + s.iReservePageCount)
        = s.computeMinimumPageLimit + s.iReservePageCount := by omega
    rw [hm] at q4
    have q8 := q7 rfl
    rw [hm] at q8
    rw [q2, q3]
    exact ⟨rfl, rfl, q8, q4⟩

/-- Witness for C5: on the example state (`min_limit + reserve = 5`, maximum 8)
`ResizeLiveList(9, 8)` is rejected and `ResizeLiveList(3, 8)` is raised to 5. -/
theorem resizeLiveList_argument_check_witness :
    (8 ≠ 0 ∧ 9 > min 8 (KAbsoluteMaxPageCount DPager.exampleState.KPageShift) ∧
      DPager.ResizeLiveList 10 DPager.exampleState 9 8
        = some (KErrArgument, DPager.exampleState)) ∧
    (3 ≤ min 8 (KAbsoluteMaxPageCount DPager.exampleState.KPageShift) ∧
      DPager.ResizeLiveList 10 DPager.exampleState 3 8 = some (KErrNone, DPager.exampleRaised) ∧
      KErrNone ≠ KErrArgument ∧
      DPager.exampleRaised.iMinimumPageCount = 5 ∧
      DPager.exampleRaised.iMinimumPageCount
        = DPager.exampleRaised.iMinimumPageLimit + DPager.exampleRaised.iReservePageCount ∧
      DPager.exampleRaised.iMaximumPageCount
        = max (min 8 (KAbsoluteMaxPageCount DPager.exampleState.KPageShift))
            (DPager.exampleRaised.iMinimumPageLimit
              + DPager.exampleRaised.iReservePageCount)) :=
  have e : DPager.ResizeLiveList 10 DPager.exampleState 3 8
      = some (KErrNone, DPager.exampleRaised) := by rfl
  have h1 : (3 : Nat) ≤ min 8 (KAbsoluteMaxPageCount DPager.exampleState.KPageShift) := by
    decide
  have h2 : 9 > min 8 (KAbsoluteMaxPageCount DPager.exampleState.KPageShift) := by decide
  have t := resizeLiveList_argument_check.2.2 DPager.exampleState 3 8 10 DPager.exampleRaised
    (by decide) h1 (by decide) (by decide) (by decide) (by decide) (by decide) e
  ⟨⟨by decide, h2,
      resizeLiveList_argument_check.1 DPager.exampleState 9 8 10 (by decide) h2⟩,
    h1, e, resizeLiveList_argument_check.2.1 DPager.exampleState 3 8 10 KErrNone
      DPager.exampleRaised (by decide) h1 e,
    by rfl, t.2.2.1, t.2.2.2⟩

/-- C6 (as amended): rollback of `ReservePages`. Called with `count = 0`, `ReservePages`
returns; it returns false exactly when its loop stopped at a failed `ReservePage` with fewer
than `required` pages reserved, and then the increments of `iReservePageCount` made by the
preceding successful `ReservePage` calls are reversed: `count` is 0 again and
`iReservePageCount` has the value it had before the call. `iMinimumPageCount` is not rolled
back: it keeps the value the successful `ReservePage` calls left, which is at least its value
before the call. -/
theorem reservePages_rollback (s : DPager) (req fuel : Nat) (hf : req + 2 ≤ fuel) :
    ∃ c1 s2 b c s1, DPager.ReservePagesLoop fuel s req 0 = some (c1, s2) ∧
      DPager.ReservePages fuel s req 0 = some (b, c, s1) ∧
      (b = false ↔ c1 < req) ∧
      s2.iReservePageCount = s.iReservePageCount + c1 ∧
      (b = false → c = 0 ∧ s1.iReservePageCount = s.iReservePageCount ∧
        s1.iMinimumPageCount = s2.iMinimumPageCount) ∧
      s.iMinimumPageCount ≤ s1.iMinimumPageCount := by
  obtain ⟨c1, s2, b, c, s1, e1, e2, q1, -, q3, q4, q5⟩ :=
    DPager.reservePages_rollback_spec s req fuel hf
  exact ⟨c1, s2, b, c, s1, e1, e2, q1, q3, q4, q5⟩

/-- Witness for C6 (as amended): two pages requested where the allocator has one frame. -/
theorem reservePages_rollback_witness :
    ∃ c1 s2 b c s1, DPager.ReservePagesLoop 4 DPager.exampleScarce 2 0 = some (c1, s2) ∧
      DPager.ReservePages 4 DPager.exampleScarce 2 0 = some (b, c, s1) ∧
      (b = false ↔ c1 < 2) ∧
      s2.iReservePageCount = DPager.exampleScarce.iReservePageCount + c1 ∧
      (b = false → c = 0 ∧ s1.iReservePageCount = DPager.exampleScarce.iReservePageCount ∧
        s1.iMinimumPageCount = s2.iMinimumPageCount) ∧
      DPager.exampleScarce.iMinimumPageCount ≤ s1.iMinimumPageCount :=
  reservePages_rollback DPager.exampleScarce 2 4 (by decide)

/-- Counterexample to C6 as stated: with `min = 5`, `reserve = 1` and one frame left in the
system, `ReservePages(2, count = 0)` returns false with `count = 0` and `iReservePageCount`
back at 1, but `iMinimumPageCount` is 6 and not the 5 it was before the call. -/
theorem reservePages_rollback_counterexample :
    DPager.exampleScarce.iMinimumPageCount = 5 ∧
    DPager.exampleScarce.iReservePageCount = 1 ∧
    (DPager.ReservePages 4 DPager.exampleScarce 2 0).map
        (fun r => (r.1, r.2.1, r.2.2.iReservePageCount, r.2.2.iMinimumPageCount))
      = some (false, 0, 1, 6) := by
  refine ⟨rfl, rfl, ?_⟩
  decide

/-- C7 (evaluation at the failing input): from `min = max = 5`, `free = 0`, where the
invariant `min + free ≤ max` holds, `AllocPinReplacementPages(2)` with a first `AllocRam` that
succeeds and a second that fails returns false and leaves `min = 5`, `free = 1`, `max = 5`. -/
theorem allocPinReplacementPages_false_path :
    DPager.exampleFull.iMinimumPageCount + DPager.exampleFull.iNumberOfFreePages
      ≤ DPager.exampleFull.iMaximumPageCount ∧
    (DPager.AllocPinReplacementPages 4 DPager.exampleFull 2).map
        (fun r => (r.1, r.2.iMinimumPageCount, r.2.iNumberOfFreePages, r.2.iMaximumPageCount))
      = some (false, 5, 1, 5) := by
  refine ⟨by decide, ?_⟩
  decide

/-- C8: victim selection order. On a consistent, non-empty live list `TryStealOldestPage`
examines one frame `p`: the tail of OldestClean if `iOldestCleanCount > 0`, otherwise the tail
of OldestDirty if `iOldestDirtyCount > 0`, otherwise the tail of Old if `iOldCount > 0`,
otherwise the tail of Young; the call tests the dirty bit of `p` and steals `p`. -/
theorem victim_selection_order (s : DPager) (h : s.LiveListConsistent)
    (hpos : 0 < s.liveListSize) :
    ∃ p, s.OldestLink = some p ∧
      (0 < s.iOldestCleanCount → s.iOldestCleanList.getLast? = some p) ∧
      (s.iOldestCleanCount = 0 → 0 < s.iOldestDirtyCount →
        s.iOldestDirtyList.getLast? = some p) ∧
      (s.iOldestCleanCount = 0 → s.iOldestDirtyCount = 0 → 0 < s.iOldCount →
        s.iOldList.getLast? = some p) ∧
      (s.iOldestCleanCount = 0 → s.iOldestDirtyCount = 0 → s.iOldCount = 0 →
        s.iYoungList.getLast? = some p) ∧
      ∀ out, s.TryStealOldestPage out =
        if ((s.pageInfo p).IsDirty && !s.cleaningLockHeld) = true then some (1, out, s)
        else if (s.StealPage p).1 = KErrNone then
          some ((s.StealPage p).1, some p, (s.StealPage p).2.BalanceAges)
        else some ((s.StealPage p).1, out, (s.StealPage p).2) := by
  obtain ⟨p, hp, -⟩ := DPager.oldestLink_some h hpos
  obtain ⟨r1, r2, r3, r4⟩ := DPager.oldestLink_rule hp
  exact ⟨p, hp, r1, r2, r3, r4, fun out => DPager.tryStealOldest_unfold hp out⟩

/-- Witness for C8: in the example state the candidate is frame 4, the tail of OldestClean. -/
theorem victim_selection_order_witness :
    DPager.exampleState.LiveListConsistent ∧ 0 < DPager.exampleState.liveListSize ∧
    DPager.exampleState.OldestLink = some 4 ∧
    ∃ p, DPager.exampleState.OldestLink = some p ∧
      (0 < DPager.exampleState.iOldestCleanCount →
        DPager.exampleState.iOldestCleanList.getLast? = some p) :=
  have t := victim_selection_order DPager.exampleState (by decide) (by decide)
  ⟨by decide, by decide, by decide, t.choose, t.choose_spec.1, t.choose_spec.2.1⟩

/-- C9: `NeedsCleaning` is side-effect free. With `p` the selected candidate: if `p` is dirty
and the caller does not hold PageCleaningLock, `TryStealOldestPage` returns 1 and hands back
the state (queues, counts, paged states, the count of `StealPage` calls) and the out-parameter
as they were; in every other case it returns the result of `StealPage(p)`, and it runs
`BalanceAges` and sets the out-parameter to `p` exactly when that result is `KErrNone`. -/
theorem needsCleaning_side_effect_free (s : DPager) (p : Nat) (out : Option Nat)
    (hp : s.OldestLink = some p) :
    (((s.pageInfo p).IsDirty = true ∧ s.cleaningLockHeld = false) →
      s.TryStealOldestPage out = some (1, out, s)) ∧
    (¬ ((s.pageInfo p).IsDirty = true ∧ s.cleaningLockHeld = false) →
      s.TryStealOldestPage out =
        some ((s.StealPage p).1,
          if (s.StealPage p).1 = KErrNone then some p else out,
          if (s.StealPage p).1 = KErrNone then (s.StealPage p).2.BalanceAges
          else (s.StealPage p).2)) := by
  have e := DPager.tryStealOldest_unfold hp out
  constructor
  · rintro ⟨h1, h2⟩
    rw [e, if_pos (by rw [h1, h2]; rfl)]
  · intro h
    have hc : ¬ ((s.pageInfo p).IsDirty && !s.cleaningLockHeld) = true := by
      intro hx
      simp only [Bool.and_eq_true, Bool.not_eq_true', ] at hx
      exact h hx
    rw [e, if_neg hc]
    by_cases hr : (s.StealPage p).1 = KErrNone
    · rw [if_pos hr, if_pos hr, if_pos hr]
    · rw [if_neg hr, if_neg hr, if_neg hr]

/-- Witness for C9: in the example state the candidate is the clean frame 4; once the
oldest-clean queue is empty the candidate is the dirty frame 5 and the call returns 1. -/
theorem needsCleaning_side_effect_free_witness :
    DPager.exampleState.OldestLink = some 4 ∧
    (DPager.exampleState.RemovePage 4).OldestLink = some 5 ∧
    (((DPager.exampleState.RemovePage 4).pageInfo 5).IsDirty = true ∧
      (DPager.exampleState.RemovePage 4).cleaningLockHeld = false) ∧
    (DPager.exampleState.RemovePage 4).TryStealOldestPage none
      = some (1, none, DPager.exampleState.RemovePage 4) :=
  ⟨by decide, by decide, by decide,
    (needsCleaning_side_effect_free (DPager.exampleState.RemovePage 4) 5 none
      (by decide)).1 (by decide)⟩

/-- C10: first pin. For a frame with pin count 0 that is on one of the four sublists of a
consistent live list, `Pin` sets the pin count to 1 and the paged state to `EPagedPinned`,
unlinks the frame from its queue and decrements the count of that queue by exactly one (the
other queues and counts are untouched) before it balances; after `Pin` has returned,
`BalanceAges` included, the frame is on none of the four queues, is pinned and has pin count
1. -/
theorem first_pin (s : DPager) (p : Nat) (args : TPinArgs) (h : s.LiveListConsistent)
    (hon : s.OnLiveList p) (h0 : (s.pageInfo p).iPinCount = 0) :
    ∃ s1 args1, s.PinBeforeBalance p args = some (s1, args1) ∧
      s.Pin p args = (s1.BalanceAges, args1) ∧
      (s1.pageInfo p).iPinCount = 1 ∧
      (s1.pageInfo p).iPagedState = TPagedState.EPagedPinned ∧
      s1.iYoungList = s.iYoungList.erase p ∧ s1.iOldList = s.iOldList.erase p ∧
      s1.iOldestCleanList = s.iOldestCleanList.erase p ∧
      s1.iOldestDirtyList = s.iOldestDirtyList.erase p ∧
      s1.iYoungCount + (if p ∈ s.iYoungList then 1 else 0) = s.iYoungCount ∧
      s1.iOldCount + (if p ∈ s.iOldList then 1 else 0) = s.iOldCount ∧
      s1.iOldestCleanCount + (if p ∈ s.iOldestCleanList then 1 else 0)
        = s.iOldestCleanCount ∧
      s1.iOldestDirtyCount + (if p ∈ s.iOldestDirtyList then 1 else 0)
        = s.iOldestDirtyCount ∧
      s1.iYoungCount + s1.iOldCount + s1.iOldestCleanCount + s1.iOldestDirtyCount + 1
        = s.iYoungCount + s.iOldCount + s.iOldestCleanCount + s.iOldestDirtyCount ∧
      ¬ s1.OnLiveList p ∧ ¬ (s.Pin p args).1.OnLiveList p ∧
      ((s.Pin p args).1.pageInfo p).iPinCount = 1 ∧
      ((s.Pin p args).1.pageInfo p).iPagedState = TPagedState.EPagedPinned := by
  obtain ⟨s1, args1, e, c1, hoff, hst, hpc, l1, l2, l3, l4, n1, n2, n3, n4⟩ :=
    DPager.pinBeforeBalance_linked h hon args
  have ePin : s.Pin p args = (s1.BalanceAges, args1) := by
    simp only [DPager.Pin, e]
  have k1 := h.1
  have k2 := h.2.1
  have k3 := h.2.2.1
  have k4 := h.2.2.2.1
  have hy : p ∈ s.iYoungList → 0 < s.iYoungCount := fun hm => by
    rw [k1]; exact List.length_pos_of_mem hm
  have ho : p ∈ s.iOldList → 0 < s.iOldCount := fun hm => by
    rw [k2]; exact List.length_pos_of_mem hm
  have hc : p ∈ s.iOldestCleanList → 0 < s.iOldestCleanCount := fun hm => by
    rw [k3]; exact List.length_pos_of_mem hm
  have hd : p ∈ s.iOldestDirtyList → 0 < s.iOldestDirtyCount := fun hm => by
    rw [k4]; exact List.length_pos_of_mem hm
  have m1 : s1.iYoungCount + (if p ∈ s.iYoungList then 1 else 0) = s.iYoungCount := by
    rw [n1]; by_cases hm : p ∈ s.iYoungList
    · have := hy hm; rw [if_pos hm]; omega
    · rw [if_neg hm]; omega
  have m2 : s1.iOldCount + (if p ∈ s.iOldList then 1 else 0) = s.iOldCount := by
    rw [n2]; by_cases hm : p ∈ s.iOldList
    · have := ho hm; rw [if_pos hm]; omega
    · rw [if_neg hm]; omega
  have m3 : s1.iOldestCleanCount + (if p ∈ s.iOldestCleanList then 1 else 0)
      = s.iOldestCleanCount := by
    rw [n3]; by_cases hm : p ∈ s.iOldestCleanList
    · have := hc hm; rw [if_pos hm]; omega
    · rw [if_neg hm]; omega
  have m4 : s1.iOldestDirtyCount + (if p ∈ s.iOldestDirtyList then 1 else 0)
      = s.iOldestDirtyCount := by
    rw [n4]; by_cases hm : p ∈ s.iOldestDirtyList
    · have := hd hm; rw [if_pos hm]; omega
    · rw [if_neg hm]; omega
  have msum : s1.iYoungCount + s1.iOldCount + s1.iOldestCleanCount + s1.iOldestDirtyCount + 1
      = s.iYoungCount + s.iOldCount + s.iOldestCleanCount + s.iOldestDirtyCount := by
    rcases hon with hm | hm | hm | hm
    · obtain ⟨x1, x2, x3⟩ := DPager.mem_young_only h hm
      rw [if_pos hm] at m1; rw [if_neg x1] at m2; rw [if_neg x2] at m3; rw [if_neg x3] at m4
      omega
    · obtain ⟨x1, x2, x3⟩ := DPager.mem_old_only h hm
      rw [if_pos hm] at m2; rw [if_neg x1] at m1; rw [if_neg x2] at m3; rw [if_neg x3] at m4
      omega
    · obtain ⟨x1, x2, x3⟩ := DPager.mem_oldestClean_only h hm
      rw [if_pos hm] at m3; rw [if_neg x1] at m1; rw [if_neg x2] at m2; rw [if_neg x3] at m4
      omega
    · obtain ⟨x1, x2, x3⟩ := DPager.mem_oldestDirty_only h hm
      rw [if_pos hm] at m4; rw [if_neg x1] at m1; rw [if_neg x2] at m2; rw [if_neg x3] at m3
      omega
  have hoff2 : ¬ (s.Pin p args).1.OnLiveList p := by
    rw [ePin]
    exact fun hq => hoff ((DPager.onLiveList_BalanceAges s1 p).1 hq)
  have hpg : (s.Pin p args).1.pageInfo p = s1.pageInfo p := by
    rw [ePin]
    exact DPager.pageInfo_BalanceAges_off hoff
  refine ⟨s1, args1, e, ePin, by rw [hpc, h0], hst, l1, l2, l3, l4, m1, m2, m3, m4, msum,
    hoff, hoff2, ?_, ?_⟩
  · rw [hpg, hpc, h0]
  · rw [hpg, hst]

/-- Witness for C10: the first pin of the young frame 2 of the example state. -/
theorem first_pin_witness :
    DPager.exampleState.LiveListConsistent ∧ DPager.exampleState.OnLiveList 2 ∧
    (DPager.exampleState.pageInfo 2).iPinCount = 0 ∧
    ¬ (DPager.exampleState.Pin 2 ⟨1⟩).1.OnLiveList 2 ∧
    ((DPager.exampleState.Pin 2 ⟨1⟩).1.pageInfo 2).iPinCount = 1 ∧
    ((DPager.exampleState.Pin 2 ⟨1⟩).1.pageInfo 2).iPagedState = TPagedState.EPagedPinned :=
  have t := first_pin DPager.exampleState 2 ⟨1⟩ (by decide) (by decide) (by decide)
  ⟨by decide, by decide, by decide, t.choose_spec.choose_spec.2.2.2.2.2.2.2.2.2.2.2.2.2.2.1,
    t.choose_spec.choose_spec.2.2.2.2.2.2.2.2.2.2.2.2.2.2.2.1,
    t.choose_spec.choose_spec.2.2.2.2.2.2.2.2.2.2.2.2.2.2.2.2⟩

/-- C11: a re-entrant pin is a no-op beyond the counter. `Pin` on a frame whose state is
`EPagedPinned` returns the pin arguments as they were (no replacement page is consumed) and
the state as it was except that the pin count of the frame is one higher: every queue and
count, the paged state and the pinned-reserve flag of the frame, and every other frame are
unchanged, and `BalanceAges` has moved nothing. -/
theorem reentrant_pin (s : DPager) (p : Nat) (args : TPinArgs)
    (h : (s.pageInfo p).iPagedState = TPagedState.EPagedPinned) :
    (s.Pin p args).2 = args ∧
    (s.Pin p args).1 =
      { s with
        pageInfo := fun q =>
          if q = p then { s.pageInfo p with iPinCount := (s.pageInfo p).iPinCount + 1 }
          else s.pageInfo q } ∧
    ((s.Pin p args).1.pageInfo p).iPinCount = (s.pageInfo p).iPinCount + 1 ∧
    ((s.Pin p args).1.pageInfo p).iPagedState = TPagedState.EPagedPinned ∧
    ((s.Pin p args).1.pageInfo p).iPinnedReserve = (s.pageInfo p).iPinnedReserve ∧
    (s.Pin p args).1.iYoungList = s.iYoungList ∧ (s.Pin p args).1.iOldList = s.iOldList ∧
    (s.Pin p args).1.iOldestCleanList = s.iOldestCleanList ∧
    (s.Pin p args).1.iOldestDirtyList = s.iOldestDirtyList ∧
    (s.Pin p args).1.iYoungCount = s.iYoungCount ∧ (s.Pin p args).1.iOldCount = s.iOldCount ∧
    (s.Pin p args).1.iOldestCleanCount = s.iOldestCleanCount ∧
    (s.Pin p args).1.iOldestDirtyCount = s.iOldestDirtyCount := by
  have e := DPager.pin_pinned s p args h
  have e2 : (s.setPage p SPageInfo.IncPinCount) =
      { s with
        pageInfo := fun q =>
          if q = p then { s.pageInfo p with iPinCount := (s.pageInfo p).iPinCount + 1 }
          else s.pageInfo q } := by
    unfold DPager.setPage
    congr 1
    funext q
    by_cases hq : q = p
    · rw [if_pos hq, if_pos hq, hq]; rfl
    · rw [if_neg hq, if_neg hq]
  rw [e]
  refine ⟨rfl, e2, ?_, ?_, ?_, rfl, rfl, rfl, rfl, rfl, rfl, rfl, rfl⟩
  · exact DPager.incPin_count s p
  · rw [DPager.incPin_state s p, h]
  · show (if p = p then _ else _ : SPageInfo).iPinnedReserve = _
    rw [if_pos rfl]; rfl

/-- Witness for C11: frame 6 of the example state is pinned once; a second pin makes its pin
count 2. -/
theorem reentrant_pin_witness :
    (DPager.exampleState.pageInfo 6).iPagedState = TPagedState.EPagedPinned ∧
    (DPager.exampleState.Pin 6 ⟨3⟩).2 = ⟨3⟩ ∧
    ((DPager.exampleState.Pin 6 ⟨3⟩).1.pageInfo 6).iPinCount = 2 :=
  have t := reentrant_pin DPager.exampleState 6 ⟨3⟩ (by decide)
  ⟨by decide, t.1, t.2.2.1⟩
/-- C13: replacement-page conservation. With counted (non-reserve) pin arguments that hold a
replacement page, the first `Pin` of a frame decrements `iReplacementPages` by exactly 1, and
the last `Unpin` of a frame that was not pinned from the reserve increments it by exactly 1;
so over any sequence of `Pin` and `Unpin` calls made within their assertions on a consistent
live list, `iReplacementPages` plus the number of pinned frames is constant. With use-reserve
pin arguments `iReplacementPages` keeps the sentinel value: the first `Pin` sets the
pinned-reserve flag of the frame, further pins and unpins leave the flag and the arguments
alone, and the last `Unpin` clears the flag without crediting the arguments. Neither `Pin` nor
`Unpin` changes `iNumberOfFreePages`. -/
theorem replacement_page_conservation :
    (∀ (s : DPager) (p : Nat) (args : TPinArgs),
      args.iReplacementPages ≠ EUseReserveForPinReplacementPages →
      1 ≤ args.iReplacementPages →
      (s.pageInfo p).iPagedState ≠ TPagedState.EPagedPinned →
      (s.pageInfo p).iPagedState ≠ TPagedState.EPagedPinnedMoved →
      (s.Pin p args).2.iReplacementPages + 1 = args.iReplacementPages) ∧
    (∀ (s : DPager) (p : Nat) (args : TPinArgs),
      (s.pageInfo p).iPinCount = 1 → (s.pageInfo p).iPinnedReserve = false →
      (s.Unpin p args).2.iReplacementPages = args.iReplacementPages + 1) ∧
    (∀ (frames : List Nat) (cs : List (Bool × Nat)) (s : DPager) (args : TPinArgs),
      frames.Nodup → s.LiveListConsistent → (∀ c ∈ cs, c.2 ∈ frames) →
      DPager.pinCallsValid cs (s, args) →
      (DPager.pinCalls cs (s, args)).2.iReplacementPages
          + (DPager.pinCalls cs (s, args)).1.pinnedFrames frames
        = args.iReplacementPages + s.pinnedFrames frames) ∧
    (∀ (s : DPager) (p : Nat) (args : TPinArgs),
      args.iReplacementPages = EUseReserveForPinReplacementPages →
      (s.pageInfo p).iPagedState ≠ TPagedState.EPagedPinned →
      (s.pageInfo p).iPagedState ≠ TPagedState.EPagedPinnedMoved →
      (s.Pin p args).2 = args ∧ ((s.Pin p args).1.pageInfo p).iPinnedReserve = true) ∧
    (∀ (s : DPager) (p : Nat) (args : TPinArgs),
      (s.pageInfo p).iPagedState = TPagedState.EPagedPinned →
      (s.Pin p args).2 = args ∧
      ((s.Pin p args).1.pageInfo p).iPinnedReserve = (s.pageInfo p).iPinnedReserve) ∧
    (∀ (s : DPager) (p : Nat) (args : TPinArgs), 2 ≤ (s.pageInfo p).iPinCount →
      (s.Unpin p args).2 = args ∧
      ((s.Unpin p args).1.pageInfo p).iPinnedReserve = (s.pageInfo p).iPinnedReserve ∧
      ((s.Unpin p args).1.pageInfo p).iPagedState = (s.pageInfo p).iPagedState) ∧
    (∀ (s : DPager) (p : Nat) (args : TPinArgs), (s.pageInfo p).iPinCount = 1 →
      ((s.Unpin p args).1.pageInfo p).iPinnedReserve = false ∧
      ((s.pageInfo p).iPinnedReserve = true → (s.Unpin p args).2 = args)) ∧
    (∀ (s : DPager) (p : Nat) (args : TPinArgs),
      (s.Pin p args).1.iNumberOfFreePages = s.iNumberOfFreePages ∧
      (s.Unpin p args).1.iNumberOfFreePages = s.iNumberOfFreePages) := by
  refine ⟨?_, ?_, ?_, ?_, ?_, ?_, ?_, ?_⟩
  · intro s p args h1 h2 h3 h4
    rw [(DPager.pin_first_spec s p args h3 h4).1, if_neg h1]
    show sub32 args.iReplacementPages 1 + 1 = _
    rw [DPager.sub32_one (by omega)]
    omega
  · intro s p args h1 h2
    rw [DPager.unpin_last args h1, if_pos h2]
  · intro frames cs s args hn h hm hv
    exact (DPager.pinCalls_conservation hn cs s args h hm hv).2
  · intro s p args h1 h3 h4
    obtain ⟨a1, a2, -⟩ := DPager.pin_first_spec s p args h3 h4
    rw [a1, a2, if_pos h1, if_pos h1]
    exact ⟨rfl, rfl⟩
  · intro s p args h
    rw [DPager.pin_pinned s p args h]
    refine ⟨rfl, ?_⟩
    show ((s.setPage p SPageInfo.IncPinCount).pageInfo p).iPinnedReserve = _
    rw [DPager.setPage_same]
    rfl
  · intro s p args h
    rw [DPager.unpin_more args h]
    refine ⟨rfl, ?_, ?_⟩
    · show ((s.setPage p SPageInfo.DecPinCount).pageInfo p).iPinnedReserve = _
      rw [DPager.setPage_same]
      rfl
    · show ((s.setPage p SPageInfo.DecPinCount).pageInfo p).iPagedState = _
      rw [DPager.setPage_same]
      rfl
  · intro s p args h
    refine ⟨DPager.unpin_last_flag s p args h, fun hf => ?_⟩
    rw [DPager.unpin_last args h, hf]
    rfl
  · intro s p args
    exact ⟨congrArg DPager.Outside.iNumberOfFreePages (DPager.outside_Pin s p args),
      congrArg DPager.Outside.iNumberOfFreePages (DPager.outside_Unpin s p args)⟩

/-- Witness for C13: a pinner with 5 replacement pages pins frames 1 and 2 of the example
state, unpins frame 1 and pins it again; a use-reserve pin of frame 3 flags the frame. -/
theorem replacement_page_conservation_witness :
    ([1, 2, 3, 6] : List Nat).Nodup ∧ DPager.exampleState.LiveListConsistent ∧
    DPager.pinCallsValid [(true, 1), (true, 2), (false, 1), (true, 1)]
      (DPager.exampleState, ⟨5⟩) ∧
    (DPager.pinCalls [(true, 1), (true, 2), (false, 1), (true, 1)]
        (DPager.exampleState, ⟨5⟩)).2.iReplacementPages
      + (DPager.pinCalls [(true, 1), (true, 2), (false, 1), (true, 1)]
        (DPager.exampleState, ⟨5⟩)).1.pinnedFrames [1, 2, 3, 6]
      = 5 + DPager.exampleState.pinnedFrames [1, 2, 3, 6] ∧
    (DPager.exampleState.Pin 1 ⟨5⟩).2.iReplacementPages + 1 = 5 ∧
    ((DPager.exampleState.Pin 3 ⟨EUseReserveForPinReplacementPages⟩).2
        = ⟨EUseReserveForPinReplacementPages⟩ ∧
      ((DPager.exampleState.Pin 3 ⟨EUseReserveForPinReplacementPages⟩).1.pageInfo 3).iPinnedReserve
        = true) :=
  ⟨by decide, by decide, by decide,
    replacement_page_conservation.2.2.1 [1, 2, 3, 6]
      [(true, 1), (true, 2), (false, 1), (true, 1)] DPager.exampleState ⟨5⟩
      (by decide) (by decide) (by decide) (by decide),
    replacement_page_conservation.1 DPager.exampleState 1 ⟨5⟩ (by decide) (by decide)
      (by decide) (by decide),
    replacement_page_conservation.2.2.2.1 DPager.exampleState 3
      ⟨EUseReserveForPinReplacementPages⟩ rfl (by decide) (by decide)⟩
/-- C14: `PageFreed` on a live frame. For a frame of a consistent live list whose state is
`EPagedYoung`, `EPagedOld`, `EPagedOldestClean` or `EPagedOldestDirty`, whose link is on the
queue of that state and whose descriptor is writable only if it is dirty (the descriptor
invariant on which `PageFreed` relies when it clears the writable bit under its `IsDirty`
guard), `PageFreed` returns `KErrNone`, unlinks the frame from its queue and links it at the
end of the oldest-clean queue with state `EPagedOldestClean`, not dirty and not writable. The
count of the source queue decreases by one and `iOldestCleanCount` increases by one (both
unchanged when the source is the oldest-clean queue), so the sum of the four counts is
unchanged. -/
theorem pageFreed_live_frame (s : DPager) (p : Nat) (h : s.LiveListConsistent)
    (hl : s.Linked p) (hs : DPager.IsSublistState (s.pageInfo p).iPagedState = true)
    (hwd : (s.pageInfo p).IsWritable = true → (s.pageInfo p).IsDirty = true) :
    (s.PageFreed p).1 = KErrNone ∧
    (s.PageFreed p).2.iYoungList = s.iYoungList.erase p ∧
    (s.PageFreed p).2.iOldList = s.iOldList.erase p ∧
    (s.PageFreed p).2.iOldestCleanList = s.iOldestCleanList.erase p ++ [p] ∧
    (s.PageFreed p).2.iOldestDirtyList = s.iOldestDirtyList.erase p ∧
    ((s.PageFreed p).2.pageInfo p).iPagedState = TPagedState.EPagedOldestClean ∧
    ((s.PageFreed p).2.pageInfo p).IsDirty = false ∧
    ((s.PageFreed p).2.pageInfo p).IsWritable = false ∧
    (s.PageFreed p).2.iYoungCount
        + (if (s.pageInfo p).iPagedState = TPagedState.EPagedYoung then 1 else 0)
      = s.iYoungCount ∧
    (s.PageFreed p).2.iOldCount
        + (if (s.pageInfo p).iPagedState = TPagedState.EPagedOld then 1 else 0)
      = s.iOldCount ∧
    (s.PageFreed p).2.iOldestCleanCount
        + (if (s.pageInfo p).iPagedState = TPagedState.EPagedOldestClean then 1 else 0)
      = s.iOldestCleanCount + 1 ∧
    (s.PageFreed p).2.iOldestDirtyCount
        + (if (s.pageInfo p).iPagedState = TPagedState.EPagedOldestDirty then 1 else 0)
      = s.iOldestDirtyCount ∧
    (s.PageFreed p).2.iYoungCount + (s.PageFreed p).2.iOldCount
        + (s.PageFreed p).2.iOldestCleanCount + (s.PageFreed p).2.iOldestDirtyCount
      = s.iYoungCount + s.iOldCount + s.iOldestCleanCount + s.iOldestDirtyCount := by
  obtain ⟨t, e, tp, l1, l2, l3, l4, c1, c2, c3, c4⟩ := DPager.pageFreed_unlinked h (hl hs)
  obtain ⟨f0, f1, f2, f3, f4, g1, g2, g3, g4, hst, hd, -⟩ := DPager.PageFreedTail_fields t p
  have hwr := DPager.PageFreedTail_writable t p
  rw [tp] at hwr
  rw [e, f1, f2, f3, f4, g1, g2, g3, g4, l1, l2, l3, l4]
  have hsum : (if (s.pageInfo p).iPagedState = TPagedState.EPagedYoung then 1 else 0)
      + (if (s.pageInfo p).iPagedState = TPagedState.EPagedOld then 1 else 0)
      + (if (s.pageInfo p).iPagedState = TPagedState.EPagedOldestClean then 1 else 0)
      + (if (s.pageInfo p).iPagedState = TPagedState.EPagedOldestDirty then 1 else 0) = 1 := by
    rcases hx : (s.pageInfo p).iPagedState <;> rw [hx] at hs <;>
      first
      | exact absurd hs (by decide)
      | decide
  refine ⟨f0, rfl, rfl, rfl, rfl, hst, hd, ?_, c1, c2, by omega, c4, by omega⟩
  show ((t.PageFreedTail p).2.pageInfo p).iWritable = false
  rw [hwr]
  by_cases hdirty : (s.pageInfo p).iDirty = true
  · rw [if_pos hdirty]
  · rw [if_neg hdirty]
    cases hw : (s.pageInfo p).iWritable with
    | false => rfl
    | true => exact absurd (hwd hw) hdirty

/-- Witness for C14: in the example state with the young frame 1 written to (writable and
dirty), `PageFreed` of frame 1 moves it to the end of the oldest-clean queue, not dirty and
not writable; so does `PageFreed` of the oldest-dirty frame 5 of the example state. -/
theorem pageFreed_live_frame_witness :
    DPager.exampleWritable.LiveListConsistent ∧ DPager.exampleWritable.Linked 1 ∧
    (DPager.exampleWritable.pageInfo 1).IsWritable = true ∧
    (DPager.exampleWritable.pageInfo 1).IsDirty = true ∧
    (DPager.exampleWritable.PageFreed 1).1 = KErrNone ∧
    (DPager.exampleWritable.PageFreed 1).2.iYoungList = [2] ∧
    (DPager.exampleWritable.PageFreed 1).2.iOldestCleanList = [4, 1] ∧
    ((DPager.exampleWritable.PageFreed 1).2.pageInfo 1).IsDirty = false ∧
    ((DPager.exampleWritable.PageFreed 1).2.pageInfo 1).IsWritable = false ∧
    (DPager.exampleState.PageFreed 5).2.iOldestCleanList = [4, 5] ∧
    (DPager.exampleState.PageFreed 5).2.iOldestDirtyList = [] ∧
    ((DPager.exampleState.PageFreed 5).2.pageInfo 5).IsWritable = false :=
  have t := pageFreed_live_frame DPager.exampleWritable 1 (by decide) (by decide) (by decide)
    (by decide)
  have u := pageFreed_live_frame DPager.exampleState 5 (by decide) (by decide) (by decide)
    (by decide)
  ⟨by decide, by decide, by decide, by decide, t.1, t.2.1, t.2.2.2.1, t.2.2.2.2.2.2.1,
    t.2.2.2.2.2.2.2.1, u.2.2.2.1, u.2.2.2.2.1, u.2.2.2.2.2.2.2.1⟩

/-- C15: `PageFreed` on a frame that is not on a sublist. For state `EUnpaged` it returns
`KErrNotFound` and hands back the state unchanged (so repeating the call changes nothing
either); for state `EPagedPinned` it returns `KErrNone` and hands back the state unchanged;
for state `EPagedPinnedMoved` it returns `KErrNotFound` and resets the paged state to
`EUnpaged`, queues and counts unchanged, and a second call takes the `EUnpaged` path. -/
theorem pageFreed_not_on_sublist (s : DPager) (p : Nat) :
    ((s.pageInfo p).iPagedState = TPagedState.EUnpaged →
      s.PageFreed p = (KErrNotFound, s) ∧
      (s.PageFreed p).2.PageFreed p = (KErrNotFound, s)) ∧
    ((s.pageInfo p).iPagedState = TPagedState.EPagedPinned → s.PageFreed p = (KErrNone, s)) ∧
    ((s.pageInfo p).iPagedState = TPagedState.EPagedPinnedMoved →
      s.PageFreed p = (KErrNotFound, s.SetPagedState p TPagedState.EUnpaged) ∧
      ((s.PageFreed p).2.pageInfo p).iPagedState = TPagedState.EUnpaged ∧
      (s.PageFreed p).2.PageFreed p = (KErrNotFound, (s.PageFreed p).2) ∧
      (s.PageFreed p).2.iYoungList = s.iYoungList ∧ (s.PageFreed p).2.iOldList = s.iOldList ∧
      (s.PageFreed p).2.iOldestCleanList = s.iOldestCleanList ∧
      (s.PageFreed p).2.iOldestDirtyList = s.iOldestDirtyList ∧
      (s.PageFreed p).2.iYoungCount = s.iYoungCount ∧
      (s.PageFreed p).2.iOldCount = s.iOldCount ∧
      (s.PageFreed p).2.iOldestCleanCount = s.iOldestCleanCount ∧
      (s.PageFreed p).2.iOldestDirtyCount = s.iOldestDirtyCount) := by
  refine ⟨fun h => ?_, fun h => ?_, fun h => ?_⟩
  · have e : s.PageFreed p = (KErrNotFound, s) := by simp only [DPager.PageFreed, h]
    rw [e]
    exact ⟨rfl, e⟩
  · simp only [DPager.PageFreed, h]
  · have e : s.PageFreed p = (KErrNotFound, s.SetPagedState p TPagedState.EUnpaged) := by
      simp only [DPager.PageFreed, h]
    have hst : ((s.SetPagedState p TPagedState.EUnpaged).pageInfo p).iPagedState
        = TPagedState.EUnpaged := by
      unfold DPager.SetPagedState
      rw [DPager.setPage_same]
      rfl
    rw [e]
    refine ⟨rfl, hst, ?_, rfl, rfl, rfl, rfl, rfl, rfl, rfl, rfl⟩
    simp only [DPager.PageFreed, hst]

/-- Witness for C15: frame 9 of the example state is unpaged, frame 6 is pinned, and after
`ReplacePage` of the pinned frame 6 it is `EPagedPinnedMoved`. -/
theorem pageFreed_not_on_sublist_witness :
    DPager.exampleState.PageFreed 9 = (KErrNotFound, DPager.exampleState) ∧
    DPager.exampleState.PageFreed 6 = (KErrNone, DPager.exampleState) ∧
    ((DPager.exampleState.ReplacePage 6 8).pageInfo 6).iPagedState
      = TPagedState.EPagedPinnedMoved ∧
    (((DPager.exampleState.ReplacePage 6 8).PageFreed 6).2.pageInfo 6).iPagedState
      = TPagedState.EUnpaged :=
  ⟨((pageFreed_not_on_sublist DPager.exampleState 9).1 (by decide)).1,
    (pageFreed_not_on_sublist DPager.exampleState 6).2.1 (by decide),
    by decide,
    ((pageFreed_not_on_sublist (DPager.exampleState.ReplacePage 6 8) 6).2.2 (by decide)).2.1⟩

/-- C16: postcondition of `ReplacePage`. On a consistent live list, if `old` is on one of the
four sublists and `new` has the same paged state and is on no queue, then after
`ReplacePage(old, new)` the queue that held `old` is the former queue with `new` in the place
of `old`, the other queues and all four counts are unchanged, `old` is `EUnpaged` and `new`
keeps the state of the queue; if `old` is `EPagedPinned`, no queue and no count changes and
`old` becomes `EPagedPinnedMoved` with its pin count cleared. -/
theorem replacePage_postcondition (s : DPager) (old new : Nat) (h : s.LiveListConsistent) :
    (s.OnLiveList old → (s.pageInfo new).iPagedState = (s.pageInfo old).iPagedState →
      ¬ s.OnLiveList new →
      (old ∈ s.iYoungList → ∃ pre post, s.iYoungList = pre ++ old :: post ∧
        (s.ReplacePage old new).iYoungList = pre ++ new :: post) ∧
      (old ∉ s.iYoungList → (s.ReplacePage old new).iYoungList = s.iYoungList) ∧
      (old ∈ s.iOldList → ∃ pre post, s.iOldList = pre ++ old :: post ∧
        (s.ReplacePage old new).iOldList = pre ++ new :: post) ∧
      (old ∉ s.iOldList → (s.ReplacePage old new).iOldList = s.iOldList) ∧
      (old ∈ s.iOldestCleanList → ∃ pre post, s.iOldestCleanList = pre ++ old :: post ∧
        (s.ReplacePage old new).iOldestCleanList = pre ++ new :: post) ∧
      (old ∉ s.iOldestCleanList →
        (s.ReplacePage old new).iOldestCleanList = s.iOldestCleanList) ∧
      (old ∈ s.iOldestDirtyList → ∃ pre post, s.iOldestDirtyList = pre ++ old :: post ∧
        (s.ReplacePage old new).iOldestDirtyList = pre ++ new :: post) ∧
      (old ∉ s.iOldestDirtyList →
        (s.ReplacePage old new).iOldestDirtyList = s.iOldestDirtyList) ∧
      (s.ReplacePage old new).iYoungCount = s.iYoungCount ∧
      (s.ReplacePage old new).iOldCount = s.iOldCount ∧
      (s.ReplacePage old new).iOldestCleanCount = s.iOldestCleanCount ∧
      (s.ReplacePage old new).iOldestDirtyCount = s.iOldestDirtyCount ∧
      ((s.ReplacePage old new).pageInfo old).iPagedState = TPagedState.EUnpaged ∧
      ((s.ReplacePage old new).pageInfo new).iPagedState = (s.pageInfo old).iPagedState ∧
      (s.ReplacePage old new).OnLiveList new ∧ ¬ (s.ReplacePage old new).OnLiveList old) ∧
    ((s.pageInfo old).iPagedState = TPagedState.EPagedPinned →
      (s.ReplacePage old new).iYoungList = s.iYoungList ∧
      (s.ReplacePage old new).iOldList = s.iOldList ∧
      (s.ReplacePage old new).iOldestCleanList = s.iOldestCleanList ∧
      (s.ReplacePage old new).iOldestDirtyList = s.iOldestDirtyList ∧
      (s.ReplacePage old new).iYoungCount = s.iYoungCount ∧
      (s.ReplacePage old new).iOldCount = s.iOldCount ∧
      (s.ReplacePage old new).iOldestCleanCount = s.iOldestCleanCount ∧
      (s.ReplacePage old new).iOldestDirtyCount = s.iOldestDirtyCount ∧
      ((s.ReplacePage old new).pageInfo old).iPagedState = TPagedState.EPagedPinnedMoved ∧
      ((s.ReplacePage old new).pageInfo old).iPinCount = 0) := by
  constructor
  · intro hon hst hoff
    have hsub := DPager.sublistState_of_onLiveList h hon
    obtain ⟨n1, n2, n3, n4⟩ := DPager.consistent_nodup h
    have hne : new ≠ old := fun e => hoff (e ▸ hon)
    rw [DPager.replacePage_sublist s old new hsub]
    refine ⟨fun hm => DPager.splice_decompose n1 hm new,
      fun hm => DPager.splice_of_not_mem new hm,
      fun hm => DPager.splice_decompose n2 hm new,
      fun hm => DPager.splice_of_not_mem new hm,
      fun hm => DPager.splice_decompose n3 hm new,
      fun hm => DPager.splice_of_not_mem new hm,
      fun hm => DPager.splice_decompose n4 hm new,
      fun hm => DPager.splice_of_not_mem new hm,
      rfl, rfl, rfl, rfl, ?_, ?_, ?_, ?_⟩
    · unfold DPager.SetPagedState
      rw [DPager.setPage_same]
      rfl
    · unfold DPager.SetPagedState
      rw [DPager.setPage_other _ _ _ hne]
      exact hst
    · rcases hon with hm | hm | hm | hm
      · obtain ⟨pre, post, -, e⟩ := DPager.splice_decompose n1 hm new
        exact Or.inl (by
          show new ∈ DPager.spliceQueue s.iYoungList old new
          rw [e]; simp)
      · obtain ⟨pre, post, -, e⟩ := DPager.splice_decompose n2 hm new
        exact Or.inr (Or.inl (by
          show new ∈ DPager.spliceQueue s.iOldList old new
          rw [e]; simp))
      · obtain ⟨pre, post, -, e⟩ := DPager.splice_decompose n3 hm new
        exact Or.inr (Or.inr (Or.inl (by
          show new ∈ DPager.spliceQueue s.iOldestCleanList old new
          rw [e]; simp)))
      · obtain ⟨pre, post, -, e⟩ := DPager.splice_decompose n4 hm new
        exact Or.inr (Or.inr (Or.inr (by
          show new ∈ DPager.spliceQueue s.iOldestDirtyList old new
          rw [e]; simp)))
    · have hx : ∀ q : List Nat, old ∉ DPager.spliceQueue q old new := by
        intro q hq
        rcases DPager.mem_splice hq with ⟨e, -⟩ | ⟨-, e⟩
        · exact hne e.symm
        · exact e rfl
      intro hq
      rcases hq with hm | hm | hm | hm
      · exact hx _ hm
      · exact hx _ hm
      · exact hx _ hm
      · exact hx _ hm
  · intro hst
    rw [DPager.replacePage_pinned s old new hst]
    refine ⟨rfl, rfl, rfl, rfl, rfl, rfl, rfl, rfl, ?_, ?_⟩
    · unfold DPager.SetPagedState
      rw [DPager.setPage_same]
      rfl
    · unfold DPager.SetPagedState
      rw [DPager.setPage_same, DPager.setPage_same]
      rfl

/-- Witness for C16: in the example state frame 7 replaces the old frame 3, and the pinned
frame 6 is marked as moved. -/
theorem replacePage_postcondition_witness :
    DPager.exampleState.LiveListConsistent ∧ DPager.exampleState.OnLiveList 3 ∧
    ¬ DPager.exampleState.OnLiveList 7 ∧
    (DPager.exampleState.ReplacePage 3 7).iOldList = [7] ∧
    ((DPager.exampleState.ReplacePage 3 7).pageInfo 3).iPagedState = TPagedState.EUnpaged ∧
    ((DPager.exampleState.ReplacePage 6 8).pageInfo 6).iPagedState
      = TPagedState.EPagedPinnedMoved ∧
    ((DPager.exampleState.ReplacePage 6 8).pageInfo 6).iPinCount = 0 :=
  have t := (replacePage_postcondition DPager.exampleState 3 7 (by decide)).1 (by decide)
    (by decide) (by decide)
  have u := (replacePage_postcondition DPager.exampleState 6 8 (by decide)).2 (by decide)
  ⟨by decide, by decide, by decide, by decide, t.2.2.2.2.2.2.2.2.2.2.2.2.1,
    u.2.2.2.2.2.2.2.2.1, u.2.2.2.2.2.2.2.2.2⟩

/-- C17 (as amended): `AddAsFreePage` sets the state of the frame to `EPagedOldestClean`,
increments `iOldestCleanCount` by one, and links the frame at the end of the oldest-clean
queue: the frame is the tail, which is what `TryStealOldestPage` takes with `Last()`. The
other queues and counts are unchanged. -/
theorem addAsFreePage_links_at_tail (s : DPager) (p : Nat) :
    ((s.AddAsFreePage p).pageInfo p).iPagedState = TPagedState.EPagedOldestClean ∧
    (s.AddAsFreePage p).iOldestCleanCount = s.iOldestCleanCount + 1 ∧
    (s.AddAsFreePage p).iOldestCleanList = s.iOldestCleanList ++ [p] ∧
    (s.AddAsFreePage p).iOldestCleanList.getLast? = some p ∧
    (s.AddAsFreePage p).iYoungList = s.iYoungList ∧
    (s.AddAsFreePage p).iOldList = s.iOldList ∧
    (s.AddAsFreePage p).iOldestDirtyList = s.iOldestDirtyList ∧
    (s.AddAsFreePage p).iYoungCount = s.iYoungCount ∧
    (s.AddAsFreePage p).iOldCount = s.iOldCount ∧
    (s.AddAsFreePage p).iOldestDirtyCount = s.iOldestDirtyCount := by
  refine ⟨?_, rfl, rfl, ?_, rfl, rfl, rfl, rfl, rfl, rfl⟩
  · unfold DPager.AddAsFreePage DPager.SetPagedState DPager.MmuPageFreed
    dsimp only
    rw [DPager.setPage_same]
    rfl
  · show (s.iOldestCleanList ++ [p]).getLast? = some p
    exact List.getLast?_concat _

/-- Counterexample to C17 as stated: in the example state the oldest-clean queue holds
frame 4; after `AddAsFreePage` of the unpaged frame 9 the head of the queue is still frame 4
and frame 9 is its tail. -/
theorem addAsFreePage_links_at_tail_counterexample :
    (DPager.exampleState.pageInfo 9).iPagedState = TPagedState.EUnpaged ∧
    (DPager.exampleState.AddAsFreePage 9).iOldestCleanList = [4, 9] ∧
    (DPager.exampleState.AddAsFreePage 9).iOldestCleanList.head? ≠ some 9 ∧
    (DPager.exampleState.AddAsFreePage 9).iOldestCleanList.getLast? = some 9 := by
  decide

/-- C18 (as amended): the bound on the oldest lists limits ageing only. `BalanceAges` moves a
frame from Old into an oldest list only when `iOldestCleanCount + iOldestDirtyCount <
KMaxOldestPages` (32) on entry: from a state with at most 32 oldest pages it ends with at
most 32, and from a state with 32 or more it leaves the number of oldest pages as it is.
`InitCache`, whose frame allocations succeed, puts all the `iMinimumPageCount -
iReservePageCount` frames it allocates on the oldest-clean queue, whatever their number. -/
theorem oldest_lists_bound :
    (∀ s : DPager, s.iOldestCleanCount + s.iOldestDirtyCount ≤ KMaxOldestPages →
      s.BalanceAges.iOldestCleanCount + s.BalanceAges.iOldestDirtyCount ≤ KMaxOldestPages) ∧
    (∀ s : DPager, KMaxOldestPages ≤ s.iOldestCleanCount + s.iOldestDirtyCount →
      s.BalanceAges.iOldestCleanCount + s.BalanceAges.iOldestDirtyCount
        = s.iOldestCleanCount + s.iOldestDirtyCount) ∧
    (∀ s : DPager, (∀ k, (s.allocRam k).isSome = true) →
      ∃ s1, s.InitCachePopulate = some s1 ∧
        s1.iOldestCleanCount + s1.iOldestDirtyCount
          = s.iOldestCleanCount + (s.iMinimumPageCount - s.iReservePageCount)) := by
  refine ⟨fun s h => ?_, fun s h => ?_, fun s ha => ?_⟩
  · rcases DPager.oldest_BalanceAges s with e | ⟨e1, e2⟩
    · rw [e]; exact h
    · rw [e2]; omega
  · rcases DPager.oldest_BalanceAges s with e | ⟨e1, e2⟩
    · exact e
    · omega
  · obtain ⟨s1, e, c1, c2, -⟩ := DPager.initCachePopulate_spec s ha
    exact ⟨s1, e, by rw [c1, c2]; rfl⟩

/-- Witness for C18 (as amended): the example state has two oldest pages; the pager at boot
is populated with 256 frames. -/
theorem oldest_lists_bound_witness :
    DPager.exampleState.iOldestCleanCount + DPager.exampleState.iOldestDirtyCount
      ≤ KMaxOldestPages ∧
    DPager.exampleState.BalanceAges.iOldestCleanCount
        + DPager.exampleState.BalanceAges.iOldestDirtyCount ≤ KMaxOldestPages ∧
    ∃ s1, DPager.exampleBoot.InitCachePopulate = some s1 ∧
      s1.iOldestCleanCount + s1.iOldestDirtyCount
        = DPager.exampleBoot.iOldestCleanCount
          + (DPager.exampleBoot.iMinimumPageCount - DPager.exampleBoot.iReservePageCount) :=
  ⟨by decide, oldest_lists_bound.1 DPager.exampleState (by decide),
    oldest_lists_bound.2.2 DPager.exampleBoot (fun _ => rfl)⟩

/-- Counterexample to C18 as stated: `InitCache` with the default minimum of 256 pages and no
reserved page ends with 256 frames on the oldest-clean queue, more than `KMaxOldestPages`. -/
theorem oldest_lists_bound_counterexample :
    ∃ s1, DPager.exampleBoot.InitCachePopulate = some s1 ∧
      s1.iOldestCleanCount + s1.iOldestDirtyCount = 256 ∧
      ¬ s1.iOldestCleanCount + s1.iOldestDirtyCount ≤ KMaxOldestPages := by
  obtain ⟨s1, e, c1, c2, -⟩ := DPager.initCachePopulate_spec DPager.exampleBoot (fun _ => rfl)
  have c3 : s1.iOldestCleanCount = 256 := c1
  refine ⟨s1, e, by rw [c3, c2], ?_⟩
  rw [c3, c2]
  decide

/-- C19 (as amended): accounting of a cleaner run. `CleanSomePages` returns the count `n` of
the selector. With `k` the number of frames the manager's `CleanPages` leaves in the frame
array (`k ≤ n`, and `k = n` when it leaves no NULL entry), distinct linked frames in state
`EPagedOldestDirty`: `iOldestDirtyCount` has decreased by exactly `k` and
`iOldestCleanCount` has increased by exactly `k`, the `k` frames being moved from OldestDirty
to the head of OldestClean with state `EPagedOldestClean`. When the selector returns 0,
`CleanSomePages` returns 0 without calling the manager or changing any state. -/
theorem cleanSomePages_accounting (s : DPager) (h : s.LiveListConsistent)
    (hm : ∀ pi ∈ (s.arrayAfterClean s.SelectPagesToClean).filterMap id,
      (s.pageInfo pi).iPagedState = TPagedState.EPagedOldestDirty ∧ s.OnLiveList pi)
    (hn : ((s.arrayAfterClean s.SelectPagesToClean).filterMap id).Nodup) :
    s.CleanSomePages.1 = s.SelectPagesToClean.length ∧
    ((s.arrayAfterClean s.SelectPagesToClean).filterMap id).length
      ≤ s.SelectPagesToClean.length ∧
    ((∀ e ∈ s.arrayAfterClean s.SelectPagesToClean, e.isSome = true) →
      ((s.arrayAfterClean s.SelectPagesToClean).filterMap id).length
        = s.SelectPagesToClean.length) ∧
    s.CleanSomePages.2.iOldestDirtyCount
        + ((s.arrayAfterClean s.SelectPagesToClean).filterMap id).length
      = s.iOldestDirtyCount ∧
    s.CleanSomePages.2.iOldestCleanCount
      = s.iOldestCleanCount + ((s.arrayAfterClean s.SelectPagesToClean).filterMap id).length ∧
    s.CleanSomePages.2.iOldestCleanList
      = ((s.arrayAfterClean s.SelectPagesToClean).filterMap id).reverse
        ++ s.iOldestCleanList ∧
    s.CleanSomePages.2.iOldestDirtyList
      = ((s.arrayAfterClean s.SelectPagesToClean).filterMap id).foldl List.erase
        s.iOldestDirtyList ∧
    (∀ pi ∈ (s.arrayAfterClean s.SelectPagesToClean).filterMap id,
      (s.CleanSomePages.2.pageInfo pi).iPagedState = TPagedState.EPagedOldestClean) ∧
    (s.SelectPagesToClean.length = 0 → s.CleanSomePages = (0, s)) := by
  obtain ⟨a1, a2, a3, a4, a5, a6⟩ := DPager.cleanSomePages_spec h hm hn
  have hle := DPager.length_filterMap_id_le (s.arrayAfterClean s.SelectPagesToClean)
  rw [DPager.length_arrayAfterClean] at hle
  refine ⟨a1, hle, fun hall => ?_, a2, a3, a4, a5, a6, fun h0 => ?_⟩
  · rw [DPager.length_filterMap_id_of_isSome _ hall, DPager.length_arrayAfterClean]
  · unfold DPager.CleanSomePages
    dsimp only
    rw [if_pos h0]

/-- Witness for C19 (as amended): in the example state the selector picks the dirty frame 5
and the manager cleans it. -/
theorem cleanSomePages_accounting_witness :
    DPager.exampleState.LiveListConsistent ∧
    DPager.exampleState.CleanSomePages.1 = 1 ∧
    DPager.exampleState.CleanSomePages.2.iOldestDirtyCount + 1
      = DPager.exampleState.iOldestDirtyCount ∧
    DPager.exampleState.CleanSomePages.2.iOldestCleanList = [5, 4] :=
  have t := cleanSomePages_accounting DPager.exampleState (by decide) (by decide) (by decide)
  ⟨by decide, t.1, t.2.2.2.1, t.2.2.2.2.2.1⟩

/-- Counterexample to C19 as stated: when the manager's `CleanPages` sets the one selected
entry to NULL, `CleanSomePages` returns 1 while `iOldestDirtyCount` and `iOldestCleanCount`
keep their values and the selected frame 5 stays on the oldest-dirty queue. -/
theorem cleanSomePages_accounting_counterexample :
    DPager.exampleNulling.LiveListConsistent ∧
    DPager.exampleNulling.CleanSomePages.1 = 1 ∧
    DPager.exampleNulling.CleanSomePages.2.iOldestDirtyCount
      = DPager.exampleNulling.iOldestDirtyCount ∧
    DPager.exampleNulling.CleanSomePages.2.iOldestCleanCount
      = DPager.exampleNulling.iOldestCleanCount ∧
    DPager.exampleNulling.CleanSomePages.2.iOldestDirtyList = [5] := by
  decide

/-- C20: `SelectPagesToClean` without page colouring returns `n = min(KMaxPagesToClean,
number of non-writable frames on OldestDirty)` and writes exactly the first `n` non-writable
frames met when walking OldestDirty from its tail towards its head, in that order. The
operation only reads the pager state. -/
theorem selectPagesToClean_no_colour (s : DPager) (hc : s.cpuCacheHasColour = false) :
    s.SelectPagesToClean
      = ((s.iOldestDirtyList.reverse.filter (fun pi => !(s.pageInfo pi).IsWritable)).take
          s.KMaxPagesToClean).map some ∧
    s.SelectPagesToClean.length
      = min s.KMaxPagesToClean
          (s.iOldestDirtyList.countP (fun pi => !(s.pageInfo pi).IsWritable)) := by
  have e : s.SelectPagesToClean = s.SelectPagesToCleanNoColour := by
    unfold DPager.SelectPagesToClean
    rw [hc]
    rfl
  rw [e]
  exact ⟨DPager.selectNoColour_eq s, DPager.selectNoColour_length s⟩

/-- Witness for C20: the example state has one non-writable frame on OldestDirty. -/
theorem selectPagesToClean_no_colour_witness :
    DPager.exampleState.cpuCacheHasColour = false ∧
    DPager.exampleState.SelectPagesToClean = [some 5] ∧
    DPager.exampleState.SelectPagesToClean.length
      = min DPager.exampleState.KMaxPagesToClean
          (DPager.exampleState.iOldestDirtyList.countP
            (fun pi => !(DPager.exampleState.pageInfo pi).IsWritable)) :=
  ⟨rfl, by decide, (selectPagesToClean_no_colour DPager.exampleState rfl).2⟩
/-- C21: the output of the colour selector is a sequentially coloured run. For a selector
whose array has at most 127 slots (the run lengths are kept in `TInt8`), and for every
sequence of `AddCandidate(object, colour)` calls with distinct objects and colours below
`KPageColourCount`, `FindLongestRun` returns the number `n` of objects it writes, `n` is at
most `KMaxLength`, the objects written are objects that were added, no two of them are the
same, and the colour of each is the colour of the one before plus one, modulo
`KPageColourCount`. -/
theorem colourSelector_sequential_run (KMaxLength KPageColourCount : Nat)
    (calls : List (Nat × Nat))
    (hlen : (DPager.TSequentialColourSelector.new KMaxLength KPageColourCount).KArrayLength
      ≤ 127)
    (hobj : (calls.map Prod.fst).Nodup)
    (hcol : ∀ x, x ∈ calls → x.2 < KPageColourCount) :
    (DPager.TSequentialColourSelector.selectRun KMaxLength KPageColourCount
        calls).1.iLongestLength
      = ((DPager.TSequentialColourSelector.selectRun KMaxLength KPageColourCount
          calls).2.length : Int) ∧
    (DPager.TSequentialColourSelector.selectRun KMaxLength KPageColourCount calls).2.length
      ≤ KMaxLength ∧
    (∀ k,
      k < (DPager.TSequentialColourSelector.selectRun KMaxLength KPageColourCount
        calls).2.length →
      ∃ o col,
        (DPager.TSequentialColourSelector.selectRun KMaxLength KPageColourCount
          calls).2.getD k none = some o ∧ (o, col) ∈ calls) ∧
    (DPager.TSequentialColourSelector.selectRun KMaxLength KPageColourCount calls).2.Nodup ∧
    (∀ k,
      k + 1 < (DPager.TSequentialColourSelector.selectRun KMaxLength KPageColourCount
        calls).2.length →
      ∃ o1 col1 o2 col2,
        (DPager.TSequentialColourSelector.selectRun KMaxLength KPageColourCount
          calls).2.getD k none = some o1 ∧
        (DPager.TSequentialColourSelector.selectRun KMaxLength KPageColourCount
          calls).2.getD (k + 1) none = some o2 ∧
        (o1, col1) ∈ calls ∧ (o2, col2) ∈ calls ∧
        col2 = (col1 + 1) % KPageColourCount) := by
  obtain ⟨a1, a2, a3, a4⟩ := DPager.TSequentialColourSelector.addCandidates_runInvariant calls
    (DPager.TSequentialColourSelector.new_runInvariant KMaxLength KPageColourCount) hlen
  have ho := DPager.TSequentialColourSelector.addCandidates_objectInvariant calls []
    (DPager.TSequentialColourSelector.new_runInvariant KMaxLength KPageColourCount) hlen
    (DPager.TSequentialColourSelector.new_objectInvariant KMaxLength KPageColourCount)
    (by rw [List.nil_append]; exact hobj) hcol
  rw [List.nil_append] at ho
  have key := DPager.TSequentialColourSelector.findLongestRun_objects a1 ho
  rw [a3, a4] at key
  exact key

/-- Witness for C21: four colours, up to four objects, and the candidates 11, 12, 13, 14 with
the colours 3, 0, 2, 0: the run written is 13, 11, 12, with the colours 2, 3, 0. -/
theorem colourSelector_sequential_run_witness :
    (DPager.TSequentialColourSelector.selectRun 4 4
      [(11, 3), (12, 0), (13, 2), (14, 0)]).2 = [some 13, some 11, some 12] ∧
    (DPager.TSequentialColourSelector.selectRun 4 4
      [(11, 3), (12, 0), (13, 2), (14, 0)]).2.Nodup ∧
    (DPager.TSequentialColourSelector.selectRun 4 4
      [(11, 3), (12, 0), (13, 2), (14, 0)]).2.length ≤ 4 :=
  have t := colourSelector_sequential_run 4 4 [(11, 3), (12, 0), (13, 2), (14, 0)]
    (by decide) (by decide) (by decide)
  ⟨by decide, t.2.2.2.1, t.2.1⟩
/-- C22: the colour selector returns the longest run. For a selector whose array has at most
127 slots (the run lengths are kept in `TInt8`), after any sequence of `AddCandidate` calls
`iSeqLength[i]` is the length of the run of consecutive occupied slots that ends at slot `i`,
0 if slot `i` is empty, and `FindLongestRun` returns, and writes, exactly `min(KMaxLength,
L)` objects, where `L` is the length of the longest run of consecutive occupied slots of the
array regarded circularly; it returns 0 exactly when every slot is empty, that is when no
candidate was placed. -/
theorem colourSelector_longest_run (KMaxLength KPageColourCount : Nat)
    (calls : List (Nat × Nat))
    (hlen : (DPager.TSequentialColourSelector.new KMaxLength KPageColourCount).KArrayLength
      ≤ 127) :
    (∀ i,
      i < ((DPager.TSequentialColourSelector.new KMaxLength KPageColourCount).AddCandidates
        calls).KArrayLength →
      ((DPager.TSequentialColourSelector.new KMaxLength KPageColourCount).AddCandidates
          calls).iSeqLength.getD i 0
        = (DPager.TSequentialColourSelector.runEnding
            ((DPager.TSequentialColourSelector.new KMaxLength KPageColourCount).AddCandidates
              calls).iSlot i : Int)) ∧
    (DPager.TSequentialColourSelector.selectRun KMaxLength KPageColourCount
        calls).1.iLongestLength
      = ((min KMaxLength
          (DPager.TSequentialColourSelector.longestRun
            ((DPager.TSequentialColourSelector.new KMaxLength KPageColourCount).AddCandidates
              calls).iSlot
            ((DPager.TSequentialColourSelector.new KMaxLength KPageColourCount).AddCandidates
              calls).KArrayLength) : Nat) : Int) ∧
    (DPager.TSequentialColourSelector.selectRun KMaxLength KPageColourCount calls).2.length
      = min KMaxLength
          (DPager.TSequentialColourSelector.longestRun
            ((DPager.TSequentialColourSelector.new KMaxLength KPageColourCount).AddCandidates
              calls).iSlot
            ((DPager.TSequentialColourSelector.new KMaxLength KPageColourCount).AddCandidates
              calls).KArrayLength) ∧
    ((DPager.TSequentialColourSelector.selectRun KMaxLength KPageColourCount
        calls).1.iLongestLength = 0 ↔
      ∀ i,
        ((DPager.TSequentialColourSelector.new KMaxLength KPageColourCount).AddCandidates
          calls).iSlot.getD i none = none) := by
  obtain ⟨a1, a2, a3, a4⟩ := DPager.TSequentialColourSelector.addCandidates_runInvariant calls
    (DPager.TSequentialColourSelector.new_runInvariant KMaxLength KPageColourCount) hlen
  obtain ⟨b1, b2, b3⟩ := DPager.TSequentialColourSelector.findLongestRun_longest a1
  rw [a3] at b1 b2
  exact ⟨a1.2.2.2.2.1, b1, b2, b3⟩

/-- Witness for C22: with four colours and up to four objects, after the candidates 11, 12,
13, 14 with the colours 3, 0, 2, 0 the slots 0, 2 and 3 are occupied, the run lengths are
1, 0, 1, 2, the longest run wraps from slot 2 to slot 0, and 3 is returned. -/
theorem colourSelector_longest_run_witness :
    ((DPager.TSequentialColourSelector.new 4 4).AddCandidates
      [(11, 3), (12, 0), (13, 2), (14, 0)]).iSeqLength = [1, 0, 1, 2] ∧
    DPager.TSequentialColourSelector.longestRun
      ((DPager.TSequentialColourSelector.new 4 4).AddCandidates
        [(11, 3), (12, 0), (13, 2), (14, 0)]).iSlot 4 = 3 ∧
    (DPager.TSequentialColourSelector.selectRun 4 4
      [(11, 3), (12, 0), (13, 2), (14, 0)]).1.iLongestLength
      = ((min 4
          (DPager.TSequentialColourSelector.longestRun
            ((DPager.TSequentialColourSelector.new 4 4).AddCandidates
              [(11, 3), (12, 0), (13, 2), (14, 0)]).iSlot
            ((DPager.TSequentialColourSelector.new 4 4).AddCandidates
              [(11, 3), (12, 0), (13, 2), (14, 0)]).KArrayLength) : Nat) : Int) :=
  ⟨by decide, by decide,
    (colourSelector_longest_run 4 4 [(11, 3), (12, 0), (13, 2), (14, 0)] (by decide)).2.1⟩
/-- C23: read regions never overlap. In every state reachable from the new pool by the steps
of `AcquirePageReadRequest` and `Release` (and by the acquisition and release of the write
request), no (memory object, index) pair lies in the use region of two different read
requests. The second half of `AcquirePageReadRequest`, run once the mutex of the chosen
request is granted, either returns the request, and then the region collided with no read
request and not with the write request and is now the use region of that request alone, or
returns 0, and then some request collided with the region and no use region has changed;
its first half returns 0 at once on a collision with the write request and never changes a
use region. -/
theorem read_regions_never_overlap (n : Nat) (w : Bool) (p : DPagingRequestPool)
    (h : DPagingRequestPool.Reachable n w p) :
    (∀ j k, j < n → k < n → j ≠ k →
      ∀ e, e ∈ (p.iRequests j).iUseRegion → e ∉ (p.iRequests k).iUseRegion) ∧
    (∀ req aMemory aIndex aCount,
      ((p.AcquirePageReadRequestEnd req aMemory aIndex aCount).1 = some req ∧
        p.writeCollision aMemory aIndex aCount = false ∧
        (∀ k, k < p.iNumRequests →
          (p.iRequests k).IsCollisionContiguous aMemory aIndex aCount = false) ∧
        ((p.AcquirePageReadRequestEnd req aMemory aIndex aCount).2.iRequests req).iUseRegion
          = DPagingRequest.contiguousRegion aMemory aIndex aCount ∧
        (∀ k, k ≠ req →
          (p.AcquirePageReadRequestEnd req aMemory aIndex aCount).2.iRequests k
            = p.iRequests k)) ∨
      ((p.AcquirePageReadRequestEnd req aMemory aIndex aCount).1 = none ∧
        (p.writeCollision aMemory aIndex aCount = true ∨
          ∃ k, k < p.iNumRequests ∧
            (p.iRequests k).IsCollisionContiguous aMemory aIndex aCount = true) ∧
        (∀ k,
          ((p.AcquirePageReadRequestEnd req aMemory aIndex aCount).2.iRequests k).iUseRegion
            = (p.iRequests k).iUseRegion) ∧
        (p.AcquirePageReadRequestEnd req aMemory aIndex aCount).2.iPageWriteRequest
          = p.iPageWriteRequest)) ∧
    (∀ aMemory aIndex aCount, p.writeCollision aMemory aIndex aCount = true →
      p.AcquirePageReadRequestBegin aMemory aIndex aCount = some (none, p)) ∧
    (∀ aMemory aIndex aCount r p1,
      p.AcquirePageReadRequestBegin aMemory aIndex aCount = some (r, p1) →
      ∀ k, (p1.iRequests k).iUseRegion = (p.iRequests k).iUseRegion) := by
  have hinv := DPagingRequestPool.reachable_invariant h
  refine ⟨hinv.2.2.2.2.2.2.2, fun req m i c => DPagingRequestPool.acquireEnd_spec p req m i c,
    ?_, ?_⟩
  · intro m i c hw
    unfold DPagingRequestPool.AcquirePageReadRequestBegin
    rw [if_pos hw]
  · intro m i c r p1 hb k
    unfold DPagingRequestPool.AcquirePageReadRequestBegin at hb
    split at hb
    · have e := congrArg Prod.snd (Option.some.inj hb)
      dsimp only at e
      rw [← e]
    · split at hb
      · cases hb
      · next req1 p2 hg =>
        have e := congrArg Prod.snd (Option.some.inj hb)
        dsimp only at e
        rw [← e]
        exact (DPagingRequestPool.getRequest_spec hg).2.2.1 k

/-- Witness for C23: in the example pool, where request 0 reads pages 10 to 12 of memory
object 7, a read of pages 13 and 14 is installed in request 1 and a read of pages 12 and 13
is refused. -/
theorem read_regions_never_overlap_witness :
    DPagingRequestPool.Reachable 2 true DPagingRequestPool.examplePool ∧
    (∀ e, e ∈ (DPagingRequestPool.examplePool.iRequests 0).iUseRegion →
      e ∉ (DPagingRequestPool.examplePool.iRequests 1).iUseRegion) ∧
    (DPagingRequestPool.examplePool.iRequests 0).iUseRegion = [(7, 10), (7, 11), (7, 12)] ∧
    (DPagingRequestPool.examplePool.AcquirePageReadRequestEnd 1 7 13 2).1 = some 1 ∧
    (DPagingRequestPool.examplePool.AcquirePageReadRequestEnd 1 7 12 2).1 = none :=
  ⟨DPagingRequestPool.examplePool_reachable,
    (read_regions_never_overlap 2 true DPagingRequestPool.examplePool
      DPagingRequestPool.examplePool_reachable).1 0 1 (by decide) (by decide) (by decide),
    by decide, by decide, by decide⟩
/-- C24: the free list and the usage counters of the read request pool. In every state
reachable by `GetRequest` (with its `Wait`), `Release` and `Signal`, a read request is on
the free list exactly when its usage counter is 0, and it is there once. `GetRequest` adds
one to the counter of the request it chooses, changes no other request, and takes a request
off the free list only when no request collides with the region; `Wait` increments the
counter by one; `Signal` decrements it by one and puts the request at the head of the free
list exactly when the counter reaches 0; `Release` is `ResetUse`, which leaves
`iUseRegionCount = 0`, followed by `Signal`. -/
theorem freeList_usage_invariant (n : Nat) (w : Bool) (p : DPagingRequestPool)
    (h : DPagingRequestPool.Reachable n w p) :
    (∀ k, k < n → (k ∈ p.iFreeList ↔ (p.iRequests k).iUsageCount = 0)) ∧
    p.iFreeList.Nodup ∧
    (∀ aMemory aIndex aCount req p1,
      p.GetRequest aMemory aIndex aCount = some (req, p1) →
      req < n ∧
      (p1.iRequests req).iUsageCount = (p.iRequests req).iUsageCount + 1 ∧
      (∀ k, k ≠ req → p1.iRequests k = p.iRequests k) ∧
      (p1.iFreeList = p.iFreeList ∨
        (p.FindCollisionContiguous aMemory aIndex aCount = none ∧
          p.iFreeList = req :: p1.iFreeList))) ∧
    (∀ req, ((p.Wait req).iRequests req).iUsageCount = (p.iRequests req).iUsageCount + 1) ∧
    (∀ req,
      ((p.Signal req).iRequests req).iUsageCount = (p.iRequests req).iUsageCount - 1 ∧
      (p.Signal req).iFreeList
        = (if (p.iRequests req).iUsageCount - 1 = 0 then req :: p.iFreeList
            else p.iFreeList)) ∧
    (∀ req,
      p.Release req = (p.setRequest req (p.iRequests req).ResetUse).Signal req ∧
      (p.iRequests req).ResetUse.iUseRegionCount = 0 ∧
      ((p.Release req).iRequests req).iUseRegion = []) := by
  have hinv := DPagingRequestPool.reachable_invariant h
  refine ⟨hinv.2.2.2.1, hinv.2.1, ?_, fun req => (DPagingRequestPool.wait_frame p req).1,
    fun req => ⟨(DPagingRequestPool.signal_spec p req).1,
      (DPagingRequestPool.signal_spec p req).2.1⟩, ?_⟩
  · intro m i c req p1 hg
    obtain ⟨a, b, -, -, -, f⟩ := DPagingRequestPool.getRequest_spec hg
    exact ⟨(DPagingRequestPool.invariant_getRequest hinv hg).1, a, b, f⟩
  · intro req
    refine ⟨rfl, rfl, ?_⟩
    rw [(DPagingRequestPool.release_request p req).1]

/-- Witness for C24: in the example pool request 0 has one user and request 1, which has
none, is the free list; releasing request 0 returns it to the head of the free list. -/
theorem freeList_usage_invariant_witness :
    DPagingRequestPool.Reachable 2 true DPagingRequestPool.examplePool ∧
    (1 ∈ DPagingRequestPool.examplePool.iFreeList ↔
      (DPagingRequestPool.examplePool.iRequests 1).iUsageCount = 0) ∧
    DPagingRequestPool.examplePool.iFreeList = [1] ∧
    (DPagingRequestPool.examplePool.iRequests 0).iUsageCount = 1 ∧
    (DPagingRequestPool.examplePool.Release 0).iFreeList = [0, 1] :=
  ⟨DPagingRequestPool.examplePool_reachable,
    (freeList_usage_invariant 2 true DPagingRequestPool.examplePool
      DPagingRequestPool.examplePool_reachable).1 1 (by decide),
    by decide, by decide, by decide⟩
/-- C25 (as amended): `DDemandPagingLock::Alloc(size)` reserves `ceil((size - 1) / pagesize)
+ 1` frames for the data range. For every size of at least 1 for which the sum `size - 1 +
KPageMask` is in the range of `TInt` the `iMaxPageCount` it computes equals `ceil((size - 1)
/ pagesize) + 1`; this is `ceil(size / pagesize) + 1` unless `size mod pagesize = 1`, where it
is `ceil(size / pagesize)`. The number of pages it asks `ReservePages` for is `iMaxPageCount +
MaxPageTables(iMaxPageCount) * KNumPagesToPinOnePageTable`: on a freshly constructed lock
`Alloc` returns, with exactly that many pages reserved when it returns `KErrNone` and none
otherwise. Here `ceil(a / b)` is written `(a + (b - 1)) / b`. -/
theorem alloc_reserved_pages (s : DPager) (MaxPageTables : Nat → Nat)
    (KNumPagesToPinOnePageTable : Nat) (newMapping : Bool) (size : Nat)
    (hsize : 1 ≤ size) (hshift : 1 ≤ s.KPageShift)
    (hov : size - 1 + (2 ^ s.KPageShift - 1) < 2147483648) :
    DDemandPagingLock.maxPageCount s.KPageShift (size : Int)
      = (((size - 1 + (2 ^ s.KPageShift - 1)) / 2 ^ s.KPageShift + 1 : Nat) : Int) ∧
    (size % 2 ^ s.KPageShift ≠ 1 →
      DDemandPagingLock.maxPageCount s.KPageShift (size : Int)
        = (((size + (2 ^ s.KPageShift - 1)) / 2 ^ s.KPageShift + 1 : Nat) : Int)) ∧
    (size % 2 ^ s.KPageShift = 1 →
      DDemandPagingLock.maxPageCount s.KPageShift (size : Int)
        = (((size + (2 ^ s.KPageShift - 1)) / 2 ^ s.KPageShift : Nat) : Int)) ∧
    DDemandPagingLock.reserveCount s.KPageShift MaxPageTables KNumPagesToPinOnePageTable size
      = (toTUint (DDemandPagingLock.maxPageCount s.KPageShift size)
          + MaxPageTables (toTUint (DDemandPagingLock.maxPageCount s.KPageShift size))
            * KNumPagesToPinOnePageTable) % 4294967296 ∧
    (∃ r l1 s1,
      DDemandPagingLock.Alloc
        (DDemandPagingLock.reserveCount s.KPageShift MaxPageTables
          KNumPagesToPinOnePageTable size + 2)
        s DDemandPagingLock.new MaxPageTables KNumPagesToPinOnePageTable newMapping size
        = some (r, l1, s1) ∧
      l1.iMaxPageCount = DDemandPagingLock.maxPageCount s.KPageShift size ∧
      (r = KErrNone →
        l1.iReservedPageCount = DDemandPagingLock.reserveCount s.KPageShift MaxPageTables
          KNumPagesToPinOnePageTable size ∧
        s1.iReservePageCount = s.iReservePageCount
          + DDemandPagingLock.reserveCount s.KPageShift MaxPageTables
            KNumPagesToPinOnePageTable size) ∧
      (r ≠ KErrNone →
        l1.iReservedPageCount = 0 ∧ s1.iReservePageCount = s.iReservePageCount)) := by
  have hP : 2 ≤ 2 ^ s.KPageShift := by
    calc 2 = 2 ^ 1 := rfl
      _ ≤ 2 ^ s.KPageShift := Nat.pow_le_pow_right (by decide) hshift
  have e := DDemandPagingLock.maxPageCount_eq s.KPageShift size hsize hshift hov
  obtain ⟨c1, c2⟩ := DDemandPagingLock.ceil_pred (2 ^ s.KPageShift) size hP hsize
  refine ⟨e, ?_, ?_, rfl, DDemandPagingLock.alloc_spec s MaxPageTables
    KNumPagesToPinOnePageTable newMapping size⟩
  · intro h
    rw [e, c1 h]
  · intro h
    rw [e, c2 h]

/-- Witness for C25: a buffer of 8192 bytes with pages of 4096 bytes needs 3 pages, and
`Alloc` on the example state reserves those and 2 page tables of one page each. -/
theorem alloc_reserved_pages_witness :
    DDemandPagingLock.maxPageCount DPager.exampleState.KPageShift ((8192 : Nat) : Int) = 3 ∧
    DDemandPagingLock.reserveCount DPager.exampleState.KPageShift exampleMaxPageTables 1
      ((8192 : Nat) : Int) = 5 :=
  have t := alloc_reserved_pages DPager.exampleState exampleMaxPageTables 1 true 8192
    (by decide) (by decide) (by decide)
  ⟨t.1.trans (by decide), t.2.2.2.1.trans (by decide)⟩

/-- Counterexample for C25 as stated, at two sizes with pages of 4096 bytes. For a size of 1
byte `Alloc` computes `iMaxPageCount = 1`, while `ceil(1 / 4096) + 1 = 2`; it reserves that
page and one page table. For a size of 2147483647 bytes the sum `size - 1 + KPageMask` leaves
the range of `TInt` and `Alloc` computes `iMaxPageCount = -524287`, while
`ceil(2147483647 / 4096) + 1 = 524289`. -/
theorem alloc_reserved_pages_counterexample :
    DDemandPagingLock.maxPageCount 12 1 = 1 ∧
    (1 + (2 ^ 12 - 1)) / 2 ^ 12 + 1 = 2 ∧
    (DDemandPagingLock.Alloc 10 DPager.exampleState DDemandPagingLock.new
      exampleMaxPageTables 1 true 1).map (fun r => (r.1, r.2.1))
      = some (KErrNone,
          { iMaxPageCount := 1, iReservedPageCount := 2, iLockedPageCount := 0,
            iPinMapping := true }) ∧
    DDemandPagingLock.maxPageCount 12 2147483647 = -524287 ∧
    (2147483647 + (2 ^ 12 - 1)) / 2 ^ 12 + 1 = 524289 := by
  refine ⟨by decide, by decide, by decide, by decide, by decide⟩
/-- C26 (as amended): a stale mapping yields `KErrAbort`. When `aMapInstanceCount` differs
from the mapping's current instance count, or the mapping is being detached,
`PteAndInfoFromLinAddr` returns `KErrAbort`, so does `TryRejuvenate` (for a real-time thread
as well), and `HandlePageFault` returns `KErrAbort` to the faulting thread without calling
the owning manager's `HandleFault` and without changing the pager state. `KErrNotFound`, on
which `HandlePageFault` falls through to the manager's `HandleFault`, is what the fast path
returns for a non-real-time thread when the mapping is current and the page table entry is
absent (no page table, an unallocated entry, or no frame descriptor for its address). -/
theorem stale_mapping_aborts (s : DPager) (f : FaultContext) :
    ((f.aMapInstanceCount ≠ f.mapInstanceCount ∨ f.beingDetached = true) →
      s.PteAndInfoFromLinAddr f = (KErrAbort, none) ∧
      s.TryRejuvenate f = (KErrAbort, s) ∧
      s.HandlePageFault f = (KErrAbort, false, s)) ∧
    ((f.aMapInstanceCount = f.mapInstanceCount ∧ f.beingDetached = false) →
      f.isRealtime = false →
      (f.safePte = none ∨ f.safePte = some f.KPteUnallocatedEntry ∨
        (∃ pte, f.safePte = some pte ∧
          f.safeFromPhysAddr (pte / 2 ^ s.KPageShift * 2 ^ s.KPageShift) = none)) →
      s.PteAndInfoFromLinAddr f = (KErrNotFound, none) ∧
      s.TryRejuvenate f = (KErrNotFound, s) ∧
      s.HandlePageFault f = (f.handleFault, true, s)) := by
  constructor
  · intro hs
    have e1 : s.PteAndInfoFromLinAddr f = (KErrAbort, none) := by
      unfold DPager.PteAndInfoFromLinAddr
      rw [if_pos hs]
    have e2 : s.TryRejuvenate f = (KErrAbort, s) := by
      unfold DPager.TryRejuvenate
      rw [e1]
      dsimp only
      split
      · split <;> rfl
      · rfl
    refine ⟨e1, e2, ?_⟩
    unfold DPager.HandlePageFault
    rw [e2]
    rfl
  · intro hc hrt hp
    have hns : ¬ (f.aMapInstanceCount ≠ f.mapInstanceCount ∨ f.beingDetached = true) := by
      rw [hc.1, hc.2]; simp
    have e1 : s.PteAndInfoFromLinAddr f = (KErrNotFound, none) := by
      unfold DPager.PteAndInfoFromLinAddr
      rw [if_neg hns]
      rcases hp with hp | hp | ⟨pte, hp, hq⟩
      · rw [hp]
      · rw [hp]
        dsimp only
        rw [if_pos rfl]
      · rw [hp]
        dsimp only
        split
        · rfl
        · rw [hq]
    have e2 : s.TryRejuvenate f = (KErrNotFound, s) := by
      unfold DPager.TryRejuvenate
      rw [e1]
      dsimp only
      rw [hrt]
      rfl
    refine ⟨e1, e2, ?_⟩
    unfold DPager.HandlePageFault
    rw [e2]
    rfl

/-- Witness for C26: the example fault through a reused mapping and through a mapping that is
being detached, and the example fault at an unallocated page table entry. -/
theorem stale_mapping_aborts_witness :
    DPager.exampleState.HandlePageFault (exampleStale 1)
      = (KErrAbort, false, DPager.exampleState) ∧
    DPager.exampleState.HandlePageFault (exampleDetached 1)
      = (KErrAbort, false, DPager.exampleState) ∧
    DPager.exampleState.HandlePageFault (exampleAbsent 1)
      = (KErrNone, true, DPager.exampleState) :=
  ⟨((stale_mapping_aborts DPager.exampleState (exampleStale 1)).1
      (Or.inl (by decide))).2.2,
    ((stale_mapping_aborts DPager.exampleState (exampleDetached 1)).1
      (Or.inr rfl)).2.2,
    ((stale_mapping_aborts DPager.exampleState (exampleAbsent 1)).2
      ⟨rfl, rfl⟩ rfl (Or.inr (Or.inl rfl))).2.2⟩

/-- Counterexample for C26 as stated: for the example fault through a reused mapping (instance
count 2 against the 1 of the fault) `PteAndInfoFromLinAddr` and `TryRejuvenate` return
`KErrAbort`, not `KErrNotFound`, and `HandlePageFault` returns `KErrAbort` without calling the
manager, whose `HandleFault` would have returned `KErrNone`. -/
theorem stale_mapping_aborts_counterexample :
    (exampleStale 1).aMapInstanceCount ≠ (exampleStale 1).mapInstanceCount ∧
    (exampleStale 1).isRealtime = false ∧
    (DPager.exampleState.PteAndInfoFromLinAddr (exampleStale 1)).1 = KErrAbort ∧
    (DPager.exampleState.PteAndInfoFromLinAddr (exampleStale 1)).1 ≠ KErrNotFound ∧
    (DPager.exampleState.TryRejuvenate (exampleStale 1)).1 = KErrAbort ∧
    (DPager.exampleState.TryRejuvenate (exampleStale 1)).1 ≠ KErrNotFound ∧
    (DPager.exampleState.HandlePageFault (exampleStale 1)).1 = KErrAbort ∧
    (DPager.exampleState.HandlePageFault (exampleStale 1)).2.1 = false ∧
    (exampleStale 1).handleFault = KErrNone := by
  refine ⟨by decide, rfl, by decide, by decide, by decide, by decide, by decide, by decide,
    rfl⟩
/-- C27 (as amended): scenario S1. From a consistent live list with 192 young, 48 old and 16
oldest frames and both ratios 3, `PagedIn` on an unpaged frame leaves the frame at the head
of the young queue, in state `EPagedYoung`, with `iYoungCount = 192`, `iOldCount = 48` and 17
oldest frames: `iYoungCount` is 193 after `AddAsYoungestPage`, and `BalanceAges` then moves
the last young frame to the old queue and the last old frame to an oldest queue.
Rejuvenating the frame again (`RemovePage` then `AddAsYoungestPage`, as at the end of
`TryRejuvenate` when the page table is not demand paged) leaves the young queue and its head
unchanged, also after the closing `BalanceAges`. -/
theorem pagedIn_scenario_S1 (s : DPager) (p : Nat) (h : s.LiveListConsistent)
    (hy : s.iYoungCount = 192) (ho : s.iOldCount = 48)
    (hs : s.iOldestCleanCount + s.iOldestDirtyCount = 16)
    (hr : s.iYoungOldRatio = 3) (hr2 : s.iOldOldestRatio = 3)
    (hst : (s.pageInfo p).iPagedState = TPagedState.EUnpaged) :
    (s.AddAsYoungestPage p).iYoungCount = 193 ∧
    (s.PagedIn p).iYoungList.head? = some p ∧
    ((s.PagedIn p).pageInfo p).iPagedState = TPagedState.EPagedYoung ∧
    (s.PagedIn p).iYoungCount = 192 ∧
    (s.PagedIn p).iOldCount = 48 ∧
    (s.PagedIn p).iOldestCleanCount + (s.PagedIn p).iOldestDirtyCount = 17 ∧
    (((s.PagedIn p).RemovePage p).AddAsYoungestPage p).iYoungList = (s.PagedIn p).iYoungList ∧
    (((s.PagedIn p).RemovePage p).AddAsYoungestPage p).BalanceAges.iYoungList.head?
      = some p ∧
    (∀ f : FaultContext, f.pageTableDemandPaged = false →
      ((s.PagedIn p).rejuvenateFrame f p).1 = KErrNone ∧
      ((s.PagedIn p).rejuvenateFrame f p).2.iYoungList.head? = some p) := by
  obtain ⟨a1, a2, a3, a4, a5, a6, a7, a8⟩ := DPager.pagedIn_S1 h hy ho hs hr hr2 hst
  obtain ⟨rest, hrest⟩ : ∃ rest, (s.PagedIn p).iYoungList = p :: rest := by
    cases hq : (s.PagedIn p).iYoungList with
    | nil => rw [hq] at a2; cases a2
    | cons x t =>
      rw [hq] at a2
      have e : x = p := Option.some.inj a2
      exact ⟨t, by rw [e]⟩
  have hsz : 2 ≤ (s.PagedIn p).liveListSize := by
    rw [DPager.liveListSize_eq_counts a7]; omega
  have hw : (s.PagedIn p).liveListSize * (s.PagedIn p).iYoungOldRatio < 4294967296 := by
    rw [a8, DPager.liveListSize_eq_counts a7]; omega
  obtain ⟨b1, b2, b3⟩ := DPager.rejuvenate_head_stays a7 hrest (by rw [a8]; omega) hsz hw
  exact ⟨a1, a2, a3, a4, a5, a6, b1, b2, b3⟩

/-- Witness for C27: the scenario state with the unpaged frame 5. -/
theorem pagedIn_scenario_S1_witness :
    DPager.exampleS1.LiveListConsistent ∧
    (DPager.exampleS1.pageInfo 5).iPagedState = TPagedState.EUnpaged ∧
    (DPager.exampleS1.PagedIn 5).iYoungList.head? = some 5 ∧
    (DPager.exampleS1.PagedIn 5).iYoungCount = 192 ∧
    (DPager.exampleS1.PagedIn 5).iOldCount = 48 :=
  have t := pagedIn_scenario_S1 DPager.exampleS1 5 DPager.exampleS1_consistent rfl rfl rfl
    rfl rfl (by decide)
  ⟨DPager.exampleS1_consistent, by decide, t.2.1, t.2.2.2.1, t.2.2.2.2.1⟩

/-- Counterexample for C27 as stated: in the scenario state (192 young, 48 old, 16 oldest
frames, both ratios 3, frame 5 unpaged) `PagedIn` on frame 5 ends with `iYoungCount = 192`,
not 193. -/
theorem pagedIn_scenario_S1_counterexample :
    DPager.exampleS1.LiveListConsistent ∧
    DPager.exampleS1.iYoungCount = 192 ∧ DPager.exampleS1.iOldCount = 48 ∧
    DPager.exampleS1.iOldestCleanCount + DPager.exampleS1.iOldestDirtyCount = 16 ∧
    DPager.exampleS1.iYoungOldRatio = 3 ∧ DPager.exampleS1.iOldOldestRatio = 3 ∧
    (DPager.exampleS1.pageInfo 5).iPagedState = TPagedState.EUnpaged ∧
    (DPager.exampleS1.PagedIn 5).iYoungList.head? = some 5 ∧
    (DPager.exampleS1.PagedIn 5).iYoungCount = 192 ∧
    (DPager.exampleS1.PagedIn 5).iYoungCount ≠ 193 :=
  have t := DPager.pagedIn_S1 (p := 5) DPager.exampleS1_consistent rfl rfl rfl rfl rfl
    (by decide)
  ⟨DPager.exampleS1_consistent, rfl, rfl, rfl, rfl, rfl, by decide, t.2.1, t.2.2.2.1,
    by rw [t.2.2.2.1]; decide⟩
/-- C28: discard postcondition. On a consistent live list, for a frame that `DiscardPage` may
steal (`DiscardCanStealPage`: unused, or not pinned and not dirty under `aBlockRest`), that
is linked if its state names a sublist and is neither pinned nor being moved (what
`RemovePage` asserts), and with a frame allocator that does not hand out the frame being
discarded: `DiscardPage` returns, and whenever it returns `KErrNone` the discarded frame is
`EUnpaged` and on none of the four sublists, `iMinimumPageCount` is unchanged and
`iMinimumPageCount + iNumberOfFreePages` is at least its value before the call minus 1; when
`iNumberOfFreePages` was 0 the frame obtained from the allocator is added as a free page, at
the tail of the oldest-clean queue, and `iNumberOfFreePages` is 0 again. -/
theorem discardPage_postcondition (s : DPager) (aOldPageInfo : Nat) (aBlockRest : Bool)
    (movePage : Int) (n : Nat) (h : s.LiveListConsistent) (hl : s.Linked aOldPageInfo)
    (hcan : DiscardCanStealPage (s.pageInfo aOldPageInfo) aBlockRest = true)
    (hnp : (s.pageInfo aOldPageInfo).iPagedState ≠ TPagedState.EPagedPinned)
    (hnm : (s.pageInfo aOldPageInfo).iPagedState ≠ TPagedState.EPagedPinnedMoved)
    (halloc : s.allocRam s.allocCalls ≠ some aOldPageInfo) :
    ∃ r s1, s.DiscardPage (n + 2) aOldPageInfo aBlockRest movePage = some (r, s1) ∧
      (r = KErrNone →
        (s1.pageInfo aOldPageInfo).iPagedState = TPagedState.EUnpaged ∧
        ¬ s1.OnLiveList aOldPageInfo ∧
        s1.iMinimumPageCount = s.iMinimumPageCount ∧
        s.iMinimumPageCount + s.iNumberOfFreePages
          ≤ s1.iMinimumPageCount + s1.iNumberOfFreePages + 1 ∧
        (s.iNumberOfFreePages = 0 → s1.iNumberOfFreePages = 0 ∧
          ∃ m, s.allocRam s.allocCalls = some m ∧
            s1.iOldestCleanList.getLast? = some m)) := by
  obtain ⟨r, s1, e, k⟩ := DPager.discardPage_spec h hl aBlockRest movePage n hcan hnp hnm halloc
  refine ⟨r, s1, e, fun hr => ?_⟩
  obtain ⟨k1, k2, k3, k4, k5⟩ := k hr
  refine ⟨k1, k2, k3, ?_, k5⟩
  rw [k3]
  rcases Nat.eq_zero_or_pos s.iNumberOfFreePages with hz | hp
  · omega
  · have := k4 hp
    omega

/-- Witness for C28: discarding the old frame 3 of the example state, which has no free page:
the call returns `KErrNone`, frame 3 is unpaged and the newly allocated frame 100 is the tail
of the oldest-clean queue. -/
theorem discardPage_postcondition_witness :
    DPager.exampleState.LiveListConsistent ∧
    (DPager.exampleState.DiscardPage 2 3 false 0).map
        (fun r => (r.1, (r.2.pageInfo 3).iPagedState, r.2.iOldestCleanList,
          r.2.iNumberOfFreePages))
      = some (KErrNone, TPagedState.EUnpaged, [4, 100], 0) ∧
    ∃ r s1, DPager.exampleState.DiscardPage 2 3 false 0 = some (r, s1) ∧
      (r = KErrNone →
        (s1.pageInfo 3).iPagedState = TPagedState.EUnpaged ∧
        ¬ s1.OnLiveList 3 ∧
        s1.iMinimumPageCount = DPager.exampleState.iMinimumPageCount ∧
        DPager.exampleState.iMinimumPageCount + DPager.exampleState.iNumberOfFreePages
          ≤ s1.iMinimumPageCount + s1.iNumberOfFreePages + 1 ∧
        (DPager.exampleState.iNumberOfFreePages = 0 → s1.iNumberOfFreePages = 0 ∧
          ∃ m, DPager.exampleState.allocRam DPager.exampleState.allocCalls = some m ∧
            s1.iOldestCleanList.getLast? = some m)) :=
  ⟨by decide, by decide,
    discardPage_postcondition DPager.exampleState 3 false 0 0 (by decide) (by decide)
      (by decide) (by decide) (by decide) (by decide)⟩
/-- C30: one `BalanceAges` restores the young/old ratio after a single-frame change. On a
consistent live list on which `(iOldCount + iOldestCleanCount + iOldestDirtyCount) *
iYoungOldRatio ≥ iYoungCount` holds, the same inequality holds again after
`AddAsYoungestPage` of a frame that is on no queue followed by `BalanceAges`, after
`RemovePage` of a frame of any sublist followed by `BalanceAges`, and after moving a sublist
frame to the head of the young queue (`RemovePage`, `AddAsYoungestPage`) followed by
`BalanceAges`. -/
theorem balanceAges_restores_ratio (s : DPager) (p : Nat) (h : s.LiveListConsistent)
    (hr : s.iYoungCount ≤
      (s.iOldCount + s.iOldestCleanCount + s.iOldestDirtyCount) * s.iYoungOldRatio) :
    (¬ s.OnLiveList p →
      (s.AddAsYoungestPage p).BalanceAges.iYoungCount ≤
        ((s.AddAsYoungestPage p).BalanceAges.iOldCount
          + (s.AddAsYoungestPage p).BalanceAges.iOldestCleanCount
          + (s.AddAsYoungestPage p).BalanceAges.iOldestDirtyCount)
          * (s.AddAsYoungestPage p).BalanceAges.iYoungOldRatio) ∧
    (s.OnLiveList p →
      (s.RemovePage p).BalanceAges.iYoungCount ≤
        ((s.RemovePage p).BalanceAges.iOldCount
          + (s.RemovePage p).BalanceAges.iOldestCleanCount
          + (s.RemovePage p).BalanceAges.iOldestDirtyCount)
          * (s.RemovePage p).BalanceAges.iYoungOldRatio) ∧
    (s.OnLiveList p →
      ((s.RemovePage p).AddAsYoungestPage p).BalanceAges.iYoungCount ≤
        (((s.RemovePage p).AddAsYoungestPage p).BalanceAges.iOldCount
          + ((s.RemovePage p).AddAsYoungestPage p).BalanceAges.iOldestCleanCount
          + ((s.RemovePage p).AddAsYoungestPage p).BalanceAges.iOldestDirtyCount)
          * ((s.RemovePage p).AddAsYoungestPage p).BalanceAges.iYoungOldRatio) := by
  have hmul : ∀ a b : Nat, (a + 1) * b = a * b + b := fun a b => Nat.succ_mul a b
  refine ⟨fun hoff => ?_, fun hon => ?_, fun hon => ?_⟩
  · apply DPager.ratio_BalanceAges (DPager.consistent_AddAsYoungestPage h hoff)
    show s.iYoungCount + 1 ≤
      (s.iOldCount + s.iOldestCleanCount + s.iOldestDirtyCount + 1) * s.iYoungOldRatio + 1
    rw [hmul]
    omega
  · have hl : s.Linked p := fun _ => hon
    obtain ⟨e0, e⟩ := DPager.removePage_counts h hon
    apply DPager.ratio_BalanceAges (DPager.consistent_RemovePage h hl).1
    rw [e0, hmul]
    rcases e with ⟨e1, e2⟩ | ⟨e1, e2⟩
    · rw [e2]; omega
    · rw [← hmul, e2, e1]; omega
  · have hl : s.Linked p := fun _ => hon
    obtain ⟨e0, e⟩ := DPager.removePage_counts h hon
    obtain ⟨k1, k2⟩ := DPager.consistent_RemovePage h hl
    have hoff := k2 (DPager.sublistState_of_onLiveList h hon)
    apply DPager.ratio_BalanceAges (DPager.consistent_AddAsYoungestPage k1 hoff)
    show (s.RemovePage p).iYoungCount + 1 ≤
      ((s.RemovePage p).iOldCount + (s.RemovePage p).iOldestCleanCount
        + (s.RemovePage p).iOldestDirtyCount + 1) * (s.RemovePage p).iYoungOldRatio + 1
    rw [e0, hmul]
    rcases e with ⟨e1, e2⟩ | ⟨e1, e2⟩
    · rw [e2]; omega
    · rw [← hmul, e2, e1]; omega

/-- Witness for C30: the example state, where `(1 + 1 + 1) * 3 ≥ 2`, with the free frame 9
added and with the old frame 3 removed or moved to the head of the young queue. -/
theorem balanceAges_restores_ratio_witness :
    DPager.exampleState.LiveListConsistent ∧
    ¬ DPager.exampleState.OnLiveList 9 ∧ DPager.exampleState.OnLiveList 3 ∧
    (DPager.exampleState.AddAsYoungestPage 9).BalanceAges.iYoungCount ≤
        ((DPager.exampleState.AddAsYoungestPage 9).BalanceAges.iOldCount
          + (DPager.exampleState.AddAsYoungestPage 9).BalanceAges.iOldestCleanCount
          + (DPager.exampleState.AddAsYoungestPage 9).BalanceAges.iOldestDirtyCount)
          * (DPager.exampleState.AddAsYoungestPage 9).BalanceAges.iYoungOldRatio ∧
    (DPager.exampleState.RemovePage 3).BalanceAges.iYoungCount ≤
        ((DPager.exampleState.RemovePage 3).BalanceAges.iOldCount
          + (DPager.exampleState.RemovePage 3).BalanceAges.iOldestCleanCount
          + (DPager.exampleState.RemovePage 3).BalanceAges.iOldestDirtyCount)
          * (DPager.exampleState.RemovePage 3).BalanceAges.iYoungOldRatio :=
  ⟨by decide, by decide, by decide,
    (balanceAges_restores_ratio DPager.exampleState 9 (by decide) (by decide)).1 (by decide),
    (balanceAges_restores_ratio DPager.exampleState 3 (by decide) (by decide)).2.1
      (by decide)⟩

/-- C31: the check of the young pages in `InitCache` cannot fail. Whatever the configuration,
the minimum number of young pages, the reserve and the paging attributes are, after the
clamping of `InitCache` the young/old ratio is at least 1, `iMinimumPageLimit >=
iAbsoluteMinPageCount = 2 * iMinYoungPages`, `iMinimumPageCount >= max(iAbsoluteMinPageCount,
iMinimumPageLimit + iReservePageCount)`, and therefore `minYoung = iMinimumPageCount -
iMinimumPageCount / (1 + iYoungOldRatio) >= iMinYoungPages`: the assertion on line 173 is
never the one that fails. -/
theorem initCache_young_check_holds (s : DPager) (y : Nat) (config : SDemandPagingConfig)
    (b : Bool) :
    1 ≤ (s.InitCacheConfigure y config b).iYoungOldRatio ∧
    (s.InitCacheConfigure y config b).iMinYoungPages = y ∧
    (s.InitCacheConfigure y config b).iAbsoluteMinPageCount
      = 2 * (s.InitCacheConfigure y config b).iMinYoungPages ∧
    (s.InitCacheConfigure y config b).iMinimumPageLimit
      ≥ (s.InitCacheConfigure y config b).iAbsoluteMinPageCount ∧
    (s.InitCacheConfigure y config b).iMinimumPageCount
      ≥ max (s.InitCacheConfigure y config b).iAbsoluteMinPageCount
          ((s.InitCacheConfigure y config b).iMinimumPageLimit
            + (s.InitCacheConfigure y config b).iReservePageCount) ∧
    (s.InitCacheConfigure y config b).initMinYoung
      = (s.InitCacheConfigure y config b).iMinimumPageCount
        - (s.InitCacheConfigure y config b).iMinimumPageCount
          / (1 + (s.InitCacheConfigure y config b).iYoungOldRatio) ∧
    (s.InitCacheConfigure y config b).initMinYoung
      ≥ (s.InitCacheConfigure y config b).iMinYoungPages ∧
    (s.InitCacheConfigure y config b).InitCacheVerify ≠ some 173 := by
  obtain ⟨R, limit, min2, hR, hl, hm, e1, e2, e3, e4, e5, e6⟩ :=
    DPager.initCacheConfigure_fields s y config b
  have hR1 : 1 ≤ R := by
    rw [hR]
    unfold KDefaultYoungOldRatio
    split <;> omega
  have hlim : 2 * y ≤ max limit (2 * y) := le_max_right _ _
  have hmin : 2 * y ≤ (s.InitCacheConfigure y config b).iMinimumPageCount := by
    rw [e6]; omega
  have hmin2 : max limit (2 * y) + s.iReservePageCount
      ≤ (s.InitCacheConfigure y config b).iMinimumPageCount := by
    rw [e6]; omega
  obtain ⟨g1, g2⟩ := DPager.initMinYoung_ge (s.InitCacheConfigure y config b)
    (by rw [e1]; exact hR1) (by rw [e2]; exact hmin)
  refine ⟨by rw [e1]; exact hR1, e2, by rw [e3, e2], by rw [e5, e3]; exact hlim, ?_, g1, g2, ?_⟩
  · rw [e3, e5, e4]
    exact max_le hmin hmin2
  · unfold DPager.InitCacheVerify
    intro h
    split_ifs at h <;> first | exact absurd g2 (by assumption) | cases h

/-- C32: the assertion on `iYoungCount` in `ReplacePage` is stronger than the splice needs.
The state right after `InitCache` (16 frames, all on the oldest-clean queue, `iYoungCount`
0), in which a page move has given the unlinked frame 20000 the state `EPagedOldestClean`, is
consistent; `ReplacePage(10003, 20000)` meets the assertion that both frames have the same
paged state, takes the branch of the sublist states, and there the asserted `iYoungCount` is
0; yet the release code links 20000 in the place of 10003, leaves 10003 `EUnpaged` and the
live list consistent with its counts unchanged. The same holds from every consistent state
with `iYoungCount` 0 for an old frame that is on the live list. -/
theorem replacePage_young_assertion_overstrong :
    ((DPager.exampleCache 0 0 0).InitCache 7 DPager.exampleConfig true).isSome = true ∧
    DPager.exampleInit
      = ((DPager.exampleCache 0 0 0).InitCache 7 DPager.exampleConfig true).getD
          (DPager.exampleCache 0 0 0) ∧
    DPager.exampleMove
      = DPager.exampleInit.SetPagedState 20000 TPagedState.EPagedOldestClean ∧
    DPager.exampleMove.LiveListConsistent ∧
    DPager.exampleMove.iYoungList = [] ∧ DPager.exampleMove.iOldList = [] ∧
    DPager.exampleMove.iOldestDirtyList = [] ∧
    DPager.exampleMove.iYoungCount = 0 ∧
    (DPager.exampleMove.pageInfo 10003).iPagedState = TPagedState.EPagedOldestClean ∧
    DPager.exampleMove.OnLiveList 10003 ∧ ¬ DPager.exampleMove.OnLiveList 20000 ∧
    DPager.exampleMove.ReplacePageSameState 10003 20000 = true ∧
    DPager.exampleMove.ReplacePageYoungCount 10003 = false ∧
    (DPager.exampleMove.ReplacePage 10003 20000).LiveListConsistent ∧
    (DPager.exampleMove.ReplacePage 10003 20000).iOldestCleanList
      = [10000, 10001, 10002, 20000, 10004, 10005, 10006, 10007, 10008, 10009, 10010, 10011,
          10012, 10013, 10014, 10015] ∧
    (DPager.exampleMove.ReplacePage 10003 20000).iOldestCleanCount = 16 ∧
    (DPager.exampleMove.ReplacePage 10003 20000).iYoungCount = 0 ∧
    ((DPager.exampleMove.ReplacePage 10003 20000).pageInfo 10003).iPagedState
      = TPagedState.EUnpaged ∧
    ((DPager.exampleMove.ReplacePage 10003 20000).pageInfo 20000).iPagedState
      = TPagedState.EPagedOldestClean ∧
    (∀ (s : DPager) (old new : Nat), s.LiveListConsistent → s.iYoungCount = 0 →
      s.OnLiveList old → s.ReplacePageSameState old new = true → ¬ s.OnLiveList new →
      s.ReplacePageYoungCount old = false ∧ (s.ReplacePage old new).LiveListConsistent ∧
      (s.ReplacePage old new).OnLiveList new ∧
      ((s.ReplacePage old new).pageInfo old).iPagedState = TPagedState.EUnpaged) := by
  have hin : ∀ (q : List Nat) (old new : Nat), old ∈ q →
      new ∈ DPager.spliceQueue q old new := by
    intro q old new hm
    unfold DPager.spliceQueue
    exact List.mem_map.2 ⟨old, hm, by simp⟩
  refine ⟨by decide, rfl, rfl, ?_⟩
  iterate 16 refine ⟨by decide, ?_⟩
  intro s old new h hy hon hst hoff
  have hsub := DPager.sublistState_of_onLiveList h hon
  have hst2 : (s.pageInfo new).iPagedState = (s.pageInfo old).iPagedState := by
    unfold DPager.ReplacePageSameState at hst
    exact (of_decide_eq_true hst).symm
  have hne : new ≠ old := fun e => hoff (e ▸ hon)
  refine ⟨?_, DPager.consistent_ReplacePage h hst2 hoff, ?_, ?_⟩
  · unfold DPager.ReplacePageYoungCount
    rcases hx : (s.pageInfo old).iPagedState <;> rw [hx] at hsub <;>
      first
      | exact absurd hsub (by decide)
      | simp [hy]
  · rw [DPager.replacePage_sublist s old new hsub]
    rcases hon with hm | hm | hm | hm
    · exact Or.inl (hin _ _ _ hm)
    · exact Or.inr (Or.inl (hin _ _ _ hm))
    · exact Or.inr (Or.inr (Or.inl (hin _ _ _ hm)))
    · exact Or.inr (Or.inr (Or.inr (hin _ _ _ hm)))
  · rw [DPager.replacePage_sublist s old new hsub]
    show ((if old = old then _ else _ : SPageInfo)).iPagedState = _
    rw [if_pos rfl]
    rfl

/-- C33: the size of the live list tracks the accounting. With the slack the quantity
`(iYoungCount + iOldCount + iOldestCleanCount + iOldestDirtyCount) - (iMinimumPageCount +
iNumberOfFreePages)`: from a consistent live list whose managers refuse no steal, the slack
after the operation is the slack before it for `TryGrowLiveList` (success or failure), for
`ReturnPageToSystem()` called with a free page accounted, for `RemoveExcessPages` when the
minimum is not above the maximum, for `ReservePage`, for `ResizeLiveList` with any arguments
when `min + free <= max` and the page counts are below 2^31, for `DonatePages` of one page,
and for `ReclaimPages` of one page that is linked and not pinned, the allocator handing out an
unpaged frame if the live list has to grow. -/
theorem accounting_slack_invariant (s : DPager) (h : s.LiveListConsistent)
    (hmgr : ∀ n, s.mgrStealPage n = KErrNone) :
    s.TryGrowLiveList.2.accountingSlack = s.accountingSlack ∧
    (0 < s.iNumberOfFreePages → ∀ fuel s1, DPager.ReturnPageToSystem fuel s = some s1 →
      s1.accountingSlack = s.accountingSlack) ∧
    (s.iMinimumPageCount ≤ s.iMaximumPageCount →
      ∀ fuel s1, DPager.RemoveExcessPages fuel s = some s1 →
        s1.accountingSlack = s.accountingSlack) ∧
    (∀ fuel r s1, DPager.ReservePage fuel s = some (r, s1) →
      s1.accountingSlack = s.accountingSlack) ∧
    (s.iMinimumPageCount + s.iNumberOfFreePages ≤ s.iMaximumPageCount →
      s.iMaximumPageCount < 2147483648 →
      s.computeMinimumPageLimit + s.iReservePageCount < 2147483648 →
      KAbsoluteMaxPageCount s.KPageShift < 2147483648 →
      ∀ fuel aMinimumPageCount aMaximumPageCount r s1,
        DPager.ResizeLiveList fuel s aMinimumPageCount aMaximumPageCount = some (r, s1) →
        s1.accountingSlack = s.accountingSlack) ∧
    (s.iMinimumPageCount ≤ s.iMaximumPageCount →
      ∀ fuel pagePhys s1, DPager.DonatePages fuel s [pagePhys] = some s1 →
        s1.accountingSlack = s.accountingSlack) ∧
    (s.iMinimumPageCount ≤ s.iMaximumPageCount →
      ∀ fuel (pagePhys : Nat × Bool) r s1, s.Linked pagePhys.1 →
        (s.pageInfo pagePhys.1).iPagedState ≠ TPagedState.EPagedPinned →
        (s.pageInfo pagePhys.1).iPagedState ≠ TPagedState.EPagedPinnedMoved →
        (∀ q, s.allocRam s.allocCalls = some q →
          (s.pageInfo q).iPagedState = TPagedState.EUnpaged) →
        DPager.ReclaimPages fuel s [pagePhys] = some (r, s1) →
        s1.accountingSlack = s.accountingSlack) := by
  refine ⟨DPager.slack_tryGrow s, ?_, ?_, ?_, ?_, ?_, ?_⟩
  · intro hfree fuel s1 e
    exact (DPager.returnPage_post h hmgr hfree e).2.2.2.2.2.2.2
  · intro hmm fuel s1 e
    exact (DPager.removeExcess_post fuel s s1 h hmgr hmm e).2.2.2.2.2.2.2.2
  · intro fuel r s1 e
    exact DPager.slack_reservePage e
  · intro i3 hM hL hK fuel a b r s1 e
    exact DPager.slack_resize h hmgr i3 hM hL hK e
  · intro hmm fuel pagePhys s1 e
    exact DPager.slack_donatePages_single h hmgr hmm e
  · intro hmm fuel pagePhys r s1 hl hp1 hp2 hfresh e
    exact DPager.slack_reclaimPages_single h hmgr hmm hl hp1 hp2 hfresh e

/-- C33 on caches of 5 committed pages whose slack is 0: with 3 free pages and a maximum of
8, `TryGrowLiveList`, `ReturnPageToSystem()`, `ReservePage`, `ResizeLiveList(6, 7)` and
`DonatePages` of the unpaged frame 100 return and leave the slack at 0; so do
`RemoveExcessPages` with a maximum of 6, and `ReclaimPages` of frame 3 without a free page,
which first grows the live list. -/
theorem accounting_slack_invariant_witness :
    (DPager.exampleCache 5 8 3).LiveListConsistent ∧
    (DPager.exampleCache 5 8 3).accountingSlack = 0 ∧
    (DPager.exampleCache 5 6 3).accountingSlack = 0 ∧
    (DPager.exampleCache 5 8 0).accountingSlack = 0 ∧
    (DPager.exampleCache 5 8 3).TryGrowLiveList.2.accountingSlack = 0 ∧
    (∃ s1, DPager.ReturnPageToSystem 2 (DPager.exampleCache 5 8 3) = some s1 ∧
      s1.accountingSlack = 0) ∧
    (∃ s1, DPager.RemoveExcessPages 4 (DPager.exampleCache 5 6 3) = some s1 ∧
      s1.accountingSlack = 0) ∧
    (∃ r s1, DPager.ReservePage 3 (DPager.exampleCache 5 8 3) = some (r, s1) ∧
      s1.accountingSlack = 0) ∧
    (∃ r s1, DPager.ResizeLiveList 40 (DPager.exampleCache 5 8 3) 6 7 = some (r, s1) ∧
      s1.accountingSlack = 0) ∧
    (∃ s1, DPager.DonatePages 5 (DPager.exampleCache 5 8 3) [(100, true)] = some s1 ∧
      s1.accountingSlack = 0) ∧
    (∃ r s1, DPager.ReclaimPages 5 (DPager.exampleCache 5 8 0) [(3, true)] = some (r, s1) ∧
      s1.accountingSlack = 0) := by
  have t := accounting_slack_invariant (DPager.exampleCache 5 8 3)
    (DPager.exampleCache_consistent 5 8 3) (fun _ => rfl)
  have t6 := accounting_slack_invariant (DPager.exampleCache 5 6 3)
    (DPager.exampleCache_consistent 5 6 3) (fun _ => rfl)
  have t0 := accounting_slack_invariant (DPager.exampleCache 5 8 0)
    (DPager.exampleCache_consistent 5 8 0) (fun _ => rfl)
  have z : (DPager.exampleCache 5 8 3).accountingSlack = 0 := by decide
  have z6 : (DPager.exampleCache 5 6 3).accountingSlack = 0 := by decide
  have z0 : (DPager.exampleCache 5 8 0).accountingSlack = 0 := by decide
  refine ⟨DPager.exampleCache_consistent 5 8 3, z, z6, z0, t.1.trans z, ?_, ?_, ?_, ?_, ?_, ?_⟩
  · obtain ⟨v, hv⟩ := Option.isSome_iff_exists.1
      (show (DPager.ReturnPageToSystem 2 (DPager.exampleCache 5 8 3)).isSome = true by decide)
    exact ⟨v, hv, (t.2.1 (by decide) 2 v hv).trans z⟩
  · obtain ⟨v, hv⟩ := Option.isSome_iff_exists.1
      (show (DPager.RemoveExcessPages 4 (DPager.exampleCache 5 6 3)).isSome = true by decide)
    exact ⟨v, hv, (t6.2.2.1 (by decide) 4 v hv).trans z6⟩
  · obtain ⟨v, hv⟩ := Option.isSome_iff_exists.1
      (show (DPager.ReservePage 3 (DPager.exampleCache 5 8 3)).isSome = true by decide)
    exact ⟨v.1, v.2, hv, (t.2.2.2.1 3 v.1 v.2 hv).trans z⟩
  · obtain ⟨v, hv⟩ := Option.isSome_iff_exists.1
      (show (DPager.ResizeLiveList 40 (DPager.exampleCache 5 8 3) 6 7).isSome = true by decide)
    exact ⟨v.1, v.2, hv,
      (t.2.2.2.2.1 (by decide) (by decide) (by decide) (by decide) 40 6 7 v.1 v.2 hv).trans z⟩
  · obtain ⟨v, hv⟩ := Option.isSome_iff_exists.1
      (show (DPager.DonatePages 5 (DPager.exampleCache 5 8 3) [(100, true)]).isSome = true
        by decide)
    exact ⟨v, hv, (t.2.2.2.2.2.1 (by decide) 5 (100, true) v hv).trans z⟩
  · obtain ⟨v, hv⟩ := Option.isSome_iff_exists.1
      (show (DPager.ReclaimPages 5 (DPager.exampleCache 5 8 0) [(3, true)]).isSome = true
        by decide)
    refine ⟨v.1, v.2, hv,
      (t0.2.2.2.2.2.2 (by decide) 5 (3, true) v.1 v.2 (by decide) (by decide) (by decide)
        ?_ hv).trans z0⟩
    intro q hq
    have e : 10000 + 0 = q := Option.some.inj hq
    subst e
    decide
/-- C34: `Lock` never needs more pages than `Alloc` sized for. For a size that is not
negative and a start address, with `size + 2*KPageMask` in the range of `TInt` (so that
neither the `TInt` sum of `Alloc` nor the `TUint` sum of `Lock` overflows), the page count
`(size + (start & KPageMask) + KPageMask) >> KPageShift` of `Lock` is at most the
`iMaxPageCount = ((size - 1 + KPageMask) >> KPageShift) + 1` of `Alloc(size)`, with equality
when `start & KPageMask == KPageMask`; and `Lock` on an unused lock whose `iMaxPageCount` was
set by `Alloc(size)` gets past its two assertions for every size from 0 to `size`. -/
theorem lock_pages_within_alloc (k start : Nat) (size : Int) (h0 : 0 ≤ size)
    (hov : size + 2 * ((2 : Int) ^ k - 1) < 2147483648) :
    DDemandPagingLock.numPages k start size ≤ DDemandPagingLock.maxPageCount k size ∧
    (start &&& (2 ^ k - 1) = 2 ^ k - 1 →
      DDemandPagingLock.numPages k start size = DDemandPagingLock.maxPageCount k size) ∧
    (∀ (l : DDemandPagingLock) (size2 : Int),
      l.iMaxPageCount = DDemandPagingLock.maxPageCount k size → l.iLockedPageCount = 0 →
      0 ≤ size2 → size2 ≤ size →
      l.LockBegin k start size2 = some (DDemandPagingLock.numPages k start size2)) := by
  have hM : 0 < 2 ^ k := Nat.two_pow_pos k
  have hMi : (1 : Int) ≤ (2 : Int) ^ k := by
    have : (0 : Int) < (2 : Int) ^ k := by positivity
    omega
  have hT : size < 2147483648 := by omega
  have hoff : start % 2 ^ k < 2 ^ k := Nat.mod_lt _ hM
  have hle : ∀ size2 : Int, 0 ≤ size2 → size2 ≤ size →
      DDemandPagingLock.numPages k start size2 ≤ DDemandPagingLock.maxPageCount k size := by
    intro size2 g0 g1
    rw [DDemandPagingLock.numPages_eq k start size2 g0 (by omega) (by omega),
      DDemandPagingLock.maxPageCount_nat k size h0 hov]
    have hn : size2.toNat ≤ size.toNat := Int.toNat_le_toNat g1
    exact_mod_cast Nat.div_le_div_right (by omega)
  refine ⟨hle size h0 (le_refl _), ?_, ?_⟩
  · intro he
    rw [Nat.and_pow_two_sub_one_eq_mod] at he
    rw [DDemandPagingLock.numPages_eq k start size h0 hT (by omega),
      DDemandPagingLock.maxPageCount_nat k size h0 hov, he]
    congr 2
    omega
  · intro l size2 e1 e2 g0 g1
    unfold DDemandPagingLock.LockBegin
    rw [if_neg (by rw [e2]; exact fun h => h rfl),
      if_neg (by rw [e1]; exact not_lt.2 (hle size2 g0 g1))]

/-- C34 for pages of 4096 bytes, a size of 8192 bytes and a start address that ends in
0xfff: both page counts are 3. -/
theorem lock_pages_within_alloc_witness :
    (0 : Int) ≤ 8192 ∧
    (8192 : Int) + 2 * ((2 : Int) ^ 12 - 1) < 2147483648 ∧
    DDemandPagingLock.numPages 12 4095 8192 ≤ DDemandPagingLock.maxPageCount 12 8192 ∧
    (4095 &&& (2 ^ 12 - 1) = 2 ^ 12 - 1 →
      DDemandPagingLock.numPages 12 4095 8192 = DDemandPagingLock.maxPageCount 12 8192) ∧
    DDemandPagingLock.numPages 12 4095 8192 = 3 ∧
    DDemandPagingLock.maxPageCount 12 8192 = 3 :=
  have t := lock_pages_within_alloc 12 4095 8192 (by decide) (by decide)
  ⟨by decide, by decide, t.1, t.2.1, by decide, by decide⟩

/-- C35: the region collision test is interval intersection. After
`SetUseContiguous(m, s, c)`, with `s + c` and `i + n` not above 2^32,
`IsCollisionContiguous(m2, i, n)` is true exactly when `m2 = m` and the intervals `[s, s+c)`
and `[i, i+n)` have a common index. For any use region the test is true exactly when some
stored pair has the memory object `m2` and an index `x` with `TUint(x - i) < n`, which for
`i + n` not above 2^32 says `i ≤ x < i + n`. After `ResetUse` the test is false for every
argument, and `CheckUseContiguous(m, s, c)` is true right after `SetUseContiguous(m, s, c)`. -/
theorem collision_is_interval_intersection (r : DPoolPagingRequest) (m s c m2 i n : Nat)
    (hs : s + c ≤ 4294967296) (hi : i + n ≤ 4294967296) :
    ((r.SetUseContiguous m s c).IsCollisionContiguous m2 i n = true ↔
      m2 = m ∧ ∃ x, s ≤ x ∧ x < s + c ∧ i ≤ x ∧ x < i + n) ∧
    (∀ q : DPagingRequest, q.IsCollisionContiguous m2 i n = true ↔
      ∃ e ∈ q.iUseRegion, e.1 = m2 ∧ sub32 e.2 i < n) ∧
    (∀ q : DPagingRequest, q.IsCollisionContiguous m2 i n = true ↔
      ∃ e ∈ q.iUseRegion, e.1 = m2 ∧ i ≤ e.2 ∧ e.2 < i + n) ∧
    (∀ m3 i3 n3, r.ResetUse.IsCollisionContiguous m3 i3 n3 = false) ∧
    (r.SetUseContiguous m s c).CheckUseContiguous m s c = true := by
  have general : ∀ q : DPagingRequest, q.IsCollisionContiguous m2 i n = true ↔
      ∃ e ∈ q.iUseRegion, e.1 = m2 ∧ i ≤ e.2 ∧ e.2 < i + n := by
    intro q
    rw [DPagingRequest.isCollision_iff]
    constructor
    · rintro ⟨e, he, h1, h2⟩
      exact ⟨e, he, h1, (DPagingRequest.sub32_lt_iff _ _ _ hi).1 h2⟩
    · rintro ⟨e, he, h1, h2⟩
      exact ⟨e, he, h1, (DPagingRequest.sub32_lt_iff _ _ _ hi).2 h2⟩
  refine ⟨?_, fun q => DPagingRequest.isCollision_iff q m2 i n, general, ?_,
    DPagingRequest.checkUse_contiguousRegion m s c⟩
  · rw [general]
    show (∃ e ∈ DPagingRequest.contiguousRegion m s c, e.1 = m2 ∧ i ≤ e.2 ∧ e.2 < i + n) ↔ _
    constructor
    · rintro ⟨e, he, h1, h2, h3⟩
      obtain ⟨g1, g2, g3⟩ := (DPagingRequest.mem_contiguousRegion m s c hs e).1 he
      exact ⟨h1.symm.trans g1, e.2, g2, g3, h2, h3⟩
    · rintro ⟨h1, x, g2, g3, h2, h3⟩
      exact ⟨(m, x), (DPagingRequest.mem_contiguousRegion m s c hs (m, x)).2 ⟨rfl, g2, g3⟩,
        h1.symm, h2, h3⟩
  · intro m3 i3 n3
    rfl

/-- C35 for the region of pages 10 to 12 of memory object 7 against pages 12 to 15: the two
intervals share index 12 and the test is true. -/
theorem collision_is_interval_intersection_witness :
    10 + 3 ≤ 4294967296 ∧ 12 + 4 ≤ 4294967296 ∧
    ((DPoolPagingRequest.new.SetUseContiguous 7 10 3).IsCollisionContiguous 7 12 4 = true ↔
      7 = 7 ∧ ∃ x, 10 ≤ x ∧ x < 10 + 3 ∧ 12 ≤ x ∧ x < 12 + 4) ∧
    (DPoolPagingRequest.new.SetUseContiguous 7 10 3).IsCollisionContiguous 7 12 4 = true ∧
    (DPoolPagingRequest.new.SetUseContiguous 7 10 3).IsCollisionContiguous 7 13 4 = false :=
  ⟨by decide, by decide,
    (collision_is_interval_intersection DPoolPagingRequest.new 7 10 3 7 12 4
      (by decide) (by decide)).1,
    by decide, by decide⟩

/-- C36: a frame added as a free page is the next victim. After `AddAsFreePage(p)`, from any
state, `p` is the last frame of the oldest-clean queue and `iOldestCleanCount` is not zero, so
the search of `TryStealOldestPage` picks `p`: the call answers 1 without a change when `p` is
dirty and the cleaning lock is not held, and otherwise removes `p`, which is unused, and
returns it with `KErrNone`. After `PageFreed(p)` on a frame whose state names a sublist the
call has returned `KErrNone`, `p` is the last frame of the oldest-clean queue and clean, the
search picks `p`, and `TryStealOldestPage` returns `p` whenever the steal succeeds. -/
theorem free_page_is_next_victim (s : DPager) (p : Nat) :
    (s.AddAsFreePage p).iOldestCleanList.getLast? = some p ∧
    (s.AddAsFreePage p).OldestLink = some p ∧
    (∀ out, (s.AddAsFreePage p).TryStealOldestPage out =
      if (((s.AddAsFreePage p).pageInfo p).IsDirty
          && !(s.AddAsFreePage p).cleaningLockHeld) = true then
        some (1, out, s.AddAsFreePage p)
      else some (KErrNone, some p, ((s.AddAsFreePage p).StealPage p).2.BalanceAges)) ∧
    (DPager.IsSublistState (s.pageInfo p).iPagedState = true →
      (s.PageFreed p).1 = KErrNone ∧
      (s.PageFreed p).2.iOldestCleanList.getLast? = some p ∧
      (s.PageFreed p).2.OldestLink = some p ∧
      (∀ out, (s.PageFreed p).2.TryStealOldestPage out =
        if ((s.PageFreed p).2.StealPage p).1 = KErrNone then
          some (KErrNone, some p, ((s.PageFreed p).2.StealPage p).2.BalanceAges)
        else
          some (((s.PageFreed p).2.StealPage p).1, out,
            ((s.PageFreed p).2.StealPage p).2))) := by
  have hlast : ∀ l : List Nat, (l ++ [p]).getLast? = some p := by
    intro l; simp
  have link : ∀ t : DPager, t.iOldestCleanCount ≠ 0 → t.iOldestCleanList.getLast? = some p →
      t.OldestLink = some p := by
    intro t h1 h2
    unfold DPager.OldestLink
    rw [if_pos h1, h2]
  have a1 : (s.AddAsFreePage p).iOldestCleanList.getLast? = some p := hlast _
  have a2 : (s.AddAsFreePage p).OldestLink = some p :=
    link _ (Nat.succ_ne_zero _) a1
  refine ⟨a1, a2, ?_, ?_⟩
  · intro out
    rw [DPager.tryStealOldest_unfold a2 out]
    have hst : ((s.AddAsFreePage p).pageInfo p).iPagedState = TPagedState.EPagedOldestClean := by
      simp [DPager.AddAsFreePage, DPager.SetPagedState, DPager.setPage, DPager.MmuPageFreed,
        SPageInfo.SetPagedState]
    have hty : ((s.AddAsFreePage p).pageInfo p).iType = TType.EUnused := by
      simp [DPager.AddAsFreePage, DPager.SetPagedState, DPager.setPage, DPager.MmuPageFreed,
        SPageInfo.SetPagedState, SPageInfo.SetUnused]
    have hr : (((s.AddAsFreePage p).RemovePage p).pageInfo p).iType = TType.EUnused := by
      unfold DPager.RemovePage
      rw [hst]
      simp [DPager.SetPagedState, DPager.setPage, DPager.Deque, SPageInfo.SetPagedState]
      exact hty
    have hk : ((s.AddAsFreePage p).StealPage p).1 = KErrNone := by
      unfold DPager.StealPage
      dsimp only
      rw [if_pos hr]
    rw [if_pos hk, hk]
  · intro hs
    have e : ∃ t : DPager, s.PageFreed p = t.PageFreedTail p := by
      unfold DPager.PageFreed
      rcases hx : (s.pageInfo p).iPagedState <;> rw [hx] at hs <;>
        first
        | exact absurd hs (by decide)
        | exact ⟨_, rfl⟩
    obtain ⟨t, e⟩ := e
    obtain ⟨f0, -, -, f3, -, -, -, g3, -, -, hd, -⟩ := DPager.PageFreedTail_fields t p
    rw [e]
    have b1 : (t.PageFreedTail p).2.iOldestCleanList.getLast? = some p := by
      rw [f3]; exact hlast _
    have b2 : (t.PageFreedTail p).2.OldestLink = some p :=
      link _ (by rw [g3]; exact Nat.succ_ne_zero _) b1
    refine ⟨f0, b1, b2, ?_⟩
    intro out
    rw [DPager.tryStealOldest_unfold b2 out]
    have hnd : ¬ ((((t.PageFreedTail p).2.pageInfo p).IsDirty
        && !(t.PageFreedTail p).2.cleaningLockHeld) = true) := by
      show ¬ ((((t.PageFreedTail p).2.pageInfo p).iDirty
        && !(t.PageFreedTail p).2.cleaningLockHeld) = true)
      rw [hd]; simp
    rw [if_neg hnd]
    split
    · next hk => rw [hk]
    · rfl

/-- C36 at the example state: the young frame 1 is freed with `PageFreed`, and the unused frame
100 is added as a free page; each is then the frame the steal picks. -/
theorem free_page_is_next_victim_witness :
    DPager.IsSublistState (DPager.exampleState.pageInfo 1).iPagedState = true ∧
    (DPager.exampleState.PageFreed 1).1 = KErrNone ∧
    (DPager.exampleState.PageFreed 1).2.iOldestCleanList = [4, 1] ∧
    (DPager.exampleState.PageFreed 1).2.OldestLink = some 1 ∧
    (DPager.exampleState.AddAsFreePage 100).iOldestCleanList = [4, 100] ∧
    (DPager.exampleState.AddAsFreePage 100).OldestLink = some 100 :=
  ⟨by decide, ((free_page_is_next_victim DPager.exampleState 1).2.2.2 (by decide)).1,
    by decide,
    ((free_page_is_next_victim DPager.exampleState 1).2.2.2 (by decide)).2.2.1,
    by decide, (free_page_is_next_victim DPager.exampleState 100).2.1⟩

/-- C37: `GetFreePages` is all or nothing. On a consistent live list whose managers do not
refuse a steal, for `n > 0` and a count of free pages in the range of `TInt`: if
`iNumberOfFreePages >= n` on entry and the live list holds `n` frames, `GetFreePages(n)`
returns true, `n` frames have left the live list and gone to `TheMmu.FreeRam`,
`iNumberOfFreePages` is `n` less and the minimum and maximum are unchanged; if
`iNumberOfFreePages < n` it returns false and the state is the one on entry. -/
theorem getFreePages_all_or_nothing (s : DPager) (n : Nat) (hn : 0 < n)
    (h : s.LiveListConsistent) (hmgr : ∀ k, s.mgrStealPage k = KErrNone)
    (h31 : s.iNumberOfFreePages < 2147483648) :
    (n ≤ s.iNumberOfFreePages → n ≤ s.liveListSize → ∀ fuel, n + 2 ≤ fuel →
      ∃ s1, DPager.GetFreePages fuel s (n : Int) = some (true, s1) ∧
        s1.LiveListConsistent ∧
        s1.iNumberOfFreePages + n = s.iNumberOfFreePages ∧
        s1.liveListSize + n = s.liveListSize ∧
        s1.freedRam.length = s.freedRam.length + n ∧
        s1.iMinimumPageCount = s.iMinimumPageCount ∧
        s1.iMaximumPageCount = s.iMaximumPageCount) ∧
    (s.iNumberOfFreePages < n → ∀ fuel, 1 ≤ fuel →
      DPager.GetFreePages fuel s (n : Int) = some (false, s)) := by
  constructor
  · intro hfree hsz fuel hf
    obtain ⟨s1, e, p1, p2, p3, p4, p5, p6, -⟩ :=
      DPager.getFreePagesLoop_all n s fuel h hmgr hfree h31 hsz hf
    refine ⟨s1, ?_, p1, p2, p3, p4, p5, p6⟩
    unfold DPager.GetFreePages
    rw [e]
    rfl
  · intro hfree fuel hf
    obtain ⟨k, rfl⟩ : ∃ k, fuel = k + 1 := ⟨fuel - 1, by omega⟩
    have ht : toTInt s.iNumberOfFreePages = (s.iNumberOfFreePages : Int) := by
      unfold toTInt
      rw [Nat.mod_eq_of_lt (by omega), if_pos h31]
    unfold DPager.GetFreePages
    rw [DPager.GetFreePagesLoop, if_neg (by rw [ht]; omega)]
    dsimp only
    have : decide ((n : Int) = 0) = false := by
      rw [decide_eq_false_iff_not]
      omega
    rw [this]

/-- C37 on a cache of 5 committed and 3 free pages: `GetFreePages(2)` returns true and
leaves one free page, `GetFreePages(4)` returns false and changes nothing. -/
theorem getFreePages_all_or_nothing_witness :
    (DPager.exampleCache 5 8 3).LiveListConsistent ∧
    (DPager.exampleCache 5 8 3).iNumberOfFreePages < 2147483648 ∧
    (∃ s1, DPager.GetFreePages 5 (DPager.exampleCache 5 8 3) ((2 : Nat) : Int)
        = some (true, s1) ∧
      s1.LiveListConsistent ∧
      s1.iNumberOfFreePages + 2 = (DPager.exampleCache 5 8 3).iNumberOfFreePages ∧
      s1.liveListSize + 2 = (DPager.exampleCache 5 8 3).liveListSize ∧
      s1.freedRam.length = (DPager.exampleCache 5 8 3).freedRam.length + 2 ∧
      s1.iMinimumPageCount = (DPager.exampleCache 5 8 3).iMinimumPageCount ∧
      s1.iMaximumPageCount = (DPager.exampleCache 5 8 3).iMaximumPageCount) ∧
    DPager.GetFreePages 5 (DPager.exampleCache 5 8 3) ((4 : Nat) : Int)
      = some (false, DPager.exampleCache 5 8 3) :=
  ⟨DPager.exampleCache_consistent 5 8 3, by decide,
    (getFreePages_all_or_nothing (DPager.exampleCache 5 8 3) 2 (by decide)
      (DPager.exampleCache_consistent 5 8 3) (fun _ => rfl) (by decide)).1
      (by decide) (by decide) 5 (by decide),
    (getFreePages_all_or_nothing (DPager.exampleCache 5 8 3) 4 (by decide)
      (DPager.exampleCache_consistent 5 8 3) (fun _ => rfl) (by decide)).2
      (by decide) 5 (by decide)⟩

/-- C38: the shrink loops terminate and never return a page that is not accounted free. From
a consistent live list whose managers do not refuse, with `iMinimumPageCount <=
iMaximumPageCount`: the guard of `RemoveExcessPages` implies `iNumberOfFreePages > 0`, an
iteration is one `ReturnPageToSystem()` that lowers the free count by one, and when the live
list holds the excess `min + free - max` (0 if negative) the loop returns after exactly that
many calls with `min + free <= max`. In the loop of `ResizeLiveList` that lowers the maximum
to `aMax`, entered with `min + free <= max` and `min <= aMax <= max`: `ReturnPageToSystem()`
is reached only with `iNumberOfFreePages > 0`, an iteration lowers `iMaximumPageCount` or
`iNumberOfFreePages` and keeps the conditions of the loop, and the loop returns with
`iMaximumPageCount = aMax`. A call of `ResizeLiveList` made with `min + free <= max` and page
counts below 2^31 that gets past its argument check enters that loop under these conditions,
with `aMax` the clamped maximum, and returns with `iMaximumPageCount` equal to it. -/
theorem shrink_loops_terminate (s : DPager) (h : s.LiveListConsistent)
    (hmgr : ∀ n, s.mgrStealPage n = KErrNone)
    (hmm : s.iMinimumPageCount ≤ s.iMaximumPageCount) :
    (s.HaveTooManyPages = true → 0 < s.iNumberOfFreePages) ∧
    (s.HaveTooManyPages = true → 0 < s.liveListSize → ∀ k, 2 ≤ k →
      ∃ t, DPager.ReturnPageToSystem k s = some t ∧
        DPager.RemoveExcessPages (k + 1) s = DPager.RemoveExcessPages k t ∧
        t.iNumberOfFreePages + 1 = s.iNumberOfFreePages ∧
        t.iMinimumPageCount = s.iMinimumPageCount ∧
        t.iMaximumPageCount = s.iMaximumPageCount ∧
        t.freedRam.length = s.freedRam.length + 1 ∧
        t.LiveListConsistent ∧ (∀ n, t.mgrStealPage n = KErrNone)) ∧
    (s.iMinimumPageCount + s.iNumberOfFreePages - s.iMaximumPageCount ≤ s.liveListSize →
      ∀ fuel, s.iMinimumPageCount + s.iNumberOfFreePages - s.iMaximumPageCount + 2 ≤ fuel →
      ∃ s1, DPager.RemoveExcessPages fuel s = some s1 ∧
        s1.freedRam.length = s.freedRam.length
          + (s.iMinimumPageCount + s.iNumberOfFreePages - s.iMaximumPageCount) ∧
        s1.iNumberOfFreePages
            + (s.iMinimumPageCount + s.iNumberOfFreePages - s.iMaximumPageCount)
          = s.iNumberOfFreePages ∧
        s1.iMinimumPageCount + s1.iNumberOfFreePages ≤ s1.iMaximumPageCount ∧
        s1.iMinimumPageCount = s.iMinimumPageCount ∧
        s1.iMaximumPageCount = s.iMaximumPageCount) ∧
    (∀ aMax, s.iMinimumPageCount + s.iNumberOfFreePages ≤ s.iMaximumPageCount →
      s.iMinimumPageCount ≤ aMax → aMax ≤ s.iMaximumPageCount →
      (s.iMaximumPageCount > aMax →
        sub32 s.iMaximumPageCount
          (if aMax < s.iMinimumPageCount + s.iNumberOfFreePages then
            s.iMinimumPageCount + s.iNumberOfFreePages else aMax) = 0 →
        0 < s.iNumberOfFreePages) ∧
      (s.iMaximumPageCount > aMax →
        s.iMinimumPageCount + s.iNumberOfFreePages - aMax ≤ s.liveListSize → ∀ k, 2 ≤ k →
        ∃ t, DPager.ResizeShrinkMax (k + 1) s aMax = DPager.ResizeShrinkMax k t aMax ∧
          ((t.iMaximumPageCount < s.iMaximumPageCount ∧
              t.iNumberOfFreePages = s.iNumberOfFreePages) ∨
            (t.iNumberOfFreePages < s.iNumberOfFreePages ∧
              t.iMaximumPageCount = s.iMaximumPageCount)) ∧
          t.LiveListConsistent ∧ (∀ n, t.mgrStealPage n = KErrNone) ∧
          t.iMinimumPageCount + t.iNumberOfFreePages ≤ t.iMaximumPageCount ∧
          t.iMinimumPageCount = s.iMinimumPageCount ∧ aMax ≤ t.iMaximumPageCount ∧
          t.iMinimumPageCount + t.iNumberOfFreePages - aMax ≤ t.liveListSize) ∧
      (s.iMinimumPageCount + s.iNumberOfFreePages - aMax ≤ s.liveListSize →
        ∀ fuel, 2 * (s.iMinimumPageCount + s.iNumberOfFreePages - aMax) + 2 ≤ fuel →
        ∃ s1, DPager.ResizeShrinkMax fuel s aMax = some s1 ∧
          s1.iMaximumPageCount = aMax ∧
          s1.iMinimumPageCount = s.iMinimumPageCount ∧
          s1.iMinimumPageCount + s1.iNumberOfFreePages ≤ s1.iMaximumPageCount ∧
          s1.iNumberOfFreePages = min s.iNumberOfFreePages (aMax - s.iMinimumPageCount) ∧
          s1.iNumberOfFreePages + s1.freedRam.length
            = s.iNumberOfFreePages + s.freedRam.length)) ∧
    (s.iMinimumPageCount + s.iNumberOfFreePages ≤ s.iMaximumPageCount →
      s.iMaximumPageCount < 2147483648 →
      s.computeMinimumPageLimit + s.iReservePageCount < 2147483648 →
      KAbsoluteMaxPageCount s.KPageShift < 2147483648 →
      ∀ fuel a b r s5, DPager.ResizeLiveList fuel s a b = some (r, s5) →
        (r = KErrArgument ∧ s5 = s) ∨
        ∃ s4, DPager.ResizeShrinkMax fuel s4
            (max (s.resizeArgMax b)
              (max (s.resizeArgMin a b) (s.computeMinimumPageLimit + s.iReservePageCount)))
            = some s5 ∧
          s4.iMinimumPageCount + s4.iNumberOfFreePages ≤ s4.iMaximumPageCount ∧
          s4.iMinimumPageCount ≤ max (s.resizeArgMax b)
            (max (s.resizeArgMin a b) (s.computeMinimumPageLimit + s.iReservePageCount)) ∧
          max (s.resizeArgMax b)
              (max (s.resizeArgMin a b) (s.computeMinimumPageLimit + s.iReservePageCount))
            ≤ s4.iMaximumPageCount ∧
          s5.iMaximumPageCount = max (s.resizeArgMax b)
            (max (s.resizeArgMin a b) (s.computeMinimumPageLimit + s.iReservePageCount))) := by
  refine ⟨fun ht => DPager.free_pos_of_tooMany hmm ht,
    fun ht hsz k hk => DPager.removeExcess_iteration h hmgr hmm ht hsz k hk, ?_, ?_,
    fun i3 hM hL hK fuel a b r s5 e => DPager.resize_shrink_entry i3 hM hL hK e⟩
  · intro hsz fuel hf
    obtain ⟨s1, e⟩ := DPager.removeExcess_total _ s fuel h hmgr hmm rfl hsz hf
    obtain ⟨-, -, p3, p4, p5, p6, p7, -, -⟩ := DPager.removeExcess_post fuel s s1 h hmgr hmm e
    exact ⟨s1, e, p7, p6, p5, p3, p4⟩
  · intro aMax i3 hmin hmax
    refine ⟨fun hgt hd => DPager.shrinkMax_free_pos i3 hmin hgt hd,
      fun hgt hsz k hk => DPager.shrinkMax_iteration h hmgr i3 hmin hgt hsz k hk, ?_⟩
    intro hsz fuel hf
    obtain ⟨s1, e⟩ := DPager.shrinkMax_returns fuel s aMax 1 h hmgr i3 hmin hmax hsz
      (fun _ => rfl) (by omega)
    obtain ⟨p1, p2, p3, -, -, p6, p7⟩ := DPager.resizeShrinkMax_post fuel s aMax s1 e i3 hmin hmax
    exact ⟨s1, e, p1, p2, p3, p7, p6⟩

/-- C38 on a cache of 5 committed and 3 free pages with a maximum of 6: the excess is 2,
`RemoveExcessPages` returns two frames and leaves one free page. -/
theorem shrink_loops_terminate_witness :
    (DPager.exampleCache 5 6 3).LiveListConsistent ∧
    (DPager.exampleCache 5 6 3).iMinimumPageCount
      ≤ (DPager.exampleCache 5 6 3).iMaximumPageCount ∧
    ∃ s1, DPager.RemoveExcessPages 4 (DPager.exampleCache 5 6 3) = some s1 ∧
      s1.freedRam.length = (DPager.exampleCache 5 6 3).freedRam.length
        + ((DPager.exampleCache 5 6 3).iMinimumPageCount
          + (DPager.exampleCache 5 6 3).iNumberOfFreePages
          - (DPager.exampleCache 5 6 3).iMaximumPageCount) ∧
      s1.iNumberOfFreePages
          + ((DPager.exampleCache 5 6 3).iMinimumPageCount
            + (DPager.exampleCache 5 6 3).iNumberOfFreePages
            - (DPager.exampleCache 5 6 3).iMaximumPageCount)
        = (DPager.exampleCache 5 6 3).iNumberOfFreePages ∧
      s1.iMinimumPageCount + s1.iNumberOfFreePages ≤ s1.iMaximumPageCount ∧
      s1.iMinimumPageCount = (DPager.exampleCache 5 6 3).iMinimumPageCount ∧
      s1.iMaximumPageCount = (DPager.exampleCache 5 6 3).iMaximumPageCount :=
  ⟨DPager.exampleCache_consistent 5 6 3, by decide,
    (shrink_loops_terminate (DPager.exampleCache 5 6 3) (DPager.exampleCache_consistent 5 6 3)
      (fun _ => rfl) (by decide)).2.2.1 (by decide) 4 (by decide)⟩

/-- C39: `BalanceAges` never dequeues from an empty queue. When the young and old counts equal
the lengths of their queues: if the first condition `(iOldCount + oldest) * iYoungOldRatio <
iYoungCount` holds, with the exact product or with the 32-bit `TUint` product that the code
computes, the young queue has a last frame, `iYoungCount` is positive, the first step moves
that frame and `--iYoungCount` does not wrap; if the second condition `oldest <
KMaxOldestPages && oldest * iOldOldestRatio < iOldCount` holds, whatever `oldest` is, the old
queue has a last frame, `iOldCount` is positive, the second step moves that frame and
`--iOldCount` does not wrap; and inside `BalanceAges`, where the second condition is tested
after the first step, the old queue has a last frame whenever that condition holds. -/
theorem balanceAges_never_dequeues_empty (s : DPager)
    (hy : s.iYoungCount = s.iYoungList.length) (ho : s.iOldCount = s.iOldList.length) :
    ((s.iOldCount + (s.iOldestCleanCount + s.iOldestDirtyCount)) * s.iYoungOldRatio
        < s.iYoungCount →
      ∃ link, s.iYoungList.getLast? = some link ∧ link ∈ s.iYoungList ∧ 0 < s.iYoungCount ∧
        s.BalanceAgesYoung = s.ageYoungToOld link ∧
        s.BalanceAgesYoung.iYoungCount + 1 = s.iYoungCount) ∧
    (∀ oldest, oldest < KMaxOldestPages ∧ oldest * s.iOldOldestRatio < s.iOldCount →
      ∃ link, s.iOldList.getLast? = some link ∧ link ∈ s.iOldList ∧ 0 < s.iOldCount ∧
        s.BalanceAgesOld oldest = s.ageOldToOldest link ∧
        (s.BalanceAgesOld oldest).iOldCount + 1 = s.iOldCount) ∧
    (s.iOldestCleanCount + s.iOldestDirtyCount < KMaxOldestPages ∧
        (s.iOldestCleanCount + s.iOldestDirtyCount) * s.BalanceAgesYoung.iOldOldestRatio
          < s.BalanceAgesYoung.iOldCount →
      ∃ link, s.BalanceAgesYoung.iOldList.getLast? = some link ∧
        link ∈ s.BalanceAgesYoung.iOldList ∧ 0 < s.BalanceAgesYoung.iOldCount ∧
        s.BalanceAges = s.BalanceAgesYoung.ageOldToOldest link ∧
        s.BalanceAges.iOldCount + 1 = s.BalanceAgesYoung.iOldCount) ∧
    (((s.iOldCount + (s.iOldestCleanCount + s.iOldestDirtyCount)) * s.iYoungOldRatio)
        % 4294967296 < s.iYoungCount →
      ∃ link, s.iYoungList.getLast? = some link ∧ link ∈ s.iYoungList ∧ 0 < s.iYoungCount ∧
        s.BalanceAgesYoung = s.ageYoungToOld link ∧
        s.BalanceAgesYoung.iYoungCount + 1 = s.iYoungCount) := by
  have key : ∀ l : List Nat, 0 < l.length → ∃ p, l.getLast? = some p ∧ p ∈ l := by
    intro l hl
    rcases hg : l.getLast? with _ | p
    · rw [List.getLast?_eq_none_iff.1 hg] at hl
      exact absurd hl (by simp)
    · exact ⟨p, rfl, List.mem_of_getLast?_eq_some hg⟩
  have second : ∀ t : DPager, 0 < t.iOldList.length → ∀ oldest,
      oldest < KMaxOldestPages ∧ oldest * t.iOldOldestRatio < t.iOldCount →
      ∃ link, t.iOldList.getLast? = some link ∧ link ∈ t.iOldList ∧ 0 < t.iOldCount ∧
        t.BalanceAgesOld oldest = t.ageOldToOldest link ∧
        (t.BalanceAgesOld oldest).iOldCount + 1 = t.iOldCount := by
    intro t hl oldest hc
    have hpos : 0 < t.iOldCount := by omega
    obtain ⟨link, e, hm⟩ := key t.iOldList hl
    have hb : t.BalanceAgesOld oldest = t.ageOldToOldest link := by
      unfold DPager.BalanceAgesOld
      rw [if_pos hc, e]
    refine ⟨link, e, hm, hpos, hb, ?_⟩
    rw [hb]
    unfold DPager.ageOldToOldest
    dsimp only
    split
    · show sub32 t.iOldCount 1 + 1 = t.iOldCount
      rw [DPager.sub32_one hpos]; omega
    · show sub32 t.iOldCount 1 + 1 = t.iOldCount
      rw [DPager.sub32_one hpos]; omega
  have first : ((s.iOldCount + (s.iOldestCleanCount + s.iOldestDirtyCount))
          * s.iYoungOldRatio) % 4294967296 < s.iYoungCount →
      ∃ link, s.iYoungList.getLast? = some link ∧ link ∈ s.iYoungList ∧ 0 < s.iYoungCount ∧
        s.BalanceAgesYoung = s.ageYoungToOld link ∧
        s.BalanceAgesYoung.iYoungCount + 1 = s.iYoungCount := by
    intro hc
    have hpos : 0 < s.iYoungCount := by omega
    obtain ⟨link, e, hm⟩ := key s.iYoungList (by omega)
    have hb : s.BalanceAgesYoung = s.ageYoungToOld link := by
      unfold DPager.BalanceAgesYoung
      dsimp only
      rw [if_pos hc, e]
    refine ⟨link, e, hm, hpos, hb, ?_⟩
    rw [hb]
    show sub32 s.iYoungCount 1 + 1 = s.iYoungCount
    rw [DPager.sub32_one hpos]; omega
  refine ⟨fun hc => first (DPager.wrapped_lt_of_lt hc),
    fun oldest hc => second s (by omega) oldest hc, ?_, first⟩
  intro hc
  have hl : 0 < s.BalanceAgesYoung.iOldList.length := by
    by_cases h1 : ((s.iOldCount + (s.iOldestCleanCount + s.iOldestDirtyCount))
        * s.iYoungOldRatio) % 4294967296 < s.iYoungCount
    · obtain ⟨link, -, -, -, hb, -⟩ := first h1
      rw [hb]
      show 0 < (link :: s.iOldList.erase link).length
      simp
    · rw [DPager.balanceAgesYoung_idle h1] at hc ⊢
      omega
  exact second s.BalanceAgesYoung hl _ hc

/-- C39 at the example state with two young frames, one old frame and ratio 1, where the
counts are the queue lengths and the first condition holds: the young queue has a last frame
for the first step to move. -/
theorem balanceAges_never_dequeues_empty_witness :
    DPager.exampleAging.iYoungCount = DPager.exampleAging.iYoungList.length ∧
    DPager.exampleAging.iOldCount = DPager.exampleAging.iOldList.length ∧
    ∃ link, DPager.exampleAging.iYoungList.getLast? = some link ∧
      link ∈ DPager.exampleAging.iYoungList ∧ 0 < DPager.exampleAging.iYoungCount ∧
      DPager.exampleAging.BalanceAgesYoung = DPager.exampleAging.ageYoungToOld link ∧
      DPager.exampleAging.BalanceAgesYoung.iYoungCount + 1 = DPager.exampleAging.iYoungCount :=
  ⟨rfl, rfl, (balanceAges_never_dequeues_empty DPager.exampleAging rfl rfl).1 (by decide)⟩

/-- C40: the random choice of a request stays in the array and is deterministic. When no
request collides and the free list is empty, `GetRequest` on a group of `iNumRequests > 0`
requests advances the seed to `seed1 = (RandomSeed * 69069 + 1) mod 2^32` and chooses the
request of index `(seed1 * iNumRequests) >> 32`, which is less than `iNumRequests`, whatever
the seed was; the index and the new seed are functions of the old seed and of `iNumRequests`
alone; and the seed of every pool reachable from the constructor is the initial seed 33333
advanced by as many steps as random choices were made. -/
theorem random_slot_in_bounds (p : DPagingRequestPool) (aMemory aIndex aCount : Nat)
    (hn : 0 < p.iNumRequests)
    (hcol : p.FindCollisionContiguous aMemory aIndex aCount = none)
    (hfree : p.iFreeList = []) :
    (∃ index p1, p.GetRequest aMemory aIndex aCount = some (index, p1) ∧
      index = (p.RandomSeed * 69069 + 1) % 4294967296 * p.iNumRequests / 4294967296 ∧
      index < p.iNumRequests ∧
      p1.RandomSeed = (p.RandomSeed * 69069 + 1) % 4294967296 ∧
      p1.RandomSeed < 4294967296) ∧
    (∀ (q : DPagingRequestPool) (m i c : Nat), q.RandomSeed = p.RandomSeed →
      q.iNumRequests = p.iNumRequests → q.FindCollisionContiguous m i c = none →
      q.iFreeList = [] →
      (q.GetRequest m i c).map (fun r => (r.1, r.2.RandomSeed))
        = (p.GetRequest aMemory aIndex aCount).map (fun r => (r.1, r.2.RandomSeed))) ∧
    (∀ (n : Nat) (w : Bool) (q : DPagingRequestPool), DPagingRequestPool.Reachable n w q →
      ∃ k, q.RandomSeed = (fun x => (x * 69069 + 1) % 4294967296)^[k] 33333) := by
  have hg : ∀ (q : DPagingRequestPool) (m i c : Nat), 0 < q.iNumRequests →
      q.FindCollisionContiguous m i c = none → q.iFreeList = [] →
      q.GetRequest m i c
        = some ((q.RandomSeed * 69069 + 1) % 4294967296 * q.iNumRequests / 4294967296,
            DPagingRequestPool.Wait
              { q with RandomSeed := (q.RandomSeed * 69069 + 1) % 4294967296 }
              ((q.RandomSeed * 69069 + 1) % 4294967296 * q.iNumRequests / 4294967296)) := by
    intro q m i c h0 h1 h2
    unfold DPagingRequestPool.GetRequest
    rw [if_neg (by omega), h1, h2]
  refine ⟨⟨_, _, hg p aMemory aIndex aCount hn hcol hfree, rfl,
    DPagingRequestPool.random_index_lt _ _ hn, rfl, Nat.mod_lt _ (by decide)⟩, ?_,
    fun n w q h => DPagingRequestPool.reachable_seed h⟩
  intro q m i c e1 e2 e3 e4
  rw [hg q m i c (by omega) e3 e4, hg p aMemory aIndex aCount hn hcol hfree, e1, e2]
  rfl

/-- C40 at a pool of two busy requests with the initial seed: the next seed is 2302276978
and the index chosen is 1. -/
theorem random_slot_in_bounds_witness :
    0 < DPagingRequestPool.exampleBusy.iNumRequests ∧
    DPagingRequestPool.exampleBusy.FindCollisionContiguous 9 0 1 = none ∧
    DPagingRequestPool.exampleBusy.iFreeList = [] ∧
    ∃ index p1, DPagingRequestPool.exampleBusy.GetRequest 9 0 1 = some (index, p1) ∧
      index = (DPagingRequestPool.exampleBusy.RandomSeed * 69069 + 1) % 4294967296
        * DPagingRequestPool.exampleBusy.iNumRequests / 4294967296 ∧
      index < DPagingRequestPool.exampleBusy.iNumRequests ∧
      p1.RandomSeed = (DPagingRequestPool.exampleBusy.RandomSeed * 69069 + 1) % 4294967296 ∧
      p1.RandomSeed < 4294967296 :=
  ⟨by decide, by decide, rfl,
    (random_slot_in_bounds DPagingRequestPool.exampleBusy 9 0 1 (by decide) (by decide) rfl).1⟩
